import Mathlib

/-!
# dwm-nkb: the client registry, the layout engine and the geometry negotiator

A shallow embedding of `src/dwm.c` (with `src/config.h`).

* A `Client *` is an `Option Nat`: `none` is `NULL`, `some a` is the record
  stored at address `a`.  The memory holding the `Client` records is the
  total map `State.mem`; a record that was never written is the all-zero
  record `emallocz` returns.  Address `rootClient` holds the sentinel
  `workspaces.w_client`.
* `int` values are mathematical integers (signed overflow is undefined in C);
  `unsigned int` values are integers in `[0, 2^32)`, every unsigned operation
  being reduced with `u32`, and `i32` is the conversion back to `int`.
* A function that can dereference `NULL`, index an array out of bounds or
  loop forever returns an `Option`; loops over a ring take a `fuel` bound.
* Requests sent to the X server are appended to `State.xlog`.
-/

namespace Dwm

/-! ## Data model -/

/-- The record `struct Client` (the title string `c_name` is left out). -/
@[ext]
structure Client where
  c_next : Nat → Option Nat := fun _ => none
  c_prev : Nat → Option Nat := fun _ => none
  c_win : Nat := 0
  x : Int := 0
  y : Int := 0
  w : Int := 0
  h : Int := 0
  c_xunits : Int := 0
  c_yunits : Int := 0
  c_basew : Int := 0
  c_baseh : Int := 0
  c_incw : Int := 0
  c_inch : Int := 0
  c_minw : Int := 0
  c_minh : Int := 0
  c_maxw : Int := 0
  c_maxh : Int := 0
  c_minax : Int := 0
  c_minay : Int := 0
  c_maxax : Int := 0
  c_maxay : Int := 0
  c_border : Int := 0
  c_isbanned : Bool := false
  c_isfixed : Bool := false
  c_isfloating : Bool := false
  c_isurgent : Bool := false
  snext : Option Nat := none
  c_monitor : Nat := 0

/-- The record `struct Monitor` (the draw context `dc` is left out). -/
structure Monitor where
  m_screen : Nat := 0
  m_root : Nat := 0
  m_barwin : Nat := 0
  m_realXOrig : Int := 0
  m_realYOrig : Int := 0
  m_realWidth : Int := 0
  m_realHeight : Int := 0
  m_xorig : Int := 0
  m_yorig : Int := 0
  m_width : Int := 0
  m_height : Int := 0
  wax : Int := 0
  way : Int := 0
  wah : Int := 0
  waw : Int := 0
  m_workspace : Nat := 0
  m_layout : Nat := 0
deriving DecidableEq

/-- The requests to the X server the embedded functions issue. -/
inductive XReq where
  | configureWindow (win : Nat) (x y w h border : Int)
  | sendConfigureNotify (win : Nat) (x y w h border : Int)
  | sync
  | moveWindow (win : Nat) (x y : Int)
  | moveResizeWindow (win : Nat) (x y w h : Int)
  | mapWindow (win : Nat)
  | setBorderWidth (win : Nat) (border : Int)
  | setWindowBorder (win : Nat) (selected : Bool)
  | selectInput (win : Nat)
  | grabButtons (win : Nat) (focused : Bool)
  | ungrabButton (win : Nat)
  | setClientState (win : Nat) (state : Nat)
  | setInputFocus (win : Nat)
  | raiseWindow (win : Nat)
  | stackBelow (win sibling : Nat)
  | drawbar
  | grabServer
  | ungrabServer
  | setErrorHandler (dummy : Bool)
  | drainEnterEvents
  | ungrabKey (keycode modifiers root : Nat)
  | grabKey (keycode modifiers root : Nat)
  | killClient (win : Nat) (polite : Bool)
  | configureRaw (win : Nat)
  | resizeBar (win : Nat) (w h : Int)
  | createBar (win : Nat) (x y w h : Int)
  | selectRootInput (root : Nat)
  | grabPointer (root : Nat)
  | ungrabPointer
  | warpPointer (win : Nat) (x y : Int)
  | releaseMonitor (root barwin : Nat)
deriving DecidableEq

/-- Address of the sentinel `workspaces.w_client`, the value of `rootClient`. -/
def rootClient : Nat := 0

/-- The global variables of `dwm.c`: the client records, `workspaces`,
`monitors` (with `mcount` its length), `sel`, `stack`, `selmonitor`, `bh`,
`bpos`, `KeysMode`, the log of the requests sent to the X server, and
`numlockmask` and `running`. -/
@[ext]
structure State where
  mem : Nat → Client := fun _ => {}
  w_numClients : Nat → Int := fun _ => 0
  w_vSplit : Nat → Int := fun _ => 0
  monitors : List Monitor := []
  sel : Option Nat := none
  stack : Option Nat := none
  selmonitor : Nat := 0
  bh : Int := 0
  bpos : Nat := 0
  KeysMode : Nat := 1
  xlog : List XReq := []
  numlockmask : Nat := 0
  running : Bool := true

/-- The value of `mcount`: the number of entries of `monitors`. -/
def State.mcount (s : State) : Nat := s.monitors.length

/-- Store `p` into `a->c_next[w]`. -/
def State.setNext (s : State) (a w : Nat) (p : Option Nat) : State :=
  let cl := s.mem a
  { s with mem := Function.update s.mem a { cl with c_next := Function.update cl.c_next w p } }

/-- Store `p` into `a->c_prev[w]`. -/
def State.setPrev (s : State) (a w : Nat) (p : Option Nat) : State :=
  let cl := s.mem a
  { s with mem := Function.update s.mem a { cl with c_prev := Function.update cl.c_prev w p } }

/-! ## Workspace membership -/

/-- The function `ws_attach(c, workspace)`: `none` when `workspace` is not an
index of the ten-element link arrays or when `rootClient->c_prev[workspace]`
is `NULL` and gets dereferenced. -/
def ws_attach (c workspace : Nat) (s : State) : Option State :=
  if 10 ≤ workspace then none
  else if (s.mem c).c_next workspace ≠ none then some s
  else
    let s1 := s.setNext c workspace (some rootClient)
    let s2 := s1.setPrev c workspace ((s1.mem rootClient).c_prev workspace)
    match (s2.mem rootClient).c_prev workspace with
    | none => none
    | some p =>
      let s3 := s2.setNext p workspace (some c)
      let s4 := s3.setPrev rootClient workspace (some c)
      some { s4 with w_numClients :=
        Function.update s4.w_numClients workspace (s4.w_numClients workspace + 1) }

/-- The function `ws_detach(c, workspace)`: `none` when `workspace` is out of
bounds or when a `NULL` `c->c_prev[workspace]` gets dereferenced. -/
def ws_detach (c workspace : Nat) (s : State) : Option State :=
  if 10 ≤ workspace then none
  else
    match (s.mem c).c_next workspace with
    | none => some s
    | some n =>
      let s1 := s.setPrev n workspace ((s.mem c).c_prev workspace)
      match (s1.mem c).c_prev workspace with
      | none => none
      | some p =>
        let s2 := s1.setNext p workspace ((s1.mem c).c_next workspace)
        let s3 := (s2.setPrev c workspace none).setNext c workspace none
        some { s3 with w_numClients :=
          Function.update s3.w_numClients workspace (s3.w_numClients workspace - 1) }

/-- The loop `for (w = ...; w < 10; w++) ws_detach(c, w)`, started at
`10 - k`. -/
def detachFrom (c : Nat) : Nat → State → Option State
  | 0, s => some s
  | k + 1, s => (ws_detach c (10 - (k + 1)) s).bind (detachFrom c k)

/-- The function `ws_detachAll(c)`. -/
def ws_detachAll (c : Nat) (s : State) : Option State :=
  detachFrom c 10 s

/-- The membership test of `isvisible`: `c->c_next[w] != NULL`. -/
def isMember (s : State) (c w : Nat) : Bool :=
  ((s.mem c).c_next w).isSome

/-- The enumeration idiom of `dwm.c`,
`for (c = start; c != rootClient; c = c->c_next[w])`, collecting the clients
visited; `none` when `NULL` is dereferenced or the fuel runs out. -/
def ringFrom (s : State) (w : Nat) : Nat → Option Nat → Option (List Nat)
  | 0, _ => none
  | _ + 1, none => none
  | fuel + 1, some a =>
    if a = rootClient then some []
    else (ringFrom s w fuel ((s.mem a).c_next w)).map (fun l => a :: l)

/-- Enumeration of ring `w`, started at `rootClient->c_next[w]`. -/
def ring (fuel : Nat) (s : State) (w : Nat) : Option (List Nat) :=
  ringFrom s w fuel ((s.mem rootClient).c_next w)

/-- The part of `setup` that initialises `workspaces` (the loop over
`i < 10`): every count is 0, the sentinel is linked to itself in every ring and
every split is `VSPLIT`; applied to the zero-initialised globals. -/
def setupWorkspaces (VSPLIT : Int) : State :=
  { mem := fun a =>
      if a = rootClient then
        { c_next := fun i => if i < 10 then some rootClient else none,
          c_prev := fun i => if i < 10 then some rootClient else none }
      else {},
    w_numClients := fun _ => 0,
    w_vSplit := fun i => if i < 10 then VSPLIT else 0 }

/-- Client `a` points to `b` and `b` back to `a` in ring `w`. -/
def linked (s : State) (w a b : Nat) : Prop :=
  (s.mem a).c_next w = some b ∧ (s.mem b).c_prev w = some a

instance (s : State) (w a b : Nat) : Decidable (linked s w a b) := by
  unfold linked; exact inferInstance

/-- Ring `w` is well formed with members `l` (in order): following `c_next[w]`
from the sentinel visits `l` and comes back to the sentinel, `c_prev[w]` is
the reverse walk, no client occurs twice, and every client outside `l` has both
links `NULL`. -/
def IsRing (s : State) (w : Nat) (l : List Nat) : Prop :=
  l.Nodup ∧ rootClient ∉ l ∧
  List.Chain' (linked s w) (rootClient :: l ++ [rootClient]) ∧
  ∀ a, a ≠ rootClient → a ∉ l →
    (s.mem a).c_next w = none ∧ (s.mem a).c_prev w = none

/-- The state `s` with ring `w` relinked: `a->c_next[w]` becomes `nx a`,
`a->c_prev[w]` becomes `pv a` and `w_numClients[w]` becomes `cnt`. -/
def State.relink (s : State) (w : Nat) (nx pv : Nat → Option Nat) (cnt : Int) : State :=
  { s with
    mem := fun a =>
      let cl := s.mem a
      { cl with c_next := Function.update cl.c_next w (nx a), c_prev := Function.update cl.c_prev w (pv a) }
    w_numClients := Function.update s.w_numClients w cnt }

/-- The state after `c` was linked in at the tail of ring `w`, behind `p`. -/
def State.attached (s : State) (c w p : Nat) : State :=
  s.relink w
    (fun a => if a = p then some c else if a = c then some rootClient else (s.mem a).c_next w)
    (fun a => if a = rootClient then some c else if a = c then some p else (s.mem a).c_prev w)
    (s.w_numClients w + 1)

/-- The state after `c` was unlinked from between `p` and `n` in ring `w`. -/
def State.detached (s : State) (c w n p : Nat) : State :=
  s.relink w
    (fun a => if a = c then none else if a = p then some n else (s.mem a).c_next w)
    (fun a => if a = c then none else if a = n then some p else (s.mem a).c_prev w)
    (s.w_numClients w - 1)

/-- The registry invariant: every ring `0..9` is well formed and its count is
the number of its members. -/
def RegInv (s : State) : Prop :=
  ∀ w, w < 10 → ∃ l, IsRing s w l ∧ s.w_numClients w = (l.length : Int)

/-- Calling `ws_attach(c, w)` for the clients of `cs`, one after another. -/
def attachAll (cs : List Nat) (w : Nat) (s : State) : Option State :=
  cs.foldlM (fun st c => ws_attach c w st) s

/-- A call of one of the three registry operations. -/
inductive RegOp where
  | attach (c w : Nat)
  | detach (c w : Nat)
  | detachAll (c : Nat)
deriving DecidableEq

/-- The call passes a client (not the sentinel) and a workspace in `0..9`. -/
def RegOp.valid : RegOp → Bool
  | .attach c w => decide (c ≠ rootClient) && decide (w < 10)
  | .detach c w => decide (c ≠ rootClient) && decide (w < 10)
  | .detachAll c => decide (c ≠ rootClient)

/-- Running one registry call. -/
def RegOp.run : RegOp → State → Option State
  | .attach c w, s => ws_attach c w s
  | .detach c w, s => ws_detach c w s
  | .detachAll c, s => ws_detachAll c s

/-- Running a sequence of registry calls. -/
def runOps (ops : List RegOp) (s : State) : Option State :=
  ops.foldlM (fun st op => op.run st) s

/-! ## Machine integers and configuration -/

/-- Conversion to `unsigned int`: reduction modulo `2^32`. -/
def u32 (v : Int) : Int := v % 4294967296

/-- Conversion of an `unsigned int` value to `int` (two's complement). -/
def i32 (u : Int) : Int := if u < 2147483648 then u else u - 4294967296

/-- The value of `RESIZEHINTS` in `config.h`. -/
def RESIZEHINTS : Bool := true

/-- The value of `BORDERPX` in `config.h`. -/
def BORDERPX : Int := 1

/-- Append requests to the log of the X connection. -/
def State.log (s : State) (r : List XReq) : State :=
  { s with xlog := s.xlog ++ r }

/-- Overwrite the record at address `a`. -/
def State.setClient (s : State) (a : Nat) (cl : Client) : State :=
  { s with mem := Function.update s.mem a cl }

/-- The loop `for (c = start; c != rootClient; c = c->c_next[w]) body`, the
loop variables other than `c` being `acc` (a `continue` is a `body` that
returns early).  `none` when `c` is `NULL`, when `body` fails or when the
fuel runs out. -/
def ringFor {α : Type} (w : Nat) (body : Nat → α → State → Option (α × State)) :
    Nat → Option Nat → α → State → Option (α × State)
  | 0, _, _, _ => none
  | _ + 1, none, _, _ => none
  | fuel + 1, some a, acc, s =>
    if a = rootClient then some (acc, s)
    else (body a acc s).bind fun r => ringFor w body fuel ((r.2.mem a).c_next w) r.1 r.2

/-! ## Geometry negotiation -/

/-- The function `configure(c)`: a synthetic ConfigureNotify with the stored
geometry. -/
def configure (c : Nat) (s : State) : State :=
  let cl := s.mem c
  s.log [XReq.sendConfigureNotify cl.c_win cl.x cl.y cl.w cl.h (i32 cl.c_border)]

/-- The block `if (sizehints) { ... }` of `resize`, from the requested `w`
and `h` to `(c_xunits, c_yunits, w, h)`; `none` on a division by a zero
increment (the aspect divisors are tested positive). -/
def applyHints (cl : Client) (w h : Int) : Option (Int × Int × Int × Int) :=
  let w := if w < 1 then 1 else w
  let h := if h < 1 then 1 else h
  let w := w - cl.c_basew
  let h := h - cl.c_baseh
  let aspect : Prop := cl.c_minay > 0 ∧ cl.c_maxay > 0 ∧ cl.c_minax > 0 ∧ cl.c_maxax > 0
  let wide : Prop := w * cl.c_maxay > h * cl.c_maxax
  let tall : Prop := w * cl.c_minay < h * cl.c_minax
  let w1 := if aspect ∧ wide then Int.tdiv (h * cl.c_maxax) cl.c_maxay else w
  let h1 := if aspect ∧ ¬ wide ∧ tall then Int.tdiv (w * cl.c_minay) cl.c_minax else h
  if cl.c_incw = 0 ∨ cl.c_inch = 0 then none
  else
    let xunits := Int.tdiv w1 cl.c_incw
    let yunits := Int.tdiv h1 cl.c_inch
    let w2 := xunits * cl.c_incw + cl.c_basew
    let h2 := yunits * cl.c_inch + cl.c_baseh
    let w3 := if cl.c_minw > 0 ∧ w2 < cl.c_minw then cl.c_minw else w2
    let h3 := if cl.c_minh > 0 ∧ h2 < cl.c_minh then cl.c_minh else h2
    let w4 := if cl.c_maxw > 0 ∧ w3 > cl.c_maxw then cl.c_maxw else w3
    let h4 := if cl.c_maxh > 0 ∧ h3 > cl.c_maxh then cl.c_maxh else h3
    some (xunits, yunits, w4, h4)

/-- The tail of `resize`, from `if (w <= 0 || h <= 0) return;` on. -/
def resizeApply (c : Nat) (x y w h : Int) (s : State) : State :=
  if w ≤ 0 ∨ h ≤ 0 then s
  else
    let cl := s.mem c
    if cl.x ≠ x ∨ cl.y ≠ y ∨ cl.w ≠ w ∨ cl.h ≠ h then
      let s1 := s.setClient c { cl with x := x, y := y, w := w, h := h }
      let s2 := s1.log [XReq.configureWindow cl.c_win x y w h (i32 cl.c_border)]
      (configure c s2).log [XReq.sync]
    else s

/-- The function `resize(c, x, y, w, h, sizehints)`. -/
def resize (c : Nat) (x y w h : Int) (sizehints : Bool) (s : State) : Option State :=
  if sizehints then
    match applyHints (s.mem c) w h with
    | none => none
    | some (xunits, yunits, w', h') =>
      let cl := s.mem c
      some (resizeApply c x y w' h'
        (s.setClient c { cl with c_xunits := xunits, c_yunits := yunits }))
  else some (resizeApply c x y w h s)

/-! ## Arrangement -/

/-- The function `isvisible(c, monitor)`. -/
def isvisible (c monitor : Nat) (s : State) : Option Bool :=
  match s.monitors[monitor]? with
  | none => none
  | some m => if 10 ≤ m.m_workspace then none else some (isMember s c m.m_workspace)

/-- The function `ban(c)`. -/
def ban (c : Nat) (s : State) : Option State :=
  let cl := s.mem c
  if cl.c_isbanned then some s
  else
    match s.monitors[cl.c_monitor]? with
    | none => none
    | some m =>
      some ((s.log [XReq.moveWindow cl.c_win (cl.x + 3 * m.m_width) cl.y]).setClient c
        { cl with c_isbanned := true })

/-- The function `unban(c)`. -/
def unban (c : Nat) (s : State) : State :=
  let cl := s.mem c
  if !cl.c_isbanned then s
  else (s.log [XReq.moveWindow cl.c_win cl.x cl.y]).setClient c { cl with c_isbanned := false }

/-- The test `(c->h < bh) || (c->h > nh) || (c->w < bh) || (c->w > nw)` of the
layouts, the `int` fields converted to `unsigned int`. -/
def rejectsSize (cl : Client) (bh nw nh : Int) : Bool :=
  decide (u32 cl.h < bh) || decide (u32 cl.h > nh) || decide (u32 cl.w < bh)
    || decide (u32 cl.w > nw)

/-- The two `resize` calls at the end of a layout's loop body. -/
def layoutResize (c : Nat) (nx ny nw nh : Int) (s : State) : Option State :=
  (resize c (i32 nx) (i32 ny) (i32 nw) (i32 nh) RESIZEHINTS s).bind fun s1 =>
    if RESIZEHINTS && rejectsSize (s1.mem c) s1.bh nw nh then
      resize c (i32 nx) (i32 ny) (i32 nw) (i32 nh) false s1
    else some s1

/-- The body of the client loop of `layoutFullscreen`. -/
def fullscreenBody (m : Monitor) (c : Nat) (_ : Unit) (s : State) : Option (Unit × State) :=
  let cl := s.mem c
  if cl.c_isfloating then some ((), s)
  else
    (layoutResize c (u32 m.wax) (u32 m.way) (u32 (m.waw - 2 * cl.c_border))
      (u32 (m.wah - 2 * cl.c_border)) s).map fun s1 => ((), s1)

/-- The function `layoutFullscreen`, one monitor after the other. -/
def layoutFullscreen (fuel : Nat) (s : State) : Option State :=
  s.monitors.foldlM (fun st m =>
    if 10 ≤ m.m_workspace then none
    else (ringFor m.m_workspace (fullscreenBody m) fuel
      ((st.mem rootClient).c_next m.m_workspace) () st).map fun r => r.2) s

/-- The local variables `j`, `nx`, `ny`, `nw`, `nh` of `layoutTile`. -/
structure TileVars where
  j : Int := 0
  nx : Int := 0
  ny : Int := 0
  nw : Int := 0
  nh : Int := 0
deriving DecidableEq

/-- The body of the counting loop of `layoutTile`. -/
def tileCountBody (c : Nat) (n : Int) (s : State) : Option (Int × State) :=
  if (s.mem c).c_isfloating then some (n, s) else some (u32 (n + 1), s)

/-- The geometry part of the placing loop body of `layoutTile`: the values of
`nx`, `ny`, `nw`, `nh` for the client with record `cl`, from `j == 0` on up
to the `fprintf`; `none` when `mc` is `NULL` and gets dereferenced. -/
def tileGeom (m : Monitor) (n mw th : Int) (mc : Option Nat) (cl : Client) (v : TileVars)
    (s : State) : Option TileVars :=
  if v.j = 0 then
    some { v with nx := u32 m.wax, ny := u32 m.way, nw := u32 (mw - 2 * cl.c_border),
                  nh := u32 (m.wah - 2 * cl.c_border) }
  else
    let v0 : Option TileVars :=
      if v.j = 1 then
        mc.map fun a =>
          { v with ny := u32 m.way,
                   nx := u32 (v.nx + (s.mem a).w + 2 * (s.mem a).c_border),
                   nw := u32 (m.waw - mw - 2 * cl.c_border) }
      else some v
    v0.map fun v0 =>
      if u32 (v0.j + 1) = n then
        { v0 with nh := u32 ((m.way + m.wah) - v0.ny - 2 * cl.c_border) }
      else { v0 with nh := u32 (th - 2 * cl.c_border) }

/-- The end of the placing loop body of `layoutTile`, after the `resize`
calls: `ny` moves below the client with record `cl` unless the tiles overlap,
and `j` is incremented. -/
def tileAdvance (m : Monitor) (n th : Int) (cl : Client) (v : TileVars) : TileVars :=
  let v2 : TileVars :=
    if n > 1 ∧ th ≠ u32 m.wah then { v with ny := u32 (cl.y + cl.h + 2 * cl.c_border) }
    else v
  { v2 with j := u32 (v2.j + 1) }

/-- The body of the placing loop of `layoutTile`, for a monitor `m`, the count
`n`, the master width `mw`, the tile height `th` and `mc`. -/
def tileBody (m : Monitor) (n mw th : Int) (mc : Option Nat) (c : Nat) (v : TileVars)
    (s : State) : Option (TileVars × State) :=
  if (s.mem c).c_isfloating then some (v, s)
  else
    (tileGeom m n mw th mc (s.mem c) v s).bind fun v1 =>
      (layoutResize c v1.nx v1.ny v1.nw v1.nh s).map fun s1 =>
        (tileAdvance m n th (s1.mem c) v1, s1)

/-- The body of the monitor loop of `layoutTile`. -/
def tileMonitor (fuel : Nat) (m : Monitor) (v : TileVars) (s : State) :
    Option (TileVars × State) :=
  let workspace := m.m_workspace
  if 10 ≤ workspace then none
  else
    let start := (s.mem rootClient).c_next workspace
    (ringFor workspace tileCountBody fuel start 0 s).bind fun r =>
      let n := r.1
      let mw := if n = 1 then u32 m.waw else u32 (s.w_vSplit workspace)
      let th0 := if n > 1 then u32 m.wah / (n - 1) else 0
      let th := if n > 1 ∧ th0 < s.bh then u32 m.wah else th0
      ringFor workspace (tileBody m n mw th start) fuel start { v with j := 0 } s

/-- The function `layoutTile`, one monitor after the other. -/
def layoutTile (fuel : Nat) (s : State) : Option State :=
  (s.monitors.foldlM (fun r m => tileMonitor fuel m r.1 r.2) (({} : TileVars), s)).map
    fun r => r.2

/-! ## Focus and stacking -/

/-- The function `drawbar`: rendering is outside the model, the call is logged. -/
def drawbar (s : State) : State := s.log [XReq.drawbar]

/-- The function `grabbuttons(c, focused)`. -/
def grabbuttons (c : Nat) (focused : Bool) (s : State) : State :=
  s.log [XReq.ungrabButton (s.mem c).c_win, XReq.grabButtons (s.mem c).c_win focused]

/-- The loop `for (c = stack; c && !isvisible(c, c->c_monitor); c = c->snext)`
of `focus`. -/
def stackScan (s : State) : Nat → Option Nat → Option (Option Nat)
  | 0, _ => none
  | _ + 1, none => some none
  | fuel + 1, some a =>
    (isvisible a (s.mem a).c_monitor s).bind fun v =>
      if v then some (some a) else stackScan s fuel (s.mem a).snext

/-- The client `focus(c)` selects: `c` itself when it is visible on
`selmonitor`, else the first visible client of the focus stack. -/
def focusPick (fuel : Nat) (c : Option Nat) (s : State) : Option (Option Nat) :=
  match c with
  | none => stackScan s fuel s.stack
  | some a =>
    (isvisible a s.selmonitor s).bind fun v =>
      if v then some (some a) else stackScan s fuel s.stack

/-- The block `if (sel && sel != c) { ... }` of `focus`. -/
def focusUnselect (c : Option Nat) (s : State) : Option State :=
  match s.sel with
  | none => some s
  | some o =>
    if s.sel ≠ c then
      (s.monitors[(s.mem o).c_monitor]?).map fun _ =>
        (grabbuttons o false s).log [XReq.setWindowBorder (s.mem o).c_win false]
    else some s

/-- The end of `focus`, from `if (c) { grabbuttons(c, True); }` on; `m` is
`monitors[selmonitor]` as read at the start. -/
def focusSelect (m : Monitor) (c : Option Nat) (s : State) : State :=
  match c with
  | some a =>
    let s3 := drawbar { grabbuttons a true s with sel := some a }
    { (s3.log [XReq.setWindowBorder (s3.mem a).c_win true,
               XReq.setInputFocus (s3.mem a).c_win]) with selmonitor := (s3.mem a).c_monitor }
  | none =>
    let s3 := drawbar { s with sel := none }
    drawbar (s3.log [XReq.setInputFocus m.m_root])

/-- The assignment `if (c) selmonitor = c->c_monitor;` at the start of
`focus`. -/
def focusMonitor (c : Option Nat) (s : State) : State :=
  match c with
  | some a => { s with selmonitor := (s.mem a).c_monitor }
  | none => s

/-- The function `focus(c)`. -/
def focus (fuel : Nat) (c : Option Nat) (s : State) : Option State :=
  let s0 := focusMonitor c s
  match s0.monitors[s0.selmonitor]? with
  | none => none
  | some m =>
    (focusPick fuel c s0).bind fun c1 =>
      (focusUnselect c1 s0).map fun s1 => focusSelect m c1 s1

/-- The body of the client loop of `restack`; the loop variable is
`wc.sibling`. -/
def restackBody (c : Nat) (sibling : Nat) (s : State) : Option (Nat × State) :=
  let cl := s.mem c
  if cl.c_isfloating then some (sibling, s)
  else if s.sel = some c then some (sibling, s)
  else some (cl.c_win, s.log [XReq.stackBelow cl.c_win sibling])

/-- The function `restack`. -/
def restack (fuel : Nat) (s : State) : Option State :=
  let s0 := drawbar s
  match s0.sel with
  | none => some s0
  | some a =>
    let cl := s0.mem a
    let s1 := if cl.c_isfloating then s0.log [XReq.raiseWindow cl.c_win] else s0
    match s1.monitors[s1.selmonitor]? with
    | none => none
    | some m =>
      let r0 : Nat × State :=
        if !cl.c_isfloating then (cl.c_win, s1.log [XReq.stackBelow cl.c_win m.m_barwin])
        else (m.m_barwin, s1)
      (s1.monitors.foldlM (fun r mi =>
        if 10 ≤ mi.m_workspace then none
        else ringFor mi.m_workspace restackBody fuel
          ((r.2.mem rootClient).c_next mi.m_workspace) r.1 r.2) r0).map fun r =>
        r.2.log [XReq.sync, XReq.drainEnterEvents]

/-- The body of the client loop of `arrange`. -/
def arrangeBody (c : Nat) (_ : Unit) (s : State) : Option (Unit × State) :=
  (isvisible c s.selmonitor s).bind fun v =>
    (if v then some (unban c s) else ban c s).map fun s1 => ((), s1)

/-- The function `arrange`; `m_layout` is the index into `layouts` (0 is
`layoutTile`, 1 is `layoutFullscreen`). -/
def arrange (fuel : Nat) (s : State) : Option State :=
  (ringFor 0 arrangeBody fuel ((s.mem rootClient).c_next 0) () s).bind fun r =>
    let s1 := r.2
    match s1.monitors[s1.selmonitor]? with
    | none => none
    | some m =>
      (match m.m_layout with
        | 0 => layoutTile fuel s1
        | 1 => layoutFullscreen fuel s1
        | _ => none).bind fun s2 =>
        (focus fuel none s2).bind (restack fuel)

/-! ## Managing windows and user commands -/

/-- The fields of `XWindowAttributes` that `manage` reads. -/
structure XWindowAttributes where
  x : Int := 0
  y : Int := 0
  width : Int := 0
  height : Int := 0
  border_width : Int := 0

/-- The fields of `XSizeHints` that `updatesizehints` reads. -/
structure XSizeHints where
  flags : Nat := 0
  min_width : Int := 0
  min_height : Int := 0
  max_width : Int := 0
  max_height : Int := 0
  width_inc : Int := 0
  height_inc : Int := 0
  min_aspect_x : Int := 0
  min_aspect_y : Int := 0
  max_aspect_x : Int := 0
  max_aspect_y : Int := 0
  base_width : Int := 0
  base_height : Int := 0

/-- The Xlib flag `PSize` (`1 << 3`). -/
def PSize : Nat := 8
/-- The Xlib flag `PMinSize` (`1 << 4`). -/
def PMinSize : Nat := 16
/-- The Xlib flag `PMaxSize` (`1 << 5`). -/
def PMaxSize : Nat := 32
/-- The Xlib flag `PResizeInc` (`1 << 6`). -/
def PResizeInc : Nat := 64
/-- The Xlib flag `PAspect` (`1 << 7`). -/
def PAspect : Nat := 128
/-- The Xlib flag `PBaseSize` (`1 << 8`). -/
def PBaseSize : Nat := 256

/-- The function `updatesizehints(c)`; `reply` is what `XGetWMNormalHints`
stored, `none` when it returned 0. -/
def updatesizehints (c : Nat) (reply : Option XSizeHints) (s : State) : State :=
  let size : XSizeHints :=
    match reply with
    | none => { flags := PSize }
    | some r => if r.flags = 0 then { r with flags := PSize } else r
  let has (f : Nat) : Bool := size.flags &&& f != 0
  let cl := s.mem c
  let basew := if has PBaseSize then size.base_width
    else if has PMinSize then size.min_width else 0
  let baseh := if has PBaseSize then size.base_height
    else if has PMinSize then size.min_height else 0
  let incw0 := if has PResizeInc then size.width_inc else cl.c_incw
  let inch0 := if has PResizeInc then size.height_inc else cl.c_inch
  let inch := if inch0 > 1 then inch0 else 1
  let incw := if incw0 > 1 then incw0 else 1
  let maxw := if has PMaxSize then size.max_width else 0
  let maxh := if has PMaxSize then size.max_height else 0
  let minw := if has PMinSize then size.min_width
    else if has PBaseSize then size.base_width else 0
  let minh := if has PMinSize then size.min_height
    else if has PBaseSize then size.base_height else 0
  let minax := if has PAspect then size.min_aspect_x else 0
  let maxax := if has PAspect then size.max_aspect_x else 0
  let minay := if has PAspect then size.min_aspect_y else 0
  let maxay := if has PAspect then size.max_aspect_y else 0
  let isfixed : Bool := decide (maxw ≠ 0 ∧ minw ≠ 0 ∧ maxh ≠ 0 ∧ minh ≠ 0
      ∧ maxw = minw ∧ maxh = minh)
  s.setClient c { cl with c_basew := basew, c_baseh := baseh, c_incw := incw, c_inch := inch,
                          c_maxw := maxw, c_maxh := maxh, c_minw := minw, c_minh := minh,
                          c_minax := minax, c_maxax := maxax, c_minay := minay,
                          c_maxay := maxay, c_isfixed := isfixed }

/-- The geometry block of `manage`: the position, size and border stored in
the new record `cl` from the window attributes `wa` and the monitor `m`. -/
def manageGeom (m : Monitor) (wa : XWindowAttributes) (cl : Client) : Client :=
  let x0 := wa.x + m.m_xorig
  let y0 := wa.y + m.m_yorig
  let w0 := wa.width
  let h0 := wa.height
  let full : Prop := w0 = m.m_width ∧ h0 = m.m_height
  let x1 := if u32 (x0 + w0 + 2 * cl.c_border) > u32 (m.wax + m.waw) then
      i32 (u32 (m.wax + m.waw - w0 - 2 * cl.c_border)) else x0
  let y1 := if u32 (y0 + h0 + 2 * cl.c_border) > u32 (m.way + m.wah) then
      i32 (u32 (m.way + m.wah - h0 - 2 * cl.c_border)) else y0
  let x2 := if x1 < m.wax then m.wax else x1
  let y2 := if y1 < m.way then m.way else y1
  { cl with x := if full then m.m_xorig else x2, y := if full then m.m_yorig else y2,
            w := w0, h := h0,
            c_border := if full then u32 wa.border_width else u32 BORDERPX }

/-- The assignment of `c->c_isfloating` in `manage`; `transRet` is the value
`XGetTransientForHint` returned, compared with `Success` into `rettrans`. -/
def manageFloating (transRet : Int) (cl : Client) : Client :=
  let rettrans : Int := if transRet = 0 then 1 else 0
  if !cl.c_isfloating then
    { cl with c_isfloating := decide (rettrans = 0) || cl.c_isfixed }
  else cl

/-- The first part of `manage(w, wa)`, up to the assignment of
`c->c_isfloating`: the new record at `c` is filled in.  `none` when
`monitors[c->c_monitor]` does not exist. -/
def manageInit (c : Nat) (w : Nat) (wa : XWindowAttributes) (hints : Option XSizeHints)
    (transRet : Int) (s : State) : Option State :=
  let s := s.setClient c { c_win := w }
  match s.monitors[(s.mem c).c_monitor]? with
  | none => none
  | some m =>
    let s := s.setClient c (manageGeom m wa (s.mem c))
    let s := s.log [XReq.setBorderWidth w (i32 (s.mem c).c_border),
                    XReq.setWindowBorder w false]
    let s := configure c s
    let s := updatesizehints c hints s
    let s := s.log [XReq.selectInput w]
    let s := grabbuttons c false s
    some (s.setClient c (manageFloating transRet (s.mem c)))

/-- The function `manage(w, wa)`.  `c` is the address `emallocz` returns (the
record there is zeroed), `hints` the reply to `XGetWMNormalHints` and
`transRet` the value `XGetTransientForHint` returns. -/
def manage (fuel : Nat) (c : Nat) (w : Nat) (wa : XWindowAttributes)
    (hints : Option XSizeHints) (transRet : Int) (s : State) : Option State :=
  (manageInit c w wa hints transRet s).bind fun s =>
    (ws_attach c 0 s).bind fun s =>
      match s.monitors[s.selmonitor]? with
      | none => none
      | some ms =>
        (ws_attach c ms.m_workspace s).bind fun s =>
          let cl := s.mem c
          let s := s.log [XReq.moveResizeWindow cl.c_win cl.x cl.y cl.w cl.h]
          (ban c s).bind fun s =>
            let s := s.log [XReq.mapWindow (s.mem c).c_win,
                            XReq.setClientState (s.mem c).c_win 1]
            arrange fuel s

/-- The function `fn_addToWorkspace(arg)`; `arg` is the pointer value cast
to `int`. -/
def fn_addToWorkspace (arg : Int) (s : State) : Option State :=
  if arg < 1 ∨ arg > 9 then some s
  else
    match s.sel with
    | none => some s
    | some c => ws_attach c arg.toNat s

/-- The function `fn_removeFromWorkspace(arg)`. -/
def fn_removeFromWorkspace (arg : Int) (s : State) : Option State :=
  if arg < 1 ∨ arg > 9 then some s
  else
    match s.sel with
    | none => some s
    | some c => ws_detach c arg.toNat s

/-- The loop `for (w = ...; w < 10; w++) ws_attach(sel, w)`, started at
`10 - k`. -/
def attachFrom (c : Nat) : Nat → State → Option State
  | 0, s => some s
  | k + 1, s => (ws_attach c (10 - (k + 1)) s).bind (attachFrom c k)

/-- The function `fn_addToAllWorkspaces(arg)`: the loop starts at `w = 1`. -/
def fn_addToAllWorkspaces (_ : Int) (s : State) : Option State :=
  match s.sel with
  | none => some s
  | some c => attachFrom c 9 s

/-- The function `fn_removeFromAllWorkspaces(arg)`: the loop starts at
`w = 1`. -/
def fn_removeFromAllWorkspaces (_ : Int) (s : State) : Option State :=
  match s.sel with
  | none => some s
  | some c => detachFrom c 9 s

/-- The function `monitorat()`; `(x, y)` is the pointer position
`XQueryPointer` reports. -/
def monitorat (x y : Int) (s : State) : Option Nat :=
  match s.monitors[s.selmonitor]? with
  | none => none
  | some _ =>
    some ((s.monitors.findIdx? fun m =>
      decide (x ≥ m.m_xorig ∧ x < m.m_xorig + m.m_width) &&
        decide (y ≥ m.m_yorig ∧ y < m.m_yorig + m.m_height)).getD 0)

/-- The C library predicate `isspace` in the "C" locale. -/
def isspace (ch : Char) : Bool :=
  ch = ' ' || ch = '\t' || ch = '\n' || ch = '\x0b' || ch = '\x0c' || ch = '\r'

/-- The decimal digits at the head of a string, folded into `acc`, with the
number of digits read. -/
def scanDigits : List Char → Int → Nat → Int × Nat
  | [], acc, k => (acc, k)
  | ch :: cs, acc, k =>
    if ch.isDigit then scanDigits cs (acc * 10 + ((ch.toNat - 48 : Nat) : Int)) (k + 1)
    else (acc, k)

/-- The C library call `sscanf(arg, "%d", &delta) == 1`: white space is
skipped, an optional sign and at least one decimal digit are read; `none`
when no integer is matched. -/
def sscanf_d (arg : List Char) : Option Int :=
  match arg.dropWhile isspace with
  | '-' :: cs => let r := scanDigits cs 0 0; if r.2 = 0 then none else some (- r.1)
  | '+' :: cs => let r := scanDigits cs 0 0; if r.2 = 0 then none else some r.1
  | cs => let r := scanDigits cs 0 0; if r.2 = 0 then none else some r.1

/-- The record `c'` is `c` up to the stored geometry, `c_xunits`, `c_yunits`
and `c_isbanned`: the links, the window, the size hints, the border and the
flags `c_isfixed`, `c_isfloating`, `c_isurgent` are the same. -/
def Client.Frame (c c' : Client) : Prop :=
  c' = { c with x := c'.x, y := c'.y, w := c'.w, h := c'.h, c_xunits := c'.c_xunits,
                c_yunits := c'.c_yunits, c_isbanned := c'.c_isbanned }

/-- The state `s'` is `s` up to the geometry part of the client records (see
`Client.Frame`) and the request log. -/
def Frame (s s' : State) : Prop :=
  (∀ a, Client.Frame (s.mem a) (s'.mem a)) ∧ s' = { s with mem := s'.mem, xlog := s'.xlog }

/-- The state `s'` is `s` up to the geometry part of the client records, the
request log, `sel` and `selmonitor`. -/
def FrameSel (s s' : State) : Prop :=
  Frame { s with sel := s'.sel, selmonitor := s'.selmonitor } s'

/-- The client has no size-hint restriction: no base size, unit increments,
no minimum or maximum size, and the aspect test of `resize` is off. -/
def Client.noHints (cl : Client) : Prop :=
  cl.c_basew = 0 ∧ cl.c_baseh = 0 ∧ cl.c_incw = 1 ∧ cl.c_inch = 1 ∧
  cl.c_minw ≤ 0 ∧ cl.c_minh ≤ 0 ∧ cl.c_maxw ≤ 0 ∧ cl.c_maxh ≤ 0 ∧
  ¬ (cl.c_minay > 0 ∧ cl.c_maxay > 0 ∧ cl.c_minax > 0 ∧ cl.c_maxax > 0)

instance (cl : Client) : Decidable cl.noHints := by
  unfold Client.noHints; exact inferInstance

/-- The members of `l` that are not floating. -/
def nonFloating (s : State) (l : List Nat) : List Nat :=
  l.filter fun a => !(s.mem a).c_isfloating

/-- The rectangle a window occupies: the stored geometry plus the border on
each side, as `(x, y, width, height)`. -/
def occupied (s : State) (a : Nat) : Int × Int × Int × Int :=
  ((s.mem a).x, (s.mem a).y, (s.mem a).w + 2 * (s.mem a).c_border,
    (s.mem a).h + 2 * (s.mem a).c_border)

/-- The windows of `cs` fill the span from `top` to `bottom`, each starting
where the one before it ends. -/
def Tiled (s : State) : Int → Int → List Nat → Prop
  | top, bottom, [] => top = bottom
  | top, bottom, c :: cs =>
    (s.mem c).y = top ∧ Tiled s (top + ((s.mem c).h + 2 * (s.mem c).c_border)) bottom cs

/-- The placing loop of `layoutTile` run over the clients `l`. -/
def tileFold (m : Monitor) (n mw th : Int) (mc : Option Nat) (l : List Nat)
    (r : TileVars × State) : Option (TileVars × State) :=
  l.foldlM (fun r a => tileBody m n mw th mc a r.1 r.2) r

/-- The value `layoutTile` computes for `mw` from the count `n`. -/
def tileMw (m : Monitor) (s : State) (n : Int) : Int :=
  if n = 1 then u32 m.waw else u32 (s.w_vSplit m.m_workspace)

/-- The value `layoutTile` computes for `th` from the count `n`. -/
def tileTh (m : Monitor) (s : State) (n : Int) : Int :=
  if n > 1 ∧ (if n > 1 then u32 m.wah / (n - 1) else 0) < s.bh then u32 m.wah
  else if n > 1 then u32 m.wah / (n - 1) else 0

/-- The state is consistent: the ten rings are well formed with the right
counts, `selmonitor` and every `c_monitor` index a monitor, every monitor shows
a workspace in `0..9` with a layout of `layouts`, the focus stack is empty, and
every member of a ring has non-zero resize increments. -/
def Managed (s : State) : Prop :=
  RegInv s ∧ s.selmonitor < s.monitors.length ∧
  (∀ m ∈ s.monitors, m.m_workspace < 10 ∧ m.m_layout < 2) ∧
  s.stack = none ∧
  (∀ a, (s.mem a).c_monitor < s.monitors.length) ∧
  (∀ a w, w < 10 → a ≠ rootClient → isMember s a w = true →
    (s.mem a).c_incw ≠ 0 ∧ (s.mem a).c_inch ≠ 0)

/-- The fuel is enough to walk every ring. -/
def Fueled (fuel : Nat) (s : State) : Prop :=
  ∀ w, w < 10 → s.w_numClients w < (fuel : Int)

/-- Ring `v` is the same in `s` and `s'`: the same `c_next[v]` and `c_prev[v]`
in every record, the sentinel included, and the same count. -/
def SameRing (v : Nat) (s s' : State) : Prop :=
  (∀ a, (s'.mem a).c_next v = (s.mem a).c_next v ∧ (s'.mem a).c_prev v = (s.mem a).c_prev v) ∧
  s'.w_numClients v = s.w_numClients v

/-- The state `s'` is `s` up to the geometry part of the records of the
clients that are not floating and the request log: the record of every
floating client is the same. -/
def KeepsFloating (s s' : State) : Prop :=
  Frame s s' ∧ ∀ a, (s.mem a).c_isfloating = true → s'.mem a = s.mem a

/-- The focus stack starting at `p` holds the clients `l`, in order: following
`snext` from `p` visits `l` and ends at `NULL`. -/
def StackChain (s : State) : Option Nat → List Nat → Prop
  | p, [] => p = none
  | p, a :: l => p = some a ∧ StackChain s (s.mem a).snext l

/-- The test of the loop of `focus`: the client is visible on its own monitor
`c->c_monitor`. -/
def visibleOwn (s : State) (a : Nat) : Bool :=
  isvisible a (s.mem a).c_monitor s == some true

/-! ## The X server and the parts of the program outside `src/` -/

/-- An entry of the array `XineramaQueryScreens` returns. -/
structure XineramaScreenInfo where
  x_org : Int := 0
  y_org : Int := 0
  width : Int := 0
  height : Int := 0
deriving DecidableEq

/-- What the program reads from the X server, constant while it runs:
`XineramaIsActive` and the array `XineramaQueryScreens` returns (`mcount` is
its length), `RootWindow`, `DisplayWidth` and `DisplayHeight` per screen, the
height of the font `initfont` loads, the window `XCreateWindow` returns for the
bar of each monitor, `textw` of each tag label and the value `setup` leaves in
`blw`, the modifier map `XGetModifierMapping` returns, the keyboard mapping
(`XKeysymToKeycode`, and `XKeycodeToKeysym` at index 0), the atom
`_NET_WM_NAME`, and whether a window lists `WM_DELETE_WINDOW` among its
protocols (`isprotodel`). -/
structure Display where
  isxinerama : Bool := false
  info : List XineramaScreenInfo := []
  rootWindow : Nat → Nat := fun _ => 0
  displayWidth : Nat → Int := fun _ => 0
  displayHeight : Nat → Int := fun _ => 0
  fontHeight : Int := 0
  barWindow : Nat → Nat := fun _ => 0
  tagWidth : Nat → Int := fun _ => 0
  blw : Int := 0
  max_keypermod : Nat := 0
  modifiermap : List Nat := []
  keysymToKeycode : Nat → Nat := fun _ => 0
  keycodeToKeysym : Nat → Nat := fun _ => 0
  netWMName : Nat := 0
  protodel : Nat → Bool := fun _ => false

/-- The argument of a bound function, a `const char *`: a string literal, or a
pointer cast from an integer (`ptr 0` is `NULL`). -/
inductive Arg where
  | ptr (v : Int)
  | str (text : List Char)
deriving DecidableEq

/-- The argument read as a string: `none` when it is neither `NULL` nor a
string (the pointer would be dereferenced). -/
def Arg.asString : Arg → Option (Option (List Char))
  | Arg.ptr v => if v = 0 then some none else none
  | Arg.str text => some (some text)

/-- The argument cast to `int`: `none` for a string literal, whose address is
not known. -/
def Arg.asInt : Arg → Option Int
  | Arg.ptr v => some v
  | Arg.str _ => none

/-- The functions the key tables of `config.h` name. -/
inductive KeyFn where
  | fn_exec
  | fn_secondaryKeys
  | fn_primaryKeys
  | fn_viewPrevWorkspace
  | fn_viewNextWorkspace
  | fn_viewWorkspace
  | fn_focusNext
  | fn_nextLayout
  | fn_addToAllWorkspaces
  | fn_addToWorkspace
  | fn_removeFromAllWorkspaces
  | fn_removeFromWorkspace
  | fn_toggleBar
  | fn_setmwfact
  | fn_killWindow
  | fn_killSession
  | fn_adjustMonitorWidth
  | fn_adjustMonitorHeight
deriving DecidableEq

/-- An entry of a key table (`struct Key`); `func` is never `NULL` in the
tables of `config.h`. -/
structure Key where
  mod : Nat
  keysym : Nat
  func : KeyFn
  arg : Arg
deriving DecidableEq

/-- What `src/` uses without defining it: the constant `VSPLIT` and the
function `fn_setmwfact` that `KeysSecondary` names. -/
structure Config where
  VSPLIT : Int
  fn_setmwfact : Arg → State → Option State

/-! ## X protocol constants -/

/-- The modifier bit `ShiftMask`. -/
def ShiftMask : Nat := 1
/-- The modifier bit `LockMask`. -/
def LockMask : Nat := 2
/-- The modifier bit `Mod1Mask`. -/
def Mod1Mask : Nat := 8
/-- The key code `AnyKey`. -/
def AnyKey : Nat := 0
/-- The modifier set `AnyModifier`. -/
def AnyModifier : Nat := 32768
/-- The pointer button `Button1`. -/
def Button1 : Nat := 1
/-- The pointer button `Button3`. -/
def Button3 : Nat := 3

/-- The key symbol `XK_Return`. -/
def XK_Return : Nat := 0xff0d
/-- The key symbol `XK_Escape`. -/
def XK_Escape : Nat := 0xff1b
/-- The key symbol `XK_Num_Lock`. -/
def XK_Num_Lock : Nat := 0xff7f
/-- The key symbol `XK_space`. -/
def XK_space : Nat := 0x20
/-- The key symbol `XK_0`. -/
def XK_0 : Nat := 0x30
/-- The key symbol `XK_1`. -/
def XK_1 : Nat := 0x31
/-- The key symbol `XK_2`. -/
def XK_2 : Nat := 0x32
/-- The key symbol `XK_3`. -/
def XK_3 : Nat := 0x33
/-- The key symbol `XK_4`. -/
def XK_4 : Nat := 0x34
/-- The key symbol `XK_a`. -/
def XK_a : Nat := 0x61
/-- The key symbol `XK_b`. -/
def XK_b : Nat := 0x62
/-- The key symbol `XK_c`. -/
def XK_c : Nat := 0x63
/-- The key symbol `XK_d`. -/
def XK_d : Nat := 0x64
/-- The key symbol `XK_f`. -/
def XK_f : Nat := 0x66
/-- The key symbol `XK_h`. -/
def XK_h : Nat := 0x68
/-- The key symbol `XK_j`. -/
def XK_j : Nat := 0x6a
/-- The key symbol `XK_k`. -/
def XK_k : Nat := 0x6b
/-- The key symbol `XK_l`. -/
def XK_l : Nat := 0x6c
/-- The key symbol `XK_q`. -/
def XK_q : Nat := 0x71
/-- The key symbol `XK_s`. -/
def XK_s : Nat := 0x73

/-- The error code `BadWindow`. -/
def BadWindow : Nat := 3
/-- The error code `BadMatch`. -/
def BadMatch : Nat := 8
/-- The error code `BadDrawable`. -/
def BadDrawable : Nat := 9
/-- The error code `BadAccess`. -/
def BadAccess : Nat := 10
/-- The request code `X_ConfigureWindow`. -/
def X_ConfigureWindow : Nat := 12
/-- The request code `X_GrabKey`. -/
def X_GrabKey : Nat := 33
/-- The request code `X_SetInputFocus`. -/
def X_SetInputFocus : Nat := 42
/-- The request code `X_CopyArea`. -/
def X_CopyArea : Nat := 62
/-- The request code `X_PolySegment`. -/
def X_PolySegment : Nat := 66
/-- The request code `X_PolyFillRectangle`. -/
def X_PolyFillRectangle : Nat := 70
/-- The request code `X_PolyText8`. -/
def X_PolyText8 : Nat := 74

/-! ## The error handler -/

/-- The fields of `XErrorEvent` that `xerror` reads. -/
structure XErrorEvent where
  request_code : Nat
  error_code : Nat
deriving DecidableEq

/-- What a call of `xerror` does: it returns 0 itself, or it hands the error to
the default handler of Xlib, `xerrorxlib`, whose result (`none` when that
handler calls `exit`) is the result of `xerror`. -/
inductive XErrorOutcome where
  | ignored (ret : Int)
  | delegated (ret : Option Int)
deriving DecidableEq

/-- The function `xerror(dpy, ee)`; `xerrorxlib` is the handler `checkotherwm`
saved. -/
def xerror (xerrorxlib : XErrorEvent → Option Int) (ee : XErrorEvent) : XErrorOutcome :=
  if ee.error_code = BadWindow
      ∨ (ee.request_code = X_SetInputFocus ∧ ee.error_code = BadMatch)
      ∨ (ee.request_code = X_PolyText8 ∧ ee.error_code = BadDrawable)
      ∨ (ee.request_code = X_PolyFillRectangle ∧ ee.error_code = BadDrawable)
      ∨ (ee.request_code = X_PolySegment ∧ ee.error_code = BadDrawable)
      ∨ (ee.request_code = X_ConfigureWindow ∧ ee.error_code = BadMatch)
      ∨ (ee.request_code = X_GrabKey ∧ ee.error_code = BadAccess)
      ∨ (ee.request_code = X_CopyArea ∧ ee.error_code = BadDrawable) then
    XErrorOutcome.ignored 0
  else XErrorOutcome.delegated (xerrorxlib ee)

/-! ## Monitors and the bar -/

/-- The bar position `BarTop`. -/
def BarTop : Nat := 0
/-- The bar position `BarBot`. -/
def BarBot : Nat := 1
/-- The bar position `BarOff`. -/
def BarOff : Nat := 2
/-- The value of `BARPOS` in `config.h`. -/
def BARPOS : Nat := BarTop
/-- The value of `SNAP` in `config.h`. -/
def SNAP : Int := 32

/-- Overwrite `monitors[i]`. -/
def State.setMonitor (s : State) (i : Nat) (m : Monitor) : State :=
  { s with monitors := s.monitors.set i m }

/-- The function `updatebarpos(m)` for `m = &monitors[i]`; `bh` is unsigned, so
`wah -= bh`, `way += bh` and `m_yorig - bh` are computed modulo `2^32`. -/
def updatebarpos (i : Nat) (s : State) : Option State :=
  match s.monitors[i]? with
  | none => none
  | some m =>
    let m1 : Monitor := { m with wax := m.m_xorig, way := m.m_yorig, wah := m.m_height,
                                 waw := m.m_width }
    let r : Monitor × XReq :=
      if s.bpos = BarBot then
        let wah := i32 (u32 (m1.wah - s.bh))
        ({ m1 with wah := wah }, XReq.moveWindow m.m_barwin m.m_xorig (m.m_yorig + wah))
      else if s.bpos = BarOff then
        (m1, XReq.moveWindow m.m_barwin m.m_xorig (i32 (u32 (m.m_yorig - s.bh))))
      else
        ({ m1 with wah := i32 (u32 (m1.wah - s.bh)), way := i32 (u32 (m1.way + s.bh)) },
          XReq.moveWindow m.m_barwin m.m_xorig m.m_yorig)
    some ((s.setMonitor i r.1).log [r.2, XReq.sync, XReq.drainEnterEvents])

/-- The function `fn_adjustMonitorWidth(arg)`; `(px, py)` is the pointer
position `monitorat` queries. -/
def fn_adjustMonitorWidth (fuel : Nat) (px py : Int) (arg : Option (List Char))
    (s : State) : Option State :=
  (monitorat px py s).bind fun i =>
    match s.monitors[i]? with
    | none => none
    | some m =>
      let width : Int :=
        match arg with
        | none => m.m_realWidth
        | some str =>
          match sscanf_d str with
          | none => m.m_width
          | some delta =>
            let v := if str.head? = some '+' ∨ str.head? = some '-' then m.m_width + delta
              else delta
            if v < 300 then 300 else if v > m.m_realWidth then m.m_realWidth else v
      (updatebarpos i (s.setMonitor i { m with m_width := width })).bind (arrange fuel)

/-- The function `fn_adjustMonitorHeight(arg)`. -/
def fn_adjustMonitorHeight (fuel : Nat) (px py : Int) (arg : Option (List Char))
    (s : State) : Option State :=
  (monitorat px py s).bind fun i =>
    match s.monitors[i]? with
    | none => none
    | some m =>
      let height : Int :=
        match arg with
        | none => m.m_realHeight
        | some str =>
          match sscanf_d str with
          | none => m.m_height
          | some delta =>
            let v := if str.head? = some '+' ∨ str.head? = some '-' then m.m_height + delta
              else delta
            if v < 300 then 300 else if v > m.m_realHeight then m.m_realHeight else v
      (updatebarpos i (s.setMonitor i { m with m_height := height })).bind (arrange fuel)

/-- The function `fn_toggleBar(arg)`. -/
def fn_toggleBar (fuel : Nat) (px py : Int) (s : State) : Option State :=
  let bpos := if s.bpos = BarOff then (if BARPOS = BarOff then BarTop else BARPOS) else BarOff
  let s1 := { s with bpos := bpos }
  (monitorat px py s1).bind fun i => (updatebarpos i s1).bind (arrange fuel)

/-! ## Key bindings -/

/-- The value `KEYS_MODE_PRIMARY`. -/
def KEYS_MODE_PRIMARY : Nat := 1
/-- The value `KEYS_MODE_SECONDARY`. -/
def KEYS_MODE_SECONDARY : Nat := 2

/-- The table `KeysPrimary` of `config.h`. -/
def KeysPrimary : List Key :=
  [ { mod := Mod1Mask ||| ShiftMask, keysym := XK_Return, func := KeyFn.fn_exec,
      arg := Arg.str "exec uxterm +sb".toList },
    { mod := Mod1Mask, keysym := XK_q, func := KeyFn.fn_secondaryKeys, arg := Arg.ptr 0 },
    { mod := Mod1Mask, keysym := XK_h, func := KeyFn.fn_viewPrevWorkspace, arg := Arg.ptr 0 },
    { mod := Mod1Mask, keysym := XK_j, func := KeyFn.fn_focusNext, arg := Arg.ptr 0 },
    { mod := Mod1Mask, keysym := XK_k, func := KeyFn.fn_nextLayout, arg := Arg.ptr 0 },
    { mod := Mod1Mask, keysym := XK_l, func := KeyFn.fn_viewNextWorkspace, arg := Arg.ptr 0 } ]

/-- The table `KeysSecondary` of `config.h`. -/
def KeysSecondary : List Key :=
  [ { mod := 0, keysym := XK_0, func := KeyFn.fn_addToAllWorkspaces, arg := Arg.ptr 0 },
    { mod := 0, keysym := XK_1, func := KeyFn.fn_addToWorkspace, arg := Arg.ptr 1 },
    { mod := 0, keysym := XK_2, func := KeyFn.fn_addToWorkspace, arg := Arg.ptr 2 },
    { mod := 0, keysym := XK_3, func := KeyFn.fn_addToWorkspace, arg := Arg.ptr 3 },
    { mod := 0, keysym := XK_4, func := KeyFn.fn_addToWorkspace, arg := Arg.ptr 4 },
    { mod := ShiftMask, keysym := XK_0, func := KeyFn.fn_removeFromAllWorkspaces,
      arg := Arg.ptr 0 },
    { mod := ShiftMask, keysym := XK_1, func := KeyFn.fn_removeFromWorkspace, arg := Arg.ptr 1 },
    { mod := ShiftMask, keysym := XK_2, func := KeyFn.fn_removeFromWorkspace, arg := Arg.ptr 2 },
    { mod := ShiftMask, keysym := XK_3, func := KeyFn.fn_removeFromWorkspace, arg := Arg.ptr 3 },
    { mod := ShiftMask, keysym := XK_4, func := KeyFn.fn_removeFromWorkspace, arg := Arg.ptr 4 },
    { mod := Mod1Mask, keysym := XK_0, func := KeyFn.fn_viewWorkspace, arg := Arg.ptr 0 },
    { mod := Mod1Mask, keysym := XK_1, func := KeyFn.fn_viewWorkspace, arg := Arg.ptr 1 },
    { mod := Mod1Mask, keysym := XK_2, func := KeyFn.fn_viewWorkspace, arg := Arg.ptr 2 },
    { mod := Mod1Mask, keysym := XK_3, func := KeyFn.fn_viewWorkspace, arg := Arg.ptr 3 },
    { mod := Mod1Mask, keysym := XK_4, func := KeyFn.fn_viewWorkspace, arg := Arg.ptr 4 },
    { mod := Mod1Mask, keysym := XK_space, func := KeyFn.fn_nextLayout, arg := Arg.ptr 0 },
    { mod := Mod1Mask, keysym := XK_b, func := KeyFn.fn_toggleBar, arg := Arg.ptr 0 },
    { mod := Mod1Mask, keysym := XK_j, func := KeyFn.fn_focusNext, arg := Arg.ptr 0 },
    { mod := 0, keysym := XK_Escape, func := KeyFn.fn_primaryKeys, arg := Arg.ptr 0 },
    { mod := Mod1Mask, keysym := XK_h, func := KeyFn.fn_setmwfact, arg := Arg.str "-0.01".toList },
    { mod := Mod1Mask, keysym := XK_l, func := KeyFn.fn_setmwfact, arg := Arg.str "+0.01".toList },
    { mod := Mod1Mask ||| ShiftMask, keysym := XK_c, func := KeyFn.fn_killWindow,
      arg := Arg.ptr 0 },
    { mod := Mod1Mask ||| ShiftMask, keysym := XK_q, func := KeyFn.fn_killSession,
      arg := Arg.ptr 0 },
    { mod := Mod1Mask, keysym := XK_a, func := KeyFn.fn_adjustMonitorWidth,
      arg := Arg.str "-5".toList },
    { mod := Mod1Mask, keysym := XK_f, func := KeyFn.fn_adjustMonitorWidth,
      arg := Arg.str "+5".toList },
    { mod := Mod1Mask, keysym := XK_s, func := KeyFn.fn_adjustMonitorHeight,
      arg := Arg.str "-5".toList },
    { mod := Mod1Mask, keysym := XK_d, func := KeyFn.fn_adjustMonitorHeight,
      arg := Arg.str "+5".toList } ]

/-- The macro `CLEANMASK(mask)`: `mask & ~(numlockmask | LockMask)` on
`unsigned int`. -/
def CLEANMASK (mask : Nat) (s : State) : Nat :=
  mask &&& (4294967295 ^^^ (s.numlockmask ||| LockMask))

/-- The block `init modifier map` of `keys_grabPrimary` and
`keys_grabSecondary`: `numlockmask` becomes `1 << i` for the last modifier `i`
whose row of the modifier map holds the key code of `XK_Num_Lock`. -/
def initNumlock (d : Display) (s : State) : State :=
  (List.range 8).foldl (fun s i =>
    (List.range d.max_keypermod).foldl (fun s j =>
      if d.modifiermap[i * d.max_keypermod + j]? = some (d.keysymToKeycode XK_Num_Lock) then
        { s with numlockmask := 1 <<< i }
      else s) s) s

/-- The four `XGrabKey` calls `keys_grabPrimary` makes for the binding `k` on
the root window `root`. -/
def grabBinding (d : Display) (root : Nat) (s : State) (k : Key) : State :=
  let code := d.keysymToKeycode k.keysym
  s.log [XReq.grabKey code k.mod root, XReq.grabKey code (k.mod ||| LockMask) root,
         XReq.grabKey code (k.mod ||| s.numlockmask) root,
         XReq.grabKey code (k.mod ||| s.numlockmask ||| LockMask) root]

/-- The function `keys_grabPrimary`. -/
def keys_grabPrimary (d : Display) (s : State) : State :=
  let s := initNumlock d s
  s.monitors.foldl (fun s m =>
    KeysPrimary.foldl (grabBinding d m.m_root)
      (s.log [XReq.ungrabKey AnyKey AnyModifier m.m_root])) s

/-- The function `keys_grabSecondary`. -/
def keys_grabSecondary (d : Display) (s : State) : State :=
  let s := initNumlock d s
  s.monitors.foldl (fun s m =>
    s.log [XReq.ungrabKey AnyKey AnyModifier m.m_root,
           XReq.grabKey AnyKey AnyModifier m.m_root]) s

/-- The function `keys_grab`. -/
def keys_grab (d : Display) (s : State) : State :=
  if s.KeysMode = KEYS_MODE_PRIMARY then keys_grabPrimary d s else keys_grabSecondary d s

/-- The function `fn_primaryKeys(arg)`. -/
def fn_primaryKeys (d : Display) (s : State) : State :=
  keys_grab d { s with KeysMode := KEYS_MODE_PRIMARY }

/-- The function `fn_secondaryKeys(arg)`. -/
def fn_secondaryKeys (d : Display) (s : State) : State :=
  keys_grab d { s with KeysMode := KEYS_MODE_SECONDARY }

/-! ## Workspaces, layouts and focus from the keyboard -/

/-- The function `fn_viewNextWorkspace(arg)`. -/
def fn_viewNextWorkspace (fuel : Nat) (px py : Int) (s : State) : Option State :=
  (monitorat px py s).bind fun i =>
    match s.monitors[i]? with
    | none => none
    | some m => arrange fuel (s.setMonitor i { m with m_workspace := (m.m_workspace + 1) % 10 })

/-- The function `fn_viewPrevWorkspace(arg)`. -/
def fn_viewPrevWorkspace (fuel : Nat) (px py : Int) (s : State) : Option State :=
  (monitorat px py s).bind fun i =>
    match s.monitors[i]? with
    | none => none
    | some m => arrange fuel (s.setMonitor i { m with m_workspace := (m.m_workspace + 9) % 10 })

/-- The function `fn_viewWorkspace(arg)`; `arg` is the pointer value cast to
`int`, and a negative workspace index is a fault. -/
def fn_viewWorkspace (fuel : Nat) (px py : Int) (arg : Int) (s : State) : Option State :=
  (monitorat px py s).bind fun i =>
    match s.monitors[i]? with
    | none => none
    | some m =>
      if arg < 0 then none
      else arrange fuel (s.setMonitor i { m with m_workspace := arg.toNat })

/-- The symbols of the table `layouts` of `config.h`. -/
def layoutSymbols : List (List Char) := ["[]=".toList, "[X]".toList]

/-- The function `fn_nextLayout(arg)`. -/
def fn_nextLayout (fuel : Nat) (px py : Int) (arg : Option (List Char)) (s : State) :
    Option State :=
  (monitorat px py s).bind fun i =>
    match s.monitors[i]? with
    | none => none
    | some m =>
      let layout : Option Nat :=
        match arg with
        | none => some (if m.m_layout + 1 = layoutSymbols.length then 0 else m.m_layout + 1)
        | some str => layoutSymbols.indexOf? str
      match layout with
      | none => some s
      | some l => (arrange fuel (s.setMonitor i { m with m_layout := l })).map drawbar

/-- The loop `for (; c == rootClient; c = c->c_next[workspace]);` of
`fn_focusNext`. -/
def focusNextSkip (s : State) (workspace : Nat) : Nat → Option Nat → Option (Option Nat)
  | 0, _ => none
  | fuel + 1, c =>
    if c = some rootClient then focusNextSkip s workspace fuel ((s.mem rootClient).c_next workspace)
    else some c

/-- The function `fn_focusNext(arg)`. -/
def fn_focusNext (fuel : Nat) (s : State) : Option State :=
  match s.monitors[s.selmonitor]? with
  | none => none
  | some m =>
    let workspace := m.m_workspace
    if 10 ≤ workspace then none
    else
      let c0 : Option Nat :=
        match s.sel with
        | some a => (s.mem a).c_next workspace
        | none => some rootClient
      let c : Option (Option Nat) :=
        if s.w_numClients workspace > 0 then focusNextSkip s workspace fuel c0 else some none
      c.bind fun c => (focus fuel c s).bind (restack fuel)

/-- The function `fn_killWindow(arg)`: the window of `sel` is asked to close
when it takes part in the `WM_DELETE_WINDOW` protocol, and is killed
otherwise. -/
def fn_killWindow (d : Display) (s : State) : State :=
  match s.sel with
  | none => s
  | some a => s.log [XReq.killClient (s.mem a).c_win (d.protodel (s.mem a).c_win)]

/-- The function `fn_killSession(arg)`. -/
def fn_killSession (s : State) : State := { s with running := false }

/-- The function `togglefloating(arg)`. -/
def togglefloating (fuel : Nat) (s : State) : Option State :=
  match s.sel with
  | none => some s
  | some a =>
    let cl := s.mem a
    let s1 := s.setClient a { cl with c_isfloating := !cl.c_isfloating }
    (if (s1.mem a).c_isfloating then resize a cl.x cl.y cl.w cl.h true s1 else some s1).bind
      (arrange fuel)

/-- The call `K[i].func(K[i].arg)` of `keys_pressPrimary` and
`keys_pressSecondary`, for the function `f`. -/
def callFn (fuel : Nat) (cfg : Config) (d : Display) (px py : Int) (f : KeyFn) (arg : Arg)
    (s : State) : Option State :=
  match f with
  | KeyFn.fn_exec => some s
  | KeyFn.fn_secondaryKeys => some (fn_secondaryKeys d s)
  | KeyFn.fn_primaryKeys => some (fn_primaryKeys d s)
  | KeyFn.fn_viewPrevWorkspace => fn_viewPrevWorkspace fuel px py s
  | KeyFn.fn_viewNextWorkspace => fn_viewNextWorkspace fuel px py s
  | KeyFn.fn_viewWorkspace => arg.asInt.bind fun v => fn_viewWorkspace fuel px py v s
  | KeyFn.fn_focusNext => fn_focusNext fuel s
  | KeyFn.fn_nextLayout => arg.asString.bind fun a => fn_nextLayout fuel px py a s
  | KeyFn.fn_addToAllWorkspaces => arg.asInt.bind fun v => fn_addToAllWorkspaces v s
  | KeyFn.fn_addToWorkspace => arg.asInt.bind fun v => fn_addToWorkspace v s
  | KeyFn.fn_removeFromAllWorkspaces => arg.asInt.bind fun v => fn_removeFromAllWorkspaces v s
  | KeyFn.fn_removeFromWorkspace => arg.asInt.bind fun v => fn_removeFromWorkspace v s
  | KeyFn.fn_toggleBar => fn_toggleBar fuel px py s
  | KeyFn.fn_setmwfact => cfg.fn_setmwfact arg s
  | KeyFn.fn_killWindow => some (fn_killWindow d s)
  | KeyFn.fn_killSession => some (fn_killSession s)
  | KeyFn.fn_adjustMonitorWidth => arg.asString.bind fun a => fn_adjustMonitorWidth fuel px py a s
  | KeyFn.fn_adjustMonitorHeight =>
    arg.asString.bind fun a => fn_adjustMonitorHeight fuel px py a s

/-- The loop of `keys_pressPrimary` and `keys_pressSecondary` over the table
`keys`; `CLEANMASK` reads `numlockmask` anew at every entry. -/
def keysPressLoop (fuel : Nat) (cfg : Config) (d : Display) (px py : Int) (keysym state : Nat) :
    List Key → State → Option State
  | [], s => some s
  | k :: ks, s =>
    if keysym = k.keysym ∧ CLEANMASK k.mod s = CLEANMASK state s then
      (callFn fuel cfg d px py k.func k.arg s).bind
        (keysPressLoop fuel cfg d px py keysym state ks)
    else keysPressLoop fuel cfg d px py keysym state ks s

/-- The function `keys_pressPrimary(e)`; `keycode` and `state` are the fields
of the key event, `(px, py)` the pointer position. -/
def keys_pressPrimary (fuel : Nat) (cfg : Config) (d : Display) (px py : Int)
    (keycode state : Nat) (s : State) : Option State :=
  keysPressLoop fuel cfg d px py (d.keycodeToKeysym keycode) state KeysPrimary s

/-- The function `keys_pressSecondary(e)`. -/
def keys_pressSecondary (fuel : Nat) (cfg : Config) (d : Display) (px py : Int)
    (keycode state : Nat) (s : State) : Option State :=
  keysPressLoop fuel cfg d px py (d.keycodeToKeysym keycode) state KeysSecondary s

/-- The function `keys_press(e)`. -/
def keys_press (fuel : Nat) (cfg : Config) (d : Display) (px py : Int)
    (keycode state : Nat) (s : State) : Option State :=
  if s.KeysMode = KEYS_MODE_PRIMARY then keys_pressPrimary fuel cfg d px py keycode state s
  else keys_pressSecondary fuel cfg d px py keycode state s

/-! ## Startup -/

/-- The body of the monitor loop of `setup` for `monitors[i]`, a zeroed record
before: geometry, `bh`, layout, `bpos`, the bar window and `updatebarpos`. -/
def setupMonitor (d : Display) (mcount : Nat) (i : Nat) (s : State) : Option State :=
  match s.monitors[i]? with
  | none => none
  | some m =>
    let screen := if d.isxinerama then 0 else i
    let m1 : Monitor := { m with m_workspace := 1, m_screen := screen,
                                 m_root := d.rootWindow screen }
    let m2 : Option Monitor :=
      if mcount ≠ 1 ∧ d.isxinerama then
        (d.info[i]?).map fun inf =>
          { m1 with m_realXOrig := inf.x_org, m_realYOrig := inf.y_org,
                    m_realWidth := inf.height }
      else
        some { m1 with m_realXOrig := 0, m_realYOrig := 0,
                       m_realWidth := d.displayWidth screen,
                       m_realHeight := d.displayHeight screen }
    m2.bind fun m2 =>
      let m3 : Monitor := { m2 with m_xorig := m2.m_realXOrig, m_yorig := m2.m_realYOrig,
                                    m_width := m2.m_realWidth, m_height := m2.m_realHeight,
                                    m_layout := 0, m_barwin := d.barWindow i }
      let bh := u32 (d.fontHeight + 2)
      let s1 := { s.setMonitor i m3 with bh := bh, bpos := BARPOS }
      (updatebarpos i
        (s1.log [XReq.createBar m3.m_barwin m3.m_xorig m3.m_yorig m3.m_width (i32 bh)])).map
        fun s2 => s2.log [XReq.raiseWindow m3.m_barwin, XReq.selectRootInput m3.m_root]

/-- The function `setup`; `(px, py)` is the pointer position the final
`monitorat` queries.  The atoms, cursors, colours, fonts and graphics contexts
are outside the model. -/
def setup (cfg : Config) (d : Display) (px py : Int) : Option State :=
  let mcount := if d.isxinerama then d.info.length else 1
  let s0 : State := { setupWorkspaces cfg.VSPLIT with monitors := List.replicate mcount {} }
  ((List.range mcount).foldlM (fun s i => setupMonitor d mcount i s) s0).bind fun s1 =>
    let s2 := keys_grab d s1
    (monitorat px py s2).map fun i => { s2 with selmonitor := i }

/-! ## Dragging with the pointer -/

/-- The body of `case MotionNotify` of `movemouse(c)`: `(ocx, ocy)` is the
position of the client and `(x1, y1)` that of the pointer when the drag
started, `(ex, ey)` the position in the event, `(px, py)` the pointer position
`monitorat` queries.  `c_border` is unsigned, so the distances to the right and
bottom edges are computed modulo `2^32`. -/
def movemouseMotion (fuel : Nat) (c : Nat) (ocx ocy x1 y1 ex ey px py : Int) (s : State) :
    Option State :=
  let nx := ocx + (ex - x1)
  let ny := ocy + (ey - y1)
  (monitorat px py s).bind fun i =>
    match s.monitors[i]? with
    | none => none
    | some m =>
      let cl := s.mem c
      let nx : Int :=
        if ((m.wax - nx).natAbs : Int) < SNAP then m.wax
        else if ((i32 (u32 ((m.wax + m.waw) - (nx + cl.w + 2 * cl.c_border)))).natAbs : Int)
            < SNAP then
          i32 (u32 (m.wax + m.waw - cl.w - 2 * cl.c_border))
        else nx
      let ny : Int :=
        if ((m.way - ny).natAbs : Int) < SNAP then m.way
        else if ((i32 (u32 ((m.way + m.wah) - (ny + cl.h + 2 * cl.c_border)))).natAbs : Int)
            < SNAP then
          i32 (u32 (m.way + m.wah - cl.h - 2 * cl.c_border))
        else ny
      (if ((nx - cl.x).natAbs : Int) > SNAP ∨ ((ny - cl.y).natAbs : Int) > SNAP then
          togglefloating fuel s
        else some s).bind fun s1 =>
        if (s1.mem c).c_isfloating then resize c nx ny (s1.mem c).w (s1.mem c).h false s1
        else some s1

/-- The body of `case MotionNotify` of `resizemouse(c)`: `(ocx, ocy)` is the
position of the client when the drag started, `(ex, ey)` the position in the
event. -/
def resizemouseMotion (fuel : Nat) (c : Nat) (ocx ocy ex ey : Int) (s : State) :
    Option State :=
  let cl := s.mem c
  let nw0 := i32 (u32 (ex - ocx - 2 * cl.c_border + 1))
  let nw := if nw0 ≤ 0 then 1 else nw0
  let nh0 := i32 (u32 (ey - ocy - 2 * cl.c_border + 1))
  let nh := if nh0 ≤ 0 then 1 else nh0
  (if ((nw - cl.w).natAbs : Int) > SNAP ∨ ((nh - cl.h).natAbs : Int) > SNAP then
      togglefloating fuel s
    else some s).bind fun s1 =>
    if (s1.mem c).c_isfloating then resize c (s1.mem c).x (s1.mem c).y nw nh true s1
    else some s1

/-! ## Releasing windows -/

/-- The function `unmanage(c)`.  The record is freed; its contents stay in
`mem` until the address is allocated again. -/
def unmanage (fuel : Nat) (c : Nat) (s : State) : Option State :=
  let s := s.log [XReq.grabServer, XReq.setErrorHandler true,
                  XReq.configureRaw (s.mem c).c_win]
  (ws_detachAll c s).bind fun s =>
    (if s.sel = some c then focus fuel none s else some s).bind fun s =>
      let s := s.log [XReq.ungrabButton (s.mem c).c_win, XReq.setClientState (s.mem c).c_win 0,
                      XReq.sync, XReq.setErrorHandler false, XReq.ungrabServer]
      arrange fuel s

/-- The loop `while (stack) { unban(stack); unmanage(stack); }` of `cleanup`,
at most `n` times round. -/
def cleanupLoop (fuel : Nat) : Nat → State → Option State
  | 0, _ => none
  | n + 1, s =>
    match s.stack with
    | none => some s
    | some a => (unmanage fuel a (unban a s)).bind (cleanupLoop fuel n)

/-- The function `cleanup`: the loop over the focus stack, then for every
monitor the keys are released and the input focus is returned (the fonts,
pixmaps, graphics contexts and cursors are outside the model). -/
def cleanup (fuel : Nat) (s : State) : Option State :=
  (cleanupLoop fuel fuel s).map fun s1 =>
    s1.monitors.foldl (fun s m =>
      s.log [XReq.ungrabKey AnyKey AnyModifier m.m_root, XReq.releaseMonitor m.m_root m.m_barwin,
             XReq.setInputFocus 1, XReq.sync]) s1

/-! ## Event handlers -/

/-- The loop of `getclient(w)` over ring 0, from the client `c` on. -/
def getclientFrom (s : State) (w : Nat) : Nat → Option Nat → Option (Option Nat)
  | 0, _ => none
  | _ + 1, none => none
  | fuel + 1, some a =>
    if a = rootClient then some none
    else if (s.mem a).c_win = w then some (some a)
    else getclientFrom s w fuel ((s.mem a).c_next 0)

/-- The function `getclient(w)`. -/
def getclient (fuel : Nat) (w : Nat) (s : State) : Option (Option Nat) :=
  getclientFrom s w fuel ((s.mem rootClient).c_next 0)

/-- The fields of `XConfigureRequestEvent` that `configurerequest` reads, and
the pointer position `monitorat` queries. -/
structure ConfigureRequestEvent where
  window : Nat := 0
  value_mask : Nat := 0
  x : Int := 0
  y : Int := 0
  width : Int := 0
  height : Int := 0
  border_width : Int := 0
  px : Int := 0
  py : Int := 0

/-- The fields of `XMapRequestEvent` that `maprequest` reads, with what the
calls made for the window return: the attributes (`none` when
`XGetWindowAttributes` fails), their flag `override_redirect`, the address
`emallocz` returns in `manage`, the size hints and the value of
`XGetTransientForHint`. -/
structure MapRequestEvent where
  window : Nat := 0
  attrs : Option XWindowAttributes := none
  override_redirect : Bool := false
  c : Nat := 0
  hints : Option XSizeHints := none
  transRet : Int := 0

/-- The fields of `XPropertyEvent` that `propertynotify` reads, with what the
calls made for the window return: the window `XGetTransientForHint` stores in
`trans`, the size hints, and the urgency flag of the WM hints (`none` when
`XGetWMHints` returns `NULL`). -/
structure PropertyEvent where
  window : Nat := 0
  atom : Nat := 0
  state : Nat := 0
  trans : Nat := 0
  hints : Option XSizeHints := none
  urgent : Option Bool := none

/-- The events `movemouse` and `resizemouse` take from the queue while the
pointer is grabbed. -/
inductive DragEvent where
  | buttonRelease
  | configureRequest (e : ConfigureRequestEvent)
  | expose (count : Int) (window : Nat)
  | mapRequest (e : MapRequestEvent)
  | motion (x y px py : Int)

/-- The flag `CWX`. -/
def CWX : Nat := 1
/-- The flag `CWY`. -/
def CWY : Nat := 2
/-- The flag `CWWidth`. -/
def CWWidth : Nat := 4
/-- The flag `CWHeight`. -/
def CWHeight : Nat := 8
/-- The flag `CWBorderWidth`. -/
def CWBorderWidth : Nat := 16
/-- The crossing mode `NotifyNormal`. -/
def NotifyNormal : Nat := 0
/-- The crossing detail `NotifyInferior`. -/
def NotifyInferior : Nat := 2
/-- The property state `PropertyDelete`. -/
def PropertyDelete : Nat := 1
/-- The mapping request `MappingKeyboard`. -/
def MappingKeyboard : Nat := 1
/-- The atom `XA_WM_HINTS`. -/
def XA_WM_HINTS : Nat := 35
/-- The atom `XA_WM_NAME`. -/
def XA_WM_NAME : Nat := 39
/-- The atom `XA_WM_NORMAL_HINTS`. -/
def XA_WM_NORMAL_HINTS : Nat := 40
/-- The atom `XA_WM_TRANSIENT_FOR`. -/
def XA_WM_TRANSIENT_FOR : Nat := 68

/-- The branch `if ((c = getclient(ev->window)))` of `configurerequest`, for
the client `c`. -/
def configureClient (c : Nat) (ev : ConfigureRequestEvent) (s : State) : Option State :=
  let cl := s.mem c
  match s.monitors[cl.c_monitor]? with
  | none => none
  | some m =>
    let has (f : Nat) : Bool := ev.value_mask &&& f != 0
    let border := if has CWBorderWidth then u32 ev.border_width else cl.c_border
    if cl.c_isfixed || cl.c_isfloating then
      let x1 := if has CWX then m.m_xorig + ev.x else cl.x
      let y1 := if has CWY then m.m_yorig + ev.y else cl.y
      let w1 := if has CWWidth then ev.width else cl.w
      let h1 := if has CWHeight then ev.height else cl.h
      let x2 := if (x1 - m.m_xorig + w1) > m.m_width ∧ cl.c_isfloating = true then
          m.m_xorig + (Int.tdiv m.m_width 2 - Int.tdiv w1 2) else x1
      let y2 := if (y1 - m.m_yorig + h1) > m.m_width ∧ cl.c_isfloating = true then
          m.m_yorig + (Int.tdiv m.m_height 2 - Int.tdiv h1 2) else y1
      let s1 := s.setClient c { cl with c_border := border, x := x2, y := y2, w := w1, h := h1 }
      let s2 := if (has CWX || has CWY) && !(has CWWidth || has CWHeight) then configure c s1
        else s1
      (monitorat ev.px ev.py s2).bind fun i =>
        (isvisible c i s2).map fun v =>
          if v then s2.log [XReq.moveResizeWindow cl.c_win x2 y2 w1 h1] else s2
    else some (configure c (s.setClient c { cl with c_border := border }))

/-- The function `configurerequest(e)`. -/
def configurerequest (fuel : Nat) (ev : ConfigureRequestEvent) (s : State) : Option State :=
  (getclient fuel ev.window s).bind fun r =>
    let s1 : Option State :=
      match r with
      | some c => configureClient c ev s
      | none => some (s.log [XReq.configureRaw ev.window])
    s1.map fun s1 => s1.log [XReq.sync]

/-- The function `configurenotify(e)`. -/
def configurenotify (fuel : Nat) (window : Nat) (width height : Int) (s : State) :
    Option State :=
  match s.monitors[s.selmonitor]? with
  | none => none
  | some m =>
    if window = m.m_root ∧ (width ≠ m.m_width ∨ height ≠ m.m_height) then
      let s1 := s.setMonitor s.selmonitor { m with m_width := width, m_height := height }
      (updatebarpos s.selmonitor (s1.log [XReq.resizeBar m.m_barwin width (i32 s.bh)])).bind
        (arrange fuel)
    else some s

/-- The function `enternotify(e)`. -/
def enternotify (fuel : Nat) (d : Display) (mode detail window : Nat) (px py : Int)
    (s : State) : Option State :=
  let skip : Option Bool :=
    if mode ≠ NotifyNormal ∨ detail = NotifyInferior then
      if d.isxinerama = false then some true
      else (s.monitors[s.selmonitor]?).map fun m => decide (window ≠ m.m_root)
    else some false
  skip.bind fun b =>
    if b then some s
    else
      (getclient fuel window s).bind fun r =>
        match r with
        | some c => focus fuel (some c) s
        | none => (monitorat px py s).bind fun i => focus fuel none { s with selmonitor := i }

/-- The function `expose(e)`. -/
def expose (count : Int) (window : Nat) (s : State) : Option State :=
  if count = 0 then
    match s.monitors[s.selmonitor]? with
    | none => none
    | some m => if window = m.m_barwin then some (drawbar s) else some s
  else some s

/-- The function `focusin(e)`. -/
def focusin (window : Nat) (s : State) : State :=
  match s.sel with
  | none => s
  | some a => if window ≠ (s.mem a).c_win then s.log [XReq.setInputFocus (s.mem a).c_win] else s

/-- The function `mappingnotify(e)`. -/
def mappingnotify (d : Display) (request : Nat) (s : State) : State :=
  if request = MappingKeyboard then keys_grab d s else s

/-- The function `updatewmhints(c)`. -/
def updatewmhints (c : Nat) (urgent : Option Bool) (s : State) : State :=
  match urgent with
  | none => s
  | some u => s.setClient c { s.mem c with c_isurgent := u }

/-- The function `propertynotify(e)`; the title `c_name` is outside the
model. -/
def propertynotify (fuel : Nat) (d : Display) (ev : PropertyEvent) (s : State) : Option State :=
  if ev.state = PropertyDelete then some s
  else
    (getclient fuel ev.window s).bind fun r =>
      match r with
      | none => some s
      | some c =>
        let s1 : Option State :=
          if ev.atom = XA_WM_TRANSIENT_FOR then
            if !(s.mem c).c_isfloating then
              (getclient fuel ev.trans s).bind fun t =>
                let s0 := s.setClient c { s.mem c with c_isfloating := t.isSome }
                if t.isSome then arrange fuel s0 else some s0
            else some s
          else if ev.atom = XA_WM_NORMAL_HINTS then some (updatesizehints c ev.hints s)
          else if ev.atom = XA_WM_HINTS then some (drawbar (updatewmhints c ev.urgent s))
          else some s
        s1.map fun s1 =>
          if ev.atom = XA_WM_NAME ∨ ev.atom = d.netWMName then
            (if s1.sel = some c then drawbar s1 else s1)
          else s1

/-- The function `maprequest(e)`.  The address `emallocz` returns in `manage`
is not that of the sentinel nor of a record in use, that is of a member of ring
0: `none` otherwise. -/
def maprequest (fuel : Nat) (ev : MapRequestEvent) (s : State) : Option State :=
  match ev.attrs with
  | none => some s
  | some wa =>
    if ev.override_redirect then some s
    else
      (getclient fuel ev.window s).bind fun r =>
        match r with
        | some _ => some s
        | none =>
          if ev.c = rootClient ∨ isMember s ev.c 0 = true then none
          else manage fuel ev.c ev.window wa ev.hints ev.transRet s

/-- The function `unmapnotify(e)`, and `destroynotify(e)`, which has the same
body. -/
def unmapnotify (fuel : Nat) (window : Nat) (s : State) : Option State :=
  (getclient fuel window s).bind fun r =>
    match r with
    | some c => unmanage fuel c s
    | none => some s

/-- The event loop of `movemouse(c)` over the events `evs`: it ends at the
first `ButtonRelease` and never returns without one. -/
def movemouseLoop (fuel : Nat) (c : Nat) (ocx ocy x1 y1 : Int) :
    List DragEvent → State → Option State
  | [], _ => none
  | DragEvent.buttonRelease :: _, s => some (s.log [XReq.ungrabPointer])
  | DragEvent.configureRequest e :: evs, s =>
    (configurerequest fuel e s).bind (movemouseLoop fuel c ocx ocy x1 y1 evs)
  | DragEvent.expose count window :: evs, s =>
    (expose count window s).bind (movemouseLoop fuel c ocx ocy x1 y1 evs)
  | DragEvent.mapRequest e :: evs, s =>
    (maprequest fuel e s).bind (movemouseLoop fuel c ocx ocy x1 y1 evs)
  | DragEvent.motion x y px py :: evs, s =>
    (movemouseMotion fuel c ocx ocy x1 y1 x y px py (s.log [XReq.sync])).bind
      (movemouseLoop fuel c ocx ocy x1 y1 evs)

/-- The function `movemouse(c)`; `grab` tells whether `XGrabPointer`
succeeded, `(x1, y1)` is the pointer position `XQueryPointer` reports and
`evs` are the events that follow. -/
def movemouse (fuel : Nat) (c : Nat) (grab : Bool) (x1 y1 : Int) (evs : List DragEvent)
    (s : State) : Option State :=
  match s.monitors[s.selmonitor]? with
  | none => none
  | some m =>
    if !grab then some s
    else movemouseLoop fuel c (s.mem c).x (s.mem c).y x1 y1 evs (s.log [XReq.grabPointer m.m_root])

/-- The event loop of `resizemouse(c)` over the events `evs`. -/
def resizemouseLoop (fuel : Nat) (c : Nat) (ocx ocy : Int) :
    List DragEvent → State → Option State
  | [], _ => none
  | DragEvent.buttonRelease :: _, s =>
    let cl := s.mem c
    some (s.log [XReq.warpPointer cl.c_win (i32 (u32 (cl.w + cl.c_border - 1)))
                   (i32 (u32 (cl.h + cl.c_border - 1))),
                 XReq.ungrabPointer, XReq.drainEnterEvents])
  | DragEvent.configureRequest e :: evs, s =>
    (configurerequest fuel e s).bind (resizemouseLoop fuel c ocx ocy evs)
  | DragEvent.expose count window :: evs, s =>
    (expose count window s).bind (resizemouseLoop fuel c ocx ocy evs)
  | DragEvent.mapRequest e :: evs, s =>
    (maprequest fuel e s).bind (resizemouseLoop fuel c ocx ocy evs)
  | DragEvent.motion x y _ _ :: evs, s =>
    (resizemouseMotion fuel c ocx ocy x y (s.log [XReq.sync])).bind
      (resizemouseLoop fuel c ocx ocy evs)

/-- The function `resizemouse(c)`. -/
def resizemouse (fuel : Nat) (c : Nat) (grab : Bool) (evs : List DragEvent) (s : State) :
    Option State :=
  match s.monitors[s.selmonitor]? with
  | none => none
  | some m =>
    if !grab then some s
    else
      let cl := s.mem c
      resizemouseLoop fuel c cl.x cl.y evs
        (s.log [XReq.grabPointer m.m_root,
                XReq.warpPointer cl.c_win (i32 (u32 (cl.w + cl.c_border - 1)))
                  (i32 (u32 (cl.h + cl.c_border - 1)))])

/-- The loop over `tags` of `buttonpress`: the index of the tag label the
click at `ex` hits, if any, and the value of `x` after the loop; `k` labels are
left, the next one being `tags[i]`. -/
def tagScan (d : Display) (ex : Int) : Nat → Nat → Int → Option Nat × Int
  | 0, _, x => (none, x)
  | k + 1, i, x =>
    let x1 := u32 (x + d.tagWidth i)
    if u32 ex < x1 then (some i, x1) else tagScan d ex k (i + 1) x1

/-- The fields of `XButtonPressedEvent` that `buttonpress` reads, with the
pointer position `monitorat` queries and what the drag that may follow takes
from the server: whether `XGrabPointer` succeeds, the pointer position
`XQueryPointer` reports, and the events up to the button release. -/
structure ButtonEvent where
  window : Nat := 0
  x : Int := 0
  button : Nat := 0
  state : Nat := 0
  px : Int := 0
  py : Int := 0
  grab : Bool := false
  x1 : Int := 0
  y1 : Int := 0
  drag : List DragEvent := []

/-- The function `buttonpress(e)`. -/
def buttonpress (fuel : Nat) (d : Display) (ev : ButtonEvent) (s : State) : Option State :=
  (monitorat ev.px ev.py s).bind fun i =>
    match s.monitors[i]? with
    | none => none
    | some m =>
      if ev.window = m.m_barwin then
        let r := tagScan d ev.x 9 0 0
        match r.1 with
        | some t => fn_viewWorkspace fuel ev.px ev.py (((t + 1) % 10 : Nat) : Int) s
        | none =>
          if u32 ev.x < u32 (r.2 + d.blw) ∧ ev.button = Button1 then
            fn_nextLayout fuel ev.px ev.py none s
          else some s
      else
        (getclient fuel ev.window s).bind fun r =>
          match r with
          | none => some s
          | some c =>
            (focus fuel (some c) s).bind fun s1 =>
              if CLEANMASK ev.state s1 ≠ Mod1Mask then some s1
              else if ev.button = Button1 then
                (restack fuel s1).bind (movemouse fuel c ev.grab ev.x1 ev.y1 ev.drag)
              else if ev.button = Button3 ∧ (s1.mem c).c_isfixed = false then
                (restack fuel s1).bind (resizemouse fuel c ev.grab ev.drag)
              else some s1

/-- The events of the table `handler`, with what each handler reads. -/
inductive XEvent where
  | buttonPress (e : ButtonEvent)
  | configureRequest (e : ConfigureRequestEvent)
  | configureNotify (window : Nat) (width height : Int)
  | enterNotify (mode detail window : Nat) (px py : Int)
  | expose (count : Int) (window : Nat)
  | focusIn (window : Nat)
  | keyPress (keycode state : Nat) (px py : Int)
  | mappingNotify (request : Nat)
  | propertyNotify (e : PropertyEvent)
  | mapRequest (e : MapRequestEvent)
  | unmapNotify (window : Nat)
  | destroyNotify (window : Nat)

/-- The call `(handler[ev.type]) (&ev)` of `run`. -/
def handle (fuel : Nat) (cfg : Config) (d : Display) (ev : XEvent) (s : State) : Option State :=
  match ev with
  | XEvent.buttonPress e => buttonpress fuel d e s
  | XEvent.configureRequest e => configurerequest fuel e s
  | XEvent.configureNotify window width height => configurenotify fuel window width height s
  | XEvent.enterNotify mode detail window px py => enternotify fuel d mode detail window px py s
  | XEvent.expose count window => expose count window s
  | XEvent.focusIn window => some (focusin window s)
  | XEvent.keyPress keycode state px py => keys_press fuel cfg d px py keycode state s
  | XEvent.mappingNotify request => some (mappingnotify d request s)
  | XEvent.propertyNotify e => propertynotify fuel d e s
  | XEvent.mapRequest e => maprequest fuel e s
  | XEvent.unmapNotify window => unmapnotify fuel window s
  | XEvent.destroyNotify window => unmapnotify fuel window s

/-- The states the program goes through, seen between two calls made by
`main`, `scan` and `run`: the state `setup` leaves; then the calls of
`drawbar` (by `main`, and by `run` when the status text is read), the calls of
`manage` that `scan` makes for the windows that exist at startup (with the
address of a record that is not in use), the handler called for each event, and
`cleanup`. -/
inductive Reachable (cfg : Config) (d : Display) : State → Prop where
  | setup (px py : Int) (s : State) (h : setup cfg d px py = some s) : Reachable cfg d s
  | drawbar (s : State) (h : Reachable cfg d s) : Reachable cfg d (drawbar s)
  | scan (fuel c w : Nat) (wa : XWindowAttributes) (hints : Option XSizeHints) (transRet : Int)
      (s s' : State) (h : Reachable cfg d s) (hc : c ≠ rootClient)
      (hfree : isMember s c 0 = false)
      (hs : manage fuel c w wa hints transRet s = some s') : Reachable cfg d s'
  | event (fuel : Nat) (ev : XEvent) (s s' : State) (h : Reachable cfg d s)
      (hs : handle fuel cfg d ev s = some s') : Reachable cfg d s'
  | cleanup (fuel : Nat) (s s' : State) (h : Reachable cfg d s)
      (hs : cleanup fuel s = some s') : Reachable cfg d s'

/-- Following the specification: the errors `xerror` is to ignore are any
request failing with `BadWindow`; `BadMatch` on `SetInputFocus` or
`ConfigureWindow`; `BadDrawable` on `PolyText8`, `PolyFillRectangle`,
`PolySegment` or `CopyArea`; `BadAccess` on `GrabKey`. -/
def xerrorIgnoresSpec (ee : XErrorEvent) : Prop :=
  ee.error_code = BadWindow ∨
  (ee.error_code = BadMatch ∧
    (ee.request_code = X_SetInputFocus ∨ ee.request_code = X_ConfigureWindow)) ∨
  (ee.error_code = BadDrawable ∧
    (ee.request_code = X_PolyText8 ∨ ee.request_code = X_PolyFillRectangle ∨
      ee.request_code = X_PolySegment ∨ ee.request_code = X_CopyArea)) ∨
  (ee.error_code = BadAccess ∧ ee.request_code = X_GrabKey)

instance (ee : XErrorEvent) : Decidable (xerrorIgnoresSpec ee) := by
  unfold xerrorIgnoresSpec; exact inferInstance

/-- The state `s'` is `s` up to the links `c_next`, `c_prev` of the client
records and the member counts. -/
def Relinked (s s' : State) : Prop :=
  (∀ a, s'.mem a = { s.mem a with c_next := (s'.mem a).c_next, c_prev := (s'.mem a).c_prev }) ∧
  s' = { s with mem := s'.mem, w_numClients := s'.w_numClients }

/-- Following the specification: the Primary grab set on the root windows
`roots`: on every root all keys are ungrabbed, then there is one grab per
binding of `KeysPrimary` and lock-modifier combination (none, Caps Lock, Num
Lock, both). -/
def primaryGrabSetSpec (d : Display) (numlock : Nat) (roots : List Nat) : List XReq :=
  roots.flatMap fun root =>
    XReq.ungrabKey AnyKey AnyModifier root ::
      KeysPrimary.flatMap fun k =>
        [0, LockMask, numlock, numlock ||| LockMask].map fun l =>
          XReq.grabKey (d.keysymToKeycode k.keysym) (k.mod ||| l) root

/-- The state `s'` is `s` up to `numlockmask`, `KeysMode` and the request
log. -/
def KeysFrame (s s' : State) : Prop :=
  s' = { s with numlockmask := s'.numlockmask, KeysMode := s'.KeysMode, xlog := s'.xlog }

/-- The state `s'` has the registry of `s`: the same links and `c_monitor` in
every record, non-zero resize increments wherever `s` has them, the same member
counts and the same focus stack. -/
def SameReg (s s' : State) : Prop :=
  (∀ a, (s'.mem a).c_next = (s.mem a).c_next ∧ (s'.mem a).c_prev = (s.mem a).c_prev ∧
    (s'.mem a).c_monitor = (s.mem a).c_monitor ∧ (s'.mem a).snext = (s.mem a).snext ∧
    (((s.mem a).c_incw ≠ 0 ∧ (s.mem a).c_inch ≠ 0) →
      ((s'.mem a).c_incw ≠ 0 ∧ (s'.mem a).c_inch ≠ 0))) ∧
  s'.w_numClients = s.w_numClients ∧ s'.stack = s.stack

/-- The state is consistent and every client that is a member of a workspace
ring is a member of ring 0. -/
def Inv0 (s : State) : Prop :=
  Managed s ∧
  ∀ a v, v < 10 → a ≠ rootClient → isMember s a v = true → isMember s a 0 = true

/-- The invariant of the reachable states: the state is consistent (in
particular the focus stack is empty), every member of a workspace ring is a
member of ring 0, and the selected client, if any, is a member of ring 0. -/
def Inv (s : State) : Prop :=
  Inv0 s ∧ ∀ a, s.sel = some a → a ≠ rootClient ∧ isMember s a 0 = true

/-- The argument of a binding of `fn_viewWorkspace` is a workspace index. -/
def goodKey (k : Key) : Bool :=
  if k.func = KeyFn.fn_viewWorkspace then
    match k.arg with
    | Arg.ptr v => decide (0 ≤ v ∧ v < 10)
    | Arg.str _ => false
  else true

/-- The state is as `setup` builds it before any window is managed: the client
records and counts are those `setupWorkspaces` leaves, the focus stack is empty,
no client is selected, and every monitor shows a workspace in `0..9` with a
layout of `layouts`. -/
def Started (V : Int) (s : State) : Prop :=
  s.mem = (setupWorkspaces V).mem ∧ s.w_numClients = (setupWorkspaces V).w_numClients ∧
  s.stack = none ∧ s.sel = none ∧ ∀ m ∈ s.monitors, m.m_workspace < 10 ∧ m.m_layout < 2

/-! ## Concrete states -/

/-- A monitor showing workspace 3 whose work area has origin (0,0), width 1000
and height 900. -/
def demoMonitor : Monitor :=
  { m_realWidth := 1000, m_realHeight := 900, m_width := 1000, m_height := 900,
    wax := 0, way := 0, waw := 1000, wah := 900, m_workspace := 3 }

/-- The state `setup` leaves (split 500 for every workspace) with the single
monitor `demoMonitor`, the bar height `bh`, and `cls a` as the record of every
client `a` (none of them attached to a ring yet). -/
def demoState (bh : Int) (cls : Nat → Client) : State :=
  { setupWorkspaces 500 with
    monitors := [demoMonitor]
    bh := bh
    mem := fun a => if a = rootClient then (setupWorkspaces 500).mem a else cls a }

/-- The record of a managed window without size hints and with border `b`, as
`updatesizehints` leaves it. -/
def plainClient (b : Int) : Client := { c_incw := 1, c_inch := 1, c_border := b }

/-- The state `demoState` with clients 1, 2 and 3 attached, in this order, to
ring 3. -/
def demoThree (bh : Int) (cls : Nat → Client) : State :=
  (((demoState bh cls).attached 1 3 0).attached 2 3 1).attached 3 3 2

/-- The state `demoThree` on a monitor whose work area is only `wah` high. -/
def demoLow (bh wah : Int) (cls : Nat → Client) : State :=
  { demoThree bh cls with monitors := [{ demoMonitor with wah := wah }] }

/-- Client records for `demoThree`: client 2 is floating with the geometry
(7, 8, 90, 80), the others are tiled; none has size hints. -/
def floatingSecond (a : Nat) : Client :=
  if a = 2 then { plainClient 1 with c_isfloating := true, x := 7, y := 8, w := 90, h := 80 }
  else plainClient 1

/-- A display with two Xinerama heads, 1920x1080 at (0,0) and 1280x1024 at
(1920,0), and a font 12 pixels high. -/
def twoHeads : Display :=
  { isxinerama := true,
    info := [{ x_org := 0, y_org := 0, width := 1920, height := 1080 },
             { x_org := 1920, y_org := 0, width := 1280, height := 1024 }],
    fontHeight := 12 }

/-- A display with one screen of 240x320 pixels and a font 12 pixels high. -/
def smallDisplay : Display :=
  { displayWidth := fun _ => 240, displayHeight := fun _ => 320, fontHeight := 12 }

/-- The configuration with `VSPLIT` 500 and an `fn_setmwfact` that does
nothing. -/
def demoConfig : Config := { VSPLIT := 500, fn_setmwfact := fun _ s => some s }

/-- Client records for `demoThree`: client 1, the head of the ring, is floating
with the geometry (7, 8, 90, 80), the others are tiled; none has size hints. -/
def floatingFirst (a : Nat) : Client :=
  if a = 1 then { plainClient 1 with c_isfloating := true, x := 7, y := 8, w := 90, h := 80 }
  else plainClient 1

/-- The state `demoThree` with clients 1, 2 and 3 also attached to ring 0, as
`manage` attaches every client. -/
def demoAll (bh : Int) (cls : Nat → Client) : State :=
  (((demoThree bh cls).attached 1 0 0).attached 2 0 1).attached 3 0 2

/-- The state `demoAll` with the floating client 2 selected, as `buttonpress`
leaves it when a drag of client 2 starts. -/
def demoDrag : State := { demoAll 20 floatingSecond with sel := some 2 }

theorem setNext_next (s : State) (a w : Nat) (p : Option Nat) (b v : Nat) :
    ((s.setNext a w p).mem b).c_next v
      = if b = a ∧ v = w then p else (s.mem b).c_next v := by
  unfold State.setNext
  by_cases hb : b = a
  · subst hb
    by_cases hv : v = w
    · subst hv; simp
    · simp [hv, Function.update_noteq hv]
  · simp [hb, Function.update_noteq hb]

theorem setNext_prev (s : State) (a w : Nat) (p : Option Nat) (b : Nat) :
    ((s.setNext a w p).mem b).c_prev = (s.mem b).c_prev := by
  unfold State.setNext
  by_cases hb : b = a
  · subst hb; simp
  · simp [hb, Function.update_noteq hb]

theorem setPrev_prev (s : State) (a w : Nat) (p : Option Nat) (b v : Nat) :
    ((s.setPrev a w p).mem b).c_prev v
      = if b = a ∧ v = w then p else (s.mem b).c_prev v := by
  unfold State.setPrev
  by_cases hb : b = a
  · subst hb
    by_cases hv : v = w
    · subst hv; simp
    · simp [hv, Function.update_noteq hv]
  · simp [hb, Function.update_noteq hb]

theorem setPrev_next (s : State) (a w : Nat) (p : Option Nat) (b : Nat) :
    ((s.setPrev a w p).mem b).c_next = (s.mem b).c_next := by
  unfold State.setPrev
  by_cases hb : b = a
  · subst hb; simp
  · simp [hb, Function.update_noteq hb]

theorem setNext_mem (s : State) (a w : Nat) (p : Option Nat) (b : Nat) :
    (s.setNext a w p).mem b = { (s.mem b) with c_next := ((s.setNext a w p).mem b).c_next } := by
  unfold State.setNext
  by_cases hb : b = a
  · subst hb; simp
  · simp [hb, Function.update_noteq hb]

theorem setPrev_mem (s : State) (a w : Nat) (p : Option Nat) (b : Nat) :
    (s.setPrev a w p).mem b = { (s.mem b) with c_prev := ((s.setPrev a w p).mem b).c_prev } := by
  unfold State.setPrev
  by_cases hb : b = a
  · subst hb; simp
  · simp [hb, Function.update_noteq hb]

theorem ws_attach_eq (s : State) (c w p : Nat) (hw : w < 10) (hc : c ≠ rootClient)
    (hn : (s.mem c).c_next w = none) (hp : (s.mem rootClient).c_prev w = some p) :
    ws_attach c w s = some (s.attached c w p) := by
  have hc' : rootClient ≠ c := fun h => hc h.symm
  unfold ws_attach
  simp only [Nat.not_le.mpr hw, if_false, hn, ne_eq, not_true_eq_false]
  have h2 : ((((s.setNext c w (some rootClient)).setPrev c w
      (((s.setNext c w (some rootClient)).mem rootClient).c_prev w)).mem rootClient).c_prev w) = some p := by
    rw [setPrev_prev, setNext_prev]; simp [hp]
  rw [h2]
  simp only [Option.some.injEq]
  apply State.ext <;> try rfl
  funext a
  show (State.setPrev _ _ _ _).mem a = _
  rw [setPrev_mem, setNext_mem, setPrev_mem, setNext_mem]
  apply Client.ext <;> try rfl
  · funext v
    simp only [State.attached, State.relink, setPrev_next, setNext_next, Function.update_apply]
    by_cases hv : v = w
    · subst hv
      by_cases h1 : a = p <;> by_cases h2 : a = c <;> simp [h1, h2]
    · simp [hv]
  · funext v
    simp only [State.attached, State.relink, setPrev_prev, setNext_prev, Function.update_apply]
    by_cases hv : v = w
    · subst hv
      by_cases h1 : a = rootClient <;> by_cases h2 : a = c <;> simp [h1, h2, hp, hc']
    · simp [hv]

theorem chain_frame (s s' : State) (w : Nat) :
    ∀ L : List Nat, List.Chain' (linked s w) L →
      (∀ x ∈ L.dropLast, (s'.mem x).c_next w = (s.mem x).c_next w) →
      (∀ x ∈ L.tail, (s'.mem x).c_prev w = (s.mem x).c_prev w) →
      List.Chain' (linked s' w) L
  | [], _, _, _ => List.chain'_nil
  | [_], _, _, _ => List.chain'_singleton _
  | a :: b :: L, h, hn, hp => by
    rw [List.chain'_cons] at h ⊢
    refine ⟨?_, chain_frame s s' w (b :: L) h.2 ?_ ?_⟩
    · unfold linked at h ⊢
      rw [hn a (by simp), hp b (by simp)]
      exact h.1
    · intro x hx
      exact hn x (by simp [List.dropLast] at hx ⊢; right; exact hx)
    · intro x hx
      exact hp x (by simp at hx ⊢; right; exact hx)

theorem ringFrom_of_chain (s : State) (w : Nat) :
    ∀ (l : List Nat) (a fuel : Nat),
      List.Chain' (linked s w) (a :: l ++ [rootClient]) → rootClient ∉ l → l.length < fuel →
      ringFrom s w fuel ((s.mem a).c_next w) = some l
  | [], a, fuel, h, _, hf => by
    obtain ⟨f, rfl⟩ : ∃ f, fuel = f + 1 := ⟨fuel - 1, by simp at hf; omega⟩
    have h1 : (s.mem a).c_next w = some rootClient := by
      simpa [linked] using (List.chain'_cons.mp h).1.1
    rw [h1]; simp [ringFrom]
  | b :: l, a, fuel, h, hr, hf => by
    obtain ⟨f, rfl⟩ : ∃ f, fuel = f + 1 := ⟨fuel - 1, by simp at hf; omega⟩
    have h0 := List.chain'_cons.mp h
    have h1 : (s.mem a).c_next w = some b := h0.1.1
    have hb : b ≠ rootClient := fun e => hr (by simp [e])
    rw [h1]
    simp only [ringFrom, hb, if_false]
    rw [ringFrom_of_chain s w l b f h0.2 (fun e => hr (List.mem_cons_of_mem _ e))
      (by simp at hf; omega)]
    rfl

theorem IsRing.ring_eq {s : State} {w : Nat} {l : List Nat} (h : IsRing s w l)
    (fuel : Nat) (hf : l.length < fuel) : ring fuel s w = some l :=
  ringFrom_of_chain s w l rootClient fuel h.2.2.1 h.2.1 hf

theorem IsRing.unique {s : State} {w : Nat} {l l' : List Nat} (h : IsRing s w l)
    (h' : IsRing s w l') : l = l' := by
  have h1 := h.ring_eq (l.length + l'.length + 1) (by omega)
  have h2 := h'.ring_eq (l.length + l'.length + 1) (by omega)
  rw [h1] at h2
  exact Option.some.inj h2

theorem ne_last_of_mem_dropLast {L : List Nat} {p x : Nat} (hnd : L.Nodup)
    (hp : L.getLast? = some p) (hx : x ∈ L.dropLast) : x ≠ p := by
  have h := List.dropLast_append_getLast? p hp
  rw [← h] at hnd
  intro e
  subst e
  exact (List.nodup_append.mp hnd).2.2 hx (by simp)

theorem ne_head_of_mem_tail {L : List Nat} {n x : Nat} (hnd : L.Nodup)
    (hn : L.head? = some n) (hx : x ∈ L.tail) : x ≠ n := by
  cases L with
  | nil => simp at hn
  | cons a L =>
    simp at hn hx
    subst hn
    intro e
    subst e
    exact (List.nodup_cons.mp hnd).1 hx

theorem IsRing.nodup_cons {s : State} {w : Nat} {l : List Nat} (h : IsRing s w l) :
    (rootClient :: l).Nodup :=
  List.nodup_cons.mpr ⟨h.2.1, h.1⟩

theorem IsRing.nodup_concat {s : State} {w : Nat} {l : List Nat} (h : IsRing s w l) :
    (l ++ [rootClient]).Nodup := by
  rw [List.nodup_append]
  refine ⟨h.1, by simp, ?_⟩
  intro a ha hb
  simp at hb
  exact h.2.1 (hb ▸ ha)

/-- The sentinel's `c_prev[w]` of a well-formed ring is its last member (the
sentinel itself when the ring is empty). -/
theorem IsRing.root_prev {s : State} {w : Nat} {l : List Nat} (h : IsRing s w l) :
    ∃ p, (rootClient :: l).getLast? = some p ∧ (s.mem rootClient).c_prev w = some p ∧
      (s.mem p).c_next w = some rootClient := by
  have hc : List.Chain' (linked s w) ((rootClient :: l) ++ [rootClient]) := by
    simpa using h.2.2.1
  rw [List.chain'_append] at hc
  cases hl : (rootClient :: l).getLast? with
  | none => simp at hl
  | some p =>
    have := hc.2.2 p hl rootClient (by simp)
    exact ⟨p, rfl, this.2, this.1⟩

theorem IsRing.attach {s s' : State} {w c p : Nat} {l : List Nat} (h : IsRing s w l)
    (hc : c ≠ rootClient) (hcl : c ∉ l) (hp : (s.mem rootClient).c_prev w = some p)
    (hn : ∀ x, (s'.mem x).c_next w =
      if x = p then some c else if x = c then some rootClient else (s.mem x).c_next w)
    (hv : ∀ x, (s'.mem x).c_prev w =
      if x = rootClient then some c else if x = c then some p else (s.mem x).c_prev w) :
    IsRing s' w (l ++ [c]) := by
  obtain ⟨q, hq, hq', _⟩ := h.root_prev
  have hqp : q = p := by rw [hp] at hq'; exact (Option.some.inj hq').symm
  subst hqp
  have hpm : q ∈ rootClient :: l := List.mem_of_getLast?_eq_some hq
  have hcq : c ≠ q := by
    intro e; subst e
    rcases List.mem_cons.mp hpm with e | e
    · exact hc e
    · exact hcl e
  have hch : List.Chain' (linked s w) ((rootClient :: l) ++ [rootClient]) := by
    simpa using h.2.2.1
  rw [List.chain'_append] at hch
  refine ⟨?_, ?_, ?_, ?_⟩
  · rw [List.nodup_append]
    refine ⟨h.1, by simp, ?_⟩
    intro a ha hb
    simp at hb
    exact hcl (hb ▸ ha)
  · simp only [List.mem_append, List.mem_singleton, not_or]
    exact ⟨h.2.1, fun e => hc e.symm⟩
  · have e : rootClient :: (l ++ [c]) ++ [rootClient] = (rootClient :: l) ++ [c, rootClient] := by
      simp
    rw [e, List.chain'_append]
    refine ⟨?_, ?_, ?_⟩
    · apply chain_frame s s' w _ hch.1
      · intro x hx
        have h1 : x ≠ q := ne_last_of_mem_dropLast h.nodup_cons hq hx
        have h2 : x ≠ c := by
          intro e; subst e
          rcases List.mem_cons.mp (List.dropLast_subset _ hx) with e | e
          · exact hc e
          · exact hcl e
        rw [hn]; simp [h1, h2]
      · intro x hx
        simp only [List.tail_cons] at hx
        have h1 : x ≠ rootClient := fun e => h.2.1 (e ▸ hx)
        have h2 : x ≠ c := fun e => hcl (e ▸ hx)
        rw [hv]; simp [h1, h2]
    · rw [List.chain'_pair]
      constructor
      · rw [hn]; simp [hcq]
      · rw [hv]; simp
    · intro x hx y hy
      rw [hq] at hx
      simp at hx hy
      subst hx; subst hy
      constructor
      · rw [hn]; simp
      · rw [hv]; simp [hc]
  · intro a ha hal
    simp only [List.mem_append, List.mem_singleton, not_or] at hal
    have h1 : a ≠ q := by
      intro e; subst e
      rcases List.mem_cons.mp hpm with e | e
      · exact ha e
      · exact hal.1 e
    rw [hn, hv]
    simp only [h1, hal.2, ha, if_false]
    exact h.2.2.2 a ha hal.1

theorem ws_detach_eq (s : State) (c w n p : Nat) (hw : w < 10)
    (hn : (s.mem c).c_next w = some n) (hp : (s.mem c).c_prev w = some p)
    (hcn : c ≠ n) :
    ws_detach c w s = some (s.detached c w n p) := by
  unfold ws_detach
  simp only [Nat.not_le.mpr hw, if_false, hn]
  have h2 : ((s.setPrev n w ((s.mem c).c_prev w)).mem c).c_prev w = some p := by
    rw [setPrev_prev]; simp [hp, hcn]
  rw [h2]
  simp only [Option.some.injEq]
  apply State.ext <;> try rfl
  funext a
  show (State.setNext _ _ _ _).mem a = _
  rw [setNext_mem, setPrev_mem, setNext_mem, setPrev_mem]
  apply Client.ext <;> try rfl
  · funext v
    simp only [State.detached, State.relink, setPrev_next, setNext_next, Function.update_apply]
    by_cases hv : v = w
    · subst hv
      by_cases h1 : a = c <;> by_cases h2 : a = p <;> simp [h1, h2, hn]
    · simp [hv]
  · funext v
    simp only [State.detached, State.relink, setPrev_prev, setNext_prev, Function.update_apply]
    by_cases hv : v = w
    · subst hv
      by_cases h1 : a = c <;> by_cases h2 : a = n <;> simp [h1, h2, hp]
    · simp [hv]

/-- The links of a member `c` of a well-formed ring, with the members before
and after it. -/
theorem IsRing.split {s : State} {w c : Nat} {l : List Nat} (h : IsRing s w l) (hc : c ∈ l) :
    ∃ l1 l2 p n, l = l1 ++ c :: l2 ∧ c ∉ l1 ∧ c ∉ l2 ∧
      (rootClient :: l1).getLast? = some p ∧ (l2 ++ [rootClient]).head? = some n ∧
      linked s w p c ∧ linked s w c n ∧
      List.Chain' (linked s w) (rootClient :: l1) ∧
      List.Chain' (linked s w) (l2 ++ [rootClient]) := by
  obtain ⟨l1, l2, rfl⟩ := List.append_of_mem hc
  have hnd := h.1
  rw [List.nodup_append] at hnd
  have hc1 : c ∉ l1 := fun e => hnd.2.2 e (by simp)
  have hc2 : c ∉ l2 := (List.nodup_cons.mp hnd.2.1).1
  have hch : List.Chain' (linked s w) ((rootClient :: l1) ++ (c :: (l2 ++ [rootClient]))) := by
    simpa using h.2.2.1
  rw [List.chain'_append] at hch
  cases hl : (rootClient :: l1).getLast? with
  | none => simp at hl
  | some p =>
    cases hh : (l2 ++ [rootClient]).head? with
    | none => cases l2 <;> simp at hh
    | some n =>
      have h1 := hch.2.2 p hl c (by simp)
      have h2 := hch.2.1
      rw [List.chain'_cons'] at h2
      exact ⟨l1, l2, p, n, rfl, hc1, hc2, hl, hh, h1, h2.1 n hh, hch.1, h2.2⟩

theorem IsRing.detach {s : State} {w c : Nat} {l : List Nat} (h : IsRing s w l)
    (hcl : c ∈ l) :
    ∃ n p, (s.mem c).c_next w = some n ∧ (s.mem c).c_prev w = some p ∧ c ≠ n ∧ c ≠ p ∧
    ∀ s' : State, ((∀ x, (s'.mem x).c_next w =
        if x = c then none else if x = p then some n else (s.mem x).c_next w) →
     (∀ x, (s'.mem x).c_prev w =
        if x = c then none else if x = n then some p else (s.mem x).c_prev w) →
     IsRing s' w (l.erase c)) := by
  obtain ⟨l1, l2, p, n, rfl, hc1, hc2, hp, hn, hpc, hcn, hA, hB⟩ := h.split hcl
  have hcr : c ≠ rootClient := fun e => h.2.1 (e ▸ hcl)
  have hnd := h.1
  rw [List.nodup_append] at hnd
  have hnd2 := List.nodup_cons.mp hnd.2.1
  have hr1 : rootClient ∉ l1 := fun e => h.2.1 (by simp [e])
  have hr2 : rootClient ∉ l2 := fun e => h.2.1 (by simp [e])
  have hpA : p ∈ rootClient :: l1 := List.mem_of_getLast?_eq_some hp
  have hnB : n ∈ l2 ++ [rootClient] := List.mem_of_mem_head? hn
  have hdisj : ∀ x, x ∈ l1 → x ∉ l2 := fun x h1 h2 => hnd.2.2 h1 (List.mem_cons_of_mem _ h2)
  have hcp : c ≠ p := by
    intro e; subst e
    rcases List.mem_cons.mp hpA with e | e
    · exact hcr e
    · exact hc1 e
  have hcn' : c ≠ n := by
    intro e; subst e
    rcases List.mem_append.mp hnB with e | e
    · exact hc2 e
    · exact hcr (by simpa using e)
  refine ⟨n, p, hcn.1, hpc.2, hcn', hcp, fun s' hnx hpv => ?_⟩
  have he : (l1 ++ c :: l2).erase c = l1 ++ l2 := by
    rw [List.erase_append_right _ hc1, List.erase_cons_head]
  rw [he]
  have hndA : (rootClient :: l1).Nodup := List.nodup_cons.mpr ⟨hr1, hnd.1⟩
  have hndB : (l2 ++ [rootClient]).Nodup := by
    rw [List.nodup_append]
    refine ⟨hnd2.2, by simp, ?_⟩
    intro a ha hb
    simp at hb
    exact hr2 (hb ▸ ha)
  refine ⟨?_, ?_, ?_, ?_⟩
  · rw [List.nodup_append]
    exact ⟨hnd.1, hnd2.2, fun a h1 h2 => hdisj a h1 h2⟩
  · simp only [List.mem_append, not_or]; exact ⟨hr1, hr2⟩
  · have e : rootClient :: (l1 ++ l2) ++ [rootClient] = (rootClient :: l1) ++ (l2 ++ [rootClient]) := by
      simp
    rw [e, List.chain'_append]
    refine ⟨?_, ?_, ?_⟩
    · apply chain_frame s s' w _ hA
      · intro x hx
        have h1 : x ≠ p := ne_last_of_mem_dropLast hndA hp hx
        have h2 : x ≠ c := by
          intro e; subst e
          rcases List.mem_cons.mp (List.dropLast_subset _ hx) with e | e
          · exact hcr e
          · exact hc1 e
        rw [hnx]; simp [h1, h2]
      · intro x hx
        simp only [List.tail_cons] at hx
        have h1 : x ≠ c := fun e => hc1 (e ▸ hx)
        have h2 : x ≠ n := by
          intro e; subst e
          rcases List.mem_append.mp hnB with e | e
          · exact hdisj x hx e
          · exact hr1 (by simp at e; exact e ▸ hx)
        rw [hpv]; simp [h1, h2]
    · apply chain_frame s s' w _ hB
      · intro x hx
        rw [List.dropLast_concat] at hx
        have h1 : x ≠ c := fun e => hc2 (e ▸ hx)
        have h2 : x ≠ p := by
          intro e; subst e
          rcases List.mem_cons.mp hpA with e | e
          · exact hr2 (e ▸ hx)
          · exact hdisj x e hx
        rw [hnx]; simp [h1, h2]
      · intro x hx
        have h1 : x ≠ n := ne_head_of_mem_tail hndB hn hx
        have h2 : x ≠ c := by
          intro e; subst e
          rcases List.mem_append.mp (List.mem_of_mem_tail hx) with e | e
          · exact hc2 e
          · exact hcr (by simpa using e)
        rw [hpv]; simp [h1, h2]
    · intro x hx y hy
      rw [hp] at hx
      rw [hn] at hy
      simp at hx hy
      subst hx; subst hy
      constructor
      · rw [hnx]; simp [Ne.symm hcp]
      · rw [hpv]; simp [Ne.symm hcn']
  · intro a ha hal
    simp only [List.mem_append, not_or] at hal
    rw [hnx, hpv]
    by_cases hac : a = c
    · simp [hac]
    · have hal' : a ∉ l1 ++ c :: l2 := by
        simp only [List.mem_append, List.mem_cons, not_or]
        exact ⟨hal.1, hac, hal.2⟩
      have h1 : a ≠ p := by
        intro e; subst e
        rcases List.mem_cons.mp hpA with e | e
        · exact ha e
        · exact hal.1 e
      have h2 : a ≠ n := by
        intro e; subst e
        rcases List.mem_append.mp hnB with e | e
        · exact hal.2 e
        · exact ha (by simpa using e)
      simp only [hac, h1, h2, if_false]
      exact h.2.2.2 a ha hal'

theorem relink_next (s : State) (w : Nat) (nx pv : Nat → Option Nat) (cnt : Int) (a v : Nat) :
    ((s.relink w nx pv cnt).mem a).c_next v = if v = w then nx a else (s.mem a).c_next v := by
  simp [State.relink, Function.update_apply]

theorem relink_prev (s : State) (w : Nat) (nx pv : Nat → Option Nat) (cnt : Int) (a v : Nat) :
    ((s.relink w nx pv cnt).mem a).c_prev v = if v = w then pv a else (s.mem a).c_prev v := by
  simp [State.relink, Function.update_apply]

theorem relink_count (s : State) (w : Nat) (nx pv : Nat → Option Nat) (cnt : Int) (v : Nat) :
    (s.relink w nx pv cnt).w_numClients v = if v = w then cnt else s.w_numClients v := by
  simp [State.relink, Function.update_apply]

theorem attached_count (s : State) (c w p v : Nat) :
    (s.attached c w p).w_numClients v
      = if v = w then s.w_numClients w + 1 else s.w_numClients v := by
  rw [State.attached, relink_count]

theorem detached_count (s : State) (c w n p v : Nat) :
    (s.detached c w n p).w_numClients v
      = if v = w then s.w_numClients w - 1 else s.w_numClients v := by
  rw [State.detached, relink_count]

theorem IsRing.congr {s s' : State} {w : Nat} {l : List Nat} (h : IsRing s w l)
    (hn : ∀ x, (s'.mem x).c_next w = (s.mem x).c_next w)
    (hp : ∀ x, (s'.mem x).c_prev w = (s.mem x).c_prev w) : IsRing s' w l :=
  ⟨h.1, h.2.1, chain_frame s s' w _ h.2.2.1 (fun x _ => hn x) (fun x _ => hp x),
    fun a h1 h2 => by rw [hn, hp]; exact h.2.2.2 a h1 h2⟩

theorem IsRing.relink_other {s : State} {w v : Nat} {l : List Nat} (h : IsRing s v l)
    (hvw : v ≠ w) (nx pv : Nat → Option Nat) (cnt : Int) :
    IsRing (s.relink w nx pv cnt) v l :=
  h.congr (fun x => by rw [relink_next]; simp [hvw]) (fun x => by rw [relink_prev]; simp [hvw])

theorem IsRing.attached_other {s : State} {w v : Nat} {l : List Nat} (h : IsRing s v l)
    (hvw : v ≠ w) (c p : Nat) : IsRing (s.attached c w p) v l :=
  h.relink_other hvw _ _ _

theorem IsRing.detached_other {s : State} {w v : Nat} {l : List Nat} (h : IsRing s v l)
    (hvw : v ≠ w) (c n p : Nat) : IsRing (s.detached c w n p) v l :=
  h.relink_other hvw _ _ _

/-- In a well-formed ring every member, and the sentinel, has both links set. -/
theorem IsRing.links_of_mem {s : State} {w c : Nat} {l : List Nat} (h : IsRing s w l)
    (hc : c ∈ l) : ∃ n p, (s.mem c).c_next w = some n ∧ (s.mem c).c_prev w = some p := by
  obtain ⟨_, _, p, n, _, _, _, _, _, hpc, hcn, _, _⟩ := h.split hc
  exact ⟨n, p, hcn.1, hpc.2⟩

theorem IsRing.mem_iff {s : State} {w c : Nat} {l : List Nat} (h : IsRing s w l)
    (hc : c ≠ rootClient) : isMember s c w = true ↔ c ∈ l := by
  unfold isMember
  constructor
  · intro hm
    by_contra hcl
    rw [(h.2.2.2 c hc hcl).1] at hm
    simp at hm
  · intro hcl
    obtain ⟨n, _, hn, _⟩ := h.links_of_mem hcl
    simp [hn]

theorem IsRing.not_mem {s : State} {w c : Nat} {l : List Nat} (h : IsRing s w l)
    (hc : c ≠ rootClient) (hm : isMember s c w = false) : c ∉ l := by
  intro hcl
  rw [(h.mem_iff hc).mpr hcl] at hm
  exact Bool.noConfusion hm

theorem isMember_false_iff (s : State) (c w : Nat) :
    isMember s c w = false ↔ (s.mem c).c_next w = none := by
  unfold isMember
  cases (s.mem c).c_next w <;> simp

/-- Effect of `ws_attach` on a client that is not a member of a well-formed
ring. -/
theorem ws_attach_ring {s : State} {c w : Nat} {l : List Nat} (hw : w < 10)
    (hc : c ≠ rootClient) (hr : IsRing s w l) (hm : isMember s c w = false) :
    ∃ p, (s.mem rootClient).c_prev w = some p ∧ (s.mem p).c_next w = some rootClient ∧
      ws_attach c w s = some (s.attached c w p) ∧ IsRing (s.attached c w p) w (l ++ [c]) := by
  obtain ⟨p, _, hp, hpn⟩ := hr.root_prev
  have hn := (isMember_false_iff s c w).mp hm
  refine ⟨p, hp, hpn, ws_attach_eq s c w p hw hc hn hp, ?_⟩
  apply hr.attach hc (hr.not_mem hc hm) hp
  · intro x; rw [State.attached, relink_next]; simp
  · intro x; rw [State.attached, relink_prev]; simp

/-- Effect of `ws_detach` on a member of a well-formed ring. -/
theorem ws_detach_ring {s : State} {c w : Nat} {l : List Nat} (hw : w < 10)
    (hr : IsRing s w l) (hcl : c ∈ l) :
    ∃ n p, (s.mem c).c_next w = some n ∧ (s.mem c).c_prev w = some p ∧
      ws_detach c w s = some (s.detached c w n p) ∧
      IsRing (s.detached c w n p) w (l.erase c) := by
  obtain ⟨n, p, hn, hp, hcn, _, hring⟩ := hr.detach hcl
  refine ⟨n, p, hn, hp, ws_detach_eq s c w n p hw hn hp hcn, ?_⟩
  apply hring
  · intro x; rw [State.detached, relink_next]; simp
  · intro x; rw [State.detached, relink_prev]; simp

theorem IsRing.root_next {s : State} {w : Nat} {l : List Nat} (h : IsRing s w l) :
    ∃ n, (s.mem rootClient).c_next w = some n := by
  have hc := h.2.2.1
  cases l with
  | nil => exact ⟨rootClient, (List.chain'_cons.mp hc).1.1⟩
  | cons b l => exact ⟨b, (List.chain'_cons.mp hc).1.1⟩

theorem IsRing.both_or_none {s : State} {w : Nat} {l : List Nat} (h : IsRing s w l) (c : Nat) :
    (s.mem c).c_next w = none ↔ (s.mem c).c_prev w = none := by
  by_cases hc : c = rootClient
  · subst hc
    obtain ⟨n, hn⟩ := h.root_next
    obtain ⟨p, _, hp, _⟩ := h.root_prev
    simp [hn, hp]
  · by_cases hcl : c ∈ l
    · obtain ⟨n, p, hn, hp⟩ := h.links_of_mem hcl
      simp [hn, hp]
    · have := h.2.2.2 c hc hcl
      simp [this.1, this.2]

theorem setupWorkspaces_isRing (V : Int) (w : Nat) (hw : w < 10) :
    IsRing (setupWorkspaces V) w [] := by
  refine ⟨List.nodup_nil, by simp, ?_, ?_⟩
  · simp [linked, setupWorkspaces, hw]
  · intro a ha _
    simp [setupWorkspaces, ha]

theorem setupWorkspaces_inv (V : Int) : RegInv (setupWorkspaces V) := fun w hw =>
  ⟨[], setupWorkspaces_isRing V w hw, by simp [setupWorkspaces]⟩

theorem ws_attach_member {s : State} {c w : Nat} (hw : w < 10)
    (hm : isMember s c w = true) : ws_attach c w s = some s := by
  unfold isMember at hm
  unfold ws_attach
  have : (s.mem c).c_next w ≠ none := by
    intro e; rw [e] at hm; simp at hm
  simp [Nat.not_le.mpr hw, this]

theorem ws_detach_nonmember {s : State} {c w : Nat} (hw : w < 10)
    (hm : isMember s c w = false) : ws_detach c w s = some s := by
  have hn := (isMember_false_iff s c w).mp hm
  unfold ws_detach
  simp [Nat.not_le.mpr hw, hn]

theorem ws_attach_inv {s : State} {c w : Nat} (hw : w < 10) (hc : c ≠ rootClient)
    (hi : RegInv s) : ∃ s', ws_attach c w s = some s' ∧ RegInv s' := by
  cases hm : isMember s c w with
  | true => exact ⟨s, ws_attach_member hw hm, hi⟩
  | false =>
    obtain ⟨l, hr, hcnt⟩ := hi w hw
    obtain ⟨p, _, _, he, hr'⟩ := ws_attach_ring hw hc hr hm
    refine ⟨_, he, fun v hv => ?_⟩
    by_cases hvw : v = w
    · subst hvw
      exact ⟨l ++ [c], hr', by rw [attached_count]; simp [hcnt]⟩
    · obtain ⟨l', hr2, hcnt2⟩ := hi v hv
      exact ⟨l', hr2.attached_other hvw _ _, by rw [attached_count]; simp [hvw, hcnt2]⟩

theorem ws_detach_inv {s : State} {c w : Nat} (hw : w < 10) (hc : c ≠ rootClient)
    (hi : RegInv s) : ∃ s', ws_detach c w s = some s' ∧ RegInv s' := by
  cases hm : isMember s c w with
  | false => exact ⟨s, ws_detach_nonmember hw hm, hi⟩
  | true =>
    obtain ⟨l, hr, hcnt⟩ := hi w hw
    have hcl := (hr.mem_iff hc).mp hm
    obtain ⟨n, p, _, _, he, hr'⟩ := ws_detach_ring hw hr hcl
    refine ⟨_, he, fun v hv => ?_⟩
    by_cases hvw : v = w
    · subst hvw
      refine ⟨l.erase c, hr', ?_⟩
      rw [detached_count, List.length_erase_of_mem hcl]
      have : 0 < l.length := List.length_pos_of_mem hcl
      simp [hcnt]
      omega
    · obtain ⟨l', hr2, hcnt2⟩ := hi v hv
      exact ⟨l', hr2.detached_other hvw _ _ _, by rw [detached_count]; simp [hvw, hcnt2]⟩

theorem detachFrom_inv {c : Nat} (hc : c ≠ rootClient) :
    ∀ (k : Nat) (s : State), k ≤ 10 → RegInv s → ∃ s', detachFrom c k s = some s' ∧ RegInv s'
  | 0, s, _, hi => ⟨s, rfl, hi⟩
  | k + 1, s, hk, hi => by
    obtain ⟨s1, h1, hi1⟩ := ws_detach_inv (w := 10 - (k + 1)) (by omega) hc hi
    obtain ⟨s2, h2, hi2⟩ := detachFrom_inv hc k s1 (by omega) hi1
    exact ⟨s2, by rw [detachFrom, h1]; exact h2, hi2⟩

theorem RegOp.run_inv {op : RegOp} {s : State} (hv : op.valid = true) (hi : RegInv s) :
    ∃ s', op.run s = some s' ∧ RegInv s' := by
  cases op with
  | attach c w =>
    simp [RegOp.valid] at hv
    exact ws_attach_inv hv.2 hv.1 hi
  | detach c w =>
    simp [RegOp.valid] at hv
    exact ws_detach_inv hv.2 hv.1 hi
  | detachAll c =>
    simp [RegOp.valid] at hv
    exact detachFrom_inv hv 10 s (le_refl _) hi

theorem runOps_inv : ∀ (ops : List RegOp) (s : State), (∀ op ∈ ops, op.valid = true) →
    RegInv s → ∃ s', runOps ops s = some s' ∧ RegInv s'
  | [], s, _, hi => ⟨s, rfl, hi⟩
  | op :: ops, s, hv, hi => by
    obtain ⟨s1, h1, hi1⟩ := RegOp.run_inv (hv op (by simp)) hi
    obtain ⟨s2, h2, hi2⟩ := runOps_inv ops s1 (fun o ho => hv o (by simp [ho])) hi1
    refine ⟨s2, ?_, hi2⟩
    unfold runOps at h2 ⊢
    simp [List.foldlM, h1, h2]

theorem Client.Frame.client_refl (c : Client) : Client.Frame c c := rfl

theorem Client.Frame.client_trans {a b c : Client} (h1 : Client.Frame a b) (h2 : Client.Frame b c) :
    Client.Frame a c := by
  unfold Client.Frame at *
  rw [h2, h1]

theorem Frame.refl (s : State) : Frame s s := ⟨fun _ => rfl, rfl⟩

theorem Frame.trans {a b c : State} (h1 : Frame a b) (h2 : Frame b c) : Frame a c := by
  refine ⟨fun x => Client.Frame.client_trans (h1.1 x) (h2.1 x), ?_⟩
  have e1 := h1.2
  have e2 := h2.2
  rw [e2, e1]

theorem Frame.next {s s' : State} (h : Frame s s') (a : Nat) :
    (s'.mem a).c_next = (s.mem a).c_next := by
  have e := congrArg Client.c_next (h.1 a)
  exact e

theorem Frame.prev {s s' : State} (h : Frame s s') (a : Nat) :
    (s'.mem a).c_prev = (s.mem a).c_prev := by
  have e := congrArg Client.c_prev (h.1 a)
  exact e

theorem Frame.floating {s s' : State} (h : Frame s s') (a : Nat) :
    (s'.mem a).c_isfloating = (s.mem a).c_isfloating := by
  have e := congrArg Client.c_isfloating (h.1 a)
  exact e

theorem Frame.border {s s' : State} (h : Frame s s') (a : Nat) :
    (s'.mem a).c_border = (s.mem a).c_border := by
  have e := congrArg Client.c_border (h.1 a)
  exact e

theorem Frame.c_monitor {s s' : State} (h : Frame s s') (a : Nat) :
    (s'.mem a).c_monitor = (s.mem a).c_monitor := by
  have e := congrArg Client.c_monitor (h.1 a)
  exact e

theorem Frame.monitors {s s' : State} (h : Frame s s') : s'.monitors = s.monitors := by
  have e := congrArg State.monitors h.2
  exact e

theorem Frame.w_numClients {s s' : State} (h : Frame s s') : s'.w_numClients = s.w_numClients := by
  have e := congrArg State.w_numClients h.2
  exact e

theorem Frame.w_vSplit {s s' : State} (h : Frame s s') : s'.w_vSplit = s.w_vSplit := by
  have e := congrArg State.w_vSplit h.2
  exact e

theorem Frame.stack {s s' : State} (h : Frame s s') : s'.stack = s.stack := by
  have e := congrArg State.stack h.2
  exact e

theorem Frame.bh {s s' : State} (h : Frame s s') : s'.bh = s.bh := by
  have e := congrArg State.bh h.2
  exact e

theorem Frame.sel {s s' : State} (h : Frame s s') : s'.sel = s.sel := by
  have e := congrArg State.sel h.2
  exact e

theorem Frame.selmonitor {s s' : State} (h : Frame s s') : s'.selmonitor = s.selmonitor := by
  have e := congrArg State.selmonitor h.2
  exact e

theorem Frame.isMember {s s' : State} (h : Frame s s') (a w : Nat) :
    isMember s' a w = isMember s a w := by
  unfold Dwm.isMember; rw [h.next]

theorem Frame.isRing {s s' : State} (h : Frame s s') {w : Nat} {l : List Nat}
    (hr : IsRing s w l) : IsRing s' w l :=
  hr.congr (fun x => by rw [h.next]) (fun x => by rw [h.prev])

theorem Frame.log (s : State) (r : List XReq) : Frame s (s.log r) := ⟨fun _ => rfl, rfl⟩

theorem Frame.setClient (s : State) (a : Nat) (cl : Client) (h : Client.Frame (s.mem a) cl) :
    Frame s (s.setClient a cl) := by
  refine ⟨fun b => ?_, rfl⟩
  unfold State.setClient
  by_cases hb : b = a
  · subst hb; simpa using h
  · simp [Function.update_noteq hb]; rfl

theorem Frame.toSel {s s' : State} (h : Frame s s') : FrameSel s s' := by
  unfold FrameSel
  have e1 := h.sel
  have e2 := h.selmonitor
  refine ⟨h.1, ?_⟩
  have e := h.2
  rw [e]

theorem FrameSel.sel_refl (s : State) : FrameSel s s := (Frame.refl s).toSel

theorem FrameSel.sel_trans {a b c : State} (h1 : FrameSel a b) (h2 : FrameSel b c) :
    FrameSel a c := by
  unfold FrameSel at *
  refine ⟨fun x => Client.Frame.client_trans (h1.1 x) (h2.1 x), ?_⟩
  have e1 := h1.2
  have e2 := h2.2
  rw [e2, e1]

theorem FrameSel.setSel (s : State) (c : Option Nat) : FrameSel s { s with sel := c } :=
  ⟨fun _ => rfl, rfl⟩

theorem FrameSel.setSelmonitor (s : State) (i : Nat) :
    FrameSel s { s with selmonitor := i } :=
  ⟨fun _ => rfl, rfl⟩

theorem FrameSel.sel_next {s s' : State} (h : FrameSel s s') (a : Nat) :
    (s'.mem a).c_next = (s.mem a).c_next := Frame.next h a

theorem FrameSel.sel_prev {s s' : State} (h : FrameSel s s') (a : Nat) :
    (s'.mem a).c_prev = (s.mem a).c_prev := Frame.prev h a

theorem FrameSel.sel_w_numClients {s s' : State} (h : FrameSel s s') :
    s'.w_numClients = s.w_numClients := by
  have e := Frame.w_numClients (show Frame _ s' from h)
  exact e

theorem FrameSel.sel_w_vSplit {s s' : State} (h : FrameSel s s') : s'.w_vSplit = s.w_vSplit :=
  by
  have e := Frame.w_vSplit (show Frame _ s' from h)
  exact e

theorem FrameSel.sel_monitors {s s' : State} (h : FrameSel s s') : s'.monitors = s.monitors :=
  by
  have e := Frame.monitors (show Frame _ s' from h)
  exact e

theorem FrameSel.sel_isMember {s s' : State} (h : FrameSel s s') (a w : Nat) :
    isMember s' a w = isMember s a w := Frame.isMember h a w

theorem FrameSel.sel_isRing {s s' : State} (h : FrameSel s s') {w : Nat} {l : List Nat}
    (hr : IsRing s w l) : IsRing s' w l :=
  hr.congr (fun x => by rw [h.next]) (fun x => by rw [h.prev])

theorem ringFrom_congr {s s' : State} {w : Nat}
    (h : ∀ x, (s'.mem x).c_next w = (s.mem x).c_next w) :
    ∀ (fuel : Nat) (p : Option Nat), ringFrom s' w fuel p = ringFrom s w fuel p
  | 0, _ => rfl
  | _ + 1, none => rfl
  | fuel + 1, some a => by
    simp only [ringFrom]
    rw [h a, ringFrom_congr h fuel]

/-- A ring loop whose body keeps the links of ring `w` runs its body on the
members of the ring, in enumeration order. -/
theorem ringFor_eq_foldlM {α : Type} (w : Nat) (body : Nat → α → State → Option (α × State))
    (hb : ∀ a acc s r, body a acc s = some r →
      ∀ x, (r.2.mem x).c_next w = (s.mem x).c_next w) :
    ∀ (fuel : Nat) (p : Option Nat) (l : List Nat) (acc : α) (s : State),
      ringFrom s w fuel p = some l →
      ringFor w body fuel p acc s = l.foldlM (fun r a => body a r.1 r.2) (acc, s)
  | 0, _, _, _, _, h => by simp [ringFrom] at h
  | _ + 1, none, _, _, _, h => by simp [ringFrom] at h
  | fuel + 1, some a, l, acc, s, h => by
    simp only [ringFrom] at h
    by_cases ha : a = rootClient
    · simp only [ha, if_true, Option.some.injEq] at h
      subst h
      simp [ringFor, ha]
    · simp only [ha, if_false, Option.map_eq_some'] at h
      obtain ⟨l', hl', rfl⟩ := h
      simp only [ringFor, ha, if_false, List.foldlM_cons]
      cases hbody : body a acc s with
      | none => rfl
      | some r =>
        have hx := hb a acc s r hbody
        simp only [Option.some_bind, bind, Option.bind]
        rw [hx a]
        exact ringFor_eq_foldlM w body hb fuel _ l' r.1 r.2
          (by rw [ringFrom_congr hx]; exact hl')

theorem foldlM_frame {α : Type} (body : Nat → α → State → Option (α × State)) (s0 : State)
    (P : Nat → Prop) (hb : ∀ a, P a → ∀ acc s1, Frame s0 s1 →
      ∃ r, body a acc s1 = some r ∧ Frame s1 r.2) :
    ∀ (l : List Nat) (acc : α) (s : State), (∀ a ∈ l, P a) → Frame s0 s →
      ∃ r, l.foldlM (fun r a => body a r.1 r.2) (acc, s) = some r ∧ Frame s r.2
  | [], acc, s, _, _ => ⟨(acc, s), rfl, Frame.refl s⟩
  | a :: l, acc, s, hP, hf => by
    obtain ⟨r, hr, hfr⟩ := hb a (hP a (by simp)) acc s hf
    obtain ⟨r2, hr2, hfr2⟩ := foldlM_frame body s0 P hb l r.1 r.2
      (fun x hx => hP x (by simp [hx])) (hf.trans hfr)
    refine ⟨r2, ?_, hfr.trans hfr2⟩
    simp only [List.foldlM_cons, hr, bind, Option.bind]
    exact hr2

theorem resizeApply_frame (c : Nat) (x y w h : Int) (s : State) :
    Frame s (resizeApply c x y w h s) := by
  unfold resizeApply
  by_cases h1 : w ≤ 0 ∨ h ≤ 0
  · rw [if_pos h1]; exact Frame.refl s
  · rw [if_neg h1]
    dsimp only
    by_cases h2 : (s.mem c).x ≠ x ∨ (s.mem c).y ≠ y ∨ (s.mem c).w ≠ w ∨ (s.mem c).h ≠ h
    · rw [if_pos h2]
      refine ⟨fun a => ?_, rfl⟩
      show Client.Frame (s.mem a) (Function.update s.mem c _ a)
      by_cases ha : a = c
      · subst ha; rw [Function.update_same]; rfl
      · rw [Function.update_noteq ha]; rfl
    · rw [if_neg h2]; exact Frame.refl s

theorem applyHints_isSome (cl : Client) (w h : Int) (hw : cl.c_incw ≠ 0) (hh : cl.c_inch ≠ 0) :
    ∃ r, applyHints cl w h = some r := by
  unfold applyHints
  simp [hw, hh]

theorem resize_frame {c : Nat} {x y w h : Int} {sh : Bool} {s s' : State}
    (hr : resize c x y w h sh s = some s') : Frame s s' := by
  unfold resize at hr
  cases sh with
  | false =>
    simp only [Bool.false_eq_true, if_false, Option.some.injEq] at hr
    subst hr
    exact resizeApply_frame _ _ _ _ _ _
  | true =>
    simp only [if_true] at hr
    cases ha : applyHints (s.mem c) w h with
    | none => rw [ha] at hr; exact Option.noConfusion hr
    | some r =>
      obtain ⟨xu, yu, w', h'⟩ := r
      rw [ha] at hr
      simp only [Option.some.injEq] at hr
      subst hr
      refine Frame.trans (Frame.setClient s c _ ?_) (resizeApply_frame _ _ _ _ _ _)
      rfl

theorem resize_total (c : Nat) (x y w h : Int) (sh : Bool) (s : State)
    (hi : sh = true → (s.mem c).c_incw ≠ 0 ∧ (s.mem c).c_inch ≠ 0) :
    ∃ s', resize c x y w h sh s = some s' := by
  unfold resize
  cases sh with
  | false => exact ⟨_, rfl⟩
  | true =>
    obtain ⟨r, hr⟩ := applyHints_isSome (s.mem c) w h (hi rfl).1 (hi rfl).2
    obtain ⟨xu, yu, w', h'⟩ := r
    simp only [if_true, hr]
    exact ⟨_, rfl⟩

theorem layoutResize_frame {c : Nat} {nx ny nw nh : Int} {s s' : State}
    (hr : layoutResize c nx ny nw nh s = some s') : Frame s s' := by
  unfold layoutResize at hr
  cases h1 : resize c (i32 nx) (i32 ny) (i32 nw) (i32 nh) RESIZEHINTS s with
  | none => rw [h1] at hr; exact Option.noConfusion hr
  | some s1 =>
    rw [h1] at hr
    simp only [Option.some_bind] at hr
    split_ifs at hr
    · exact (resize_frame h1).trans (resize_frame hr)
    · rw [← Option.some.inj hr]; exact resize_frame h1

theorem layoutResize_total (c : Nat) (nx ny nw nh : Int) (s : State)
    (hi : (s.mem c).c_incw ≠ 0 ∧ (s.mem c).c_inch ≠ 0) :
    ∃ s', layoutResize c nx ny nw nh s = some s' := by
  unfold layoutResize
  obtain ⟨s1, h1⟩ := resize_total c (i32 nx) (i32 ny) (i32 nw) (i32 nh) RESIZEHINTS s (fun _ => hi)
  rw [h1]
  simp only [Option.some_bind]
  split_ifs
  · exact resize_total _ _ _ _ _ _ _ (fun h => Bool.noConfusion h)
  · exact ⟨_, rfl⟩

theorem i32_u32 (v : Int) (h1 : -2147483648 ≤ v) (h2 : v < 2147483648) : i32 (u32 v) = v := by
  unfold i32 u32
  split_ifs <;> omega

theorem u32_of_nonneg (v : Int) (h1 : 0 ≤ v) (h2 : v < 4294967296) : u32 v = v := by
  unfold u32; omega

theorem u32_add_u32 (a b : Int) : u32 (u32 a + b) = u32 (a + b) := by
  unfold u32; omega

theorem u32_sub_u32 (a b c : Int) : u32 (a - u32 b - c) = u32 (a - b - c) := by
  unfold u32; omega

theorem u32_nonneg (v : Int) : 0 ≤ u32 v := by unfold u32; omega

theorem u32_lt (v : Int) : u32 v < 4294967296 := by unfold u32; omega

theorem applyHints_noHints (cl : Client) (w h : Int) (hn : cl.noHints) :
    applyHints cl w h = some (max w 1, max h 1, max w 1, max h 1) := by
  obtain ⟨h1, h2, h3, h4, h5, h6, h7, h8, h9⟩ := hn
  have e1 : (if w < 1 then 1 else w) = max w 1 := by
    split_ifs <;> omega
  have e2 : (if h < 1 then 1 else h) = max h 1 := by
    split_ifs <;> omega
  unfold applyHints
  simp only [h1, h2, h3, h4, e1, e2, h9, false_and, if_false, sub_zero, Int.tdiv_one, mul_one,
    add_zero, one_ne_zero, or_self, gt_iff_lt, not_lt.mpr h5, not_lt.mpr h6, not_lt.mpr h7,
    not_lt.mpr h8]

theorem resizeApply_geom (c : Nat) (x y w h : Int) (s : State) (hw : 0 < w) (hh : 0 < h) :
    ((resizeApply c x y w h s).mem c).x = x ∧ ((resizeApply c x y w h s).mem c).y = y ∧
    ((resizeApply c x y w h s).mem c).w = w ∧ ((resizeApply c x y w h s).mem c).h = h := by
  unfold resizeApply
  rw [if_neg (by omega)]
  dsimp only
  by_cases h2 : (s.mem c).x ≠ x ∨ (s.mem c).y ≠ y ∨ (s.mem c).w ≠ w ∨ (s.mem c).h ≠ h
  · rw [if_pos h2]
    simp [State.log, configure, State.setClient]
  · rw [if_neg h2]
    simp only [not_or, not_not] at h2
    exact ⟨h2.1, h2.2.1, h2.2.2.1, h2.2.2.2⟩

theorem resizeApply_other (c : Nat) (x y w h : Int) (s : State) (a : Nat) (ha : a ≠ c) :
    (resizeApply c x y w h s).mem a = s.mem a := by
  unfold resizeApply
  split_ifs
  · rfl
  · dsimp only
    split_ifs
    · simp [State.log, configure, State.setClient, Function.update_noteq ha]
    · rfl

theorem resizeApply_same (c : Nat) (x y w h : Int) (s : State)
    (hx : (s.mem c).x = x) (hy : (s.mem c).y = y)
    (hw : w ≤ 0 ∨ h ≤ 0 ∨ ((s.mem c).w = w ∧ (s.mem c).h = h)) :
    resizeApply c x y w h s = s := by
  unfold resizeApply
  by_cases h1 : w ≤ 0 ∨ h ≤ 0
  · rw [if_pos h1]
  · rw [if_neg h1]
    dsimp only
    have : (s.mem c).w = w ∧ (s.mem c).h = h := by
      rcases hw with h | h | h
      · exact absurd (Or.inl h) h1
      · exact absurd (Or.inr h) h1
      · exact h
    rw [if_neg]
    simp [hx, hy, this.1, this.2]

/-- The two `resize` calls of a layout on a client without size-hint
restrictions store the position as requested and each requested dimension
raised to at least 1; no other record changes. -/
theorem layoutResize_noHints (c : Nat) (nx ny nw nh : Int) (s : State)
    (hn : (s.mem c).noHints) :
    ∃ s', layoutResize c nx ny nw nh s = some s' ∧ Frame s s' ∧
      (s'.mem c).x = i32 nx ∧ (s'.mem c).y = i32 ny ∧
      (s'.mem c).w = max (i32 nw) 1 ∧ (s'.mem c).h = max (i32 nh) 1 ∧
      ∀ a, a ≠ c → s'.mem a = s.mem a := by
  have hr : resize c (i32 nx) (i32 ny) (i32 nw) (i32 nh) RESIZEHINTS s
      = some (resizeApply c (i32 nx) (i32 ny) (max (i32 nw) 1) (max (i32 nh) 1)
        (s.setClient c { (s.mem c) with c_xunits := max (i32 nw) 1,
                                        c_yunits := max (i32 nh) 1 })) := by
    unfold resize
    simp only [RESIZEHINTS, if_true, applyHints_noHints _ _ _ hn]
  have hg := resizeApply_geom c (i32 nx) (i32 ny) (max (i32 nw) 1) (max (i32 nh) 1)
    (s.setClient c { (s.mem c) with c_xunits := max (i32 nw) 1, c_yunits := max (i32 nh) 1 })
    (by omega) (by omega)
  generalize hs1 : resizeApply c (i32 nx) (i32 ny) (max (i32 nw) 1) (max (i32 nh) 1)
    (s.setClient c { (s.mem c) with c_xunits := max (i32 nw) 1, c_yunits := max (i32 nh) 1 })
    = s1 at hr hg
  have hother : ∀ a, a ≠ c → s1.mem a = s.mem a := by
    intro a ha
    rw [← hs1, resizeApply_other _ _ _ _ _ _ a ha]
    simp [State.setClient, Function.update_noteq ha]
  have h2 : resize c (i32 nx) (i32 ny) (i32 nw) (i32 nh) false s1 = some s1 := by
    unfold resize
    simp only [Bool.false_eq_true, if_false]
    rw [resizeApply_same c _ _ _ _ s1 hg.1 hg.2.1]
    by_cases hw : i32 nw ≤ 0
    · exact Or.inl hw
    · by_cases hh : i32 nh ≤ 0
      · exact Or.inr (Or.inl hh)
      · refine Or.inr (Or.inr ⟨?_, ?_⟩)
        · rw [hg.2.2.1]; omega
        · rw [hg.2.2.2]; omega
  have he : layoutResize c nx ny nw nh s = some s1 := by
    unfold layoutResize
    rw [hr]
    simp only [Option.some_bind]
    split_ifs
    · exact h2
    · rfl
  exact ⟨s1, he, layoutResize_frame he, hg.1, hg.2.1, hg.2.2.1, hg.2.2.2, hother⟩

theorem resize_other {c : Nat} {x y w h : Int} {sh : Bool} {s s' : State}
    (hr : resize c x y w h sh s = some s') (a : Nat) (ha : a ≠ c) : s'.mem a = s.mem a := by
  unfold resize at hr
  cases sh with
  | false =>
    simp only [Bool.false_eq_true, if_false, Option.some.injEq] at hr
    subst hr
    exact resizeApply_other _ _ _ _ _ _ a ha
  | true =>
    simp only [if_true] at hr
    cases hap : applyHints (s.mem c) w h with
    | none => rw [hap] at hr; exact Option.noConfusion hr
    | some r =>
      obtain ⟨xu, yu, w', h'⟩ := r
      rw [hap] at hr
      simp only [Option.some.injEq] at hr
      subst hr
      rw [resizeApply_other _ _ _ _ _ _ a ha]
      simp [State.setClient, Function.update_noteq ha]

theorem layoutResize_other {c : Nat} {nx ny nw nh : Int} {s s' : State}
    (hr : layoutResize c nx ny nw nh s = some s') (a : Nat) (ha : a ≠ c) :
    s'.mem a = s.mem a := by
  unfold layoutResize at hr
  cases h1 : resize c (i32 nx) (i32 ny) (i32 nw) (i32 nh) RESIZEHINTS s with
  | none => rw [h1] at hr; exact Option.noConfusion hr
  | some s1 =>
    rw [h1] at hr
    simp only [Option.some_bind] at hr
    split_ifs at hr
    · rw [resize_other hr a ha, resize_other h1 a ha]
    · rw [← Option.some.inj hr]; exact resize_other h1 a ha

theorem tileBody_floating (m : Monitor) (n mw th : Int) (mc : Option Nat) (c : Nat)
    (v : TileVars) (s : State) (hf : (s.mem c).c_isfloating = true) :
    tileBody m n mw th mc c v s = some (v, s) := by
  unfold tileBody
  simp [hf]

/-- The placing loop body of `layoutTile` changes the record of its client
only, and there only the geometry part. -/
theorem tileBody_frame {m : Monitor} {n mw th : Int} {mc : Option Nat} {c : Nat}
    {v : TileVars} {s : State} {r : TileVars × State}
    (h : tileBody m n mw th mc c v s = some r) :
    Frame s r.2 ∧ ∀ a, a ≠ c → r.2.mem a = s.mem a := by
  unfold tileBody at h
  split_ifs at h with hf
  · rw [← Option.some.inj h]; exact ⟨Frame.refl s, fun _ _ => rfl⟩
  · simp only [Option.bind_eq_some, Option.map_eq_some'] at h
    obtain ⟨v1, _, s1, hl, rfl⟩ := h
    exact ⟨layoutResize_frame hl, layoutResize_other hl⟩

theorem tileGeom_total (m : Monitor) (n mw th : Int) (mc : Option Nat) (cl : Client)
    (v : TileVars) (s : State) (hmc : mc ≠ none) :
    ∃ v1, tileGeom m n mw th mc cl v s = some v1 := by
  obtain ⟨a, rfl⟩ := Option.ne_none_iff_exists'.mp hmc
  unfold tileGeom
  dsimp only
  split_ifs <;> exact ⟨_, rfl⟩

theorem tileBody_total (m : Monitor) (n mw th : Int) (mc : Option Nat) (c : Nat)
    (v : TileVars) (s : State)
    (hi : (s.mem c).c_isfloating = false → (s.mem c).c_incw ≠ 0 ∧ (s.mem c).c_inch ≠ 0)
    (hmc : mc ≠ none) : ∃ r, tileBody m n mw th mc c v s = some r := by
  unfold tileBody
  cases hf : (s.mem c).c_isfloating with
  | true => exact ⟨_, rfl⟩
  | false =>
    simp only [Bool.false_eq_true, if_false]
    obtain ⟨v1, hv1⟩ := tileGeom_total m n mw th mc (s.mem c) v s hmc
    obtain ⟨s1, h1⟩ := layoutResize_total c v1.nx v1.ny v1.nw v1.nh s (hi hf)
    rw [hv1]
    simp only [Option.some_bind, h1, Option.map_some']
    exact ⟨_, rfl⟩

/-- The placing loop body on a client without size-hint restrictions, from
the geometry `v1` computed for it. -/
theorem tileBody_noHints (m : Monitor) (n mw th : Int) (mc : Option Nat) (c : Nat)
    (v v1 : TileVars) (s : State) (hf : (s.mem c).c_isfloating = false)
    (hn : (s.mem c).noHints) (hg : tileGeom m n mw th mc (s.mem c) v s = some v1) :
    ∃ s', tileBody m n mw th mc c v s = some (tileAdvance m n th (s'.mem c) v1, s') ∧
      Frame s s' ∧ (∀ a, a ≠ c → s'.mem a = s.mem a) ∧
      (s'.mem c).x = i32 v1.nx ∧ (s'.mem c).y = i32 v1.ny ∧
      (s'.mem c).w = max (i32 v1.nw) 1 ∧ (s'.mem c).h = max (i32 v1.nh) 1 := by
  obtain ⟨s1, h1, hfr, hx, hy, hw, hh, hoth⟩ :=
    layoutResize_noHints c v1.nx v1.ny v1.nw v1.nh s hn
  refine ⟨s1, ?_, hfr, hoth, hx, hy, hw, hh⟩
  unfold tileBody
  simp only [hf, Bool.false_eq_true, if_false, hg, Option.some_bind, h1, Option.map_some']

theorem tileFold_nil (m : Monitor) (n mw th : Int) (mc : Option Nat) (r : TileVars × State) :
    tileFold m n mw th mc [] r = some r := rfl

theorem tileFold_cons (m : Monitor) (n mw th : Int) (mc : Option Nat) (a : Nat) (l : List Nat)
    (r : TileVars × State) :
    tileFold m n mw th mc (a :: l) r
      = (tileBody m n mw th mc a r.1 r.2).bind (tileFold m n mw th mc l) := by
  simp only [tileFold, List.foldlM_cons]; rfl

theorem tileFold_append (m : Monitor) (n mw th : Int) (mc : Option Nat) (l1 l2 : List Nat)
    (r : TileVars × State) :
    tileFold m n mw th mc (l1 ++ l2) r
      = (tileFold m n mw th mc l1 r).bind (tileFold m n mw th mc l2) := by
  simp only [tileFold, List.foldlM_append]; rfl

/-- Floating clients are skipped by the placing loop. -/
theorem tileFold_floating (m : Monitor) (n mw th : Int) (mc : Option Nat) :
    ∀ (l : List Nat) (v : TileVars) (s : State),
      (∀ a ∈ l, (s.mem a).c_isfloating = true) → tileFold m n mw th mc l (v, s) = some (v, s)
  | [], _, _, _ => rfl
  | a :: l, v, s, h => by
    rw [tileFold_cons, tileBody_floating m n mw th mc a v s (h a (by simp))]
    exact tileFold_floating m n mw th mc l v s (fun x hx => h x (by simp [hx]))

/-- The placing loop run over clients with non-zero increments returns, keeps
everything but geometry, and leaves the records of the other clients alone. -/
theorem tileFold_total (m : Monitor) (n mw th : Int) (mc : Option Nat) (hmc : mc ≠ none)
    (s0 : State) :
    ∀ (l : List Nat) (v : TileVars) (s : State), Frame s0 s →
      (∀ a ∈ l, (s0.mem a).c_isfloating = false →
        (s0.mem a).c_incw ≠ 0 ∧ (s0.mem a).c_inch ≠ 0) →
      ∃ r, tileFold m n mw th mc l (v, s) = some r ∧ Frame s r.2 ∧
        ∀ a, a ∉ l → r.2.mem a = s.mem a
  | [], v, s, _, _ => ⟨(v, s), rfl, Frame.refl s, fun _ _ => rfl⟩
  | c :: l, v, s, hf, hi => by
    have hc : (s.mem c).c_isfloating = false →
        (s.mem c).c_incw ≠ 0 ∧ (s.mem c).c_inch ≠ 0 := by
      intro hfl
      have e := hf.1 c
      have e1 : (s.mem c).c_incw = (s0.mem c).c_incw := by
        have := congrArg Client.c_incw e; exact this
      have e2 : (s.mem c).c_inch = (s0.mem c).c_inch := by
        have := congrArg Client.c_inch e; exact this
      rw [e1, e2]
      exact hi c (by simp) (by rw [← hf.floating]; exact hfl)
    obtain ⟨r, hr⟩ := tileBody_total m n mw th mc c v s hc hmc
    obtain ⟨hfr, hoth⟩ := tileBody_frame hr
    obtain ⟨r2, hr2, hfr2, hoth2⟩ := tileFold_total m n mw th mc hmc s0 l r.1 r.2
      (hf.trans hfr) (fun a ha => hi a (by simp [ha]))
    refine ⟨r2, ?_, hfr.trans hfr2, fun a ha => ?_⟩
    · rw [tileFold_cons, hr]; exact hr2
    · simp only [List.mem_cons, not_or] at ha
      rw [hoth2 a ha.2, hoth a ha.1]

/-- The counting loop of `layoutTile` counts the members that are not
floating. -/
theorem tileCount_fold (s : State) :
    ∀ (l : List Nat) (n0 : Int), 0 ≤ n0 → n0 + (nonFloating s l).length < 4294967296 →
      l.foldlM (fun r a => tileCountBody a r.1 r.2) (n0, s)
        = some (n0 + (nonFloating s l).length, s)
  | [], n0, _, _ => by simp [nonFloating]
  | a :: l, n0, h0, hlt => by
    rw [List.foldlM_cons]
    show (tileCountBody a n0 s).bind
        (fun r => l.foldlM (fun r a => tileCountBody a r.1 r.2) r) = _
    cases hf : (s.mem a).c_isfloating with
    | true =>
      have e : nonFloating s (a :: l) = nonFloating s l := by
        simp [nonFloating, hf]
      have hstep : tileCountBody a n0 s = some (n0, s) := by simp [tileCountBody, hf]
      rw [e] at hlt ⊢
      rw [hstep]
      exact tileCount_fold s l n0 h0 hlt
    | false =>
      have e : nonFloating s (a :: l) = a :: nonFloating s l := by
        simp [nonFloating, hf]
      rw [e] at hlt ⊢
      simp only [List.length_cons, Nat.cast_add, Nat.cast_one] at hlt ⊢
      have hstep : tileCountBody a n0 s = some (n0 + 1, s) := by
        simp [tileCountBody, hf, u32_of_nonneg (n0 + 1) (by omega) (by omega)]
      rw [hstep]
      show l.foldlM (fun r a => tileCountBody a r.1 r.2) (n0 + 1, s) = _
      rw [tileCount_fold s l (n0 + 1) (by omega) (by omega)]
      congr 2
      ring

/-- On a well-formed ring the body of the monitor loop of `layoutTile` is the
placing loop run over the members, with the count of the members that are not
floating. -/
theorem tileMonitor_eq (fuel : Nat) (m : Monitor) (v : TileVars) (s : State) (l : List Nat)
    (hw : m.m_workspace < 10) (hr : IsRing s m.m_workspace l) (hf : l.length < fuel)
    (hn : ((nonFloating s l).length : Int) < 4294967296) :
    tileMonitor fuel m v s
      = tileFold m (nonFloating s l).length (tileMw m s (nonFloating s l).length)
          (tileTh m s (nonFloating s l).length) ((s.mem rootClient).c_next m.m_workspace) l
          ({ v with j := 0 }, s) := by
  have hring : ringFrom s m.m_workspace fuel ((s.mem rootClient).c_next m.m_workspace)
      = some l := hr.ring_eq fuel hf
  unfold tileMonitor
  simp only [Nat.not_le.mpr hw, if_false]
  rw [ringFor_eq_foldlM m.m_workspace tileCountBody _ fuel _ l 0 s hring,
    tileCount_fold s l 0 (le_refl _) (by simpa using hn)]
  · simp only [Option.some_bind, zero_add]
    rw [ringFor_eq_foldlM m.m_workspace _ _ fuel _ l _ s hring]
    · rfl
    · intro a acc s1 r hb x
      rw [(tileBody_frame hb).1.next]
  · intro a acc s1 r hb x
    unfold tileCountBody at hb
    split_ifs at hb <;> (rw [← Option.some.inj hb])

theorem nonFloating_split {s : State} {l : List Nat} {c : Nat} {t : List Nat}
    (h : nonFloating s l = c :: t) :
    ∃ pre rest, l = pre ++ c :: rest ∧ (∀ a ∈ pre, (s.mem a).c_isfloating = true) ∧
      (s.mem c).c_isfloating = false ∧ nonFloating s rest = t := by
  unfold nonFloating at h
  rw [List.filter_eq_cons_iff] at h
  obtain ⟨l1, l2, h1, h2, h3, h4⟩ := h
  refine ⟨l1, l2, h1, fun a ha => ?_, ?_, h4⟩
  · have := h2 a ha
    simpa using this
  · simpa using h3

theorem nonFloating_frame {s s' : State} (h : Frame s s') (l : List Nat) :
    nonFloating s' l = nonFloating s l := by
  unfold nonFloating
  congr 1
  funext a
  rw [h.floating]

theorem nonFloating_nil_iff {s : State} {l : List Nat} :
    nonFloating s l = [] → ∀ a ∈ l, (s.mem a).c_isfloating = true := by
  intro h a ha
  unfold nonFloating at h
  rw [List.filter_eq_nil_iff] at h
  simpa using h a ha

theorem Frame.noHints {s s' : State} (h : Frame s s') (a : Nat) :
    (s'.mem a).noHints ↔ (s.mem a).noHints := by
  have e := h.1 a
  unfold Client.Frame at e
  unfold Client.noHints
  rw [e]

theorem ringFor_frame {α : Type} (w : Nat) (body : Nat → α → State → Option (α × State))
    (hb : ∀ a acc s r, body a acc s = some r → Frame s r.2) :
    ∀ (fuel : Nat) (p : Option Nat) (acc : α) (s : State) (r : α × State),
      ringFor w body fuel p acc s = some r → Frame s r.2
  | 0, _, _, _, _, h => by simp [ringFor] at h
  | _ + 1, none, _, _, _, h => by simp [ringFor] at h
  | fuel + 1, some a, acc, s, r, h => by
    simp only [ringFor] at h
    split_ifs at h with ha
    · rw [← Option.some.inj h]; exact Frame.refl s
    · simp only [Option.bind_eq_some] at h
      obtain ⟨r1, h1, h2⟩ := h
      exact (hb a acc s r1 h1).trans (ringFor_frame w body hb fuel _ r1.1 r1.2 r h2)

theorem foldlM_monitors_frame {α : Type} (f : α × State → Monitor → Option (α × State))
    (hf : ∀ r m r', f r m = some r' → Frame r.2 r'.2) :
    ∀ (ms : List Monitor) (r r' : α × State), ms.foldlM f r = some r' → Frame r.2 r'.2
  | [], r, r', h => by
    simp only [List.foldlM_nil] at h
    rw [← Option.some.inj h]; exact Frame.refl _
  | m :: ms, r, r', h => by
    rw [List.foldlM_cons] at h
    simp only [bind, Option.bind_eq_some] at h
    obtain ⟨r1, h1, h2⟩ := h
    exact (hf r m r1 h1).trans (foldlM_monitors_frame f hf ms r1 r' h2)

theorem foldlM_states_frame (f : State → Monitor → Option State)
    (hf : ∀ s m s', f s m = some s' → Frame s s') :
    ∀ (ms : List Monitor) (s s' : State), ms.foldlM f s = some s' → Frame s s'
  | [], s, s', h => by
    simp only [List.foldlM_nil] at h
    rw [← Option.some.inj h]; exact Frame.refl _
  | m :: ms, s, s', h => by
    rw [List.foldlM_cons] at h
    simp only [bind, Option.bind_eq_some] at h
    obtain ⟨s1, h1, h2⟩ := h
    exact (hf s m s1 h1).trans (foldlM_states_frame f hf ms s1 s' h2)

theorem tileMonitor_frame {fuel : Nat} {m : Monitor} {v : TileVars} {s : State}
    {r : TileVars × State} (h : tileMonitor fuel m v s = some r) : Frame s r.2 := by
  unfold tileMonitor at h
  dsimp only at h
  split_ifs at h
  simp only [Option.bind_eq_some] at h
  obtain ⟨r1, _, h2⟩ := h
  exact ringFor_frame _ _ (fun a acc s1 r hb => (tileBody_frame hb).1) _ _ _ _ _ h2

theorem layoutTile_frame {fuel : Nat} {s s' : State} (h : layoutTile fuel s = some s') :
    Frame s s' := by
  unfold layoutTile at h
  simp only [Option.map_eq_some'] at h
  obtain ⟨r, h1, rfl⟩ := h
  exact foldlM_monitors_frame _ (fun r m r' h => tileMonitor_frame h) _ _ _ h1

theorem fullscreenBody_frame {m : Monitor} {c : Nat} {u : Unit} {s : State}
    {r : Unit × State} (h : fullscreenBody m c u s = some r) : Frame s r.2 := by
  unfold fullscreenBody at h
  dsimp only at h
  split_ifs at h
  · rw [← Option.some.inj h]; exact Frame.refl s
  · simp only [Option.map_eq_some'] at h
    obtain ⟨s1, h1, rfl⟩ := h
    exact layoutResize_frame h1

theorem layoutFullscreen_frame {fuel : Nat} {s s' : State}
    (h : layoutFullscreen fuel s = some s') : Frame s s' := by
  unfold layoutFullscreen at h
  refine foldlM_states_frame _ (fun st m st' hm => ?_) _ _ _ h
  split_ifs at hm
  simp only [Option.map_eq_some'] at hm
  obtain ⟨r, h1, rfl⟩ := hm
  exact ringFor_frame _ _ (fun a acc s1 r hb => fullscreenBody_frame hb) _ _ _ _ _ h1

theorem unban_frame (c : Nat) (s : State) : Frame s (unban c s) := by
  unfold unban
  dsimp only
  split_ifs
  · exact Frame.refl s
  · exact (Frame.log s _).trans (Frame.setClient _ c _ rfl)

theorem ban_frame {c : Nat} {s s' : State} (h : ban c s = some s') : Frame s s' := by
  unfold ban at h
  dsimp only at h
  split_ifs at h
  · rw [← Option.some.inj h]; exact Frame.refl s
  · cases hm : s.monitors[(s.mem c).c_monitor]? with
    | none => rw [hm] at h; exact Option.noConfusion h
    | some m =>
      rw [hm] at h
      rw [← Option.some.inj h]
      exact (Frame.log s _).trans (Frame.setClient _ c _ rfl)

theorem arrangeBody_frame {c : Nat} {u : Unit} {s : State} {r : Unit × State}
    (h : arrangeBody c u s = some r) : Frame s r.2 := by
  unfold arrangeBody at h
  simp only [Option.bind_eq_some, Option.map_eq_some'] at h
  obtain ⟨v, _, s1, h1, rfl⟩ := h
  split_ifs at h1
  · rw [← Option.some.inj h1]; exact unban_frame c s
  · exact ban_frame h1

theorem restackBody_frame {c : Nat} {sib : Nat} {s : State} {r : Nat × State}
    (h : restackBody c sib s = some r) : Frame s r.2 := by
  unfold restackBody at h
  dsimp only at h
  split_ifs at h
  · rw [← Option.some.inj h]; exact Frame.refl s
  · rw [← Option.some.inj h]; exact Frame.refl s
  · rw [← Option.some.inj h]; exact Frame.log s _

theorem grabbuttons_frame (c : Nat) (f : Bool) (s : State) : Frame s (grabbuttons c f s) :=
  Frame.log s _

theorem drawbar_frame (s : State) : Frame s (drawbar s) := Frame.log s _

theorem focusMonitor_frame (c : Option Nat) (s : State) :
    FrameSel s (focusMonitor c s) := by
  cases c with
  | none => exact FrameSel.sel_refl s
  | some a => exact FrameSel.setSelmonitor s _

theorem focusUnselect_frame {c : Option Nat} {s s' : State}
    (h : focusUnselect c s = some s') : Frame s s' := by
  unfold focusUnselect at h
  split at h
  · rw [← Option.some.inj h]; exact Frame.refl s
  · split_ifs at h
    · simp only [Option.map_eq_some'] at h
      obtain ⟨_, _, rfl⟩ := h
      exact (grabbuttons_frame _ _ s).trans (Frame.log _ _)
    · rw [← Option.some.inj h]; exact Frame.refl s

theorem focusSelect_frame (m : Monitor) (c : Option Nat) (s : State) :
    FrameSel s (focusSelect m c s) := by
  cases c with
  | none =>
    exact ((FrameSel.setSel s none).sel_trans (drawbar_frame _).toSel).sel_trans
      ((Frame.log _ _).trans (drawbar_frame _)).toSel
  | some a =>
    exact (((grabbuttons_frame a true s).toSel.sel_trans (FrameSel.setSel _ (some a))).sel_trans
      (drawbar_frame _).toSel).sel_trans ((Frame.log _ _).toSel.sel_trans (FrameSel.setSelmonitor _ _))

theorem focus_frame {fuel : Nat} {c : Option Nat} {s s' : State}
    (h : focus fuel c s = some s') : FrameSel s s' := by
  unfold focus at h
  dsimp only at h
  split at h
  · exact Option.noConfusion h
  · simp only [Option.bind_eq_some, Option.map_eq_some'] at h
    obtain ⟨c1, _, s1, h1, rfl⟩ := h
    exact (focusMonitor_frame c s).sel_trans
      ((focusUnselect_frame h1).toSel.sel_trans (focusSelect_frame _ _ _))

theorem restack_frame {fuel : Nat} {s s' : State} (h : restack fuel s = some s') :
    Frame s s' := by
  unfold restack at h
  dsimp only at h
  split at h
  · rw [← Option.some.inj h]; exact drawbar_frame s
  · rename_i a ha
    split at h
    · exact Option.noConfusion h
    · rename_i m hm
      simp only [Option.map_eq_some'] at h
      obtain ⟨r, h1, rfl⟩ := h
      have hfold := foldlM_monitors_frame _ (fun r mi r' hmi => by
        split_ifs at hmi
        exact ringFor_frame _ _ (fun a acc s1 r hb => restackBody_frame hb) _ _ _ _ _ hmi)
        _ _ _ h1
      have h1 : Frame s (if ((drawbar s).mem a).c_isfloating = true then
          (drawbar s).log [XReq.raiseWindow ((drawbar s).mem a).c_win] else drawbar s) := by
        split_ifs
        · exact (drawbar_frame s).trans (Frame.log _ _)
        · exact drawbar_frame s
      refine (h1.trans ?_).trans (Frame.log _ _)
      refine Frame.trans ?_ hfold
      split_ifs
      · exact Frame.log _ _
      · exact Frame.refl _
      · exact Frame.log _ _
      · exact Frame.refl _

theorem arrange_frame {fuel : Nat} {s s' : State} (h : arrange fuel s = some s') :
    FrameSel s s' := by
  unfold arrange at h
  simp only [Option.bind_eq_some] at h
  obtain ⟨r, h1, h2⟩ := h
  have hf1 := ringFor_frame _ _ (fun a acc s1 r hb => arrangeBody_frame hb) _ _ _ _ _ h1
  split at h2
  · exact Option.noConfusion h2
  · rename_i m hm
    simp only [Option.bind_eq_some] at h2
    obtain ⟨s2, hl, s3, hfo, hre⟩ := h2
    have hf2 : Frame r.2 s2 := by
      split at hl
      · exact layoutTile_frame hl
      · exact layoutFullscreen_frame hl
      · exact Option.noConfusion hl
    exact (hf1.trans hf2).toSel.sel_trans ((focus_frame hfo).sel_trans (restack_frame hre).toSel)

theorem Frame.incw {s s' : State} (h : Frame s s') (a : Nat) :
    (s'.mem a).c_incw = (s.mem a).c_incw := by
  have e := congrArg Client.c_incw (h.1 a)
  exact e

theorem Frame.inch {s s' : State} (h : Frame s s') (a : Nat) :
    (s'.mem a).c_inch = (s.mem a).c_inch := by
  have e := congrArg Client.c_inch (h.1 a)
  exact e

theorem Frame.regInv {s s' : State} (h : Frame s s') (hi : RegInv s) : RegInv s' := by
  intro w hw
  obtain ⟨l, hr, hc⟩ := hi w hw
  exact ⟨l, h.isRing hr, by rw [h.w_numClients]; exact hc⟩

theorem Frame.managed {s s' : State} (h : Frame s s') (hm : Managed s) : Managed s' := by
  obtain ⟨h1, h2, h3, h4, h5, h6⟩ := hm
  refine ⟨h.regInv h1, ?_, ?_, ?_, ?_, ?_⟩
  · rw [h.selmonitor, h.monitors]; exact h2
  · rw [h.monitors]; exact h3
  · rw [h.stack]; exact h4
  · intro a; rw [h.c_monitor, h.monitors]; exact h5 a
  · intro a w hw ha hmem
    rw [h.incw, h.inch]
    exact h6 a w hw ha (by rw [← h.isMember]; exact hmem)

theorem Frame.fueled {s s' : State} (h : Frame s s') {fuel : Nat} (hf : Fueled fuel s) :
    Fueled fuel s' := by
  intro w hw; rw [h.w_numClients]; exact hf w hw

/-- A ring loop over a well-formed ring, with a body that returns on every
member and keeps everything but geometry, returns. -/
theorem ringFor_total {α : Type} (w : Nat) (body : Nat → α → State → Option (α × State))
    (s : State) (l : List Nat) (fuel : Nat) (acc : α) (hr : IsRing s w l)
    (hfuel : l.length < fuel)
    (hb : ∀ a, a ∈ l → ∀ acc s1, Frame s s1 → ∃ r, body a acc s1 = some r ∧ Frame s1 r.2)
    (hbf : ∀ a acc s1 r, body a acc s1 = some r → Frame s1 r.2) :
    ∃ r, ringFor w body fuel ((s.mem rootClient).c_next w) acc s = some r ∧ Frame s r.2 := by
  rw [ringFor_eq_foldlM w body (fun a acc s1 r h x => by rw [(hbf a acc s1 r h).next]) fuel _ l
    acc s (hr.ring_eq fuel hfuel)]
  exact foldlM_frame body s (fun a => a ∈ l) hb l acc s (fun a ha => ha) (Frame.refl s)

theorem Managed.ring {s : State} (hm : Managed s) {fuel : Nat} (hf : Fueled fuel s) (w : Nat)
    (hw : w < 10) : ∃ l, IsRing s w l ∧ l.length < fuel := by
  obtain ⟨l, hr, hc⟩ := hm.1 w hw
  refine ⟨l, hr, ?_⟩
  have := hf w hw
  rw [hc] at this
  exact_mod_cast this

theorem isvisible_total {s : State} (hm : Managed s) (c i : Nat) (hi : i < s.monitors.length) :
    ∃ v, isvisible c i s = some v := by
  unfold isvisible
  rw [List.getElem?_eq_getElem hi]
  have := (hm.2.2.1 _ (List.getElem_mem hi)).1
  simp only [Nat.not_le.mpr this, if_false]
  exact ⟨_, rfl⟩

theorem ban_total {s : State} (hm : Managed s) (c : Nat) : ∃ s', ban c s = some s' := by
  unfold ban
  dsimp only
  split_ifs
  · exact ⟨_, rfl⟩
  · rw [List.getElem?_eq_getElem (hm.2.2.2.2.1 c)]
    exact ⟨_, rfl⟩

theorem arrangeBody_total {s : State} (hm : Managed s) (c : Nat) (u : Unit) :
    ∃ r, arrangeBody c u s = some r ∧ Frame s r.2 := by
  obtain ⟨v, hv⟩ := isvisible_total hm c s.selmonitor hm.2.1
  cases v with
  | true =>
    refine ⟨((), unban c s), ?_, unban_frame c s⟩
    simp [arrangeBody, hv]
  | false =>
    obtain ⟨s1, h1⟩ := ban_total hm c
    refine ⟨((), s1), ?_, ban_frame h1⟩
    simp [arrangeBody, hv, h1]

theorem tileMonitor_total {s : State} (hm : Managed s) {fuel : Nat} (hf : Fueled fuel s)
    (m : Monitor) (hmem : m ∈ s.monitors) (v : TileVars) :
    ∃ r, tileMonitor fuel m v s = some r ∧ Frame s r.2 := by
  have hws := (hm.2.2.1 m hmem).1
  obtain ⟨l, hr, hl⟩ := hm.ring hf m.m_workspace hws
  obtain ⟨r1, h1, hf1⟩ := ringFor_total m.m_workspace tileCountBody s l fuel (0 : Int) hr hl
    (fun a _ acc s1 _ => by
      unfold tileCountBody
      split_ifs <;> exact ⟨_, rfl, Frame.refl _⟩)
    (fun a acc s1 r h => by
      unfold tileCountBody at h
      split_ifs at h <;> (rw [← Option.some.inj h]; exact Frame.refl _))
  obtain ⟨nx, hnx⟩ := hr.root_next
  have hmc : (s.mem rootClient).c_next m.m_workspace ≠ none := by
    rw [hnx]; exact Option.some_ne_none _
  have hring := hr.ring_eq fuel hl
  unfold tileMonitor
  simp only [Nat.not_le.mpr hws, if_false, h1, Option.some_bind]
  rw [ringFor_eq_foldlM m.m_workspace _ (fun a acc s1 r hb x => by
    rw [(tileBody_frame hb).1.next]) fuel _ l _ s hring]
  obtain ⟨r, hr2, hf2, _⟩ := tileFold_total m r1.1 _ _ _ hmc s l { v with j := 0 } s
    (Frame.refl s) (fun a ha _ => hm.2.2.2.2.2 a m.m_workspace hws
      (fun e => hr.2.1 (e ▸ ha)) ((hr.mem_iff (fun e => hr.2.1 (e ▸ ha))).mpr ha))
  exact ⟨r, hr2, hf2⟩

theorem foldlM_monitors_total {α : Type} (f : α × State → Monitor → Option (α × State))
    (s0 : State)
    (hf : ∀ m ∈ s0.monitors, ∀ r : α × State, Frame s0 r.2 →
      ∃ r', f r m = some r' ∧ Frame r.2 r'.2) :
    ∀ (ms : List Monitor) (r : α × State), (∀ m ∈ ms, m ∈ s0.monitors) → Frame s0 r.2 →
      ∃ r', ms.foldlM f r = some r' ∧ Frame r.2 r'.2
  | [], r, _, _ => ⟨r, rfl, Frame.refl _⟩
  | m :: ms, r, hms, hfr => by
    obtain ⟨r1, h1, hf1⟩ := hf m (hms m (by simp)) r hfr
    obtain ⟨r2, h2, hf2⟩ := foldlM_monitors_total f s0 hf ms r1
      (fun x hx => hms x (by simp [hx])) (hfr.trans hf1)
    refine ⟨r2, ?_, hf1.trans hf2⟩
    rw [List.foldlM_cons, h1]
    exact h2

theorem layoutTile_total {s : State} (hm : Managed s) {fuel : Nat} (hf : Fueled fuel s) :
    ∃ s', layoutTile fuel s = some s' ∧ Frame s s' := by
  obtain ⟨r, h1, hf1⟩ := foldlM_monitors_total
    (fun (r : TileVars × State) m => tileMonitor fuel m r.1 r.2) s
    (fun m hmem r hfr => by
      have hmem' : m ∈ r.2.monitors := by rw [hfr.monitors]; exact hmem
      exact tileMonitor_total (hfr.managed hm) (hfr.fueled hf) m hmem' r.1)
    s.monitors (({} : TileVars), s) (fun _ h => h) (Frame.refl s)
  refine ⟨r.2, ?_, hf1⟩
  unfold layoutTile
  rw [h1]; rfl

theorem fullscreenBody_total {s : State} (m : Monitor) (c : Nat) (u : Unit)
    (hi : (s.mem c).c_isfloating = false → (s.mem c).c_incw ≠ 0 ∧ (s.mem c).c_inch ≠ 0) :
    ∃ r, fullscreenBody m c u s = some r ∧ Frame s r.2 := by
  unfold fullscreenBody
  dsimp only
  cases hfl : (s.mem c).c_isfloating with
  | true => exact ⟨_, rfl, Frame.refl s⟩
  | false =>
    obtain ⟨s1, h1⟩ := layoutResize_total c (u32 m.wax) (u32 m.way)
      (u32 (m.waw - 2 * (s.mem c).c_border)) (u32 (m.wah - 2 * (s.mem c).c_border)) s (hi hfl)
    refine ⟨((), s1), ?_, layoutResize_frame h1⟩
    simp [h1]

theorem layoutFullscreen_total {s : State} (hm : Managed s) {fuel : Nat}
    (hf : Fueled fuel s) : ∃ s', layoutFullscreen fuel s = some s' ∧ Frame s s' := by
  obtain ⟨r, h1, hf1⟩ := foldlM_monitors_total
    (fun (r : Unit × State) m =>
      if 10 ≤ m.m_workspace then none
      else ringFor m.m_workspace (fullscreenBody m) fuel
        ((r.2.mem rootClient).c_next m.m_workspace) () r.2) s
    (fun m hmem r hfr => by
      have hm' := hfr.managed hm
      have hws := (hm.2.2.1 m hmem).1
      obtain ⟨l, hr, hl⟩ := hm'.ring (hfr.fueled hf) m.m_workspace hws
      simp only [Nat.not_le.mpr hws, if_false]
      exact ringFor_total m.m_workspace (fullscreenBody m) r.2 l fuel () hr hl
        (fun a ha acc s1 hf1 => fullscreenBody_total m a acc (fun _ => by
          rw [hf1.incw, hf1.inch]
          exact hm'.2.2.2.2.2 a m.m_workspace hws (fun e => hr.2.1 (e ▸ ha))
            ((hr.mem_iff (fun e => hr.2.1 (e ▸ ha))).mpr ha)))
        (fun a acc s1 r hb => fullscreenBody_frame hb))
    s.monitors ((), s) (fun _ h => h) (Frame.refl s)
  refine ⟨r.2, ?_, hf1⟩
  unfold layoutFullscreen
  have key : ∀ (ms : List Monitor) (st : State) (r : Unit × State),
      ms.foldlM (fun (r : Unit × State) m =>
        if 10 ≤ m.m_workspace then none
        else ringFor m.m_workspace (fullscreenBody m) fuel
          ((r.2.mem rootClient).c_next m.m_workspace) () r.2) ((), st) = some r →
      ms.foldlM (fun st m =>
        if 10 ≤ m.m_workspace then none
        else (ringFor m.m_workspace (fullscreenBody m) fuel
          ((st.mem rootClient).c_next m.m_workspace) () st).map fun r => r.2) st = some r.2 := by
    intro ms
    induction ms with
    | nil =>
      intro st r h
      simp only [List.foldlM_nil] at h ⊢
      rw [← Option.some.inj h]; rfl
    | cons m ms ih =>
      intro st r h
      rw [List.foldlM_cons] at h ⊢
      simp only [bind, Option.bind_eq_some] at h
      obtain ⟨r1, h1, h2⟩ := h
      split_ifs at h1 with hws
      simp only [hws, if_false, h1, Option.map_some']
      exact ih r1.2 r h2
  exact key _ _ _ h1

theorem getElem?_of_lt (l : List Monitor) (i : Nat) (h : i < l.length) :
    ∃ m, l[i]? = some m ∧ m ∈ l :=
  ⟨l[i], List.getElem?_eq_getElem h, List.getElem_mem h⟩

theorem Managed.fuel_pos {s : State} (hm : Managed s) {fuel : Nat} (hf : Fueled fuel s) :
    0 < fuel := by
  obtain ⟨l, _, hl⟩ := hm.ring hf 0 (by decide)
  omega

theorem focusSelect_none_sel (m : Monitor) (s : State) : (focusSelect m none s).sel = none :=
  rfl

/-- With an empty focus stack `focus(NULL)` returns and clears the selection. -/
theorem focus_none_total {s : State} (hm : Managed s) {fuel : Nat} (hpos : 0 < fuel) :
    ∃ s', focus fuel none s = some s' ∧ FrameSel s s' ∧ s'.sel = none := by
  obtain ⟨f, rfl⟩ : ∃ f, fuel = f + 1 := ⟨fuel - 1, by omega⟩
  obtain ⟨m, hmon, _⟩ := getElem?_of_lt s.monitors s.selmonitor hm.2.1
  have hpick : focusPick (f + 1) none s = some none := by
    simp [focusPick, hm.2.2.2.1, stackScan]
  obtain ⟨s1, h1⟩ : ∃ s1, focusUnselect none s = some s1 := by
    unfold focusUnselect
    cases hsel : s.sel with
    | none => exact ⟨s, rfl⟩
    | some o =>
      simp only [ne_eq, not_false_eq_true, if_true, reduceCtorEq]
      rw [List.getElem?_eq_getElem (hm.2.2.2.2.1 o)]
      exact ⟨_, rfl⟩
  have he : focus (f + 1) none s = some (focusSelect m none s1) := by
    unfold focus
    simp only [focusMonitor, hmon, hpick, Option.some_bind, h1, Option.map_some']
  exact ⟨_, he, focus_frame he, rfl⟩

theorem restack_none {s : State} (fuel : Nat) (h : s.sel = none) :
    restack fuel s = some (drawbar s) := by
  unfold restack
  have : (drawbar s).sel = none := h
  simp only [this]

/-- In a consistent state, with enough fuel, `arrange` returns; it keeps the
rings, the counts, the splits and the monitors, and leaves no client
selected. -/
theorem arrange_total {s : State} (hm : Managed s) {fuel : Nat} (hf : Fueled fuel s) :
    ∃ s', arrange fuel s = some s' ∧ FrameSel s s' ∧ s'.sel = none := by
  obtain ⟨l0, hr0, hl0⟩ := hm.ring hf 0 (by decide)
  obtain ⟨r, h1, hf1⟩ := ringFor_total 0 arrangeBody s l0 fuel () hr0 hl0
    (fun a _ acc s1 hfr => arrangeBody_total (hfr.managed hm) a acc)
    (fun a acc s1 r hb => arrangeBody_frame hb)
  have hm1 := hf1.managed hm
  have hfu1 := hf1.fueled hf
  obtain ⟨m, hmon, hmem⟩ := getElem?_of_lt r.2.monitors r.2.selmonitor hm1.2.1
  have hlay := (hm1.2.2.1 m hmem).2
  obtain ⟨s2, h2, hf2⟩ : ∃ s2, (match m.m_layout with
      | 0 => layoutTile fuel r.2
      | 1 => layoutFullscreen fuel r.2
      | _ => none) = some s2 ∧ Frame r.2 s2 := by
    generalize m.m_layout = k at hlay
    match k, hlay with
    | 0, _ => exact layoutTile_total hm1 hfu1
    | 1, _ => exact layoutFullscreen_total hm1 hfu1
  have hm2 := hf2.managed hm1
  obtain ⟨s3, h3, hf3, hsel⟩ := focus_none_total hm2 (hm.fuel_pos hf)
  have h4 := restack_none fuel hsel
  refine ⟨drawbar s3, ?_, ?_, hsel⟩
  · unfold arrange
    simp only [h1, Option.some_bind, hmon, h2, h3, h4]
  · exact (hf1.trans hf2).toSel.sel_trans (hf3.sel_trans (drawbar_frame s3).toSel)

theorem setClient_mem_same (s : State) (c : Nat) (cl : Client) :
    (s.setClient c cl).mem c = cl := by
  simp [State.setClient]

theorem setClient_mem_other (s : State) (c : Nat) (cl : Client) (a : Nat) (ha : a ≠ c) :
    (s.setClient c cl).mem a = s.mem a := by
  simp [State.setClient, Function.update_noteq ha]

theorem updatesizehints_other (c : Nat) (r : Option XSizeHints) (s : State) (a : Nat)
    (ha : a ≠ c) : (updatesizehints c r s).mem a = s.mem a := by
  unfold updatesizehints
  exact setClient_mem_other _ _ _ _ ha

/-- What `updatesizehints` leaves in the record: both increments are at
least 1; links, window, geometry, border, `c_monitor` and the flags other than
`c_isfixed` are not written. -/
theorem updatesizehints_same (c : Nat) (r : Option XSizeHints) (s : State) :
    1 ≤ ((updatesizehints c r s).mem c).c_incw ∧ 1 ≤ ((updatesizehints c r s).mem c).c_inch ∧
    ((updatesizehints c r s).mem c).c_next = (s.mem c).c_next ∧
    ((updatesizehints c r s).mem c).c_prev = (s.mem c).c_prev ∧
    ((updatesizehints c r s).mem c).c_monitor = (s.mem c).c_monitor ∧
    ((updatesizehints c r s).mem c).c_isbanned = (s.mem c).c_isbanned ∧
    ((updatesizehints c r s).mem c).c_win = (s.mem c).c_win := by
  unfold updatesizehints
  rw [setClient_mem_same]
  refine ⟨?_, ?_, rfl, rfl, rfl, rfl, rfl⟩
  · dsimp only
    split_ifs <;> omega
  · dsimp only
    split_ifs <;> omega

theorem updatesizehints_fields (c : Nat) (r : Option XSizeHints) (s : State) :
    updatesizehints c r s = { s with mem := (updatesizehints c r s).mem } := rfl

theorem log_mem (s : State) (r : List XReq) : (s.log r).mem = s.mem := rfl

theorem configure_mem (c : Nat) (s : State) : (configure c s).mem = s.mem := rfl

theorem grabbuttons_mem (c : Nat) (f : Bool) (s : State) : (grabbuttons c f s).mem = s.mem := rfl

theorem manageFloating_fields (tr : Int) (cl : Client) :
    (manageFloating tr cl).c_next = cl.c_next ∧ (manageFloating tr cl).c_prev = cl.c_prev ∧
    (manageFloating tr cl).c_monitor = cl.c_monitor ∧
    (manageFloating tr cl).c_isbanned = cl.c_isbanned ∧
    (manageFloating tr cl).c_incw = cl.c_incw ∧ (manageFloating tr cl).c_inch = cl.c_inch := by
  unfold manageFloating
  dsimp only
  split_ifs <;> exact ⟨rfl, rfl, rfl, rfl, rfl, rfl⟩

/-- The end of the first part of `manage`, from `updatesizehints` on. -/
theorem manageTail_spec (c w : Nat) (hints : Option XSizeHints) (tr : Int) (t s1 : State)
    (h : s1 = (grabbuttons c false ((updatesizehints c hints t).log
        [XReq.selectInput w])).setClient c (manageFloating tr ((grabbuttons c false
          ((updatesizehints c hints t).log [XReq.selectInput w])).mem c))) :
    s1 = { t with mem := s1.mem, xlog := s1.xlog } ∧
    (∀ a, a ≠ c → s1.mem a = t.mem a) ∧
    (s1.mem c).c_next = (t.mem c).c_next ∧ (s1.mem c).c_prev = (t.mem c).c_prev ∧
    (s1.mem c).c_monitor = (t.mem c).c_monitor ∧
    (s1.mem c).c_isbanned = (t.mem c).c_isbanned ∧
    1 ≤ (s1.mem c).c_incw ∧ 1 ≤ (s1.mem c).c_inch := by
  obtain ⟨u1, u2, u3, u4, u5, u6, _⟩ := updatesizehints_same c hints t
  have hf := manageFloating_fields tr ((grabbuttons c false
          ((updatesizehints c hints t).log [XReq.selectInput w])).mem c)
  rw [grabbuttons_mem, log_mem] at hf
  subst h
  refine ⟨rfl, fun a ha => ?_, ?_, ?_, ?_, ?_, ?_, ?_⟩
  · rw [setClient_mem_other _ _ _ _ ha, grabbuttons_mem, log_mem,
      updatesizehints_other _ _ _ _ ha]
  · rw [setClient_mem_same, grabbuttons_mem, log_mem, hf.1, u3]
  · rw [setClient_mem_same, grabbuttons_mem, log_mem, hf.2.1, u4]
  · rw [setClient_mem_same, grabbuttons_mem, log_mem, hf.2.2.1, u5]
  · rw [setClient_mem_same, grabbuttons_mem, log_mem, hf.2.2.2.1, u6]
  · rw [setClient_mem_same, grabbuttons_mem, log_mem, hf.2.2.2.2.1]; exact u1
  · rw [setClient_mem_same, grabbuttons_mem, log_mem, hf.2.2.2.2.2]; exact u2

/-- The first part of `manage` returns when there is a monitor; it writes the
record at `c` and the request log only, and leaves at `c` a record without
links, on monitor 0, not banned, with increments of at least 1. -/
theorem manageInit_spec (c w : Nat) (wa : XWindowAttributes) (hints : Option XSizeHints)
    (tr : Int) (s : State) (hmon : 0 < s.monitors.length) :
    ∃ s1, manageInit c w wa hints tr s = some s1 ∧
      s1 = { s with mem := s1.mem, xlog := s1.xlog } ∧
      (∀ a, a ≠ c → s1.mem a = s.mem a) ∧
      (∀ v, (s1.mem c).c_next v = none ∧ (s1.mem c).c_prev v = none) ∧
      (s1.mem c).c_monitor = 0 ∧ (s1.mem c).c_isbanned = false ∧
      1 ≤ (s1.mem c).c_incw ∧ 1 ≤ (s1.mem c).c_inch := by
  obtain ⟨m, hm, _⟩ := getElem?_of_lt s.monitors 0 hmon
  have h0 : (s.setClient c { c_win := w }).monitors[((s.setClient c { c_win := w }).mem
      c).c_monitor]? = some m := by
    rw [setClient_mem_same]; exact hm
  unfold manageInit
  simp only [h0]
  refine ⟨_, rfl, ?_⟩
  obtain ⟨g1, g2, g3, g4, g5, g6, g7, g8⟩ := manageTail_spec c w hints tr _ _ rfl
  refine ⟨?_, fun a ha => ?_, fun v => ⟨?_, ?_⟩, ?_, ?_, g7, g8⟩
  · rw [g1]; rfl
  · rw [g2 a ha, configure_mem, log_mem, setClient_mem_other _ _ _ _ ha,
      setClient_mem_other _ _ _ _ ha]
  · rw [g3, configure_mem, log_mem, setClient_mem_same, setClient_mem_same]; rfl
  · rw [g4, configure_mem, log_mem, setClient_mem_same, setClient_mem_same]; rfl
  · rw [g5, configure_mem, log_mem, setClient_mem_same, setClient_mem_same]; rfl
  · rw [g6, configure_mem, log_mem, setClient_mem_same, setClient_mem_same]; rfl

theorem attached_mem (s : State) (c w p a : Nat) :
    (s.attached c w p).mem a = { (s.mem a) with
      c_next := ((s.attached c w p).mem a).c_next,
      c_prev := ((s.attached c w p).mem a).c_prev } := rfl

theorem attached_fields (s : State) (c w p : Nat) :
    s.attached c w p = { s with mem := (s.attached c w p).mem,
                                w_numClients := (s.attached c w p).w_numClients } := rfl

theorem attached_isMember (s : State) (c w p a v : Nat) :
    isMember (s.attached c w p) a v
      = if v = w then (if a = p then true else if a = c then true else isMember s a w)
        else isMember s a v := by
  unfold isMember
  rw [State.attached, relink_next]
  by_cases hv : v = w
  · subst hv
    by_cases h1 : a = p <;> by_cases h2 : a = c <;> simp [h1, h2]
    split_ifs <;> rfl
  · simp [hv]

/-- Attaching a client with non-zero increments keeps the state consistent. -/
theorem ws_attach_managed {s : State} {c w : Nat} (hw : w < 10) (hc : c ≠ rootClient)
    (hm : Managed s) (hinc : (s.mem c).c_incw ≠ 0 ∧ (s.mem c).c_inch ≠ 0) :
    ∃ s', ws_attach c w s = some s' ∧ Managed s' ∧ isMember s' c w = true ∧
      (∀ v, s'.w_numClients v ≤ s.w_numClients v + 1) ∧
      (∀ v, isMember s c v = true → isMember s' c v = true) ∧
      (∀ a, (s'.mem a).c_incw = (s.mem a).c_incw ∧ (s'.mem a).c_inch = (s.mem a).c_inch ∧
        (s'.mem a).c_isbanned = (s.mem a).c_isbanned) ∧
      (∀ l, isMember s c w = false → IsRing s w l → IsRing s' w (l ++ [c])) ∧
      (∀ v l, v ≠ w → IsRing s v l → IsRing s' v l) := by
  cases hmem : isMember s c w with
  | true =>
    exact ⟨s, ws_attach_member hw hmem, hm, hmem, fun v => by omega, fun v h => h,
      fun a => ⟨rfl, rfl, rfl⟩, fun l h => Bool.noConfusion h, fun v l _ h => h⟩
  | false =>
    obtain ⟨l, hr, hcnt⟩ := hm.1 w hw
    obtain ⟨p, hp, hpn, he, hr'⟩ := ws_attach_ring hw hc hr hmem
    have hpm : isMember s p w = true := by simp [isMember, hpn]
    obtain ⟨h1, h2, h3, h4, h5, h6⟩ := hm
    refine ⟨_, he, ⟨?_, h2, h3, h4, h5, ?_⟩, ?_, ?_, ?_, fun a => ⟨rfl, rfl, rfl⟩, ?_, ?_⟩
    · intro v hv
      by_cases hvw : v = w
      · subst hvw
        exact ⟨l ++ [c], hr', by rw [attached_count]; simp [hcnt]⟩
      · obtain ⟨l', hr2, hcnt2⟩ := h1 v hv
        exact ⟨l', hr2.attached_other hvw _ _, by rw [attached_count]; simp [hvw, hcnt2]⟩
    · intro a v hv ha hma
      show (s.mem a).c_incw ≠ 0 ∧ (s.mem a).c_inch ≠ 0
      rw [attached_isMember] at hma
      by_cases hac : a = c
      · subst hac; exact hinc
      · by_cases hvw : v = w
        · subst hvw
          by_cases hap : a = p
          · subst hap; exact h6 a v hv ha hpm
          · simp only [if_true, hap, hac, if_false] at hma
            exact h6 a v hv ha hma
        · simp only [hvw, if_false] at hma
          exact h6 a v hv ha hma
    · rw [attached_isMember]; simp
    · intro v
      rw [attached_count]
      split_ifs with h
      · subst h; omega
      · omega
    · intro v hv
      rw [attached_isMember]
      split_ifs <;> simp_all
    · intro l' _ hr2
      rw [hr.unique hr2] at hr'
      exact hr'
    · intro v l' hvw hr2
      exact hr2.attached_other hvw _ _

theorem SameRing.ring_refl (v : Nat) (s : State) : SameRing v s s :=
  ⟨fun _ => ⟨rfl, rfl⟩, rfl⟩

theorem SameRing.ring_trans {v : Nat} {a b c : State} (h1 : SameRing v a b) (h2 : SameRing v b c) :
    SameRing v a c :=
  ⟨fun x => ⟨((h2.1 x).1).trans (h1.1 x).1, ((h2.1 x).2).trans (h1.1 x).2⟩, h2.2.trans h1.2⟩

theorem SameRing.ring_isRing {v : Nat} {s s' : State} (h : SameRing v s s') {l : List Nat}
    (hr : IsRing s v l) : IsRing s' v l :=
  hr.congr (fun x => (h.1 x).1) (fun x => (h.1 x).2)

/-- The call `ws_attach(c, w)` leaves every other ring alone, in any state. -/
theorem ws_attach_sameRing {c w : Nat} {s s' : State} (h : ws_attach c w s = some s')
    {v : Nat} (hv : v ≠ w) : SameRing v s s' := by
  unfold ws_attach at h
  split_ifs at h with h1 h2
  · rw [← Option.some.inj h]; exact SameRing.ring_refl v s
  · dsimp only at h
    split at h
    · exact Option.noConfusion h
    · rw [← Option.some.inj h]
      refine ⟨fun a => ⟨?_, ?_⟩, ?_⟩
      · show ((State.setPrev _ _ _ _).mem a).c_next v = _
        simp only [setPrev_prev, setNext_prev, setPrev_next, setNext_next]
        simp [hv]
      · show ((State.setPrev _ _ _ _).mem a).c_prev v = _
        simp only [setPrev_prev, setNext_prev, setPrev_next, setNext_next]
        simp [hv]
      · show Function.update _ w _ v = _
        rw [Function.update_noteq hv]; rfl

/-- The call `ws_detach(c, w)` leaves every other ring alone, in any state. -/
theorem ws_detach_sameRing {c w : Nat} {s s' : State} (h : ws_detach c w s = some s')
    {v : Nat} (hv : v ≠ w) : SameRing v s s' := by
  unfold ws_detach at h
  split_ifs at h with h1
  split at h
  · rw [← Option.some.inj h]; exact SameRing.ring_refl v s
  · dsimp only at h
    split at h
    · exact Option.noConfusion h
    · rw [← Option.some.inj h]
      refine ⟨fun a => ⟨?_, ?_⟩, ?_⟩
      · show ((State.setNext _ _ _ _).mem a).c_next v = _
        simp only [setPrev_prev, setNext_prev, setPrev_next, setNext_next]
        simp [hv]
      · show ((State.setNext _ _ _ _).mem a).c_prev v = _
        simp only [setPrev_prev, setNext_prev, setPrev_next, setNext_next]
        simp [hv]
      · show Function.update _ w _ v = _
        rw [Function.update_noteq hv]; rfl

theorem attachFrom_sameRing {c : Nat} {v : Nat} :
    ∀ (k : Nat) (s s' : State), k ≤ 10 → v < 10 - k → attachFrom c k s = some s' →
      SameRing v s s'
  | 0, s, s', _, _, h => by
    rw [← Option.some.inj h]; exact SameRing.ring_refl v s
  | k + 1, s, s', hk, hv, h => by
    rw [attachFrom] at h
    simp only [Option.bind_eq_some] at h
    obtain ⟨s1, h1, h2⟩ := h
    exact (ws_attach_sameRing h1 (by omega)).ring_trans
      (attachFrom_sameRing k s1 s' (by omega) (by omega) h2)

theorem detachFrom_sameRing {c : Nat} {v : Nat} :
    ∀ (k : Nat) (s s' : State), k ≤ 10 → v < 10 - k → detachFrom c k s = some s' →
      SameRing v s s'
  | 0, s, s', _, _, h => by
    rw [← Option.some.inj h]; exact SameRing.ring_refl v s
  | k + 1, s, s', hk, hv, h => by
    rw [detachFrom] at h
    simp only [Option.bind_eq_some] at h
    obtain ⟨s1, h1, h2⟩ := h
    exact (ws_detach_sameRing h1 (by omega)).ring_trans
      (detachFrom_sameRing k s1 s' (by omega) (by omega) h2)

/-- On a well-formed ring `ws_attach` returns, whatever pointer it is given. -/
theorem ws_attach_returns {s : State} {w : Nat} {l : List Nat} (c : Nat) (hw : w < 10)
    (hr : IsRing s w l) : ∃ s', ws_attach c w s = some s' := by
  cases hm : isMember s c w with
  | true => exact ⟨s, ws_attach_member hw hm⟩
  | false =>
    have hc : c ≠ rootClient := by
      intro e
      subst e
      obtain ⟨n, hn⟩ := hr.root_next
      simp [isMember, hn] at hm
    obtain ⟨p, _, _, he, _⟩ := ws_attach_ring hw hc hr hm
    exact ⟨_, he⟩

/-- On a well-formed ring `ws_detach` returns, whatever pointer it is given. -/
theorem ws_detach_returns {s : State} {w : Nat} {l : List Nat} (c : Nat) (hw : w < 10)
    (hr : IsRing s w l) : ∃ s', ws_detach c w s = some s' := by
  unfold ws_detach
  simp only [Nat.not_le.mpr hw, if_false]
  cases hn : (s.mem c).c_next w with
  | none => exact ⟨s, rfl⟩
  | some n =>
    have hp : (s.mem c).c_prev w ≠ none := by
      intro e
      rw [(hr.both_or_none c).mpr e] at hn
      exact Option.noConfusion hn
    obtain ⟨p, hp⟩ := Option.ne_none_iff_exists'.mp hp
    have h2 : ((s.setPrev n w ((s.mem c).c_prev w)).mem c).c_prev w = some p := by
      rw [setPrev_prev]; split_ifs <;> exact hp
    simp only [h2]
    exact ⟨_, rfl⟩

theorem attachFrom_returns {c : Nat} :
    ∀ (k : Nat) (s : State), k ≤ 10 → (∀ w, 10 - k ≤ w → w < 10 → ∃ l, IsRing s w l) →
      ∃ s', attachFrom c k s = some s'
  | 0, s, _, _ => ⟨s, rfl⟩
  | k + 1, s, hk, hr => by
    obtain ⟨l, hl⟩ := hr (10 - (k + 1)) (le_refl _) (by omega)
    obtain ⟨s1, h1⟩ := ws_attach_returns c (by omega) hl
    obtain ⟨s2, h2⟩ := attachFrom_returns k s1 (by omega) (fun w hw1 hw2 => by
      obtain ⟨l', hl'⟩ := hr w (by omega) hw2
      exact ⟨l', (ws_attach_sameRing h1 (by omega)).ring_isRing hl'⟩)
    exact ⟨s2, by rw [attachFrom, h1]; exact h2⟩

theorem detachFrom_returns {c : Nat} :
    ∀ (k : Nat) (s : State), k ≤ 10 → (∀ w, 10 - k ≤ w → w < 10 → ∃ l, IsRing s w l) →
      ∃ s', detachFrom c k s = some s'
  | 0, s, _, _ => ⟨s, rfl⟩
  | k + 1, s, hk, hr => by
    obtain ⟨l, hl⟩ := hr (10 - (k + 1)) (le_refl _) (by omega)
    obtain ⟨s1, h1⟩ := ws_detach_returns c (by omega) hl
    obtain ⟨s2, h2⟩ := detachFrom_returns k s1 (by omega) (fun w hw1 hw2 => by
      obtain ⟨l', hl'⟩ := hr w (by omega) hw2
      exact ⟨l', (ws_detach_sameRing h1 (by omega)).ring_isRing hl'⟩)
    exact ⟨s2, by rw [detachFrom, h1]; exact h2⟩

theorem IsRing.attached {s : State} {w c p : Nat} {l : List Nat} (h : IsRing s w l)
    (hc : c ≠ rootClient) (hcl : c ∉ l) (hp : (s.mem rootClient).c_prev w = some p) :
    IsRing (s.attached c w p) w (l ++ [c]) := by
  apply h.attach hc hcl hp
  · intro x; rw [State.attached, relink_next]; simp
  · intro x; rw [State.attached, relink_prev]; simp

theorem demoState_isRing (bh : Int) (cls : Nat → Client) (w : Nat) (hw : w < 10)
    (hcls : ∀ a, (cls a).c_next w = none ∧ (cls a).c_prev w = none) :
    IsRing (demoState bh cls) w [] := by
  refine ⟨List.nodup_nil, by simp, ?_, ?_⟩
  · simp [linked, demoState, setupWorkspaces, hw]
  · intro a ha _
    simp [demoState, ha, hcls a]

theorem demoThree_isRing (bh : Int) (cls : Nat → Client)
    (hcls : ∀ a, (cls a).c_next 3 = none ∧ (cls a).c_prev 3 = none) :
    IsRing (demoThree bh cls) 3 [1, 2, 3] := by
  have h0 := demoState_isRing bh cls 3 (by decide) hcls
  have h1 := h0.attached (c := 1) (p := 0) (by decide) (by simp) (by
    simp [demoState, setupWorkspaces, rootClient])
  have h2 := h1.attached (c := 2) (p := 1) (by decide) (by simp) (by
    simp [State.attached, relink_prev, rootClient])
  have h3 := h2.attached (c := 3) (p := 2) (by decide) (by simp) (by
    simp [State.attached, relink_prev, rootClient])
  exact h3

/-! ## The tiling layout on clients without size hints -/

theorem i32_of_range (v : Int) (_ : 0 ≤ v) (h2 : v < 2147483648) : i32 v = v := by
  unfold i32; rw [if_pos h2]

/-- Away from the degenerate case the tile height is `wah / (n - 1)`. -/
theorem tileTh_regular (m : Monitor) (s : State) (k : Int) (hk : 1 ≤ k) (hwah0 : 0 ≤ m.wah)
    (hwah : m.wah < 4294967296) (hdeg : s.bh ≤ m.wah / k) : tileTh m s (k + 1) = m.wah / k := by
  unfold tileTh
  have e : k + 1 - 1 = k := by omega
  have hgt : k + 1 > 1 := by omega
  rw [u32_of_nonneg _ hwah0 hwah, e]
  simp only [hgt, if_true, true_and]
  rw [if_neg (by omega)]

theorem Tiled.tiled_congr {s s' : State} :
    ∀ (cs : List Nat) (top bottom : Int), (∀ a ∈ cs, s'.mem a = s.mem a) →
      Tiled s top bottom cs → Tiled s' top bottom cs
  | [], _, _, _, h => h
  | c :: cs, top, bottom, he, h => by
    unfold Tiled at h ⊢
    rw [he c (by simp)]
    exact ⟨h.1, Tiled.tiled_congr cs _ _ (fun a ha => he a (by simp [ha])) h.2⟩

/-- The heights occupied by windows tiling a span add up to its length. -/
theorem Tiled.sum {s : State} :
    ∀ (cs : List Nat) (top bottom : Int), Tiled s top bottom cs →
      (cs.map fun c => (occupied s c).2.2.2).sum = bottom - top
  | [], top, bottom, h => by
    unfold Tiled at h
    simp [h]
  | c :: cs, top, bottom, h => by
    unfold Tiled at h
    have ih := Tiled.sum cs _ _ h.2
    simp only [List.map_cons, List.sum_cons, occupied] at ih ⊢
    omega

theorem tileAdvance_j (m : Monitor) (n th : Int) (cl : Client) (v : TileVars) :
    (tileAdvance m n th cl v).j = u32 (v.j + 1) := by
  simp only [tileAdvance]
  split_ifs <;> rfl

theorem tileAdvance_nx (m : Monitor) (n th : Int) (cl : Client) (v : TileVars) :
    (tileAdvance m n th cl v).nx = v.nx := by
  simp only [tileAdvance]
  split_ifs <;> rfl

theorem tileAdvance_nw (m : Monitor) (n th : Int) (cl : Client) (v : TileVars) :
    (tileAdvance m n th cl v).nw = v.nw := by
  simp only [tileAdvance]
  split_ifs <;> rfl

theorem tileAdvance_ny (m : Monitor) (n th : Int) (cl : Client) (v : TileVars)
    (h : n > 1 ∧ th ≠ u32 m.wah) :
    (tileAdvance m n th cl v).ny = u32 (cl.y + cl.h + 2 * cl.c_border) := by
  simp only [tileAdvance]
  rw [if_pos h]

/-- The master step of the placing loop: the floating clients `pre` are
skipped and the client `c` without size hints gets the master geometry. -/
theorem tileFold_master (m : Monitor) (n mw th : Int) (mc : Option Nat) (pre : List Nat)
    (c : Nat) (v : TileVars) (s : State) (hpre : ∀ a ∈ pre, (s.mem a).c_isfloating = true)
    (hc : (s.mem c).c_isfloating = false) (hn : (s.mem c).noHints) (hj : v.j = 0) :
    ∃ r, tileFold m n mw th mc (pre ++ [c]) (v, s) = some r ∧ Frame s r.2 ∧
      (∀ a, a ≠ c → r.2.mem a = s.mem a) ∧ r.1.j = 1 ∧ r.1.nx = u32 m.wax ∧
      (r.2.mem c).x = i32 (u32 m.wax) ∧ (r.2.mem c).y = i32 (u32 m.way) ∧
      (r.2.mem c).w = max (i32 (u32 (mw - 2 * (s.mem c).c_border))) 1 ∧
      (r.2.mem c).h = max (i32 (u32 (m.wah - 2 * (s.mem c).c_border))) 1 := by
  obtain ⟨v1, hv1⟩ : ∃ v1 : TileVars,
      v1 = { v with nx := u32 m.wax, ny := u32 m.way,
                    nw := u32 (mw - 2 * (s.mem c).c_border),
                    nh := u32 (m.wah - 2 * (s.mem c).c_border) } := ⟨_, rfl⟩
  have hg : tileGeom m n mw th mc (s.mem c) v s = some v1 := by
    rw [hv1]; simp [tileGeom, hj]
  obtain ⟨s1, h1, hfr, hoth, hx, hy, hw, hh⟩ := tileBody_noHints m n mw th mc c v v1 s hc hn hg
  refine ⟨(tileAdvance m n th (s1.mem c) v1, s1), ?_, hfr, hoth, ?_, ?_, ?_, ?_, ?_, ?_⟩
  · rw [tileFold_append, tileFold_floating m n mw th mc pre v s hpre]
    simp only [Option.some_bind]
    rw [tileFold_cons, h1]
    rfl
  · rw [tileAdvance_j, hv1]; simp only [hj]; rfl
  · rw [tileAdvance_nx, hv1]
  · rw [hx, hv1]
  · rw [hy, hv1]
  · rw [hw, hv1]
  · rw [hh, hv1]

/-- The values the placing loop computes for a stacked client: `ny` and `nh`,
and `nx` and `nw`, which are set for the first stacked client and kept for the
others. -/
theorem tileGeom_stack (m : Monitor) (n mw th : Int) (a0 : Nat) (cl : Client) (v : TileVars)
    (s : State) (top : Int) (hj : 1 ≤ v.j) (hj1 : v.j = 1 → top = m.way)
    (hj2 : v.j ≠ 1 → v.ny = u32 top) :
    ∃ v1, tileGeom m n mw th (some a0) cl v s = some v1 ∧ v1.j = v.j ∧ v1.ny = u32 top ∧
      (v1.nh = if u32 (v.j + 1) = n then u32 ((m.way + m.wah) - u32 top - 2 * cl.c_border)
        else u32 (th - 2 * cl.c_border)) ∧
      (v.j = 1 → v1.nx = u32 (v.nx + (s.mem a0).w + 2 * (s.mem a0).c_border) ∧
        v1.nw = u32 (m.waw - mw - 2 * cl.c_border)) ∧
      (v.j ≠ 1 → v1.nx = v.nx ∧ v1.nw = v.nw) := by
  have h0 : v.j ≠ 0 := by omega
  unfold tileGeom
  rw [if_neg h0]
  by_cases h1 : v.j = 1
  · simp only [h1, if_true, Option.map_some']
    rw [hj1 h1]
    split_ifs with h2
    · exact ⟨_, rfl, rfl, rfl, rfl, fun _ => ⟨rfl, rfl⟩, fun h => absurd rfl h⟩
    · exact ⟨_, rfl, rfl, rfl, rfl, fun _ => ⟨rfl, rfl⟩, fun h => absurd rfl h⟩
  · simp only [h1, if_false, Option.map_some']
    split_ifs with h2
    · exact ⟨_, rfl, rfl, hj2 h1, by rw [hj2 h1], fun h => h.elim, fun _ => ⟨rfl, rfl⟩⟩
    · exact ⟨_, rfl, rfl, hj2 h1, rfl, fun h => h.elim, fun _ => ⟨rfl, rfl⟩⟩

/-- The stack phase of the placing loop on clients without size hints, away
from the degenerate case: the stacked windows of `rest` tile the span from
`top` to the bottom of the work area, `th` high each but the last, which takes
the remainder. -/
theorem tileFold_stack (m : Monitor) (n mw th : Int) (a0 : Nat) (s0 : State)
    (hway : -2147483648 ≤ m.way) (hwah0 : 0 ≤ m.wah) (hwah : m.wah < 2147483648)
    (hsum : m.way + m.wah < 2147483648) (hn32 : n < 4294967296) :
    ∀ (rest : List Nat) (v : TileVars) (s : State) (top : Int),
      Frame s0 s → rest.Nodup → 1 ≤ v.j → v.j + (nonFloating s0 rest).length = n →
      m.way ≤ top → top + (nonFloating s0 rest).length * th ≤ m.way + m.wah →
      (v.j = 1 → top = m.way) → (v.j ≠ 1 → v.ny = u32 top) →
      (∀ c ∈ nonFloating s0 rest,
        (s0.mem c).noHints ∧ 0 ≤ (s0.mem c).c_border ∧ 2 * (s0.mem c).c_border < th) →
      ∃ r, tileFold m n mw th (some a0) rest (v, s) = some r ∧ Frame s r.2 ∧
        (∀ a, a ∉ rest → r.2.mem a = s.mem a) ∧
        (nonFloating s0 rest ≠ [] →
          Tiled r.2 top (m.way + m.wah) (nonFloating s0 rest))
  | [], v, s, top, _, _, _, _, _, _, _, _, _ =>
    ⟨(v, s), rfl, Frame.refl s, fun _ _ => rfl, fun h => absurd rfl h⟩
  | c :: rest, v, s, top, hfr, hnd, hj, hcount, htop, hbound, hj1, hj2, hcl => by
    have hnd' := List.nodup_cons.mp hnd
    cases hf : (s0.mem c).c_isfloating with
    | true =>
      have e : nonFloating s0 (c :: rest) = nonFloating s0 rest := by
        simp [nonFloating, hf]
      rw [e] at hcount hbound hcl ⊢
      obtain ⟨r, h1, h2, h3, h4⟩ := tileFold_stack m n mw th a0 s0 hway hwah0 hwah hsum hn32
        rest v s top hfr hnd'.2 hj hcount htop hbound hj1 hj2 hcl
      refine ⟨r, ?_, h2, fun a ha => h3 a (fun h => ha (List.mem_cons_of_mem _ h)), h4⟩
      rw [tileFold_cons, tileBody_floating m n mw th (some a0) c v s (by rw [hfr.floating, hf])]
      exact h1
    | false =>
      have e : nonFloating s0 (c :: rest) = c :: nonFloating s0 rest := by
        simp [nonFloating, hf]
      rw [e] at hcount hbound hcl ⊢
      obtain ⟨hnh, hb0, hbth⟩ := hcl c (by simp)
      have hfs : (s.mem c).c_isfloating = false := by rw [hfr.floating, hf]
      have hns : (s.mem c).noHints := (hfr.noHints c).mpr hnh
      have hbs : (s.mem c).c_border = (s0.mem c).c_border := hfr.border c
      have hlen : ((c :: nonFloating s0 rest).length : Int)
          = ((nonFloating s0 rest).length : Int) + 1 := by
        simp
      rw [hlen] at hcount hbound
      have hmul : (((nonFloating s0 rest).length : Int) + 1) * th
          = ((nonFloating s0 rest).length : Int) * th + th := by ring
      rw [hmul] at hbound
      have hk0 : (0 : Int) ≤ ((nonFloating s0 rest).length : Int) * th :=
        mul_nonneg (by exact_mod_cast Nat.zero_le _) (by omega)
      obtain ⟨v1, hg, hv1j, hv1y, hv1h, _, _⟩ := tileGeom_stack m n mw th a0 (s.mem c) v s top hj hj1 hj2
      obtain ⟨s1, hb, hfr1, hoth, _, hy, _, hh⟩ :=
        tileBody_noHints m n mw th (some a0) c v v1 s hfs hns hg
      have hju : u32 (v.j + 1) = v.j + 1 := u32_of_nonneg _ (by omega) (by omega)
      have hytop : (s1.mem c).y = top := by
        rw [hy, hv1y]; exact i32_u32 _ (by omega) (by omega)
      have hb1 : (s1.mem c).c_border = (s0.mem c).c_border := by rw [hfr1.border, hbs]
      rw [tileFold_cons, hb]
      simp only [Option.some_bind]
      by_cases hlast : nonFloating s0 rest = []
      · -- the last stacked window takes the remainder
        have hall : ∀ a ∈ rest, (s1.mem a).c_isfloating = true := by
          intro a ha
          rw [hfr1.floating, hfr.floating]
          exact nonFloating_nil_iff hlast a ha
        rw [tileFold_floating m n mw th (some a0) rest _ s1 hall]
        rw [hlast] at hcount hbound hk0 ⊢
        simp only [List.length_nil, Nat.cast_zero, zero_mul, zero_add] at hcount hbound
        refine ⟨_, rfl, hfr1, fun a ha => hoth a (fun h => ha (h ▸ List.mem_cons_self _ _)),
          fun _ => ?_⟩
        have hhv : (s1.mem c).h = m.way + m.wah - top - 2 * (s0.mem c).c_border := by
          rw [hh, hv1h, hju, if_pos (by omega), u32_sub_u32, hbs,
            u32_of_nonneg _ (by omega) (by omega)]
          have : i32 (m.way + m.wah - top - 2 * (s0.mem c).c_border)
              = m.way + m.wah - top - 2 * (s0.mem c).c_border := by
            unfold i32; split_ifs <;> omega
          rw [this]; omega
        unfold Tiled
        refine ⟨hytop, ?_⟩
        unfold Tiled
        show top + ((s1.mem c).h + 2 * (s1.mem c).c_border) = m.way + m.wah
        rw [hhv, hb1]; omega
      · -- a stacked window that is not the last is `th` high
        have hk1 : 1 ≤ ((nonFloating s0 rest).length : Int) := by
          have : 0 < (nonFloating s0 rest).length := List.length_pos.mpr hlast
          exact_mod_cast this
        have hk1th : th ≤ ((nonFloating s0 rest).length : Int) * th := by
          have := mul_le_mul_of_nonneg_right hk1 (show (0 : Int) ≤ th by omega)
          simpa using this
        have hhv : (s1.mem c).h = th - 2 * (s0.mem c).c_border := by
          rw [hh, hv1h, hju, if_neg (by omega), hbs, u32_of_nonneg _ (by omega) (by omega)]
          have : i32 (th - 2 * (s0.mem c).c_border) = th - 2 * (s0.mem c).c_border := by
            unfold i32; split_ifs <;> omega
          rw [this]; omega
        have hne : n > 1 ∧ th ≠ u32 m.wah := by
          rw [u32_of_nonneg _ hwah0 (by omega)]
          constructor <;> omega
        have hVj : (tileAdvance m n th (s1.mem c) v1).j = v.j + 1 := by
          rw [tileAdvance_j, hv1j, hju]
        have hVy : (tileAdvance m n th (s1.mem c) v1).ny = u32 (top + th) := by
          rw [tileAdvance_ny m n th _ _ hne, hytop, hhv, hb1]
          congr 1; omega
        obtain ⟨r, h1, h2, h3, h4⟩ := tileFold_stack m n mw th a0 s0 hway hwah0 hwah hsum hn32
          rest (tileAdvance m n th (s1.mem c) v1) s1 (top + th) (hfr.trans hfr1) hnd'.2
          (by rw [hVj]; omega) (by rw [hVj]; omega) (by omega) (by omega)
          (fun h => by rw [hVj] at h; omega) (fun _ => hVy)
          (fun x hx => hcl x (List.mem_cons_of_mem _ hx))
        have hcr : r.2.mem c = s1.mem c := h3 c hnd'.1
        refine ⟨r, h1, hfr1.trans h2, fun a ha => ?_, fun _ => ?_⟩
        · rw [h3 a (fun h => ha (List.mem_cons_of_mem _ h))]
          exact hoth a (fun h => ha (h ▸ List.mem_cons_self _ _))
        · unfold Tiled
          rw [hcr, hytop, hhv, hb1]
          refine ⟨rfl, ?_⟩
          have e2 : top + (th - 2 * (s0.mem c).c_border + 2 * (s0.mem c).c_border) = top + th := by
            omega
          rw [e2]
          exact h4 hlast

theorem layoutTile_one_monitor (fuel : Nat) (s : State) (m : Monitor)
    (hmon : s.monitors = [m]) :
    layoutTile fuel s = (tileMonitor fuel m {} s).map fun r => r.2 := by
  unfold layoutTile
  rw [hmon]
  simp only [List.foldlM_cons, List.foldlM_nil, bind_pure]

theorem tileMw_one (m : Monitor) (s : State) : tileMw m s 1 = u32 m.waw := by
  simp [tileMw]

/-- The placing loop on a ring whose only member that is not floating is `c`,
a client without size-hint restrictions: `c` gets the master geometry, every
other record is unchanged. -/
theorem tileFold_single (m : Monitor) (mw th : Int) (mc : Option Nat) (l : List Nat) (c : Nat)
    (v : TileVars) (s : State) (hone : nonFloating s l = [c]) (hn : (s.mem c).noHints)
    (hj : v.j = 0) :
    ∃ r, tileFold m 1 mw th mc l (v, s) = some r ∧ Frame s r.2 ∧
      (r.2.mem c).x = i32 (u32 m.wax) ∧ (r.2.mem c).y = i32 (u32 m.way) ∧
      (r.2.mem c).w = max (i32 (u32 (mw - 2 * (s.mem c).c_border))) 1 ∧
      (r.2.mem c).h = max (i32 (u32 (m.wah - 2 * (s.mem c).c_border))) 1 := by
  obtain ⟨pre, rest, rfl, hpre, hc, hrest⟩ := nonFloating_split hone
  have hg : tileGeom m 1 mw th mc (s.mem c) v s
      = some { v with nx := u32 m.wax, ny := u32 m.way,
                      nw := u32 (mw - 2 * (s.mem c).c_border),
                      nh := u32 (m.wah - 2 * (s.mem c).c_border) } := by
    simp [tileGeom, hj]
  obtain ⟨s1, h1, hfr, _, hx, hy, hw, hh⟩ := tileBody_noHints m 1 mw th mc c v _ s hc hn hg
  have hrest' : ∀ a ∈ rest, (s1.mem a).c_isfloating = true := by
    intro a ha
    rw [hfr.floating]
    exact nonFloating_nil_iff hrest a ha
  generalize tileAdvance m 1 th (s1.mem c) _ = V at h1
  have hfold : tileFold m 1 mw th mc (pre ++ c :: rest) (v, s) = some (V, s1) := by
    rw [tileFold_append, tileFold_floating m 1 mw th mc pre v s hpre]
    simp only [Option.some_bind]
    rw [tileFold_cons, h1]
    simp only [Option.some_bind]
    exact tileFold_floating m 1 mw th mc rest _ s1 hrest'
  exact ⟨(V, s1), hfold, hfr, hx, hy, hw, hh⟩

theorem managed_of_init {s s1 : State} {c : Nat} (hm : Managed s) (hc : c ≠ rootClient)
    (hfresh : ∀ v, v < 10 → isMember s c v = false)
    (h1 : s1 = { s with mem := s1.mem, xlog := s1.xlog })
    (h2 : ∀ a, a ≠ c → s1.mem a = s.mem a)
    (h3 : ∀ v, (s1.mem c).c_next v = none ∧ (s1.mem c).c_prev v = none)
    (h4 : (s1.mem c).c_monitor = 0) :
    Managed s1 ∧ (∀ v, v < 10 → isMember s1 c v = false) ∧
      (∀ v l, v < 10 → IsRing s v l → IsRing s1 v l) := by
  have hmon : s1.monitors = s.monitors := by
    have e := congrArg State.monitors h1; exact e
  have hcnt : s1.w_numClients = s.w_numClients := by
    have e := congrArg State.w_numClients h1; exact e
  have hsm : s1.selmonitor = s.selmonitor := by
    have e := congrArg State.selmonitor h1; exact e
  have hst : s1.stack = s.stack := by
    have e := congrArg State.stack h1; exact e
  have hlinks : ∀ v, v < 10 → ∀ a, (s1.mem a).c_next v = (s.mem a).c_next v ∧
      (s1.mem a).c_prev v = (s.mem a).c_prev v := by
    intro v hv a
    by_cases ha : a = c
    · subst ha
      obtain ⟨l, hr, _⟩ := hm.1 v hv
      have hn := hr.2.2.2 a hc (hr.not_mem hc (hfresh v hv))
      rw [(h3 v).1, (h3 v).2, hn.1, hn.2]
      exact ⟨rfl, rfl⟩
    · rw [h2 a ha]; exact ⟨rfl, rfl⟩
  have hring : ∀ v l, v < 10 → IsRing s v l → IsRing s1 v l := fun v l hv hr =>
    hr.congr (fun x => (hlinks v hv x).1) (fun x => (hlinks v hv x).2)
  have hnm : ∀ v, v < 10 → isMember s1 c v = false := by
    intro v _
    simp [isMember, (h3 v).1]
  obtain ⟨g1, g2, g3, g4, g5, g6⟩ := hm
  refine ⟨⟨?_, ?_, ?_, ?_, ?_, ?_⟩, hnm, hring⟩
  · intro v hv
    obtain ⟨l, hr, hc'⟩ := g1 v hv
    exact ⟨l, hring v l hv hr, by rw [hcnt]; exact hc'⟩
  · rw [hsm, hmon]; exact g2
  · rw [hmon]; exact g3
  · rw [hst]; exact g4
  · intro a
    rw [hmon]
    by_cases ha : a = c
    · subst ha; rw [h4]; omega
    · rw [h2 a ha]; exact g5 a
  · intro a v hv ha hmem
    by_cases hac : a = c
    · subst hac
      rw [hnm v hv] at hmem
      exact Bool.noConfusion hmem
    · rw [h2 a hac]
      refine g6 a v hv ha ?_
      unfold isMember at hmem ⊢
      rw [← (hlinks v hv a).1]
      exact hmem

/-- In a consistent state `manage`, given a fresh record address `c` and
enough fuel, returns; afterwards `c` is the last member of ring 0. -/
theorem manage_attaches (fuel c w : Nat) (wa : XWindowAttributes)
    (hints : Option XSizeHints) (transRet : Int) (s : State) (hm : Managed s)
    (hfuel : ∀ v, v < 10 → s.w_numClients v + 1 < (fuel : Int)) (hc : c ≠ rootClient)
    (hfresh : ∀ v, v < 10 → isMember s c v = false) :
    ∃ s', manage fuel c w wa hints transRet s = some s' ∧ isMember s' c 0 = true ∧
      ∀ l, IsRing s 0 l → IsRing s' 0 (l ++ [c]) := by
  have hlen : 0 < s.monitors.length := by have := hm.2.1; omega
  obtain ⟨s1, e1, h1, h2, h3, h4, h5, h6, h7⟩ := manageInit_spec c w wa hints transRet s hlen
  obtain ⟨hm1, hnm1, hring1⟩ := managed_of_init hm hc hfresh h1 h2 h3 h4
  have hcnt1 : s1.w_numClients = s.w_numClients := by
    have e := congrArg State.w_numClients h1; exact e
  -- ws_attach(c, 0)
  obtain ⟨s2, e2, hm2, hmem2, hcnt2, hkeep2, hf2, happ2, hoth2⟩ :=
    ws_attach_managed (w := 0) (by decide) hc hm1 ⟨by omega, by omega⟩
  -- ws_attach(c, monitors[selmonitor].m_workspace)
  obtain ⟨ms, hms, hmsmem⟩ := getElem?_of_lt s2.monitors s2.selmonitor hm2.2.1
  have hws := (hm2.2.2.1 ms hmsmem).1
  obtain ⟨s3, e3, hm3, hmem3, hcnt3, hkeep3, hf3, happ3, hoth3⟩ :=
    ws_attach_managed (w := ms.m_workspace) hws hc hm2
      ⟨by rw [(hf2 c).1]; omega, by rw [(hf2 c).2.1]; omega⟩
  -- the logged requests and ban(c)
  have hfr4 := Frame.log s3 [XReq.moveResizeWindow (s3.mem c).c_win (s3.mem c).x (s3.mem c).y
    (s3.mem c).w (s3.mem c).h]
  obtain ⟨s5, e5⟩ := ban_total (hfr4.managed hm3) c
  have hfr5 := hfr4.trans (ban_frame e5)
  have hfr6 := hfr5.trans (Frame.log s5 [XReq.mapWindow (s5.mem c).c_win,
    XReq.setClientState (s5.mem c).c_win 1])
  have hm6 := hfr6.managed hm3
  have hfu6 : Fueled fuel (s5.log [XReq.mapWindow (s5.mem c).c_win,
      XReq.setClientState (s5.mem c).c_win 1]) := by
    intro v hv
    rw [hfr6.w_numClients]
    have a1 := hcnt3 v
    have a2 := hcnt2 v
    have a3 := hfuel v hv
    rw [hcnt1] at a2
    -- one of the two attach calls is a no-op for `v`, or they hit different rings
    by_cases hv0 : v = 0
    · subst hv0
      by_cases hw0 : ms.m_workspace = 0
      · have : s3 = s2 := by
          have := ws_attach_member (s := s2) (c := c) (w := ms.m_workspace) hws
            (by rw [hw0]; exact hmem2)
          rw [this] at e3
          exact (Option.some.inj e3).symm
        rw [this]; omega
      · have := (ws_attach_sameRing e3 (v := 0) (fun e => hw0 e.symm)).2
        rw [this]; omega
    · have := (ws_attach_sameRing e2 (v := v) hv0).2
      rw [this, hcnt1] at a1
      omega
  obtain ⟨s7, e7, hfr7, _⟩ := arrange_total hm6 hfu6
  have hmem0 : isMember s3 c 0 = true := hkeep3 0 hmem2
  refine ⟨s7, ?_, ?_, fun l hl => ?_⟩
  · unfold manage
    simp only [e1, Option.some_bind, e2, hms, e3, e5, e7]
  · rw [hfr7.sel_isMember, hfr6.isMember]; exact hmem0
  · have r2 : IsRing s2 0 (l ++ [c]) := happ2 l (hnm1 0 (by decide)) (hring1 0 l (by decide) hl)
    have r3 : IsRing s3 0 (l ++ [c]) := by
      by_cases hw0 : ms.m_workspace = 0
      · have : s3 = s2 := by
          have := ws_attach_member (s := s2) (c := c) (w := ms.m_workspace) hws
            (by rw [hw0]; exact hmem2)
          rw [this] at e3
          exact (Option.some.inj e3).symm
        rw [this]; exact r2
      · exact hoth3 0 _ (fun e => hw0 e.symm) r2
    exact hfr7.isRing (hfr6.isRing r3)

/-- The state `demoThree` is consistent when the records `cls` carry no link,
belong to monitor 0 and have non-zero resize increments. -/
theorem demoThree_managed (bh : Int) (cls : Nat → Client)
    (hl : ∀ a w, (cls a).c_next w = none ∧ (cls a).c_prev w = none)
    (hm : ∀ a, (cls a).c_monitor = 0)
    (hi : ∀ a, (cls a).c_incw ≠ 0 ∧ (cls a).c_inch ≠ 0) : Managed (demoThree bh cls) := by
  refine ⟨fun w hw => ?_,
    by simp [demoThree, State.attached, State.relink, demoState, setupWorkspaces], ?_, rfl,
    ?_, ?_⟩
  · by_cases h3 : w = 3
    · subst h3
      exact ⟨[1, 2, 3], demoThree_isRing bh cls (fun a => hl a 3), by
        simp [demoThree, State.attached, State.relink, demoState, setupWorkspaces]⟩
    · refine ⟨[], ?_, ?_⟩
      · exact (((demoState_isRing bh cls w hw (fun a => hl a w)).attached_other h3 1 0
          ).attached_other h3 2 1).attached_other h3 3 2
      · simp [demoThree, State.attached, State.relink, demoState, setupWorkspaces,
          Function.update_noteq h3]
  · intro m hmem
    have : m = demoMonitor := by
      simpa [demoThree, State.attached, State.relink, demoState] using hmem
    subst this
    decide
  · intro a
    by_cases ha : a = rootClient
    · subst ha
      simp [demoThree, State.attached, State.relink, demoState, setupWorkspaces]
    · simp [demoThree, State.attached, State.relink, demoState, ha, hm a]
  · intro a w _ ha _
    simp only [demoThree, State.attached, State.relink, demoState, ha, if_false]
    exact hi a

theorem demoThree_fueled (bh : Int) (cls : Nat → Client) (fuel : Nat) (hf : 3 < fuel) :
    Fueled fuel (demoThree bh cls) := by
  intro w hw
  by_cases h3 : w = 3
  · subst h3
    simp [demoThree, State.attached, State.relink, demoState, setupWorkspaces]
    exact_mod_cast hf
  · simp [demoThree, State.attached, State.relink, demoState, setupWorkspaces,
      Function.update_noteq h3]
    omega

/-- C1 (as stated, refuted): client 1 is already a member of ring 3, the only
one.  `ws_attach(1, 3)` is then a no-op and `ws_detach(1, 3)` removes the
client: the count goes from 1 to 0 and the enumeration from `[1]` to `[]`. -/
theorem ws_attach_detach_member_counterexample :
    ∃ s s1 s2, ws_attach 1 3 (setupWorkspaces 500) = some s ∧
      IsRing s 3 [1] ∧ isMember s 1 3 = true ∧
      ws_attach 1 3 s = some s1 ∧ ws_detach 1 3 s1 = some s2 ∧
      s.w_numClients 3 = 1 ∧ s2.w_numClients 3 = 0 ∧
      ring 5 s 3 = some [1] ∧ ring 5 s2 3 = some [] := by
  have hp : ((setupWorkspaces 500).mem rootClient).c_prev 3 = some 0 := by decide
  have hr : IsRing ((setupWorkspaces 500).attached 1 3 0) 3 [1] := by
    obtain ⟨p, hp', _, _, hr⟩ := ws_attach_ring (s := setupWorkspaces 500) (c := 1) (w := 3)
      (by decide) (by decide) (setupWorkspaces_isRing 500 3 (by decide)) (by decide)
    rw [hp] at hp'
    rw [← Option.some.inj hp'] at hr
    exact hr
  refine ⟨(setupWorkspaces 500).attached 1 3 0, _, _,
    ws_attach_eq _ 1 3 0 (by decide) (by decide) (by decide) hp, hr, by decide,
    ws_attach_member (by decide) (by decide), rfl, ?_, ?_, ?_, ?_⟩
  · decide
  · decide
  · decide
  · decide

/-- C1 (amended): for a client `c` (not the sentinel) that is not a member of
the well-formed ring `w`, `ws_attach(c, w)` followed by `ws_detach(c, w)`
returns the very state it started from: the count of `w`, every link of the
sentinel and of every client, and the enumeration are what they were. -/
theorem ws_attach_detach_roundtrip (s : State) (c w : Nat) (l : List Nat) (hw : w < 10)
    (hc : c ≠ rootClient) (hr : IsRing s w l) (hm : isMember s c w = false) :
    ∃ s1 s2, ws_attach c w s = some s1 ∧ ws_detach c w s1 = some s2 ∧
      s2.w_numClients w = s.w_numClients w ∧
      (∀ a, (s2.mem a).c_next w = (s.mem a).c_next w ∧
        (s2.mem a).c_prev w = (s.mem a).c_prev w) ∧
      (∀ fuel, l.length < fuel → ring fuel s2 w = some l) ∧ s2 = s := by
  obtain ⟨p, hp, hpn, he, _⟩ := ws_attach_ring hw hc hr hm
  have hn := (isMember_false_iff s c w).mp hm
  have hpv : (s.mem c).c_prev w = none := (hr.2.2.2 c hc (hr.not_mem hc hm)).2
  have hcp : c ≠ p := by
    intro e; subst e; rw [hn] at hpn; exact Option.noConfusion hpn
  have hd := ws_detach_eq (s.attached c w p) c w rootClient p hw
    (by rw [State.attached, relink_next]; simp [hcp])
    (by rw [State.attached, relink_prev]; simp [hc]) hc
  have e2 : (s.attached c w p).detached c w rootClient p = s := by
    apply State.ext <;> try rfl
    · funext a
      apply Client.ext <;> try rfl
      · funext v
        simp only [State.detached, State.attached, relink_next]
        by_cases hv : v = w
        · subst hv
          by_cases h1 : a = c
          · subst h1; simp [hn]
          · by_cases h2 : a = p
            · subst h2; simp [h1, hpn]
            · simp [h1, h2]
        · simp [hv]
      · funext v
        simp only [State.detached, State.attached, relink_prev]
        by_cases hv : v = w
        · subst hv
          by_cases h1 : a = c
          · subst h1; simp [hpv]
          · by_cases h2 : a = rootClient
            · subst h2; simp [h1, hp]
            · simp [h1, h2]
        · simp [hv]
    · funext v
      simp only [detached_count, attached_count]
      by_cases hv : v = w
      · subst hv; simp
      · simp [hv]
  rw [e2] at hd
  exact ⟨_, _, he, hd, rfl, fun a => ⟨rfl, rfl⟩, fun fuel hf => hr.ring_eq fuel hf, rfl⟩

/-- Witness of `ws_attach_detach_roundtrip`: client 1 and the empty ring 3 of
the state `setup` leaves. -/
theorem ws_attach_detach_roundtrip_witness :
    ∃ s1 s2, ws_attach 1 3 (setupWorkspaces 500) = some s1 ∧ ws_detach 1 3 s1 = some s2 ∧
      s2.w_numClients 3 = (setupWorkspaces 500).w_numClients 3 ∧
      (∀ a, (s2.mem a).c_next 3 = ((setupWorkspaces 500).mem a).c_next 3 ∧
        (s2.mem a).c_prev 3 = ((setupWorkspaces 500).mem a).c_prev 3) ∧
      (∀ fuel, ([] : List Nat).length < fuel → ring fuel s2 3 = some []) ∧
      s2 = setupWorkspaces 500 :=
  ws_attach_detach_roundtrip (setupWorkspaces 500) 1 3 [] (by decide) (by decide)
    (setupWorkspaces_isRing 500 3 (by decide)) (by decide)

/-- C2: from the state `setup` initialises, after any sequence of `ws_attach`,
`ws_detach` and `ws_detachAll` calls on clients (never the sentinel) and
workspaces `0..9`, the calls all return, and for every workspace `w`: the two
links of every client are both `NULL` or both set; walking `c_next[w]` from
the sentinel comes back to the sentinel having visited a list `l` of clients;
the clients with a non-`NULL` link are exactly those of `l`; and
`w_numClients[w]` is the length of `l`. -/
theorem registry_invariant (VSPLIT : Int) (ops : List RegOp)
    (hv : ∀ op ∈ ops, op.valid = true) :
    ∃ s, runOps ops (setupWorkspaces VSPLIT) = some s ∧
      ∀ w, w < 10 →
        (∀ c, (s.mem c).c_next w = none ↔ (s.mem c).c_prev w = none) ∧
        ∃ l : List Nat, (∀ fuel, l.length < fuel → ring fuel s w = some l) ∧
          (∀ c, c ≠ rootClient → ((s.mem c).c_next w ≠ none ↔ c ∈ l)) ∧
          s.w_numClients w = (l.length : Int) := by
  obtain ⟨s, hs, hi⟩ := runOps_inv ops _ hv (setupWorkspaces_inv VSPLIT)
  refine ⟨s, hs, fun w hw => ?_⟩
  obtain ⟨l, hr, hcnt⟩ := hi w hw
  refine ⟨hr.both_or_none, l, fun fuel hf => hr.ring_eq fuel hf, fun c hc => ?_, hcnt⟩
  rw [← hr.mem_iff hc, isMember]
  cases (s.mem c).c_next w <;> simp

/-- Witness of `registry_invariant`: a run that attaches, detaches and
detaches from all rings. -/
theorem registry_invariant_witness :
    ∃ s, runOps [.attach 1 3, .attach 2 3, .attach 1 0, .detach 1 3, .attach 1 3, .detachAll 2]
        (setupWorkspaces 500) = some s ∧
      ∀ w, w < 10 →
        (∀ c, (s.mem c).c_next w = none ↔ (s.mem c).c_prev w = none) ∧
        ∃ l : List Nat, (∀ fuel, l.length < fuel → ring fuel s w = some l) ∧
          (∀ c, c ≠ rootClient → ((s.mem c).c_next w ≠ none ↔ c ∈ l)) ∧
          s.w_numClients w = (l.length : Int) :=
  registry_invariant 500 _ (by decide)

/-- One `ws_attach` of a client that is not a member of a well-formed ring. -/
theorem ws_attach_one {s : State} {w : Nat} {l : List Nat} (hw : w < 10) (hr : IsRing s w l)
    (c : Nat) (hc : c ≠ rootClient) (hm : isMember s c w = false) :
    ∃ s', ws_attach c w s = some s' ∧ IsRing s' w (l ++ [c]) ∧
      (∀ fuel, l.length + 1 < fuel → ring fuel s' w = some (l ++ [c])) ∧
      s'.w_numClients w = s.w_numClients w + 1 ∧
      ∀ d, d ≠ c → isMember s d w = false → isMember s' d w = false := by
  obtain ⟨p, hp, hpn, he, hr'⟩ := ws_attach_ring hw hc hr hm
  refine ⟨_, he, hr', fun fuel hf => hr'.ring_eq fuel (by simpa using hf), ?_, ?_⟩
  · rw [attached_count]; simp
  · intro d hdc hd
    rw [isMember_false_iff] at hd ⊢
    rw [State.attached, relink_next]
    have hdp : d ≠ p := by
      intro e; subst e; rw [hd] at hpn; exact Option.noConfusion hpn
    simp [hdp, hdc, hd]

/-- Clients attached one after another to a well-formed ring are appended in
insertion order. -/
theorem attachAll_ring {w : Nat} (hw : w < 10) :
    ∀ (cs : List Nat) (s : State) (l : List Nat), IsRing s w l → cs.Nodup →
      rootClient ∉ cs → (∀ c ∈ cs, isMember s c w = false) →
      ∃ s', attachAll cs w s = some s' ∧ IsRing s' w (l ++ cs) ∧
        (∀ fuel, l.length + cs.length < fuel → ring fuel s' w = some (l ++ cs)) ∧
        s'.w_numClients w = s.w_numClients w + cs.length
  | [], s, l, hr, _, _, _ =>
    ⟨s, rfl, by simpa using hr, fun fuel hf => by
      simpa using hr.ring_eq fuel (by simpa using hf), by simp⟩
  | c :: cs, s, l, hr, hnd, hroot, hmem => by
    have hnd' := List.nodup_cons.mp hnd
    obtain ⟨s1, h1, h2, _, h4, h5⟩ := ws_attach_one hw hr c
      (fun e => hroot (by simp [e])) (hmem c (by simp))
    obtain ⟨s2, g1, g2, g3, g4⟩ := attachAll_ring hw cs s1 (l ++ [c]) h2 hnd'.2
      (fun e => hroot (List.mem_cons_of_mem _ e))
      (fun d hd => h5 d (fun e => hnd'.1 (e ▸ hd)) (hmem d (List.mem_cons_of_mem _ hd)))
    refine ⟨s2, ?_, by simpa using g2, fun fuel hf => ?_, ?_⟩
    · unfold attachAll at g1 ⊢
      simp [List.foldlM, h1, g1]
    · have := g3 fuel (by simp at hf ⊢; omega)
      simpa using this
    · rw [g4, h4]; simp; ring

/-- The ring 3 holding clients 1, 2, 3 (in this order): the state `setup`
leaves after `ws_attach(1, 3)`, `ws_attach(2, 3)`, `ws_attach(3, 3)`. -/
theorem attachAll_demo :
    ∃ s, attachAll [1, 2, 3] 3 (setupWorkspaces 500) = some s ∧ IsRing s 3 [1, 2, 3] := by
  obtain ⟨s, h1, h2, _⟩ := attachAll_ring (w := 3) (by decide) [1, 2, 3] (setupWorkspaces 500) []
    (setupWorkspaces_isRing 500 3 (by decide)) (by decide) (by decide) (by decide)
  exact ⟨s, h1, by simpa using h2⟩

/-- C3: `ws_attach(c, w)` on a client that is not a member of the well-formed
ring `w` returns, the enumeration of ring `w` becomes the previous one followed
by `c`, and `w_numClients[w]` grows by exactly 1; hence attaching the clients
`cs` one after another (all different, none a member) makes the enumeration
the previous one followed by `cs` in insertion order. -/
theorem ws_attach_appends (s : State) (w : Nat) (l : List Nat) (hw : w < 10)
    (hr : IsRing s w l) :
    (∀ c, c ≠ rootClient → isMember s c w = false →
      ∃ s', ws_attach c w s = some s' ∧ IsRing s' w (l ++ [c]) ∧
        (∀ fuel, l.length + 1 < fuel → ring fuel s' w = some (l ++ [c])) ∧
        s'.w_numClients w = s.w_numClients w + 1) ∧
    (∀ cs : List Nat, cs.Nodup → rootClient ∉ cs → (∀ c ∈ cs, isMember s c w = false) →
      ∃ s', attachAll cs w s = some s' ∧ IsRing s' w (l ++ cs) ∧
        (∀ fuel, l.length + cs.length < fuel → ring fuel s' w = some (l ++ cs)) ∧
        s'.w_numClients w = s.w_numClients w + cs.length) := by
  refine ⟨fun c hc hm => ?_, fun cs hnd hroot hmem => attachAll_ring hw cs s l hr hnd hroot hmem⟩
  obtain ⟨s', h1, h2, h3, h4, _⟩ := ws_attach_one hw hr c hc hm
  exact ⟨s', h1, h2, h3, h4⟩

/-- Witness of `ws_attach_appends`: client 1, then clients 1, 2, 3, attached
to the empty ring 3 of the state `setup` leaves. -/
theorem ws_attach_appends_witness :
    (∃ s', ws_attach 1 3 (setupWorkspaces 500) = some s' ∧ IsRing s' 3 ([] ++ [1]) ∧
        (∀ fuel, ([] : List Nat).length + 1 < fuel → ring fuel s' 3 = some ([] ++ [1])) ∧
        s'.w_numClients 3 = (setupWorkspaces 500).w_numClients 3 + 1) ∧
    (∃ s', attachAll [1, 2, 3] 3 (setupWorkspaces 500) = some s' ∧
        IsRing s' 3 ([] ++ [1, 2, 3]) ∧
        (∀ fuel, ([] : List Nat).length + [1, 2, 3].length < fuel →
          ring fuel s' 3 = some ([] ++ [1, 2, 3])) ∧
        s'.w_numClients 3 = (setupWorkspaces 500).w_numClients 3 + [1, 2, 3].length) :=
  ⟨(ws_attach_appends (setupWorkspaces 500) 3 [] (by decide)
      (setupWorkspaces_isRing 500 3 (by decide))).1 1 (by decide) (by decide),
   (ws_attach_appends (setupWorkspaces 500) 3 [] (by decide)
      (setupWorkspaces_isRing 500 3 (by decide))).2 [1, 2, 3] (by decide) (by decide)
      (by decide)⟩

/-- C4: on a well-formed ring `w`, `ws_detach(c, w)` of a member `c` returns,
the enumeration of ring `w` becomes the previous one without `c` (the other
members in their previous order), both links of `c` for `w` are `NULL`,
`w_numClients[w]` is 1 less, and the links and the count of every other ring
are untouched; `ws_detach(c, w)` of a client that is not a member returns the
state unchanged. -/
theorem ws_detach_removes (s : State) (c w : Nat) (l : List Nat) (hw : w < 10)
    (hc : c ≠ rootClient) (hr : IsRing s w l) :
    (isMember s c w = true →
      ∃ s', ws_detach c w s = some s' ∧
        IsRing s' w (l.filter (fun a => decide (a ≠ c))) ∧
        (∀ fuel, l.length < fuel →
          ring fuel s' w = some (l.filter (fun a => decide (a ≠ c)))) ∧
        (s'.mem c).c_next w = none ∧ (s'.mem c).c_prev w = none ∧
        s'.w_numClients w = s.w_numClients w - 1 ∧
        ∀ v, v ≠ w → s'.w_numClients v = s.w_numClients v ∧
          ∀ a, (s'.mem a).c_next v = (s.mem a).c_next v ∧
            (s'.mem a).c_prev v = (s.mem a).c_prev v) ∧
    (isMember s c w = false → ws_detach c w s = some s) := by
  refine ⟨fun hm => ?_, ws_detach_nonmember hw⟩
  have hcl := (hr.mem_iff hc).mp hm
  obtain ⟨n, p, _, _, he, hr'⟩ := ws_detach_ring hw hr hcl
  have hf : l.erase c = l.filter (fun a => decide (a ≠ c)) := by
    rw [hr.1.erase_eq_filter]
    congr 1
    funext a
    by_cases h : a = c <;> simp [h, bne]
  rw [hf] at hr'
  refine ⟨_, he, hr', fun fuel hfu => hr'.ring_eq fuel ?_, ?_, ?_, ?_, fun v hv => ⟨?_, fun a => ⟨?_, ?_⟩⟩⟩
  · exact lt_of_le_of_lt (List.length_filter_le _ _) hfu
  · rw [State.detached, relink_next]; simp
  · rw [State.detached, relink_prev]; simp
  · rw [detached_count]; simp
  · rw [detached_count]; simp [hv]
  · rw [State.detached, relink_next]; simp [hv]
  · rw [State.detached, relink_prev]; simp [hv]

/-- Witness of `ws_detach_removes`: client 2 of the ring 3 holding 1, 2, 3. -/
theorem ws_detach_removes_witness :
    ∃ s, attachAll [1, 2, 3] 3 (setupWorkspaces 500) = some s ∧ IsRing s 3 [1, 2, 3] ∧
    (isMember s 2 3 = true →
      ∃ s', ws_detach 2 3 s = some s' ∧
        IsRing s' 3 ([1, 2, 3].filter (fun a => decide (a ≠ 2))) ∧
        (∀ fuel, [1, 2, 3].length < fuel →
          ring fuel s' 3 = some ([1, 2, 3].filter (fun a => decide (a ≠ 2)))) ∧
        (s'.mem 2).c_next 3 = none ∧ (s'.mem 2).c_prev 3 = none ∧
        s'.w_numClients 3 = s.w_numClients 3 - 1 ∧
        ∀ v, v ≠ 3 → s'.w_numClients v = s.w_numClients v ∧
          ∀ a, (s'.mem a).c_next v = (s.mem a).c_next v ∧
            (s'.mem a).c_prev v = (s.mem a).c_prev v) ∧
    (isMember s 2 3 = false → ws_detach 2 3 s = some s) ∧ isMember s 2 3 = true := by
  obtain ⟨s, h1, h2⟩ := attachAll_demo
  have h := ws_detach_removes s 2 3 [1, 2, 3] (by decide) (by decide) h2
  exact ⟨s, h1, h2, h.1, h.2, (h2.mem_iff (by decide)).mpr (by decide)⟩

/-- C5: `ws_attach(c, w)` on a client that is already a member of ring `w`
returns the state unchanged, and so does calling it twice in a row. -/
theorem ws_attach_idempotent (s : State) (c w : Nat) (hw : w < 10)
    (hm : isMember s c w = true) :
    ws_attach c w s = some s ∧ (ws_attach c w s).bind (ws_attach c w) = some s := by
  have h := ws_attach_member hw hm
  exact ⟨h, by rw [h]; exact h⟩

/-- Witness of `ws_attach_idempotent`: the sentinel-free ring 3 after
`ws_attach(1, 3)`. -/
theorem ws_attach_idempotent_witness :
    ws_attach 1 3 ((setupWorkspaces 500).attached 1 3 0)
        = some ((setupWorkspaces 500).attached 1 3 0) ∧
      (ws_attach 1 3 ((setupWorkspaces 500).attached 1 3 0)).bind (ws_attach 1 3)
        = some ((setupWorkspaces 500).attached 1 3 0) :=
  ws_attach_idempotent ((setupWorkspaces 500).attached 1 3 0) 1 3 (by decide) (by decide)

theorem fn_addToWorkspace_sameRing {arg : Int} {t t' : State}
    (h : fn_addToWorkspace arg t = some t') : SameRing 0 t t' := by
  unfold fn_addToWorkspace at h
  split_ifs at h with h1
  · rw [← Option.some.inj h]; exact SameRing.ring_refl 0 t
  · split at h
    · rw [← Option.some.inj h]; exact SameRing.ring_refl 0 t
    · exact ws_attach_sameRing h (by omega)

theorem fn_removeFromWorkspace_sameRing {arg : Int} {t t' : State}
    (h : fn_removeFromWorkspace arg t = some t') : SameRing 0 t t' := by
  unfold fn_removeFromWorkspace at h
  split_ifs at h with h1
  · rw [← Option.some.inj h]; exact SameRing.ring_refl 0 t
  · split at h
    · rw [← Option.some.inj h]; exact SameRing.ring_refl 0 t
    · exact ws_detach_sameRing h (by omega)

theorem fn_addToAllWorkspaces_sameRing {arg : Int} {t t' : State}
    (h : fn_addToAllWorkspaces arg t = some t') : SameRing 0 t t' := by
  unfold fn_addToAllWorkspaces at h
  split at h
  · rw [← Option.some.inj h]; exact SameRing.ring_refl 0 t
  · exact attachFrom_sameRing 9 _ _ (by decide) (by decide) h

theorem fn_removeFromAllWorkspaces_sameRing {arg : Int} {t t' : State}
    (h : fn_removeFromAllWorkspaces arg t = some t') : SameRing 0 t t' := by
  unfold fn_removeFromAllWorkspaces at h
  split at h
  · rw [← Option.some.inj h]; exact SameRing.ring_refl 0 t
  · exact detachFrom_sameRing 9 _ _ (by decide) (by decide) h

theorem fn_commands_return {t : State} (hi : RegInv t) (arg : Int) :
    (∃ t', fn_addToWorkspace arg t = some t') ∧
    (∃ t', fn_removeFromWorkspace arg t = some t') ∧
    (∃ t', fn_addToAllWorkspaces arg t = some t') ∧
    (∃ t', fn_removeFromAllWorkspaces arg t = some t') := by
  have hring : ∀ w, w < 10 → ∃ l, IsRing t w l := fun w hw => by
    obtain ⟨l, hl, _⟩ := hi w hw
    exact ⟨l, hl⟩
  refine ⟨?_, ?_, ?_, ?_⟩
  · unfold fn_addToWorkspace
    split_ifs with h1
    · exact ⟨t, rfl⟩
    · cases t.sel with
      | none => exact ⟨t, rfl⟩
      | some c =>
        obtain ⟨l, hl⟩ := hring arg.toNat (by omega)
        exact ws_attach_returns c (by omega) hl
  · unfold fn_removeFromWorkspace
    split_ifs with h1
    · exact ⟨t, rfl⟩
    · cases t.sel with
      | none => exact ⟨t, rfl⟩
      | some c =>
        obtain ⟨l, hl⟩ := hring arg.toNat (by omega)
        exact ws_detach_returns c (by omega) hl
  · unfold fn_addToAllWorkspaces
    cases t.sel with
    | none => exact ⟨t, rfl⟩
    | some c => exact attachFrom_returns 9 t (by decide) (fun w _ hw => hring w hw)
  · unfold fn_removeFromAllWorkspaces
    cases t.sel with
    | none => exact ⟨t, rfl⟩
    | some c => exact detachFrom_returns 9 t (by decide) (fun w _ hw => hring w hw)

theorem demoState_managed (bh : Int) : Managed (demoState bh fun _ => {}) := by
  refine ⟨fun w hw => ⟨[], demoState_isRing bh _ w hw (fun _ => ⟨rfl, rfl⟩), rfl⟩,
    by simp [demoState, setupWorkspaces], ?_, rfl, ?_, ?_⟩
  · intro m hm
    simp only [demoState, List.mem_singleton] at hm
    subst hm
    decide
  · intro a
    by_cases ha : a = rootClient
    · subst ha; simp [demoState, setupWorkspaces]
    · simp [demoState, ha]
  · intro a w _ ha hmem
    simp [isMember, demoState, ha] at hmem

/-- C6: every managed client is a member of ring 0.  In a consistent state
`manage` (given the address `c` of a fresh, unlinked record and enough fuel)
returns with `c` attached as the last member of ring 0; and in every state `t`,
for every argument, whatever `fn_addToWorkspace`, `fn_removeFromWorkspace`,
`fn_addToAllWorkspaces` and `fn_removeFromAllWorkspaces` return has the same
ring 0 (every `c_next[0]` and `c_prev[0]`, the sentinel included, and
`w_numClients[0]`), and the four commands do return when the rings of `t` are
well formed. -/
theorem ring0_membership (fuel c w : Nat) (wa : XWindowAttributes)
    (hints : Option XSizeHints) (transRet : Int) (s : State) (hm : Managed s)
    (hfuel : ∀ v, v < 10 → s.w_numClients v + 1 < (fuel : Int)) (hc : c ≠ rootClient)
    (hfresh : ∀ v, v < 10 → isMember s c v = false) :
    (∃ s', manage fuel c w wa hints transRet s = some s' ∧ isMember s' c 0 = true ∧
      ∀ l, IsRing s 0 l → IsRing s' 0 (l ++ [c])) ∧
    (∀ (t : State) (arg : Int),
      (∀ t', fn_addToWorkspace arg t = some t' → SameRing 0 t t') ∧
      (∀ t', fn_removeFromWorkspace arg t = some t' → SameRing 0 t t') ∧
      (∀ t', fn_addToAllWorkspaces arg t = some t' → SameRing 0 t t') ∧
      (∀ t', fn_removeFromAllWorkspaces arg t = some t' → SameRing 0 t t') ∧
      (RegInv t →
        (∃ t', fn_addToWorkspace arg t = some t') ∧
        (∃ t', fn_removeFromWorkspace arg t = some t') ∧
        (∃ t', fn_addToAllWorkspaces arg t = some t') ∧
        (∃ t', fn_removeFromAllWorkspaces arg t = some t'))) :=
  ⟨manage_attaches fuel c w wa hints transRet s hm hfuel hc hfresh,
   fun _ arg => ⟨fun _ h => fn_addToWorkspace_sameRing h,
    fun _ h => fn_removeFromWorkspace_sameRing h,
    fun _ h => fn_addToAllWorkspaces_sameRing h,
    fun _ h => fn_removeFromAllWorkspaces_sameRing h,
    fun hi => fn_commands_return hi arg⟩⟩

/-- Witness of `ring0_membership`: the first window (record 1, window id 77,
no size hints, not transient) managed in the state `setup` leaves with one
monitor. -/
theorem ring0_membership_witness :
    (∃ s', manage 5 1 77 { x := 10, y := 10, width := 300, height := 200, border_width := 0 }
        none 0 (demoState 20 fun _ => {}) = some s' ∧ isMember s' 1 0 = true ∧
      ∀ l, IsRing (demoState 20 fun _ => {}) 0 l → IsRing s' 0 (l ++ [1])) ∧
    (∀ (t : State) (arg : Int),
      (∀ t', fn_addToWorkspace arg t = some t' → SameRing 0 t t') ∧
      (∀ t', fn_removeFromWorkspace arg t = some t' → SameRing 0 t t') ∧
      (∀ t', fn_addToAllWorkspaces arg t = some t' → SameRing 0 t t') ∧
      (∀ t', fn_removeFromAllWorkspaces arg t = some t' → SameRing 0 t t') ∧
      (RegInv t →
        (∃ t', fn_addToWorkspace arg t = some t') ∧
        (∃ t', fn_removeFromWorkspace arg t = some t') ∧
        (∃ t', fn_addToAllWorkspaces arg t = some t') ∧
        (∃ t', fn_removeFromAllWorkspaces arg t = some t'))) :=
  ring0_membership 5 1 77 { x := 10, y := 10, width := 300, height := 200, border_width := 0 }
    none 0 (demoState 20 fun _ => {}) (demoState_managed 20)
    (fun v hv => by simp [demoState, setupWorkspaces]) (by decide)
    (fun v _ => by simp [isMember, demoState, rootClient])

/-- C7 (as stated, refuted): three clients without size hints, not floating,
attached to workspace 3 of the 1000x900 monitor with split 500 and bar height
20, the third with border 5 (a client sets `c_border` with a ConfigureRequest)
and the others with border 1.  The width of the stack column is computed once,
for the border of the first stacked client, so the third window is stored 498
wide and occupies (500, 450, 508, 450). -/
theorem layoutTile_three_counterexample :
    ∃ s s', attachAll [1, 2, 3] 3
        (demoState 20 fun a => if a = 3 then plainClient 5 else plainClient 1) = some s ∧
      ring 5 s 3 = some [1, 2, 3] ∧
      (∀ a ∈ [1, 2, 3], (s.mem a).c_isfloating = false ∧ (s.mem a).noHints) ∧
      s.w_vSplit 3 = 500 ∧ s.bh ≤ 450 ∧
      layoutTile 5 s = some s' ∧
      occupied s' 1 = (0, 0, 500, 900) ∧ occupied s' 2 = (500, 0, 500, 450) ∧
      occupied s' 3 = (500, 450, 508, 450) ∧ occupied s' 3 ≠ (500, 450, 500, 450) :=
  ⟨_, _, rfl, by decide, by decide, by decide, by decide, rfl, by decide, by decide, by decide,
    by decide⟩

/-- C7 (amended): on one monitor whose work area has origin (0,0) and size
1000x900 and which shows workspace 3, with split 500, bar height at most 450,
and the clients `a`, `b`, `c` (in ring order) the only members of workspace 3,
none floating, none with size-hint restrictions, the border of `a` thinner
than 250 and `b` and `c` having the same border, thinner than 225:
`layoutTile` returns, `a` occupies (0,0,500,900), `b` occupies (500,0,500,450)
and `c` occupies (500,450,500,450). -/
theorem layoutTile_three (fuel : Nat) (s : State) (m : Monitor) (a b c : Nat)
    (hmon : s.monitors = [m]) (hws : m.m_workspace = 3)
    (hx : m.wax = 0) (hy : m.way = 0) (hw : m.waw = 1000) (hh : m.wah = 900)
    (hsplit : s.w_vSplit 3 = 500) (hbh : s.bh ≤ 450)
    (hr : IsRing s 3 [a, b, c]) (hfuel : 3 < fuel)
    (hfl : ∀ x ∈ [a, b, c], (s.mem x).c_isfloating = false ∧ (s.mem x).noHints)
    (hba : 0 ≤ (s.mem a).c_border ∧ 2 * (s.mem a).c_border < 500)
    (hbb : 0 ≤ (s.mem b).c_border ∧ 2 * (s.mem b).c_border < 450)
    (hbc : (s.mem c).c_border = (s.mem b).c_border) :
    ∃ s', layoutTile fuel s = some s' ∧ occupied s' a = (0, 0, 500, 900) ∧
      occupied s' b = (500, 0, 500, 450) ∧ occupied s' c = (500, 450, 500, 450) := by
  have hnd := hr.1
  simp only [List.nodup_cons, List.mem_cons, List.mem_singleton, not_or, List.not_mem_nil,
    not_false_eq_true, List.nodup_nil, and_true] at hnd
  obtain ⟨⟨hab, hac⟩, hbc'⟩ := hnd
  have hfa := hfl a (by simp)
  have hfb := hfl b (by simp)
  have hfc := hfl c (by simp)
  have hnf : nonFloating s [a, b, c] = [a, b, c] := by
    simp [nonFloating, hfa.1, hfb.1, hfc.1]
  have hr3 : IsRing s m.m_workspace [a, b, c] := by rw [hws]; exact hr
  have heq := tileMonitor_eq fuel m {} s [a, b, c] (by rw [hws]; decide) hr3 (by simpa using hfuel)
    (by rw [hnf]; simp)
  have hmc : (s.mem rootClient).c_next 3 = some a := (List.chain'_cons.mp hr.2.2.1).1.1
  have hmw : tileMw m s 3 = 500 := by
    simp [tileMw, hws, hsplit, u32]
  have hth : tileTh m s 3 = 450 := by
    have := tileTh_regular m s 2 (by decide) (by rw [hh]; decide) (by rw [hh]; decide)
      (by rw [hh]; exact hbh)
    rw [hh] at this
    exact this
  rw [hnf] at heq
  simp only [List.length_cons, List.length_nil, Nat.cast_ofNat, hws, hmc] at heq
  norm_num at heq
  rw [hmw, hth] at heq
  have hl : [a, b, c] = ([] ++ [a]) ++ [b, c] := rfl
  rw [hl, tileFold_append] at heq
  -- the master
  obtain ⟨⟨V1, s1⟩, h1, hfr1, hoth1, hj1, hnx1, ax, ay, aw, ah⟩ :=
    tileFold_master m 3 500 450 (some a) [] a { ({} : TileVars) with j := 0 } s
      (fun _ h => absurd h (List.not_mem_nil _)) hfa.1 hfa.2 rfl
  simp only [hx, hy, hh] at hnx1 ax ay aw ah
  have hV1j : V1.j = 1 := hj1
  have hV1x : V1.nx = 0 := by rw [show V1.nx = u32 0 from hnx1]; rfl
  have ax' : (s1.mem a).x = 0 := by rw [show (s1.mem a).x = i32 (u32 0) from ax]; rfl
  have ay' : (s1.mem a).y = 0 := by rw [show (s1.mem a).y = i32 (u32 0) from ay]; rfl
  have aw' : (s1.mem a).w = 500 - 2 * (s.mem a).c_border := by
    rw [show (s1.mem a).w = _ from aw, u32_of_nonneg _ (by omega) (by omega),
      i32_of_range _ (by omega) (by omega)]
    omega
  have ah' : (s1.mem a).h = 900 - 2 * (s.mem a).c_border := by
    rw [show (s1.mem a).h = _ from ah, u32_of_nonneg _ (by omega) (by omega),
      i32_of_range _ (by omega) (by omega)]
    omega
  have ab1 : (s1.mem a).c_border = (s.mem a).c_border := hfr1.border a
  -- the first stacked client
  have hb1 : (s1.mem b).c_border = (s.mem b).c_border := hfr1.border b
  obtain ⟨v2, hg2, hv2j, hv2y, hv2h, hv2x, _⟩ := tileGeom_stack m 3 500 450 a (s1.mem b) V1 s1 0
    (by omega) (fun _ => hy.symm) (fun h => absurd hV1j h)
  obtain ⟨hv2nx, hv2nw⟩ := hv2x hV1j
  obtain ⟨s2, h2, hfr2, hoth2, bx, by_, bw, bh_⟩ := tileBody_noHints m 3 500 450 (some a) b V1 v2 s1
    (by rw [hfr1.floating]; exact hfb.1) ((hfr1.noHints b).mpr hfb.2) hg2
  have hu2 : u32 (1 + 1) = 2 := rfl
  rw [hV1j, hu2, if_neg (by decide), hb1] at hv2h
  rw [hV1x, aw', ab1] at hv2nx
  rw [hw, hb1] at hv2nw
  have bx' : (s2.mem b).x = 500 := by
    rw [bx, hv2nx]
    have : (0 : Int) + (500 - 2 * (s.mem a).c_border) + 2 * (s.mem a).c_border = 500 := by omega
    rw [this]; rfl
  have by' : (s2.mem b).y = 0 := by rw [by_, hv2y]; rfl
  have bw' : (s2.mem b).w = 500 - 2 * (s.mem b).c_border := by
    rw [bw, hv2nw, u32_of_nonneg _ (by omega) (by omega), i32_of_range _ (by omega) (by omega)]
    omega
  have bh' : (s2.mem b).h = 450 - 2 * (s.mem b).c_border := by
    rw [bh_, hv2h, u32_of_nonneg _ (by omega) (by omega), i32_of_range _ (by omega) (by omega)]
    omega
  have bb2 : (s2.mem b).c_border = (s.mem b).c_border := by rw [hfr2.border, hb1]
  -- the second stacked client
  have hne : (3 : Int) > 1 ∧ (450 : Int) ≠ u32 m.wah := by rw [hh]; decide
  have hV2j : (tileAdvance m 3 450 (s2.mem b) v2).j = 2 := by
    rw [tileAdvance_j, hv2j, hV1j]; rfl
  have hV2y : (tileAdvance m 3 450 (s2.mem b) v2).ny = u32 450 := by
    rw [tileAdvance_ny m 3 450 _ _ hne, by', bh', bb2]
    congr 1; omega
  have hc2 : (s2.mem c).c_border = (s.mem b).c_border := by
    rw [hfr2.border, hfr1.border, hbc]
  obtain ⟨v3, hg3, hv3j, hv3y, hv3h, _, hv3x⟩ := tileGeom_stack m 3 500 450 a (s2.mem c)
    (tileAdvance m 3 450 (s2.mem b) v2) s2 450 (by rw [hV2j]; decide)
    (fun h => by rw [hV2j] at h; exact absurd h (by decide)) (fun _ => hV2y)
  obtain ⟨hv3nx, hv3nw⟩ := hv3x (by rw [hV2j]; decide)
  rw [tileAdvance_nx, hv2nx] at hv3nx
  rw [tileAdvance_nw, hv2nw] at hv3nw
  obtain ⟨s3, h3, hfr3, hoth3, cx, cy, cw, ch⟩ := tileBody_noHints m 3 500 450 (some a) c
    (tileAdvance m 3 450 (s2.mem b) v2) v3 s2
    (by rw [hfr2.floating, hfr1.floating]; exact hfc.1)
    ((hfr2.noHints c).mpr ((hfr1.noHints c).mpr hfc.2)) hg3
  have hu3 : u32 (2 + 1) = 3 := rfl
  rw [hV2j, hu3, if_pos rfl, hy, hh, hc2] at hv3h
  have cx' : (s3.mem c).x = 500 := by
    rw [cx, hv3nx]
    have : (0 : Int) + (500 - 2 * (s.mem a).c_border) + 2 * (s.mem a).c_border = 500 := by omega
    rw [this]; rfl
  have cy' : (s3.mem c).y = 450 := by rw [cy, hv3y]; rfl
  have cw' : (s3.mem c).w = 500 - 2 * (s.mem b).c_border := by
    rw [cw, hv3nw, u32_of_nonneg _ (by omega) (by omega), i32_of_range _ (by omega) (by omega)]
    omega
  have ch' : (s3.mem c).h = 450 - 2 * (s.mem b).c_border := by
    have e : (0 : Int) + 900 - u32 450 - 2 * (s.mem b).c_border
        = 450 - 2 * (s.mem b).c_border := by
      have : u32 450 = 450 := rfl
      rw [this]; omega
    rw [ch, hv3h, e, u32_of_nonneg _ (by omega) (by omega), i32_of_range _ (by omega) (by omega)]
    omega
  have cb3 : (s3.mem c).c_border = (s.mem b).c_border := by rw [hfr3.border, hc2]
  -- the result
  refine ⟨s3, ?_, ?_, ?_, ?_⟩
  · rw [layoutTile_one_monitor fuel s m hmon, heq, h1]
    simp only [Option.some_bind]
    rw [tileFold_cons, h2]
    simp only [Option.some_bind]
    rw [tileFold_cons, h3]
    rfl
  · unfold occupied
    rw [hoth3 a hac, hoth2 a hab, ax', ay', aw', ah', ab1]
    simp
  · unfold occupied
    rw [hoth3 b hbc', bx', by', bw', bh', bb2]
    simp
  · unfold occupied
    rw [cx', cy', cw', ch', cb3]
    simp

/-- Witness of `layoutTile_three`: clients 1, 2, 3 with border 1 on
`demoThree`, bar height 20. -/
theorem layoutTile_three_witness :
    ∃ s', layoutTile 5 (demoThree 20 fun _ => plainClient 1) = some s' ∧
      occupied s' 1 = (0, 0, 500, 900) ∧ occupied s' 2 = (500, 0, 500, 450) ∧
      occupied s' 3 = (500, 450, 500, 450) :=
  layoutTile_three 5 (demoThree 20 fun _ => plainClient 1) demoMonitor 1 2 3 rfl rfl rfl rfl rfl
    rfl (by decide) (by decide) (demoThree_isRing 20 _ (fun _ => ⟨rfl, rfl⟩)) (by decide)
    (by decide) (by decide) (by decide) (by decide)

/-- C8 (as stated, refuted): with three tiled clients on the 1000x900 work
area, (a) when the two stacked clients are terminals with resize increments
(7, 13) and border 1, the stacked windows occupy 444 rows each, 888 and not
900 in all; (b) when the bar is higher than `wah / (n - 1)` (here 500 > 450),
the two stacked windows, without size hints, both start at `y = 0` and are 900
high each: they overlap. -/
theorem layoutTile_stack_counterexample :
    (∃ s', layoutTile 5 (demoThree 20 fun a => if a = 1 then plainClient 1
          else { c_incw := 7, c_inch := 13, c_border := 1 }) = some s' ∧
        nonFloating s' [1, 2, 3] = [1, 2, 3] ∧
        occupied s' 2 = (500, 0, 499, 444) ∧ occupied s' 3 = (500, 444, 499, 444) ∧
        ([2, 3].map fun c => (occupied s' c).2.2.2).sum ≠ demoMonitor.wah) ∧
    (∃ s', layoutTile 5 (demoThree 500 fun _ => plainClient 1) = some s' ∧
        nonFloating s' [1, 2, 3] = [1, 2, 3] ∧
        occupied s' 2 = (500, 0, 500, 900) ∧ occupied s' 3 = (500, 0, 500, 900) ∧
        ¬ Tiled s' demoMonitor.way (demoMonitor.way + demoMonitor.wah) [2, 3]) :=
  ⟨⟨_, rfl, by decide, by decide, by decide, by decide⟩,
   ⟨_, rfl, by decide, by decide, by decide, by
      unfold Tiled; unfold Tiled; unfold Tiled; decide⟩⟩

/-- C8 (amended): with one monitor, when the members of the active workspace
that are not floating are `c0` (the master) followed by the non-empty list
`stack`, none of them has size-hint restrictions, the tile height
`wah / (n - 1)` is at least the bar height `bh` and more than twice the border
of every stacked client (coordinates within the `int` range), `layoutTile`
returns and the stacked windows tile the work-area height: the first starts at
`way`, each next one starts where the one before it ends, the last ends at
`way + wah`, and the heights they occupy add up to `wah`. -/
theorem layoutTile_stack_tiled (fuel : Nat) (s : State) (m : Monitor) (l : List Nat) (c0 : Nat)
    (stack : List Nat) (hmon : s.monitors = [m]) (hws : m.m_workspace < 10)
    (hr : IsRing s m.m_workspace l) (hfuel : l.length < fuel)
    (hnf : nonFloating s l = c0 :: stack) (hstack : stack ≠ [])
    (hnh : ∀ c ∈ c0 :: stack, (s.mem c).noHints)
    (hdeg : s.bh ≤ m.wah / stack.length)
    (hb : ∀ c ∈ stack, 0 ≤ (s.mem c).c_border ∧ 2 * (s.mem c).c_border < m.wah / stack.length)
    (hway : -2147483648 ≤ m.way) (hwah : m.wah < 2147483648)
    (hsum : m.way + m.wah < 2147483648) :
    ∃ s', layoutTile fuel s = some s' ∧ Tiled s' m.way (m.way + m.wah) stack ∧
      (stack.map fun c => (occupied s' c).2.2.2).sum = m.wah := by
  -- arithmetic facts on the tile height
  have hk1 : (1 : Int) ≤ stack.length := by
    have : 0 < stack.length := List.length_pos.mpr hstack
    exact_mod_cast this
  obtain ⟨c1, hc1⟩ := List.exists_mem_of_ne_nil stack hstack
  have hth : 0 < m.wah / (stack.length : Int) := by
    have := hb c1 hc1
    omega
  have hmul : (stack.length : Int) * (m.wah / stack.length) ≤ m.wah :=
    Int.mul_ediv_self_le (by omega)
  have hkth : (stack.length : Int) ≤ (stack.length : Int) * (m.wah / stack.length) := by
    have := mul_le_mul_of_nonneg_left (show (1 : Int) ≤ m.wah / stack.length by omega)
      (show (0 : Int) ≤ stack.length by omega)
    simpa using this
  have hwah0 : 0 ≤ m.wah := by omega
  have hlen : ((nonFloating s l).length : Int) = (stack.length : Int) + 1 := by
    rw [hnf]; simp
  -- the loop as a fold over the ring
  have heq := tileMonitor_eq fuel m {} s l hws hr hfuel (by rw [hlen]; omega)
  rw [hlen, tileTh_regular m s _ hk1 hwah0 (by omega) hdeg] at heq
  obtain ⟨pre, rest, rfl, hpre, hc0, hrest⟩ := nonFloating_split hnf
  obtain ⟨a0, ha0⟩ := hr.root_next
  rw [ha0] at heq
  have hl : pre ++ c0 :: rest = (pre ++ [c0]) ++ rest := by simp
  rw [hl, tileFold_append] at heq
  -- the master, then the stack
  obtain ⟨⟨V1, s1⟩, h1, hfr1, _, hj1, _⟩ := tileFold_master m ((stack.length : Int) + 1)
    (tileMw m s ((stack.length : Int) + 1)) (m.wah / stack.length) (some a0) pre c0
    { ({} : TileVars) with j := 0 } s hpre hc0 (hnh c0 (by simp)) rfl
  have hnd : rest.Nodup := by
    have := hr.1
    rw [List.nodup_append] at this
    exact (List.nodup_cons.mp this.2.1).2
  obtain ⟨r, h2, hfr2, _, h4⟩ := tileFold_stack m ((stack.length : Int) + 1)
    (tileMw m s ((stack.length : Int) + 1)) (m.wah / stack.length) a0 s hway hwah0 hwah hsum
    (by omega) rest V1 s1 m.way hfr1 hnd (by rw [show V1.j = 1 from hj1])
    (by rw [show V1.j = 1 from hj1, hrest]; omega) (le_refl _) (by rw [hrest]; omega)
    (fun _ => rfl) (fun h => absurd hj1 h)
    (by rw [hrest]; exact fun c hc => ⟨hnh c (List.mem_cons_of_mem _ hc), hb c hc⟩)
  rw [hrest] at h4
  have ht := h4 hstack
  refine ⟨r.2, ?_, ht, ?_⟩
  · rw [layoutTile_one_monitor fuel s m hmon, heq, h1]
    simp only [Option.some_bind]
    rw [h2]; rfl
  · rw [Tiled.sum stack _ _ ht]; omega

/-- Witness of `layoutTile_stack_tiled`: clients 1, 2, 3 (no hints, border 1)
on workspace 3 of the 1000x900 monitor, bar height 20. -/
theorem layoutTile_stack_tiled_witness :
    ∃ s', layoutTile 5 (demoThree 20 fun _ => plainClient 1) = some s' ∧
      Tiled s' demoMonitor.way (demoMonitor.way + demoMonitor.wah) [2, 3] ∧
      ([2, 3].map fun c => (occupied s' c).2.2.2).sum = demoMonitor.wah :=
  layoutTile_stack_tiled 5 (demoThree 20 fun _ => plainClient 1) demoMonitor [1, 2, 3] 1 [2, 3]
    rfl (by decide) (demoThree_isRing 20 _ (fun _ => ⟨rfl, rfl⟩)) (by decide) (by decide)
    (by decide) (by decide) (by decide) (by decide) (by decide) (by decide) (by decide)

/-- C9 (as stated, refuted): a single tiled client with resize increments 7
and 13 (a terminal) and border 1 on the 1000x900 work area is resized to
994x897: it occupies 996x899, not the full work area. -/
theorem layoutTile_single_hints_counterexample :
    ∃ s s', ws_attach 1 3 (demoState 20 fun _ => { c_incw := 7, c_inch := 13, c_border := 1 })
        = some s ∧
      ring 5 s 3 = some [1] ∧ nonFloating s [1] = [1] ∧ layoutTile 5 s = some s' ∧
      occupied s' 1 = (0, 0, 996, 899) ∧
      occupied s' 1 ≠ (demoMonitor.wax, demoMonitor.way, demoMonitor.waw, demoMonitor.wah) :=
  ⟨_, _, rfl, by decide, by decide, rfl, by decide, by decide⟩

/-- C9 (amended): with one monitor, when the only member of the active
workspace that is not floating is a client without size-hint restrictions
whose border is thinner than half the work-area width and height (all
coordinates within the `int` range), `layoutTile` returns and that window
occupies exactly the work-area rectangle `(wax, way, waw, wah)`, whatever the
split value of the workspace is. -/
theorem layoutTile_single (fuel : Nat) (s : State) (m : Monitor) (l : List Nat) (c : Nat)
    (hmon : s.monitors = [m]) (hws : m.m_workspace < 10) (hr : IsRing s m.m_workspace l)
    (hfuel : l.length < fuel) (hone : nonFloating s l = [c]) (hn : (s.mem c).noHints)
    (hb : 0 ≤ (s.mem c).c_border) (hbw : 2 * (s.mem c).c_border < m.waw)
    (hbh : 2 * (s.mem c).c_border < m.wah)
    (hx : -2147483648 ≤ m.wax ∧ m.wax < 2147483648)
    (hy : -2147483648 ≤ m.way ∧ m.way < 2147483648)
    (hw : m.waw < 2147483648) (hh : m.wah < 2147483648) :
    ∃ s', layoutTile fuel s = some s' ∧ occupied s' c = (m.wax, m.way, m.waw, m.wah) := by
  have hlen : ((nonFloating s l).length : Int) = 1 := by rw [hone]; rfl
  have heq := tileMonitor_eq fuel m {} s l hws hr hfuel (by rw [hlen]; decide)
  rw [hlen, tileMw_one] at heq
  obtain ⟨r, hfold, hfr, gx, gy, gw, gh⟩ := tileFold_single m (u32 m.waw) (tileTh m s 1)
    ((s.mem rootClient).c_next m.m_workspace) l c { ({} : TileVars) with j := 0 } s hone hn rfl
  refine ⟨r.2, ?_, ?_⟩
  · rw [layoutTile_one_monitor fuel s m hmon, heq, hfold]; rfl
  · unfold occupied
    rw [gx, gy, gw, gh, hfr.border]
    rw [i32_u32 _ hx.1 hx.2, i32_u32 _ hy.1 hy.2, u32_of_nonneg m.waw (by omega) (by omega),
      u32_of_nonneg (m.waw - 2 * (s.mem c).c_border) (by omega) (by omega),
      u32_of_nonneg (m.wah - 2 * (s.mem c).c_border) (by omega) (by omega)]
    have e1 : i32 (m.waw - 2 * (s.mem c).c_border) = m.waw - 2 * (s.mem c).c_border := by
      unfold i32; split_ifs <;> omega
    have e2 : i32 (m.wah - 2 * (s.mem c).c_border) = m.wah - 2 * (s.mem c).c_border := by
      unfold i32; split_ifs <;> omega
    rw [e1, e2]
    have e3 : max (m.waw - 2 * (s.mem c).c_border) 1 = m.waw - 2 * (s.mem c).c_border := by
      omega
    have e4 : max (m.wah - 2 * (s.mem c).c_border) 1 = m.wah - 2 * (s.mem c).c_border := by
      omega
    rw [e3, e4]
    simp

/-- Witness of `layoutTile_single`: client 1 (no hints, border 1) alone on
workspace 3 of the 1000x900 monitor. -/
theorem layoutTile_single_witness :
    ∃ s', layoutTile 5 ((demoState 20 fun _ => plainClient 1).attached 1 3 0) = some s' ∧
      occupied s' 1 = (demoMonitor.wax, demoMonitor.way, demoMonitor.waw, demoMonitor.wah) :=
  layoutTile_single 5 ((demoState 20 fun _ => plainClient 1).attached 1 3 0) demoMonitor [1] 1
    rfl (by decide)
    ((demoState_isRing 20 _ 3 (by decide) (fun _ => ⟨rfl, rfl⟩)).attached (by decide)
      (by simp) (by simp [demoState, setupWorkspaces, rootClient]))
    (by decide) (by decide) (by decide) (by decide) (by decide) (by decide) (by decide)
    (by decide) (by decide) (by decide)

theorem resizeApply_noop (c : Nat) (x y w h : Int) (s : State) (hwh : w ≤ 0 ∨ h ≤ 0) :
    resizeApply c x y w h s = s := by
  unfold resizeApply
  rw [if_pos hwh]

/-- The tail of `resize` never stores a width or height that is not positive:
a record with a positive size keeps a positive size. -/
theorem resizeApply_pos (c : Nat) (x y w h : Int) (s : State) (a : Nat)
    (hw : 0 < (s.mem a).w) (hh : 0 < (s.mem a).h) :
    0 < ((resizeApply c x y w h s).mem a).w ∧ 0 < ((resizeApply c x y w h s).mem a).h := by
  by_cases h1 : w ≤ 0 ∨ h ≤ 0
  · rw [resizeApply_noop c x y w h s h1]; exact ⟨hw, hh⟩
  · by_cases ha : a = c
    · subst ha
      have hg := resizeApply_geom a x y w h s (by omega) (by omega)
      rw [hg.2.2.1, hg.2.2.2]
      omega
    · rw [resizeApply_other c x y w h s a ha]; exact ⟨hw, hh⟩

/-- The hint block of `resize` reads the size hints of the record only. -/
theorem applyHints_frame {cl cl' : Client} (h : Client.Frame cl cl') (w h' : Int) :
    applyHints cl' w h' = applyHints cl w h' := by
  unfold Client.Frame at h
  rw [h]
  rfl

theorem setClient_self (s : State) (c : Nat) (cl : Client) (h : s.mem c = cl) :
    s.setClient c cl = s := by
  unfold State.setClient
  rw [← h, Function.update_eq_self]

/-- The tail of `resize` keeps `c_xunits` and `c_yunits`. -/
theorem resizeApply_units (c : Nat) (x y w h : Int) (s : State) (a : Nat) :
    ((resizeApply c x y w h s).mem a).c_xunits = (s.mem a).c_xunits ∧
    ((resizeApply c x y w h s).mem a).c_yunits = (s.mem a).c_yunits := by
  unfold resizeApply
  by_cases h1 : w ≤ 0 ∨ h ≤ 0
  · rw [if_pos h1]; exact ⟨rfl, rfl⟩
  · rw [if_neg h1]
    dsimp only
    by_cases h2 : (s.mem c).x ≠ x ∨ (s.mem c).y ≠ y ∨ (s.mem c).w ≠ w ∨ (s.mem c).h ≠ h
    · rw [if_pos h2]
      by_cases ha : a = c
      · subst ha
        simp [State.log, configure, State.setClient]
      · simp [State.log, configure, State.setClient, Function.update_noteq ha]
    · rw [if_neg h2]; exact ⟨rfl, rfl⟩

/-- The tail of `resize` run a second time with the same arguments changes
nothing. -/
theorem resizeApply_idem (c : Nat) (x y w h : Int) (s : State) :
    resizeApply c x y w h (resizeApply c x y w h s) = resizeApply c x y w h s := by
  by_cases h1 : w ≤ 0 ∨ h ≤ 0
  · rw [resizeApply_noop c x y w h s h1, resizeApply_noop c x y w h s h1]
  · have hg := resizeApply_geom c x y w h s (by omega) (by omega)
    exact resizeApply_same c x y w h _ hg.1 hg.2.1 (Or.inr (Or.inr ⟨hg.2.2.1, hg.2.2.2⟩))

/-- A second `resize` with the same arguments returns the state the first one
left. -/
theorem resize_idem {c : Nat} {x y w h : Int} {sh : Bool} {s s1 : State}
    (h1 : resize c x y w h sh s = some s1) : resize c x y w h sh s1 = some s1 := by
  have hfr := resize_frame h1
  unfold resize at h1 ⊢
  cases sh with
  | false =>
    simp only [Bool.false_eq_true, if_false, Option.some.injEq] at h1 ⊢
    rw [← h1]
    exact resizeApply_idem c x y w h s
  | true =>
    simp only [if_true] at h1 ⊢
    rw [applyHints_frame (hfr.1 c)]
    cases ha : applyHints (s.mem c) w h with
    | none => rw [ha] at h1; exact Option.noConfusion h1
    | some r =>
      obtain ⟨xu, yu, w', h'⟩ := r
      rw [ha] at h1
      simp only [Option.some.injEq] at h1 ⊢
      have hu := resizeApply_units c x y w' h'
        (s.setClient c { (s.mem c) with c_xunits := xu, c_yunits := yu }) c
      rw [h1] at hu
      simp only [State.setClient, Function.update_same] at hu
      have hself : s1.setClient c { (s1.mem c) with c_xunits := xu, c_yunits := yu } = s1 := by
        apply setClient_self
        apply Client.ext <;> first | rfl | exact hu.1 | exact hu.2
      rw [hself, ← h1]
      exact resizeApply_idem c x y w' h' _

theorem KeepsFloating.keep_refl (s : State) : KeepsFloating s s :=
  ⟨Frame.refl s, fun _ _ => rfl⟩

theorem KeepsFloating.keep_trans {a b c : State} (h1 : KeepsFloating a b)
    (h2 : KeepsFloating b c) : KeepsFloating a c :=
  ⟨h1.1.trans h2.1, fun x hx => by
    rw [h2.2 x (by rw [h1.1.floating]; exact hx), h1.2 x hx]⟩

theorem ringFor_keeps {α : Type} (w : Nat) (body : Nat → α → State → Option (α × State))
    (hb : ∀ a acc s r, body a acc s = some r → KeepsFloating s r.2) :
    ∀ (fuel : Nat) (p : Option Nat) (acc : α) (s : State) (r : α × State),
      ringFor w body fuel p acc s = some r → KeepsFloating s r.2
  | 0, _, _, _, _, h => by simp [ringFor] at h
  | _ + 1, none, _, _, _, h => by simp [ringFor] at h
  | fuel + 1, some a, acc, s, r, h => by
    simp only [ringFor] at h
    split_ifs at h with ha
    · rw [← Option.some.inj h]; exact KeepsFloating.keep_refl s
    · simp only [Option.bind_eq_some] at h
      obtain ⟨r1, h1, h2⟩ := h
      exact (hb a acc s r1 h1).keep_trans (ringFor_keeps w body hb fuel _ r1.1 r1.2 r h2)

theorem foldlM_monitors_keeps {α : Type} (f : α × State → Monitor → Option (α × State))
    (hf : ∀ r m r', f r m = some r' → KeepsFloating r.2 r'.2) :
    ∀ (ms : List Monitor) (r r' : α × State), ms.foldlM f r = some r' → KeepsFloating r.2 r'.2
  | [], r, r', h => by
    simp only [List.foldlM_nil] at h
    rw [← Option.some.inj h]; exact KeepsFloating.keep_refl _
  | m :: ms, r, r', h => by
    rw [List.foldlM_cons] at h
    simp only [bind, Option.bind_eq_some] at h
    obtain ⟨r1, h1, h2⟩ := h
    exact (hf r m r1 h1).keep_trans (foldlM_monitors_keeps f hf ms r1 r' h2)

theorem foldlM_states_keeps (f : State → Monitor → Option State)
    (hf : ∀ s m s', f s m = some s' → KeepsFloating s s') :
    ∀ (ms : List Monitor) (s s' : State), ms.foldlM f s = some s' → KeepsFloating s s'
  | [], s, s', h => by
    simp only [List.foldlM_nil] at h
    rw [← Option.some.inj h]; exact KeepsFloating.keep_refl _
  | m :: ms, s, s', h => by
    rw [List.foldlM_cons] at h
    simp only [bind, Option.bind_eq_some] at h
    obtain ⟨s1, h1, h2⟩ := h
    exact (hf s m s1 h1).keep_trans (foldlM_states_keeps f hf ms s1 s' h2)

theorem tileBody_keeps {m : Monitor} {n mw th : Int} {mc : Option Nat} {c : Nat}
    {v : TileVars} {s : State} {r : TileVars × State}
    (h : tileBody m n mw th mc c v s = some r) : KeepsFloating s r.2 := by
  cases hf : (s.mem c).c_isfloating with
  | true =>
    rw [tileBody_floating m n mw th mc c v s hf] at h
    rw [← Option.some.inj h]; exact KeepsFloating.keep_refl s
  | false =>
    obtain ⟨h1, h2⟩ := tileBody_frame h
    exact ⟨h1, fun a ha => h2 a (fun e => by rw [e, hf] at ha; exact Bool.noConfusion ha)⟩

theorem fullscreenBody_keeps {m : Monitor} {c : Nat} {u : Unit} {s : State}
    {r : Unit × State} (h : fullscreenBody m c u s = some r) : KeepsFloating s r.2 := by
  have hfr := fullscreenBody_frame h
  unfold fullscreenBody at h
  dsimp only at h
  cases hf : (s.mem c).c_isfloating with
  | true =>
    simp only [hf, if_true, Option.some.injEq] at h
    rw [← h]; exact KeepsFloating.keep_refl s
  | false =>
    simp only [hf, Bool.false_eq_true, if_false, Option.map_eq_some'] at h
    obtain ⟨s1, h1, rfl⟩ := h
    exact ⟨hfr, fun a ha => layoutResize_other h1 a
      (fun e => by rw [e, hf] at ha; exact Bool.noConfusion ha)⟩

theorem layoutTile_keeps {fuel : Nat} {s s' : State} (h : layoutTile fuel s = some s') :
    KeepsFloating s s' := by
  unfold layoutTile at h
  simp only [Option.map_eq_some'] at h
  obtain ⟨r, h1, rfl⟩ := h
  refine foldlM_monitors_keeps _ (fun r m r' hm => ?_) _ _ _ h1
  unfold tileMonitor at hm
  dsimp only at hm
  split_ifs at hm
  simp only [Option.bind_eq_some] at hm
  obtain ⟨r1, _, h2⟩ := hm
  exact ringFor_keeps _ _ (fun a acc s1 r hb => tileBody_keeps hb) _ _ _ _ _ h2

theorem layoutFullscreen_keeps {fuel : Nat} {s s' : State}
    (h : layoutFullscreen fuel s = some s') : KeepsFloating s s' := by
  unfold layoutFullscreen at h
  refine foldlM_states_keeps _ (fun st m st' hm => ?_) _ _ _ h
  split_ifs at hm
  simp only [Option.map_eq_some'] at hm
  obtain ⟨r, h1, rfl⟩ := hm
  exact ringFor_keeps _ _ (fun a acc s1 r hb => fullscreenBody_keeps hb) _ _ _ _ _ h1

/-! ## The fullscreen layout -/

theorem fullscreenBody_floating (m : Monitor) (c : Nat) (u : Unit) (s : State)
    (hf : (s.mem c).c_isfloating = true) : fullscreenBody m c u s = some ((), s) := by
  unfold fullscreenBody
  simp [hf]

/-- The loop body of `layoutFullscreen` on a client without size hints. -/
theorem fullscreenBody_noHints (m : Monitor) (c : Nat) (u : Unit) (s : State)
    (hf : (s.mem c).c_isfloating = false) (hn : (s.mem c).noHints) :
    ∃ s', fullscreenBody m c u s = some ((), s') ∧ Frame s s' ∧
      (∀ a, a ≠ c → s'.mem a = s.mem a) ∧
      (s'.mem c).x = i32 (u32 m.wax) ∧ (s'.mem c).y = i32 (u32 m.way) ∧
      (s'.mem c).w = max (i32 (u32 (m.waw - 2 * (s.mem c).c_border))) 1 ∧
      (s'.mem c).h = max (i32 (u32 (m.wah - 2 * (s.mem c).c_border))) 1 := by
  obtain ⟨s1, h1, hfr, hx, hy, hw, hh, hoth⟩ := layoutResize_noHints c (u32 m.wax) (u32 m.way)
    (u32 (m.waw - 2 * (s.mem c).c_border)) (u32 (m.wah - 2 * (s.mem c).c_border)) s hn
  refine ⟨s1, ?_, hfr, hoth, hx, hy, hw, hh⟩
  unfold fullscreenBody
  simp [hf, h1]

theorem fullscreenBody_other {m : Monitor} {c : Nat} {u : Unit} {s : State}
    {r : Unit × State} (h : fullscreenBody m c u s = some r) (a : Nat) (ha : a ≠ c) :
    r.2.mem a = s.mem a := by
  unfold fullscreenBody at h
  dsimp only at h
  split_ifs at h
  · rw [← Option.some.inj h]
  · simp only [Option.map_eq_some'] at h
    obtain ⟨s1, h1, rfl⟩ := h
    exact layoutResize_other h1 a ha

/-- The client loop of `layoutFullscreen` over the members `l` of a ring:
it returns when the members that are not floating have non-zero increments,
and every such member without size hints gets the work-area geometry less its
border. -/
theorem fullscreen_fold (m : Monitor) (s0 : State) :
    ∀ (l : List Nat) (s : State), Frame s0 s → l.Nodup →
      (∀ a ∈ l, (s0.mem a).c_isfloating = false →
        (s0.mem a).c_incw ≠ 0 ∧ (s0.mem a).c_inch ≠ 0) →
      ∃ r, l.foldlM (fun r a => fullscreenBody m a r.1 r.2) ((), s) = some r ∧ Frame s r.2 ∧
        (∀ a, a ∉ l → r.2.mem a = s.mem a) ∧
        ∀ a ∈ l, (s0.mem a).c_isfloating = false → (s0.mem a).noHints →
          (r.2.mem a).x = i32 (u32 m.wax) ∧ (r.2.mem a).y = i32 (u32 m.way) ∧
          (r.2.mem a).w = max (i32 (u32 (m.waw - 2 * (s0.mem a).c_border))) 1 ∧
          (r.2.mem a).h = max (i32 (u32 (m.wah - 2 * (s0.mem a).c_border))) 1
  | [], s, _, _, _ =>
    ⟨((), s), rfl, Frame.refl s, fun _ _ => rfl, fun a ha => absurd ha (List.not_mem_nil a)⟩
  | c :: l, s, hfr, hnd, hi => by
    have hnd' := List.nodup_cons.mp hnd
    obtain ⟨r1, h1, hfr1⟩ := fullscreenBody_total (s := s) m c () (fun hfl => by
      rw [hfr.incw, hfr.inch]
      exact hi c (by simp) (by rw [← hfr.floating]; exact hfl))
    obtain ⟨r, h2, hfr2, hoth, hall⟩ := fullscreen_fold m s0 l r1.2 (hfr.trans hfr1) hnd'.2
      (fun a ha => hi a (List.mem_cons_of_mem _ ha))
    refine ⟨r, ?_, hfr1.trans hfr2, fun a ha => ?_, fun a ha hfl hn => ?_⟩
    · rw [List.foldlM_cons]
      simp only [h1, bind, Option.bind]
      exact h2
    · rw [hoth a (fun h => ha (List.mem_cons_of_mem _ h))]
      exact fullscreenBody_other h1 a (fun e => ha (e ▸ List.mem_cons_self _ _))
    · rcases List.mem_cons.mp ha with rfl | hal
      · obtain ⟨s', e1, _, _, gx, gy, gw, gh⟩ := fullscreenBody_noHints m a () s
          (by rw [hfr.floating]; exact hfl) ((hfr.noHints a).mpr hn)
        rw [e1] at h1
        have er : r1 = ((), s') := (Option.some.inj h1).symm
        rw [er] at hoth
        rw [hoth a hnd'.1, gx, gy, gw, gh, hfr.border]
        exact ⟨rfl, rfl, rfl, rfl⟩
      · exact hall a hal hfl hn

theorem layoutFullscreen_one_monitor (fuel : Nat) (s : State) (m : Monitor)
    (hmon : s.monitors = [m]) (hws : m.m_workspace < 10) :
    layoutFullscreen fuel s = (ringFor m.m_workspace (fullscreenBody m) fuel
      ((s.mem rootClient).c_next m.m_workspace) () s).map fun r => r.2 := by
  unfold layoutFullscreen
  rw [hmon]
  simp only [List.foldlM_cons, List.foldlM_nil, Nat.not_le.mpr hws, if_false, bind_pure]

/-! ## The tiling layout in the degenerate case -/

/-- In the degenerate case the tile height is the work-area height. -/
theorem tileTh_degenerate (m : Monitor) (s : State) (k : Int) (hk : 1 ≤ k)
    (hdeg : u32 m.wah / k < s.bh) : tileTh m s (k + 1) = u32 m.wah := by
  unfold tileTh
  have e : k + 1 - 1 = k := by omega
  have hgt : k + 1 > 1 := by omega
  rw [e]
  simp only [hgt, if_true, true_and]
  rw [if_pos hdeg]

theorem tileAdvance_ny_keep (m : Monitor) (n : Int) (cl : Client) (v : TileVars) :
    (tileAdvance m n (u32 m.wah) cl v).ny = v.ny := by
  simp only [tileAdvance]
  rw [if_neg (fun h => h.2 rfl)]

/-- The stack phase of the placing loop in the degenerate case, on clients
without size hints: every stacked window starts at `way` and is
`wah - 2 * border` high. -/
theorem tileFold_degenerate (m : Monitor) (n mw : Int) (a0 : Nat) (s0 : State)
    (hway : -2147483648 ≤ m.way ∧ m.way < 2147483648) (hwah : m.wah < 2147483648)
    (hn32 : n < 4294967296) :
    ∀ (rest : List Nat) (v : TileVars) (s : State),
      Frame s0 s → rest.Nodup → 1 ≤ v.j → v.j + (nonFloating s0 rest).length = n →
      (v.j ≠ 1 → v.ny = u32 m.way) →
      (∀ c ∈ nonFloating s0 rest,
        (s0.mem c).noHints ∧ 0 ≤ (s0.mem c).c_border ∧ 2 * (s0.mem c).c_border < m.wah) →
      ∃ r, tileFold m n mw (u32 m.wah) (some a0) rest (v, s) = some r ∧ Frame s r.2 ∧
        (∀ a, a ∉ rest → r.2.mem a = s.mem a) ∧
        ∀ c ∈ nonFloating s0 rest,
          (r.2.mem c).y = m.way ∧ (r.2.mem c).h = m.wah - 2 * (s0.mem c).c_border
  | [], v, s, _, _, _, _, _, _ =>
    ⟨(v, s), rfl, Frame.refl s, fun _ _ => rfl, fun c hc => by simp [nonFloating] at hc⟩
  | c :: rest, v, s, hfr, hnd, hj, hcount, hny, hcl => by
    have hnd' := List.nodup_cons.mp hnd
    cases hf : (s0.mem c).c_isfloating with
    | true =>
      have e : nonFloating s0 (c :: rest) = nonFloating s0 rest := by
        simp [nonFloating, hf]
      rw [e] at hcount hcl ⊢
      obtain ⟨r, h1, h2, h3, h4⟩ := tileFold_degenerate m n mw a0 s0 hway hwah hn32
        rest v s hfr hnd'.2 hj hcount hny hcl
      refine ⟨r, ?_, h2, fun a ha => h3 a (fun h => ha (List.mem_cons_of_mem _ h)), h4⟩
      rw [tileFold_cons, tileBody_floating m n mw _ (some a0) c v s (by rw [hfr.floating, hf])]
      exact h1
    | false =>
      have e : nonFloating s0 (c :: rest) = c :: nonFloating s0 rest := by
        simp [nonFloating, hf]
      rw [e] at hcount hcl ⊢
      obtain ⟨hnh, hb0, hbh⟩ := hcl c (by simp)
      have hfs : (s.mem c).c_isfloating = false := by rw [hfr.floating, hf]
      have hns : (s.mem c).noHints := (hfr.noHints c).mpr hnh
      have hbs : (s.mem c).c_border = (s0.mem c).c_border := hfr.border c
      have hlen : ((c :: nonFloating s0 rest).length : Int)
          = ((nonFloating s0 rest).length : Int) + 1 := by
        simp
      rw [hlen] at hcount
      have hk0 : (0 : Int) ≤ ((nonFloating s0 rest).length : Int) := by
        exact_mod_cast Nat.zero_le _
      obtain ⟨v1, hg, hv1j, hv1y, hv1h, _, _⟩ := tileGeom_stack m n mw (u32 m.wah) a0 (s.mem c)
        v s m.way hj (fun _ => rfl) hny
      obtain ⟨s1, hb, hfr1, hoth, _, hy, _, hh⟩ :=
        tileBody_noHints m n mw (u32 m.wah) (some a0) c v v1 s hfs hns hg
      have hju : u32 (v.j + 1) = v.j + 1 := u32_of_nonneg _ (by omega) (by omega)
      have hyv : (s1.mem c).y = m.way := by
        rw [hy, hv1y]; exact i32_u32 _ hway.1 hway.2
      have hnh1 : v1.nh = u32 (m.wah - 2 * (s0.mem c).c_border) := by
        rw [hv1h, hbs]
        split_ifs
        · rw [u32_sub_u32]
          congr 1; omega
        · rw [u32_of_nonneg m.wah (by omega) (by omega)]
      have hhv : (s1.mem c).h = m.wah - 2 * (s0.mem c).c_border := by
        rw [hh, hnh1, u32_of_nonneg _ (by omega) (by omega),
          i32_of_range _ (by omega) (by omega)]
        omega
      have hVj : (tileAdvance m n (u32 m.wah) (s1.mem c) v1).j = v.j + 1 := by
        rw [tileAdvance_j, hv1j, hju]
      have hVy : (tileAdvance m n (u32 m.wah) (s1.mem c) v1).ny = u32 m.way := by
        rw [tileAdvance_ny_keep, hv1y]
      obtain ⟨r, h1, h2, h3, h4⟩ := tileFold_degenerate m n mw a0 s0 hway hwah hn32
        rest (tileAdvance m n (u32 m.wah) (s1.mem c) v1) s1 (hfr.trans hfr1) hnd'.2
        (by rw [hVj]; omega) (by rw [hVj]; omega) (fun _ => hVy)
        (fun x hx => hcl x (List.mem_cons_of_mem _ hx))
      have hcr : r.2.mem c = s1.mem c := h3 c hnd'.1
      rw [tileFold_cons, hb]
      simp only [Option.some_bind]
      refine ⟨r, h1, hfr1.trans h2, fun a ha => ?_, fun x hx => ?_⟩
      · rw [h3 a (fun h => ha (List.mem_cons_of_mem _ h))]
        exact hoth a (fun h => ha (h ▸ List.mem_cons_self _ _))
      · rcases List.mem_cons.mp hx with rfl | hx'
        · rw [hcr]; exact ⟨hyv, hhv⟩
        · exact h4 x hx'

/-! ## Focus -/

/-- The loop of `focus` over a finite focus stack returns the first client
that is visible on its own monitor, `NULL` when there is none. -/
theorem stackScan_spec (s : State) :
    ∀ (l : List Nat) (fuel : Nat) (p : Option Nat), StackChain s p l → l.length < fuel →
      (∀ a ∈ l, ∃ v, isvisible a (s.mem a).c_monitor s = some v) →
      stackScan s fuel p = some (l.find? (visibleOwn s))
  | [], fuel, p, hc, hf, _ => by
    unfold StackChain at hc
    subst hc
    cases fuel with
    | zero => exact absurd hf (by simp)
    | succ k => rfl
  | a :: l, fuel, p, hc, hf, hv => by
    unfold StackChain at hc
    obtain ⟨rfl, hc'⟩ := hc
    cases fuel with
    | zero => exact absurd hf (by simp)
    | succ k =>
      obtain ⟨v, hva⟩ := hv a (by simp)
      unfold stackScan
      rw [hva]
      simp only [Option.some_bind]
      cases v with
      | true =>
        have : visibleOwn s a = true := by simp [visibleOwn, hva]
        simp [List.find?_cons, this]
      | false =>
        have : visibleOwn s a = false := by simp [visibleOwn, hva]
        simp only [Bool.false_eq_true, if_false, List.find?_cons, this]
        exact stackScan_spec s l k _ hc' (by simpa using hf)
          (fun x hx => hv x (List.mem_cons_of_mem _ hx))

theorem isvisible_frameSel {s s' : State} (h : FrameSel s s') (a i : Nat) :
    isvisible a i s' = isvisible a i s := by
  unfold isvisible
  rw [h.sel_monitors]
  cases s.monitors[i]? with
  | none => rfl
  | some m =>
    dsimp only
    rw [h.sel_isMember]

theorem focusSelect_sel (m : Monitor) (c : Option Nat) (s : State) :
    (focusSelect m c s).sel = c := by
  cases c <;> rfl

theorem focusSelect_selmonitor (m : Monitor) (a : Nat) (s : State) :
    (focusSelect m (some a) s).selmonitor = (s.mem a).c_monitor := rfl

theorem focusUnselect_total (c : Option Nat) (s : State)
    (hsel : ∀ o, s.sel = some o → (s.mem o).c_monitor < s.monitors.length) :
    ∃ s1, focusUnselect c s = some s1 ∧ Frame s s1 := by
  unfold focusUnselect
  cases ho : s.sel with
  | none => exact ⟨s, rfl, Frame.refl s⟩
  | some o =>
    dsimp only
    split_ifs
    · obtain ⟨mo, hmo, _⟩ := getElem?_of_lt s.monitors _ (hsel o ho)
      rw [hmo]
      exact ⟨_, rfl, (grabbuttons_frame o false s).trans (Frame.log _ _)⟩
    · exact ⟨s, rfl, Frame.refl s⟩

/-- The function `focus(NULL)` on a finite focus stack `l`: it returns, and
`sel` becomes the first client of `l` that is visible on its own monitor. -/
theorem focus_none_spec (fuel : Nat) (s : State) (m : Monitor) (l : List Nat)
    (hmon : s.monitors[s.selmonitor]? = some m)
    (hst : StackChain s s.stack l) (hfuel : l.length < fuel)
    (hvis : ∀ a ∈ l, ∃ v, isvisible a (s.mem a).c_monitor s = some v)
    (hsel : ∀ o, s.sel = some o → (s.mem o).c_monitor < s.monitors.length) :
    ∃ s', focus fuel none s = some s' ∧ FrameSel s s' ∧
      s'.sel = l.find? (visibleOwn s) ∧
      ∀ a, s'.sel = some a → s'.selmonitor = (s.mem a).c_monitor := by
  have hscan := stackScan_spec s l fuel s.stack hst hfuel hvis
  obtain ⟨s1, h1, hfr1⟩ := focusUnselect_total (l.find? (visibleOwn s)) s hsel
  have hf : focus fuel none s = some (focusSelect m (l.find? (visibleOwn s)) s1) := by
    unfold focus
    simp only [focusMonitor, hmon, focusPick, hscan, Option.some_bind, h1, Option.map_some']
  refine ⟨_, hf, focus_frame hf, focusSelect_sel _ _ _, fun a ha => ?_⟩
  rw [focusSelect_sel] at ha
  rw [ha, focusSelect_selmonitor, hfr1.c_monitor]

/-- C11 (as stated, refuted): three tiled clients on a work area 100 high
with bar height 60, so that `wah / (n - 1) = 50 < bh`; the two stacked clients
are terminals with resize increments (7, 13) and border 1.  `layoutTile`
places both at `y = 0` but each is resized to the height 91 its hints accept
and occupies 93 rows, not the full height 100. -/
theorem layoutTile_degenerate_counterexample :
    ∃ s', layoutTile 5 (demoLow 60 100 fun a => if a = 1 then plainClient 1
          else { c_incw := 7, c_inch := 13, c_border := 1 }) = some s' ∧
      nonFloating s' [1, 2, 3] = [1, 2, 3] ∧
      ({ demoMonitor with wah := 100 } : Monitor).wah / (3 - 1) < 60 ∧
      occupied s' 2 = (500, 0, 499, 93) ∧ occupied s' 3 = (500, 0, 499, 93) ∧
      (occupied s' 2).2.2.2 ≠ 100 :=
  ⟨_, rfl, by decide, by decide, by decide, by decide, by decide⟩

/-- C11 (amended): with one monitor, when the members of the active workspace
that are not floating are `c0` (the master) followed by the non-empty list
`stack`, none of them has size-hint restrictions, the tile height
`wah / (n - 1)` is below the bar height `bh` and every stacked client has a
border thinner than half the work-area height (coordinates within the `int`
range), `layoutTile` returns and every stacked window is stored at `y = way`
and occupies the full work-area height `wah`: the stacked windows cover the
same rows. -/
theorem layoutTile_degenerate (fuel : Nat) (s : State) (m : Monitor) (l : List Nat) (c0 : Nat)
    (stack : List Nat) (hmon : s.monitors = [m]) (hws : m.m_workspace < 10)
    (hr : IsRing s m.m_workspace l) (hfuel : l.length < fuel)
    (hnf : nonFloating s l = c0 :: stack) (hstack : stack ≠ [])
    (hlen : (stack.length : Int) + 1 < 4294967296)
    (hnh : ∀ c ∈ c0 :: stack, (s.mem c).noHints)
    (hdeg : m.wah / stack.length < s.bh)
    (hb : ∀ c ∈ stack, 0 ≤ (s.mem c).c_border ∧ 2 * (s.mem c).c_border < m.wah)
    (hway : -2147483648 ≤ m.way ∧ m.way < 2147483648) (hwah : m.wah < 2147483648) :
    ∃ s', layoutTile fuel s = some s' ∧
      ∀ c ∈ stack, (s'.mem c).y = m.way ∧ (occupied s' c).2.2.2 = m.wah := by
  have hk1 : (1 : Int) ≤ stack.length := by
    have : 0 < stack.length := List.length_pos.mpr hstack
    exact_mod_cast this
  obtain ⟨c1, hc1⟩ := List.exists_mem_of_ne_nil stack hstack
  have hwah0 : 0 ≤ m.wah := by
    have := hb c1 hc1
    omega
  have hu : u32 m.wah = m.wah := u32_of_nonneg _ hwah0 (by omega)
  have hlenI : ((nonFloating s l).length : Int) = (stack.length : Int) + 1 := by
    rw [hnf]; simp
  have heq := tileMonitor_eq fuel m {} s l hws hr hfuel (by rw [hlenI]; exact hlen)
  rw [hlenI, tileTh_degenerate m s _ hk1 (by rw [hu]; exact hdeg)] at heq
  obtain ⟨pre, rest, rfl, hpre, hc0, hrest⟩ := nonFloating_split hnf
  obtain ⟨a0, ha0⟩ := hr.root_next
  rw [ha0] at heq
  have hl : pre ++ c0 :: rest = (pre ++ [c0]) ++ rest := by simp
  rw [hl, tileFold_append] at heq
  obtain ⟨⟨V1, s1⟩, h1, hfr1, _, hj1, _⟩ := tileFold_master m ((stack.length : Int) + 1)
    (tileMw m s ((stack.length : Int) + 1)) (u32 m.wah) (some a0) pre c0
    { ({} : TileVars) with j := 0 } s hpre hc0 (hnh c0 (by simp)) rfl
  have hnd : rest.Nodup := by
    have := hr.1
    rw [List.nodup_append] at this
    exact (List.nodup_cons.mp this.2.1).2
  obtain ⟨r, h2, hfr2, _, h4⟩ := tileFold_degenerate m ((stack.length : Int) + 1)
    (tileMw m s ((stack.length : Int) + 1)) a0 s hway hwah hlen rest V1 s1 hfr1 hnd
    (by rw [show V1.j = 1 from hj1])
    (by rw [show V1.j = 1 from hj1, hrest]; omega) (fun h => absurd hj1 h)
    (by rw [hrest]; exact fun c hc => ⟨hnh c (List.mem_cons_of_mem _ hc), hb c hc⟩)
  rw [hrest] at h4
  refine ⟨r.2, ?_, fun c hc => ?_⟩
  · rw [layoutTile_one_monitor fuel s m hmon, heq, h1]
    simp only [Option.some_bind]
    rw [h2]; rfl
  · obtain ⟨gy, gh⟩ := h4 c hc
    refine ⟨gy, ?_⟩
    show (r.2.mem c).h + 2 * (r.2.mem c).c_border = m.wah
    rw [gh, hfr2.border, hfr1.border]
    omega

/-- Witness of `layoutTile_degenerate`: clients 1, 2, 3 (no hints, border 1)
on a work area 100 high with bar height 60. -/
theorem layoutTile_degenerate_witness :
    ∃ s', layoutTile 5 (demoLow 60 100 fun _ => plainClient 1) = some s' ∧
      ∀ c ∈ [2, 3], (s'.mem c).y = 0 ∧ (occupied s' c).2.2.2 = 100 :=
  layoutTile_degenerate 5 (demoLow 60 100 fun _ => plainClient 1)
    { demoMonitor with wah := 100 } [1, 2, 3] 1 [2, 3]
    rfl (by decide) (demoThree_isRing 60 _ (fun _ => ⟨rfl, rfl⟩)) (by decide) (by decide)
    (by decide) (by decide) (by decide) (by decide) (by decide) (by decide) (by decide)

/-- C12: in every state, whatever `layoutTile` and `layoutFullscreen` return
holds, for every floating client, the record it had, so the stored geometry
`(x, y, w, h)` is unchanged; and both layouts do return in a consistent state
with enough fuel. -/
theorem layouts_keep_floating (fuel : Nat) (s : State) :
    (∀ s', layoutTile fuel s = some s' → ∀ a, (s.mem a).c_isfloating = true →
      s'.mem a = s.mem a ∧ (s'.mem a).x = (s.mem a).x ∧ (s'.mem a).y = (s.mem a).y ∧
      (s'.mem a).w = (s.mem a).w ∧ (s'.mem a).h = (s.mem a).h) ∧
    (∀ s', layoutFullscreen fuel s = some s' → ∀ a, (s.mem a).c_isfloating = true →
      s'.mem a = s.mem a ∧ (s'.mem a).x = (s.mem a).x ∧ (s'.mem a).y = (s.mem a).y ∧
      (s'.mem a).w = (s.mem a).w ∧ (s'.mem a).h = (s.mem a).h) ∧
    (Managed s → Fueled fuel s →
      (∃ s', layoutTile fuel s = some s') ∧ ∃ s', layoutFullscreen fuel s = some s') := by
  refine ⟨fun s' h a ha => ?_, fun s' h a ha => ?_, fun hm hf => ⟨?_, ?_⟩⟩
  · have e := (layoutTile_keeps h).2 a ha
    rw [e]; exact ⟨rfl, rfl, rfl, rfl, rfl⟩
  · have e := (layoutFullscreen_keeps h).2 a ha
    rw [e]; exact ⟨rfl, rfl, rfl, rfl, rfl⟩
  · obtain ⟨s', h, _⟩ := layoutTile_total hm hf
    exact ⟨s', h⟩
  · obtain ⟨s', h, _⟩ := layoutFullscreen_total hm hf
    exact ⟨s', h⟩

/-- Witness of `layouts_keep_floating`: client 2 of `demoThree` is floating
with the geometry (7, 8, 90, 80). -/
theorem layouts_keep_floating_witness :
    ∃ s1 s2, layoutTile 5 (demoThree 20 floatingSecond) = some s1 ∧
      layoutFullscreen 5 (demoThree 20 floatingSecond) = some s2 ∧
      (s1.mem 2).x = 7 ∧ (s1.mem 2).y = 8 ∧ (s1.mem 2).w = 90 ∧ (s1.mem 2).h = 80 ∧
      (s2.mem 2).x = 7 ∧ (s2.mem 2).y = 8 ∧ (s2.mem 2).w = 90 ∧ (s2.mem 2).h = 80 := by
  have h := layouts_keep_floating 5 (demoThree 20 floatingSecond)
  have hm := demoThree_managed 20 floatingSecond
    (fun a w => by unfold floatingSecond; split_ifs <;> exact ⟨rfl, rfl⟩)
    (fun a => by unfold floatingSecond; split_ifs <;> rfl)
    (fun a => by unfold floatingSecond; split_ifs <;> exact ⟨by decide, by decide⟩)
  obtain ⟨⟨s1, h1⟩, ⟨s2, h2⟩⟩ := h.2.2 hm (demoThree_fueled 20 _ 5 (by decide))
  obtain ⟨_, a1, a2, a3, a4⟩ := h.1 s1 h1 2 (by decide)
  obtain ⟨_, b1, b2, b3, b4⟩ := h.2.1 s2 h2 2 (by decide)
  exact ⟨s1, s2, h1, h2, a1.trans (by decide), a2.trans (by decide), a3.trans (by decide),
    a4.trans (by decide), b1.trans (by decide), b2.trans (by decide), b3.trans (by decide),
    b4.trans (by decide)⟩

/-- C13 (as stated, refuted): three tiled clients (terminals with resize
increments (7, 13) and border 1) on workspace 3 of the 1000x900 monitor.
`layoutFullscreen` resizes each to 994x897, the largest size its hints accept,
and keeps it since it is neither larger than asked nor smaller than the bar:
each occupies (0, 0, 996, 899), not the work area. -/
theorem layoutFullscreen_hints_counterexample :
    ∃ s s', attachAll [1, 2, 3] 3
        (demoState 20 fun _ => { c_incw := 7, c_inch := 13, c_border := 1 }) = some s ∧
      ring 5 s 3 = some [1, 2, 3] ∧ nonFloating s [1, 2, 3] = [1, 2, 3] ∧
      layoutFullscreen 5 s = some s' ∧
      occupied s' 1 = (0, 0, 996, 899) ∧ occupied s' 2 = (0, 0, 996, 899) ∧
      occupied s' 3 = (0, 0, 996, 899) ∧
      occupied s' 1 ≠ (demoMonitor.wax, demoMonitor.way, demoMonitor.waw, demoMonitor.wah) :=
  ⟨_, _, rfl, by decide, by decide, rfl, by decide, by decide, by decide, by decide⟩

/-- C13 (amended): with one monitor, when the members of its active workspace
that are not floating have non-zero resize increments, `layoutFullscreen`
returns, and every member `c` that is not floating, has no size-hint
restrictions and has a border thinner than half the work-area width and
height (coordinates within the `int` range) occupies exactly the work-area
rectangle `(wax, way, waw, wah)`. -/
theorem layoutFullscreen_fills (fuel : Nat) (s : State) (m : Monitor) (l : List Nat)
    (hmon : s.monitors = [m]) (hws : m.m_workspace < 10) (hr : IsRing s m.m_workspace l)
    (hfuel : l.length < fuel)
    (hinc : ∀ a ∈ l, (s.mem a).c_isfloating = false →
      (s.mem a).c_incw ≠ 0 ∧ (s.mem a).c_inch ≠ 0)
    (hx : -2147483648 ≤ m.wax ∧ m.wax < 2147483648)
    (hy : -2147483648 ≤ m.way ∧ m.way < 2147483648)
    (hw : m.waw < 2147483648) (hh : m.wah < 2147483648) :
    ∃ s', layoutFullscreen fuel s = some s' ∧
      ∀ c ∈ l, (s.mem c).c_isfloating = false → (s.mem c).noHints →
        0 ≤ (s.mem c).c_border → 2 * (s.mem c).c_border < m.waw →
        2 * (s.mem c).c_border < m.wah →
        occupied s' c = (m.wax, m.way, m.waw, m.wah) := by
  have hring : ringFrom s m.m_workspace fuel ((s.mem rootClient).c_next m.m_workspace)
      = some l := hr.ring_eq fuel hfuel
  obtain ⟨r, h1, hfr, _, hall⟩ := fullscreen_fold m s l s (Frame.refl s) hr.1 hinc
  refine ⟨r.2, ?_, fun c hc hfl hn hb hbw hbh => ?_⟩
  · rw [layoutFullscreen_one_monitor fuel s m hmon hws,
      ringFor_eq_foldlM m.m_workspace (fullscreenBody m)
        (fun a acc s1 r hb x => by rw [(fullscreenBody_frame hb).next]) fuel _ l () s hring, h1]
    rfl
  · obtain ⟨gx, gy, gw, gh⟩ := hall c hc hfl hn
    unfold occupied
    rw [gx, gy, gw, gh, hfr.border, i32_u32 _ hx.1 hx.2, i32_u32 _ hy.1 hy.2,
      u32_of_nonneg (m.waw - 2 * (s.mem c).c_border) (by omega) (by omega),
      u32_of_nonneg (m.wah - 2 * (s.mem c).c_border) (by omega) (by omega),
      i32_of_range _ (by omega) (by omega), i32_of_range _ (by omega) (by omega)]
    have e3 : max (m.waw - 2 * (s.mem c).c_border) 1 = m.waw - 2 * (s.mem c).c_border := by
      omega
    have e4 : max (m.wah - 2 * (s.mem c).c_border) 1 = m.wah - 2 * (s.mem c).c_border := by
      omega
    rw [e3, e4]
    simp

/-- Witness of `layoutFullscreen_fills`: clients 1, 2, 3 (no hints, border 1)
on workspace 3 of the 1000x900 monitor. -/
theorem layoutFullscreen_fills_witness :
    ∃ s', layoutFullscreen 5 (demoThree 20 fun _ => plainClient 1) = some s' ∧
      occupied s' 2 = (demoMonitor.wax, demoMonitor.way, demoMonitor.waw, demoMonitor.wah) := by
  obtain ⟨s', h1, h2⟩ := layoutFullscreen_fills 5 (demoThree 20 fun _ => plainClient 1)
    demoMonitor [1, 2, 3] rfl (by decide) (demoThree_isRing 20 _ (fun _ => ⟨rfl, rfl⟩))
    (by decide) (by decide) (by decide) (by decide) (by decide) (by decide)
  exact ⟨s', h1, h2 2 (by decide) (by decide) (by decide) (by decide) (by decide) (by decide)⟩

/-- C14: whatever the arguments and the flag, when `resize` returns, every
client whose stored width and height were positive (the resized one included)
still has a positive stored width and height; and `resize` does return unless
hints are enforced on a record with a zero resize increment (a division by
zero). -/
theorem resize_keeps_positive (c : Nat) (x y w h : Int) (sh : Bool) (s : State) :
    (∀ s', resize c x y w h sh s = some s' →
      ∀ a, 0 < (s.mem a).w → 0 < (s.mem a).h → 0 < (s'.mem a).w ∧ 0 < (s'.mem a).h) ∧
    ((sh = true → (s.mem c).c_incw ≠ 0 ∧ (s.mem c).c_inch ≠ 0) →
      ∃ s', resize c x y w h sh s = some s') := by
  refine ⟨fun s' hr a hw hh => ?_, resize_total c x y w h sh s⟩
  unfold resize at hr
  cases sh with
  | false =>
    simp only [Bool.false_eq_true, if_false, Option.some.injEq] at hr
    rw [← hr]
    exact resizeApply_pos c x y w h s a hw hh
  | true =>
    simp only [if_true] at hr
    cases ha : applyHints (s.mem c) w h with
    | none => rw [ha] at hr; exact Option.noConfusion hr
    | some r =>
      obtain ⟨xu, yu, w', h'⟩ := r
      rw [ha] at hr
      simp only [Option.some.injEq] at hr
      rw [← hr]
      apply resizeApply_pos
      · by_cases hac : a = c
        · subst hac; simpa [State.setClient] using hw
        · simpa [State.setClient, Function.update_noteq hac] using hw
      · by_cases hac : a = c
        · subst hac; simpa [State.setClient] using hh
        · simpa [State.setClient, Function.update_noteq hac] using hh

/-- Witness of `resize_keeps_positive`: the request (-3, 200) with hints
enforced on client 1, stored 100x100. -/
theorem resize_keeps_positive_witness :
    ∃ s', resize 1 5 5 (-3) 200 true
        (demoState 20 fun _ => { plainClient 1 with w := 100, h := 100 }) = some s' ∧
      0 < (s'.mem 1).w ∧ 0 < (s'.mem 1).h := by
  have h := resize_keeps_positive 1 5 5 (-3) 200 true
    (demoState 20 fun _ => { plainClient 1 with w := 100, h := 100 })
  obtain ⟨s', hs⟩ := h.2 (fun _ => ⟨by decide, by decide⟩)
  exact ⟨s', hs, h.1 s' hs 1 (by decide) (by decide)⟩

/-- C15 (as stated, refuted): client 1 has no size hints and the stored
geometry (0, 0, 100, 100).  `resize(c, 5, 5, 0, 50, True)` raises the
requested width 0 to 1 and stores (5, 5, 1, 50): with hints enforced a
non-positive width is not rejected. -/
theorem resize_nonpositive_counterexample :
    ∃ s', resize 1 5 5 0 50 true
        (demoState 20 fun _ => { plainClient 1 with w := 100, h := 100 }) = some s' ∧
      ((demoState 20 fun _ => { plainClient 1 with w := 100, h := 100 }).mem 1).noHints ∧
      ((s'.mem 1).x, (s'.mem 1).y, (s'.mem 1).w, (s'.mem 1).h) = (5, 5, 1, 50) ∧
      (s'.mem 1).w ≠ 100 :=
  ⟨_, rfl, by decide, by decide, by decide⟩

/-- C15 (amended): for a requested width or height that is not positive,
`resize` without hint enforcement returns the state unchanged; with hint
enforcement the request is treated as the one with both dimensions raised to
at least 1, the state is unchanged up to `c_xunits` and `c_yunits` when the
size the hints compute is not positive, and a client without size hints gets
the position and the raised size stored. -/
theorem resize_nonpositive (c : Nat) (x y w h : Int) (s : State) (hwh : w ≤ 0 ∨ h ≤ 0) :
    resize c x y w h false s = some s ∧
    resize c x y w h true s = resize c x y (max w 1) (max h 1) true s ∧
    (∀ xu yu w' h', applyHints (s.mem c) w h = some (xu, yu, w', h') → (w' ≤ 0 ∨ h' ≤ 0) →
      resize c x y w h true s
        = some (s.setClient c { (s.mem c) with c_xunits := xu, c_yunits := yu })) ∧
    ((s.mem c).noHints →
      ∃ s', resize c x y w h true s = some s' ∧ (s'.mem c).x = x ∧ (s'.mem c).y = y ∧
        (s'.mem c).w = max w 1 ∧ (s'.mem c).h = max h 1) := by
  have e : ∀ v : Int, (if max v 1 < 1 then 1 else max v 1) = (if v < 1 then 1 else v) := by
    intro v; split_ifs <;> omega
  refine ⟨?_, ?_, ?_, ?_⟩
  · unfold resize
    simp only [Bool.false_eq_true, if_false]
    rw [resizeApply_noop c x y w h s hwh]
  · have ha : applyHints (s.mem c) (max w 1) (max h 1) = applyHints (s.mem c) w h := by
      unfold applyHints
      simp only [e]
    unfold resize
    simp only [if_true, ha]
  · intro xu yu w' h' ha hwh'
    unfold resize
    simp only [if_true, ha]
    rw [resizeApply_noop c x y w' h' _ hwh']
  · intro hn
    have ha := applyHints_noHints (s.mem c) w h hn
    have he : resize c x y w h true s = some (resizeApply c x y (max w 1) (max h 1)
        (s.setClient c { (s.mem c) with c_xunits := max w 1, c_yunits := max h 1 })) := by
      unfold resize; simp only [if_true, ha]
    exact ⟨_, he, resizeApply_geom c x y (max w 1) (max h 1) _ (by omega) (by omega)⟩

/-- Witness of `resize_nonpositive`: the request (0, 50) on client 1 of the
demo state. -/
theorem resize_nonpositive_witness :
    resize 1 5 5 0 50 false (demoState 20 fun _ => plainClient 1)
      = some (demoState 20 fun _ => plainClient 1) ∧
    resize 1 5 5 0 50 true (demoState 20 fun _ => plainClient 1)
      = resize 1 5 5 (max 0 1) (max 50 1) true (demoState 20 fun _ => plainClient 1) :=
  ⟨(resize_nonpositive 1 5 5 0 50 (demoState 20 fun _ => plainClient 1) (Or.inl (by decide))).1,
   (resize_nonpositive 1 5 5 0 50 (demoState 20 fun _ => plainClient 1)
      (Or.inl (by decide))).2.1⟩

/-- C19: when `resize(c, x, y, w, h, flag)` returns, the same call made again
returns the very same state: the stored geometry is the one the first call
left and nothing is appended to the request log (no ConfigureWindow, no
ConfigureNotify); and the first call does return unless hints are enforced on
a record with a zero resize increment. -/
theorem resize_twice (c : Nat) (x y w h : Int) (sh : Bool) (s : State) :
    (∀ s1, resize c x y w h sh s = some s1 →
      resize c x y w h sh s1 = some s1 ∧
      ∀ s2, resize c x y w h sh s1 = some s2 →
        s2.xlog = s1.xlog ∧ (s2.mem c).x = (s1.mem c).x ∧ (s2.mem c).y = (s1.mem c).y ∧
        (s2.mem c).w = (s1.mem c).w ∧ (s2.mem c).h = (s1.mem c).h) ∧
    ((sh = true → (s.mem c).c_incw ≠ 0 ∧ (s.mem c).c_inch ≠ 0) →
      ∃ s1, resize c x y w h sh s = some s1) := by
  refine ⟨fun s1 h1 => ⟨resize_idem h1, fun s2 h2 => ?_⟩, resize_total c x y w h sh s⟩
  rw [resize_idem h1] at h2
  rw [← Option.some.inj h2]
  exact ⟨rfl, rfl, rfl, rfl, rfl⟩

/-- Witness of `resize_twice`: the request 300x200 at (5, 5) on client 1. -/
theorem resize_twice_witness :
    ∃ s1, resize 1 5 5 300 200 true (demoState 20 fun _ => plainClient 1) = some s1 ∧
      resize 1 5 5 300 200 true s1 = some s1 := by
  have h := resize_twice 1 5 5 300 200 true (demoState 20 fun _ => plainClient 1)
  obtain ⟨s1, hs⟩ := h.2 (fun _ => ⟨by decide, by decide⟩)
  exact ⟨s1, hs, (h.1 s1 hs).1⟩

theorem Relinked.relinked_refl (s : State) : Relinked s s := ⟨fun _ => rfl, rfl⟩

theorem Relinked.relinked_trans {a b c : State} (h1 : Relinked a b) (h2 : Relinked b c) :
    Relinked a c := by
  refine ⟨fun x => ?_, ?_⟩
  · rw [h2.1 x, h1.1 x]
  · rw [h2.2, h1.2]

theorem setNext_relinked (s : State) (a w : Nat) (p : Option Nat) :
    Relinked s (s.setNext a w p) := by
  refine ⟨fun b => ?_, rfl⟩
  have e := setNext_mem s a w p b
  rw [e]

theorem setPrev_relinked (s : State) (a w : Nat) (p : Option Nat) :
    Relinked s (s.setPrev a w p) := by
  refine ⟨fun b => ?_, rfl⟩
  have e := setPrev_mem s a w p b
  rw [e]

theorem count_relinked (s : State) (f : Nat → Int) :
    Relinked s { s with w_numClients := f } := ⟨fun _ => rfl, rfl⟩

theorem ws_attach_relinked {c w : Nat} {s s' : State} (h : ws_attach c w s = some s') :
    Relinked s s' := by
  unfold ws_attach at h
  split_ifs at h
  · rw [← Option.some.inj h]; exact Relinked.relinked_refl s
  · dsimp only at h
    split at h
    · exact Option.noConfusion h
    · rw [← Option.some.inj h]
      exact ((((setNext_relinked _ _ _ _).relinked_trans
        (setPrev_relinked _ _ _ _)).relinked_trans (setNext_relinked _ _ _ _)).relinked_trans
        (setPrev_relinked _ _ _ _)).relinked_trans (count_relinked _ _)

theorem ws_detach_relinked {c w : Nat} {s s' : State} (h : ws_detach c w s = some s') :
    Relinked s s' := by
  unfold ws_detach at h
  split_ifs at h
  split at h
  · rw [← Option.some.inj h]; exact Relinked.relinked_refl s
  · dsimp only at h
    split at h
    · exact Option.noConfusion h
    · rw [← Option.some.inj h]
      exact ((((setPrev_relinked _ _ _ _).relinked_trans
        (setNext_relinked _ _ _ _)).relinked_trans (setPrev_relinked _ _ _ _)).relinked_trans
        (setNext_relinked _ _ _ _)).relinked_trans (count_relinked _ _)

theorem detachFrom_relinked (c : Nat) :
    ∀ (k : Nat) {s s' : State}, detachFrom c k s = some s' → Relinked s s'
  | 0, s, s', h => by
    unfold detachFrom at h
    rw [← Option.some.inj h]; exact Relinked.relinked_refl s
  | k + 1, s, s', h => by
    unfold detachFrom at h
    simp only [Option.bind_eq_some] at h
    obtain ⟨s1, h1, h2⟩ := h
    exact (ws_detach_relinked h1).relinked_trans (detachFrom_relinked c k h2)

theorem attachFrom_relinked (c : Nat) :
    ∀ (k : Nat) {s s' : State}, attachFrom c k s = some s' → Relinked s s'
  | 0, s, s', h => by
    unfold attachFrom at h
    rw [← Option.some.inj h]; exact Relinked.relinked_refl s
  | k + 1, s, s', h => by
    unfold attachFrom at h
    simp only [Option.bind_eq_some] at h
    obtain ⟨s1, h1, h2⟩ := h
    exact (ws_attach_relinked h1).relinked_trans (attachFrom_relinked c k h2)

theorem Relinked.relinked_incw {s s' : State} (h : Relinked s s') (a : Nat) :
    (s'.mem a).c_incw = (s.mem a).c_incw := by
  have e := congrArg Client.c_incw (h.1 a)
  exact e

theorem Relinked.relinked_inch {s s' : State} (h : Relinked s s') (a : Nat) :
    (s'.mem a).c_inch = (s.mem a).c_inch := by
  have e := congrArg Client.c_inch (h.1 a)
  exact e

theorem Relinked.relinked_floating {s s' : State} (h : Relinked s s') (a : Nat) :
    (s'.mem a).c_isfloating = (s.mem a).c_isfloating := by
  have e := congrArg Client.c_isfloating (h.1 a)
  exact e

theorem Relinked.relinked_c_win {s s' : State} (h : Relinked s s') (a : Nat) :
    (s'.mem a).c_win = (s.mem a).c_win := by
  have e := congrArg Client.c_win (h.1 a)
  exact e

theorem Relinked.relinked_snext {s s' : State} (h : Relinked s s') (a : Nat) :
    (s'.mem a).snext = (s.mem a).snext := by
  have e := congrArg Client.snext (h.1 a)
  exact e

theorem Relinked.relinked_c_monitor {s s' : State} (h : Relinked s s') (a : Nat) :
    (s'.mem a).c_monitor = (s.mem a).c_monitor := by
  have e := congrArg Client.c_monitor (h.1 a)
  exact e

theorem Relinked.relinked_monitors {s s' : State} (h : Relinked s s') :
    s'.monitors = s.monitors := by
  have e := congrArg State.monitors h.2
  exact e

theorem Relinked.relinked_stack {s s' : State} (h : Relinked s s') : s'.stack = s.stack := by
  have e := congrArg State.stack h.2
  exact e

theorem Relinked.relinked_sel {s s' : State} (h : Relinked s s') : s'.sel = s.sel := by
  have e := congrArg State.sel h.2
  exact e

theorem Relinked.relinked_selmonitor {s s' : State} (h : Relinked s s') :
    s'.selmonitor = s.selmonitor := by
  have e := congrArg State.selmonitor h.2
  exact e

theorem Frame.snext {s s' : State} (h : Frame s s') (a : Nat) :
    (s'.mem a).snext = (s.mem a).snext := by
  have e := congrArg Client.snext (h.1 a)
  exact e

theorem Frame.c_win {s s' : State} (h : Frame s s') (a : Nat) :
    (s'.mem a).c_win = (s.mem a).c_win := by
  have e := congrArg Client.c_win (h.1 a)
  exact e

/-! ## The error handler -/

/-- C23: `xerror` returns 0 without calling the default handler exactly for
the errors the specification lists (any request failing with `BadWindow`;
`BadMatch` on `SetInputFocus` or `ConfigureWindow`; `BadDrawable` on
`PolyText8`, `PolyFillRectangle`, `PolySegment` or `CopyArea`; `BadAccess` on
`GrabKey`); for every other pair of request code and error code it calls the
default Xlib handler and its result is that handler's result. -/
theorem xerror_ignores_exactly (xerrorxlib : XErrorEvent → Option Int) (ee : XErrorEvent) :
    xerror xerrorxlib ee =
      if xerrorIgnoresSpec ee then XErrorOutcome.ignored 0
      else XErrorOutcome.delegated (xerrorxlib ee) := by
  unfold xerror xerrorIgnoresSpec
  congr 1
  apply propext
  constructor
  · rintro (h | ⟨h1, h2⟩ | ⟨h1, h2⟩ | ⟨h1, h2⟩ | ⟨h1, h2⟩ | ⟨h1, h2⟩ | ⟨h1, h2⟩ | ⟨h1, h2⟩)
    · exact Or.inl h
    · exact Or.inr (Or.inl ⟨h2, Or.inl h1⟩)
    · exact Or.inr (Or.inr (Or.inl ⟨h2, Or.inl h1⟩))
    · exact Or.inr (Or.inr (Or.inl ⟨h2, Or.inr (Or.inl h1)⟩))
    · exact Or.inr (Or.inr (Or.inl ⟨h2, Or.inr (Or.inr (Or.inl h1))⟩))
    · exact Or.inr (Or.inl ⟨h2, Or.inr h1⟩)
    · exact Or.inr (Or.inr (Or.inr ⟨h2, h1⟩))
    · exact Or.inr (Or.inr (Or.inl ⟨h2, Or.inr (Or.inr (Or.inr h1))⟩))
  · rintro (h | ⟨h1, h2 | h2⟩ | ⟨h1, h2 | h2 | h2 | h2⟩ | ⟨h1, h2⟩)
    · exact Or.inl h
    · exact Or.inr (Or.inl ⟨h2, h1⟩)
    · exact Or.inr (Or.inr (Or.inr (Or.inr (Or.inr (Or.inl ⟨h2, h1⟩)))))
    · exact Or.inr (Or.inr (Or.inl ⟨h2, h1⟩))
    · exact Or.inr (Or.inr (Or.inr (Or.inl ⟨h2, h1⟩)))
    · exact Or.inr (Or.inr (Or.inr (Or.inr (Or.inl ⟨h2, h1⟩))))
    · exact Or.inr (Or.inr (Or.inr (Or.inr (Or.inr (Or.inr (Or.inr ⟨h2, h1⟩))))))
    · exact Or.inr (Or.inr (Or.inr (Or.inr (Or.inr (Or.inr (Or.inl ⟨h2, h1⟩))))))

/-! ## Resize increments -/

theorem FrameSel.sel_incw {s s' : State} (h : FrameSel s s') (a : Nat) :
    (s'.mem a).c_incw = (s.mem a).c_incw := Frame.incw h a

theorem FrameSel.sel_inch {s s' : State} (h : FrameSel s s') (a : Nat) :
    (s'.mem a).c_inch = (s.mem a).c_inch := Frame.inch h a

theorem manageInit_incs {c w : Nat} {wa : XWindowAttributes} {hints : Option XSizeHints}
    {tr : Int} {s s1 : State} (h : manageInit c w wa hints tr s = some s1) :
    1 ≤ (s1.mem c).c_incw ∧ 1 ≤ (s1.mem c).c_inch := by
  unfold manageInit at h
  dsimp only at h
  split at h
  · exact Option.noConfusion h
  · have e := Option.some.inj h
    obtain ⟨_, _, _, _, _, _, g7, g8⟩ := manageTail_spec c w hints tr _ _ e.symm
    exact ⟨g7, g8⟩

/-- Whatever `manage` returns, the new record has increments of at least 1. -/
theorem manage_incs {fuel c w : Nat} {wa : XWindowAttributes} {hints : Option XSizeHints}
    {tr : Int} {s s' : State} (h : manage fuel c w wa hints tr s = some s') :
    1 ≤ (s'.mem c).c_incw ∧ 1 ≤ (s'.mem c).c_inch := by
  unfold manage at h
  simp only [Option.bind_eq_some] at h
  obtain ⟨s1, h1, s2, h2, h3⟩ := h
  split at h3
  · exact Option.noConfusion h3
  · simp only [Option.bind_eq_some] at h3
    obtain ⟨s3, h3a, s4, h4, h5⟩ := h3
    have i1 := manageInit_incs h1
    have r2 := ws_attach_relinked h2
    have r3 := ws_attach_relinked h3a
    have f4 := ban_frame h4
    have f5 := arrange_frame h5
    have ew : (s'.mem c).c_incw = (s1.mem c).c_incw := by
      rw [f5.sel_incw]
      show (s4.mem c).c_incw = _
      rw [f4.incw]
      show (s3.mem c).c_incw = _
      rw [r3.relinked_incw, r2.relinked_incw]
    have eh : (s'.mem c).c_inch = (s1.mem c).c_inch := by
      rw [f5.sel_inch]
      show (s4.mem c).c_inch = _
      rw [f4.inch]
      show (s3.mem c).c_inch = _
      rw [r3.relinked_inch, r2.relinked_inch]
    rw [ew, eh]
    exact i1

/-- C29: for every size-hint reply (or none) and every prior state,
`updatesizehints` leaves both resize increments of the client at least 1 and
every following `resize` of that client, with or without size hints, returns
(no division by zero); and `manage`, called in a consistent state with the
address of a fresh record and enough fuel, returns with the increments of the
new client at least 1, so every `resize` of it returns. -/
theorem updatesizehints_increments (fuel c w : Nat) (wa : XWindowAttributes)
    (hints : Option XSizeHints) (transRet : Int) (s : State) (hm : Managed s)
    (hfuel : ∀ v, v < 10 → s.w_numClients v + 1 < (fuel : Int)) (hc : c ≠ rootClient)
    (hfresh : ∀ v, v < 10 → isMember s c v = false) :
    (∀ (reply : Option XSizeHints) (t : State),
      1 ≤ ((updatesizehints c reply t).mem c).c_incw ∧
      1 ≤ ((updatesizehints c reply t).mem c).c_inch ∧
      ∀ (x y nw nh : Int) (sizehints : Bool),
        ∃ t', resize c x y nw nh sizehints (updatesizehints c reply t) = some t') ∧
    (∃ s', manage fuel c w wa hints transRet s = some s' ∧
      1 ≤ (s'.mem c).c_incw ∧ 1 ≤ (s'.mem c).c_inch ∧
      ∀ (x y nw nh : Int) (sizehints : Bool), ∃ t', resize c x y nw nh sizehints s' = some t') := by
  constructor
  · intro reply t
    obtain ⟨u1, u2, _⟩ := updatesizehints_same c reply t
    refine ⟨u1, u2, fun x y nw nh sh => resize_total c x y nw nh sh _ (fun _ => ⟨?_, ?_⟩)⟩
    · omega
    · omega
  · obtain ⟨s', e, _⟩ := manage_attaches fuel c w wa hints transRet s hm hfuel hc hfresh
    obtain ⟨i1, i2⟩ := manage_incs e
    refine ⟨s', e, i1, i2, fun x y nw nh sh => resize_total c x y nw nh sh _ (fun _ => ⟨?_, ?_⟩)⟩
    · omega
    · omega

/-- Witness of `updatesizehints_increments`: the first window (record 1,
window id 77, a reply with zero increments) managed in the state `setup`
leaves with one monitor. -/
theorem updatesizehints_increments_witness :
    (∀ (reply : Option XSizeHints) (t : State),
      1 ≤ ((updatesizehints 1 reply t).mem 1).c_incw ∧
      1 ≤ ((updatesizehints 1 reply t).mem 1).c_inch ∧
      ∀ (x y nw nh : Int) (sizehints : Bool),
        ∃ t', resize 1 x y nw nh sizehints (updatesizehints 1 reply t) = some t') ∧
    (∃ s', manage 5 1 77 { x := 10, y := 10, width := 300, height := 200, border_width := 0 }
        (some { flags := PResizeInc, width_inc := 0, height_inc := 0 }) 0
        (demoState 20 fun _ => {}) = some s' ∧
      1 ≤ (s'.mem 1).c_incw ∧ 1 ≤ (s'.mem 1).c_inch ∧
      ∀ (x y nw nh : Int) (sizehints : Bool), ∃ t', resize 1 x y nw nh sizehints s' = some t') :=
  updatesizehints_increments 5 1 77 _ _ 0 (demoState 20 fun _ => {}) (demoState_managed 20)
    (fun v hv => by
      have e : (demoState 20 fun _ => {}).w_numClients v = 0 := rfl
      rw [e]; decide)
    (by decide) (fun v _ => rfl)

/-! ## The logical size of a monitor -/

theorem monitorat_lt {s : State} (px py : Int) (hsel : s.selmonitor < s.monitors.length) :
    ∃ i, monitorat px py s = some i ∧ i < s.monitors.length := by
  unfold monitorat
  obtain ⟨m, hm, _⟩ := getElem?_of_lt s.monitors s.selmonitor hsel
  rw [hm]
  refine ⟨_, rfl, ?_⟩
  cases hf : s.monitors.findIdx? fun m =>
      decide (px ≥ m.m_xorig ∧ px < m.m_xorig + m.m_width) &&
        decide (py ≥ m.m_yorig ∧ py < m.m_yorig + m.m_height) with
  | none => simp only [Option.getD_none]; omega
  | some i =>
    simp only [Option.getD_some]
    have h := List.findIdx?_eq_some_iff_findIdx_eq.mp hf
    exact h.1

theorem monitorat_bound {s : State} {px py : Int} {i : Nat} (h : monitorat px py s = some i) :
    i < s.monitors.length := by
  unfold monitorat at h
  split at h
  · exact Option.noConfusion h
  · rename_i m hm
    have hsel : s.selmonitor < s.monitors.length := by
      by_contra hc
      rw [List.getElem?_eq_none (by omega)] at hm
      exact Option.noConfusion hm
    obtain ⟨j, hj, hlt⟩ := monitorat_lt px py hsel
    unfold monitorat at hj
    rw [hm] at hj
    rw [← Option.some.inj h, Option.some.inj hj]
    exact hlt

theorem Managed.setMonitor {s : State} (hm : Managed s) (i : Nat) (m : Monitor)
    (hw : m.m_workspace < 10) (hl : m.m_layout < 2) : Managed (s.setMonitor i m) := by
  obtain ⟨h1, h2, h3, h4, h5, h6⟩ := hm
  refine ⟨h1, ?_, ?_, h4, ?_, h6⟩
  · show s.selmonitor < (s.monitors.set i m).length
    rw [List.length_set]; exact h2
  · intro m' hm'
    have hm2 : m' ∈ s.monitors.set i m := hm'
    rcases List.mem_or_eq_of_mem_set hm2 with h | h
    · exact h3 m' h
    · rw [h]; exact ⟨hw, hl⟩
  · intro a
    show (s.mem a).c_monitor < (s.monitors.set i m).length
    rw [List.length_set]; exact h5 a

theorem Managed.bar {s : State} (hm : Managed s) (bh : Int) (bpos : Nat) :
    Managed { s with bh := bh, bpos := bpos } := hm

theorem mem_of_getElem? {α : Type} {l : List α} {i : Nat} {a : α} (h : l[i]? = some a) :
    a ∈ l := by
  obtain ⟨hi, e⟩ := List.getElem?_eq_some_iff.mp h
  rw [← e]; exact List.getElem_mem hi

/-- The function `updatebarpos` returns on an index of `monitors`; it writes
the work area of that monitor and the request log. -/
theorem updatebarpos_spec {i : Nat} {s : State} {m : Monitor} (h : s.monitors[i]? = some m) :
    ∃ m' r, updatebarpos i s = some ((s.setMonitor i m').log r) ∧
      m' = { m with wax := m'.wax, way := m'.way, wah := m'.wah, waw := m'.waw } := by
  unfold updatebarpos
  rw [h]
  dsimp only
  split_ifs
  · exact ⟨_, _, rfl, rfl⟩
  · exact ⟨_, _, rfl, rfl⟩
  · exact ⟨_, _, rfl, rfl⟩

theorem setMonitor_getElem? {s : State} {i : Nat} (m : Monitor) (hi : i < s.monitors.length) :
    (s.setMonitor i m).monitors[i]? = some m := by
  show (s.monitors.set i m)[i]? = some m
  rw [List.getElem?_set_self hi]

theorem setMonitor_twice (s : State) (i : Nat) (m m' : Monitor) :
    (s.setMonitor i m).setMonitor i m' = s.setMonitor i m' := by
  unfold State.setMonitor
  simp only [List.set_set]

/-- Changing `monitors[i]` to a monitor that shows a valid workspace with a
valid layout, then `updatebarpos` and `arrange`: the calls return, and every
monitor afterwards is a monitor from before or the new one up to its work
area. -/
theorem adjust_then_arrange {s : State} (hm : Managed s) {fuel : Nat} (hf : Fueled fuel s)
    {i : Nat} (hi : i < s.monitors.length) (m1 : Monitor)
    (hw : m1.m_workspace < 10) (hl : m1.m_layout < 2) :
    ∃ s', (updatebarpos i (s.setMonitor i m1)).bind (arrange fuel) = some s' ∧
      s'.sel = none ∧
      ∀ m ∈ s'.monitors, m ∈ s.monitors ∨
        ∃ m', m = m' ∧ m' = { m1 with wax := m'.wax, way := m'.way, wah := m'.wah,
                                      waw := m'.waw } := by
  obtain ⟨m', r, e, hm'⟩ := updatebarpos_spec (setMonitor_getElem? m1 hi)
  rw [e, setMonitor_twice]
  have hw' : m'.m_workspace < 10 := by rw [hm']; exact hw
  have hl' : m'.m_layout < 2 := by rw [hm']; exact hl
  have hm2 : Managed ((s.setMonitor i m').log r) :=
    (Frame.log _ r).managed (hm.setMonitor i m' hw' hl')
  have hf2 : Fueled fuel ((s.setMonitor i m').log r) := hf
  obtain ⟨s', e', hfr, hsel⟩ := arrange_total hm2 hf2
  refine ⟨s', e', hsel, fun m hmem => ?_⟩
  rw [hfr.sel_monitors] at hmem
  have hmem2 : m ∈ s.monitors.set i m' := hmem
  rcases List.mem_or_eq_of_mem_set hmem2 with h | h
  · exact Or.inl h
  · exact Or.inr ⟨m', h, hm'⟩

/-- C24 (as stated, refuted): `setup` on a display of 240x320 pixels leaves one
monitor whose logical and real size are 240x320; `fn_adjustMonitorWidth("-5")`
then computes 235, raises it to the lower bound 300 and stores a logical width
of 300, greater than the real width 240. -/
theorem fn_adjustMonitorWidth_counterexample :
    ∃ s s', setup demoConfig smallDisplay 10 10 = some s ∧
      s.monitors.map (fun m => (m.m_width, m.m_height, m.m_realWidth, m.m_realHeight))
        = [(240, 320, 240, 320)] ∧
      fn_adjustMonitorWidth 5 10 10 (some "-5".toList) s = some s' ∧
      s'.monitors.map (fun m => (m.m_width, m.m_height, m.m_realWidth, m.m_realHeight))
        = [(300, 320, 240, 320)] ∧
      ¬ ∀ m ∈ s'.monitors, m.m_width ≤ m.m_realWidth ∧ m.m_height ≤ m.m_realHeight :=
  ⟨_, _, rfl, by decide, rfl, by decide, by decide⟩

theorem adjust_keeps_bounds {s : State} (hm : Managed s) {fuel : Nat} (hf : Fueled fuel s)
    (hlog : ∀ m ∈ s.monitors, m.m_width ≤ m.m_realWidth ∧ m.m_height ≤ m.m_realHeight)
    {i : Nat} {m : Monitor} (hmi : s.monitors[i]? = some m) (m1 : Monitor)
    (hw : m1.m_workspace < 10) (hl : m1.m_layout < 2)
    (h1 : m1.m_width ≤ m1.m_realWidth) (h2 : m1.m_height ≤ m1.m_realHeight) :
    ∃ s', (updatebarpos i (s.setMonitor i m1)).bind (arrange fuel) = some s' ∧
      ∀ m ∈ s'.monitors, m.m_width ≤ m.m_realWidth ∧ m.m_height ≤ m.m_realHeight := by
  have hlt : i < s.monitors.length := (List.getElem?_eq_some_iff.mp hmi).1
  obtain ⟨s', e, _, hmon⟩ := adjust_then_arrange hm hf hlt m1 hw hl
  refine ⟨s', e, fun m2 hm2 => ?_⟩
  rcases hmon m2 hm2 with h | ⟨m', rfl, h⟩
  · exact hlog m2 h
  · have e1 : m2.m_width = m1.m_width := by
      have e := congrArg Monitor.m_width h
      exact e
    have e2 : m2.m_height = m1.m_height := by
      have e := congrArg Monitor.m_height h
      exact e
    have e3 : m2.m_realWidth = m1.m_realWidth := by
      have e := congrArg Monitor.m_realWidth h
      exact e
    have e4 : m2.m_realHeight = m1.m_realHeight := by
      have e := congrArg Monitor.m_realHeight h
      exact e
    rw [e1, e2, e3, e4]
    exact ⟨h1, h2⟩

/-- C24 (amended): in a consistent state in which every monitor has a real
width and a real height of at least 300 and a logical width and height no
greater than the real ones, `fn_adjustMonitorWidth` and
`fn_adjustMonitorHeight` return for every argument string (or `NULL`) and
every pointer position, and afterwards the logical width and height of every
monitor are no greater than its real width and height. -/
theorem adjustMonitor_within_real (fuel : Nat) (px py : Int) (arg : Option (List Char))
    (s : State) (hm : Managed s) (hf : Fueled fuel s)
    (hreal : ∀ m ∈ s.monitors, 300 ≤ m.m_realWidth ∧ 300 ≤ m.m_realHeight)
    (hlog : ∀ m ∈ s.monitors, m.m_width ≤ m.m_realWidth ∧ m.m_height ≤ m.m_realHeight) :
    (∃ s', fn_adjustMonitorWidth fuel px py arg s = some s' ∧
      ∀ m ∈ s'.monitors, m.m_width ≤ m.m_realWidth ∧ m.m_height ≤ m.m_realHeight) ∧
    (∃ s', fn_adjustMonitorHeight fuel px py arg s = some s' ∧
      ∀ m ∈ s'.monitors, m.m_width ≤ m.m_realWidth ∧ m.m_height ≤ m.m_realHeight) := by
  obtain ⟨i, hi, hlt⟩ := monitorat_lt px py hm.2.1
  obtain ⟨m, hmi, _⟩ := getElem?_of_lt s.monitors i hlt
  have hmem := mem_of_getElem? hmi
  obtain ⟨hws, hly⟩ := hm.2.2.1 m hmem
  obtain ⟨hrw, hrh⟩ := hreal m hmem
  obtain ⟨hlw, hlh⟩ := hlog m hmem
  constructor
  · unfold fn_adjustMonitorWidth
    rw [hi]
    simp only [Option.some_bind, hmi]
    refine adjust_keeps_bounds hm hf hlog hmi _ hws hly ?_ hlh
    show _ ≤ m.m_realWidth
    cases arg with
    | none => exact le_refl _
    | some str =>
      dsimp only
      cases sscanf_d str with
      | none => exact hlw
      | some delta =>
        dsimp only
        split_ifs <;> omega
  · unfold fn_adjustMonitorHeight
    rw [hi]
    simp only [Option.some_bind, hmi]
    refine adjust_keeps_bounds hm hf hlog hmi _ hws hly hlw ?_
    show _ ≤ m.m_realHeight
    cases arg with
    | none => exact le_refl _
    | some str =>
      dsimp only
      cases sscanf_d str with
      | none => exact hlh
      | some delta =>
        dsimp only
        split_ifs <;> omega

/-! ## Key modes -/

theorem KeysFrame.keys_refl (s : State) : KeysFrame s s := rfl

theorem KeysFrame.keys_trans {a b c : State} (h1 : KeysFrame a b) (h2 : KeysFrame b c) :
    KeysFrame a c := by
  unfold KeysFrame at *
  rw [h2, h1]

theorem foldl_keysFrame {α : Type} (f : State → α → State) (hf : ∀ s a, KeysFrame s (f s a)) :
    ∀ (l : List α) (s : State), KeysFrame s (l.foldl f s)
  | [], s => KeysFrame.keys_refl s
  | a :: l, s => (hf s a).keys_trans (foldl_keysFrame f hf l (f s a))

theorem initNumlock_frame (d : Display) (s : State) :
    initNumlock d s = { s with numlockmask := (initNumlock d s).numlockmask } := by
  unfold initNumlock
  have key : ∀ (l : List Nat) (g : State → Nat → State)
      (_ : ∀ s a, g s a = { s with numlockmask := (g s a).numlockmask }) (s : State),
      l.foldl g s = { s with numlockmask := (l.foldl g s).numlockmask } := by
    intro l g hg
    induction l with
    | nil => intro s; rfl
    | cons a l ih =>
      intro s
      rw [List.foldl_cons, ih (g s a), hg s a]
  refine key _ _ (fun s i => key _ _ (fun s j => ?_) s) s
  split_ifs <;> rfl

theorem log_log (s : State) (a b : List XReq) : (s.log a).log b = s.log (a ++ b) := by
  unfold State.log
  simp only [List.append_assoc]

theorem log_nil (s : State) : s.log [] = s := by
  unfold State.log
  simp only [List.append_nil]

/-- The binding loop of `keys_grabPrimary` appends four grabs per binding. -/
theorem grabBinding_fold (d : Display) (root : Nat) :
    ∀ (ks : List Key) (s : State),
      ks.foldl (grabBinding d root) s = s.log (ks.flatMap fun k =>
        [0, LockMask, s.numlockmask, s.numlockmask ||| LockMask].map fun l =>
          XReq.grabKey (d.keysymToKeycode k.keysym) (k.mod ||| l) root)
  | [], s => by rw [List.foldl_nil, List.flatMap_nil, log_nil]
  | k :: ks, s => by
    rw [List.foldl_cons, grabBinding_fold d root ks, List.flatMap_cons]
    unfold grabBinding
    dsimp only
    rw [log_log]
    have e : ∀ r, (s.log r).numlockmask = s.numlockmask := fun _ => rfl
    simp only [List.map_cons, List.map_nil, Nat.or_zero, Nat.lor_assoc, List.cons_append,
      List.nil_append, e]

/-- The monitor loop of `keys_grabPrimary` appends the Primary grab set. -/
theorem grabMonitors_fold (d : Display) :
    ∀ (ms : List Monitor) (s : State),
      ms.foldl (fun s m => KeysPrimary.foldl (grabBinding d m.m_root)
          (s.log [XReq.ungrabKey AnyKey AnyModifier m.m_root])) s
        = s.log (primaryGrabSetSpec d s.numlockmask (ms.map fun m => m.m_root))
  | [], s => by
    rw [List.foldl_nil]
    unfold primaryGrabSetSpec
    rw [List.map_nil, List.flatMap_nil, log_nil]
  | m :: ms, s => by
    rw [List.foldl_cons, grabMonitors_fold d ms, grabBinding_fold, log_log, log_log]
    unfold primaryGrabSetSpec
    rw [List.map_cons, List.flatMap_cons]
    rfl

theorem keys_grabPrimary_spec (d : Display) (s : State) :
    keys_grabPrimary d s =
      { s with numlockmask := (initNumlock d s).numlockmask,
               xlog := s.xlog ++ primaryGrabSetSpec d (initNumlock d s).numlockmask
                 (s.monitors.map fun m => m.m_root) } := by
  unfold keys_grabPrimary
  dsimp only
  rw [grabMonitors_fold]
  have e := initNumlock_frame d s
  have em : (initNumlock d s).monitors = s.monitors := by rw [e]
  have ex : (initNumlock d s).xlog = s.xlog := by rw [e]
  rw [em]
  unfold State.log
  rw [ex]
  conv_lhs => rw [e]

theorem keys_grabSecondary_frame (d : Display) (s : State) :
    KeysFrame s (keys_grabSecondary d s) := by
  unfold keys_grabSecondary
  dsimp only
  refine KeysFrame.keys_trans ?_ (foldl_keysFrame _ (fun s m => ?_) _ _)
  · have e := initNumlock_frame d s
    have e2 : (initNumlock d s).KeysMode = s.KeysMode := by
      have e' := congrArg State.KeysMode e
      exact e'
    have e3 : (initNumlock d s).xlog = s.xlog := by
      have e' := congrArg State.xlog e
      exact e'
    unfold KeysFrame
    rw [e2, e3]
    exact e
  · rfl

theorem FrameSel.sel_stack {s s' : State} (h : FrameSel s s') : s'.stack = s.stack := by
  have e := Frame.stack (show Frame _ s' from h)
  exact e

theorem FrameSel.sel_snext {s s' : State} (h : FrameSel s s') (a : Nat) :
    (s'.mem a).snext = (s.mem a).snext := Frame.snext h a

theorem FrameSel.sel_c_monitor {s s' : State} (h : FrameSel s s') (a : Nat) :
    (s'.mem a).c_monitor = (s.mem a).c_monitor := Frame.c_monitor h a

theorem StackChain.stack_chain_frame {s s' : State} (h : FrameSel s s') :
    ∀ (l : List Nat) (p : Option Nat), StackChain s p l → StackChain s' p l
  | [], p, hc => by unfold StackChain at hc ⊢; exact hc
  | a :: l, p, hc => by
    unfold StackChain at hc ⊢
    refine ⟨hc.1, ?_⟩
    rw [h.sel_snext]
    exact StackChain.stack_chain_frame h l _ hc.2

theorem visibleOwn_frameSel {s s' : State} (h : FrameSel s s') (a : Nat) :
    visibleOwn s' a = visibleOwn s a := by
  unfold visibleOwn
  rw [h.sel_c_monitor, isvisible_frameSel h]

/-- The function `focus(c)` on a client that is visible on its own monitor:
it returns with `c` selected. -/
theorem focus_some_spec (fuel : Nat) (s : State) (c : Nat)
    (hvis : isvisible c (s.mem c).c_monitor s = some true)
    (hsel : ∀ o, s.sel = some o → (s.mem o).c_monitor < s.monitors.length) :
    ∃ s1, focus fuel (some c) s = some s1 ∧ FrameSel s s1 ∧ s1.sel = some c ∧
      s1.selmonitor = (s.mem c).c_monitor := by
  have hlt : (s.mem c).c_monitor < s.monitors.length := by
    by_contra hc
    unfold isvisible at hvis
    rw [List.getElem?_eq_none (by omega)] at hvis
    exact Option.noConfusion hvis
  obtain ⟨m, hm, _⟩ := getElem?_of_lt s.monitors _ hlt
  obtain ⟨s1, h1, hf1⟩ := focusUnselect_total (some c)
    (focusMonitor (some c) s) hsel
  have hpick : focusPick fuel (some c) (focusMonitor (some c) s) = some (some c) := by
    unfold focusPick
    show (isvisible c (s.mem c).c_monitor (focusMonitor (some c) s)).bind _ = _
    rw [isvisible_frameSel (focusMonitor_frame (some c) s), hvis]
    rfl
  have hfo : focus fuel (some c) s = some (focusSelect m (some c) s1) := by
    unfold focus
    dsimp only
    have hm' : (focusMonitor (some c) s).monitors[(focusMonitor (some c) s).selmonitor]?
        = some m := hm
    rw [hm']
    dsimp only
    rw [hpick, Option.some_bind, h1]
    rfl
  refine ⟨_, hfo, focus_frame hfo, focusSelect_sel _ _ _, ?_⟩
  rw [focusSelect_selmonitor, hf1.c_monitor]
  rfl

/-- C21 (as stated, refuted): clients 1, 2 and 3 are managed and visible on
workspace 3 and the focus stack is empty.  `focus(2)` selects client 2 and
leaves the focus stack empty; the following `focus(NULL)`, client 2 still
visible, ends with `sel = NULL`. -/
theorem focus_push_counterexample :
    ∃ s1 s2, focus 5 (some 2) (demoAll 20 fun _ => plainClient 1) = some s1 ∧
      isvisible 2 0 (demoAll 20 fun _ => plainClient 1) = some true ∧
      s1.sel = some 2 ∧ s1.stack = none ∧
      isvisible 2 s1.selmonitor s1 = some true ∧
      focus 5 none s1 = some s2 ∧ s2.sel = none ∧ s2.sel ≠ some 2 :=
  ⟨_, _, rfl, by decide, by decide, by decide, by decide, rfl, by decide, by decide⟩

/-- C21 (amended): in a state whose monitors show workspaces `0..9` and whose
focus stack holds the clients `l`, `focus(c)` on a client `c` that is visible
on its monitor returns with `c` selected and the focus stack unchanged (`c` is
not pushed), so the following `focus(NULL)` returns and selects the first
client of `l` that is visible on its own monitor: it selects `c` only when `c`
is that client, and no client when the stack is empty. -/
theorem focus_keeps_stack (fuel : Nat) (s : State) (c : Nat) (l : List Nat)
    (hws : ∀ m' ∈ s.monitors, m'.m_workspace < 10)
    (hvis : isvisible c (s.mem c).c_monitor s = some true)
    (hst : StackChain s s.stack l) (hfuel : l.length < fuel)
    (hcm : ∀ a ∈ l, (s.mem a).c_monitor < s.monitors.length)
    (hsel : ∀ o, s.sel = some o → (s.mem o).c_monitor < s.monitors.length) :
    ∃ s1, focus fuel (some c) s = some s1 ∧ s1.sel = some c ∧
      s1.stack = s.stack ∧ StackChain s1 s1.stack l ∧
      isvisible c s1.selmonitor s1 = some true ∧
      ∃ s2, focus fuel none s1 = some s2 ∧ s2.sel = l.find? (visibleOwn s) ∧
        (l = [] → s2.sel = none) := by
  obtain ⟨s1, h1, hf1, hs1, hsm1⟩ := focus_some_spec fuel s c hvis hsel
  have hlt : (s.mem c).c_monitor < s.monitors.length := by
    by_contra hc
    unfold isvisible at hvis
    rw [List.getElem?_eq_none (by omega)] at hvis
    exact Option.noConfusion hvis
  have hst1 : StackChain s1 s1.stack l := by
    rw [hf1.sel_stack]
    exact StackChain.stack_chain_frame hf1 l _ hst
  obtain ⟨m1, hm1, _⟩ := getElem?_of_lt s1.monitors s1.selmonitor (by
    rw [hsm1, hf1.sel_monitors]; exact hlt)
  have hvis1 : ∀ a ∈ l, ∃ v, isvisible a (s1.mem a).c_monitor s1 = some v := by
    intro a ha
    rw [hf1.sel_c_monitor, isvisible_frameSel hf1]
    obtain ⟨ma, hma, hmem⟩ := getElem?_of_lt s.monitors _ (hcm a ha)
    unfold isvisible
    rw [hma]
    simp only [Nat.not_le.mpr (hws ma hmem), if_false]
    exact ⟨_, rfl⟩
  have hsel1 : ∀ o, s1.sel = some o → (s1.mem o).c_monitor < s1.monitors.length := by
    intro o ho
    rw [hs1] at ho
    have e : o = c := (Option.some.inj ho).symm
    rw [e, hf1.sel_c_monitor, hf1.sel_monitors]
    exact hlt
  obtain ⟨s2, h2, _, hs2, _⟩ := focus_none_spec fuel s1 m1 l hm1 hst1 hfuel hvis1 hsel1
  have hfind : l.find? (visibleOwn s1) = l.find? (visibleOwn s) := by
    congr 1
    funext a
    exact visibleOwn_frameSel hf1 a
  refine ⟨s1, h1, hs1, hf1.sel_stack, hst1, ?_, s2, h2, ?_, fun hl => ?_⟩
  · rw [hsm1, isvisible_frameSel hf1]; exact hvis
  · rw [hs2, hfind]
  · rw [hs2, hl]; rfl

/-- Witness of `focus_keeps_stack`: client 2 of three managed clients, with
the focus stack empty. -/
theorem focus_keeps_stack_witness :
    ∃ s1, focus 5 (some 2) (demoAll 20 fun _ => plainClient 1) = some s1 ∧ s1.sel = some 2 ∧
      s1.stack = (demoAll 20 fun _ => plainClient 1).stack ∧ StackChain s1 s1.stack [] ∧
      isvisible 2 s1.selmonitor s1 = some true ∧
      ∃ s2, focus 5 none s1 = some s2 ∧
        s2.sel = [].find? (visibleOwn (demoAll 20 fun _ => plainClient 1)) ∧
        (([] : List Nat) = [] → s2.sel = none) :=
  focus_keeps_stack 5 (demoAll 20 fun _ => plainClient 1) 2 [] (by decide) (by decide) rfl
    (by decide) (fun a ha => absurd ha (List.not_mem_nil a)) (fun o ho => by
      have : (demoAll 20 fun _ => plainClient 1).sel = none := rfl
      rw [this] at ho
      exact Option.noConfusion ho)

/-! ## Evaluations -/

/-- C25 (the code at a failing input): `setup` on a display with two heads,
1920x1080 at (0,0) and 1280x1024 at (1920,0).  The real origins are those of
the heads, but the real width of each monitor is the height of its head (1080
and 1024) and the real height is 0; the logical size starts equal to these
values. -/
theorem setup_two_heads :
    ∃ s, setup demoConfig twoHeads 10 10 = some s ∧
      twoHeads.info.map (fun i => (i.x_org, i.y_org, i.width, i.height))
        = [(0, 0, 1920, 1080), (1920, 0, 1280, 1024)] ∧
      s.monitors.map (fun m => (m.m_realXOrig, m.m_realYOrig, m.m_realWidth, m.m_realHeight))
        = [(0, 0, 1080, 0), (1920, 0, 1024, 0)] ∧
      s.monitors.map (fun m => (m.m_xorig, m.m_yorig, m.m_width, m.m_height))
        = [(0, 0, 1080, 0), (1920, 0, 1024, 0)] :=
  ⟨_, rfl, by decide, by decide, by decide⟩

/-- C28 (the code at a failing input): clients 1, 2, 3 on workspace 3 of the
1000x900 monitor with split 500, client 1, the head of the ring, floating and
90 wide with border 1.  The master is client 2, placed at x = 0 and 498 wide
with border 1, so its right edge is at 500; the stacked client 3 is placed at
x = 92, the width plus twice the border of the floating client 1. -/
theorem layoutTile_floating_head :
    ∃ s', layoutTile 5 (demoThree 20 floatingFirst) = some s' ∧
      ring 5 s' 3 = some [1, 2, 3] ∧ nonFloating s' [1, 2, 3] = [2, 3] ∧
      occupied s' 2 = (0, 0, 500, 900) ∧
      (s'.mem 2).x + (s'.mem 2).w + 2 * (s'.mem 2).c_border = 500 ∧
      (s'.mem 3).x = 92 ∧
      (s'.mem 3).x = 0 + (s'.mem 1).w + 2 * (s'.mem 1).c_border :=
  ⟨_, rfl, by decide, by decide, by decide, by decide, by decide, by decide⟩

/-- C27 (the code at a failing input): `cleanup` in a state with three managed
clients, members of ring 0 and of ring 3, and the focus stack empty as it
always is.  The loop over the focus stack is not entered: `cleanup` returns
with the three clients still in both rings and both counts still 3. -/
theorem cleanup_releases_nothing :
    ∃ s', cleanup 5 (demoAll 20 fun _ => plainClient 1) = some s' ∧
      (demoAll 20 fun _ => plainClient 1).stack = none ∧
      ring 5 s' 0 = some [1, 2, 3] ∧ ring 5 s' 3 = some [1, 2, 3] ∧
      s'.w_numClients 0 = 3 ∧ s'.w_numClients 3 = 3 :=
  ⟨_, rfl, rfl, by decide, by decide, by decide, by decide⟩

/-- C26 (the code at a failing input): client 2 is selected and floating at
(7, 8), 90x80.  (a) A motion event of a move drag started with the pointer at
(50, 50) arrives with the pointer at (150, 50): the candidate x is 107, which is
100 away from the current x; `togglefloating` clears `c_isfloating` and
`arrange` tiles the window.  (b) A motion event of a resize drag arrives with
the pointer at (250, 250): the candidate size is 242x241, 152 wider than the
current size; the client ends up tiled as well. -/
theorem drag_unfloats :
    demoDrag.sel = some 2 ∧ (demoDrag.mem 2).c_isfloating = true ∧
    occupied demoDrag 2 = (7, 8, 92, 82) ∧
    (∃ s', movemouseMotion 5 2 7 8 50 50 150 50 150 50 demoDrag = some s' ∧
      (s'.mem 2).c_isfloating = false ∧ occupied s' 2 = (500, 0, 500, 450)) ∧
    (∃ s', resizemouseMotion 5 2 7 8 250 250 demoDrag = some s' ∧
      (s'.mem 2).c_isfloating = false ∧ occupied s' 2 = (500, 0, 500, 450)) :=
  ⟨rfl, by decide, by decide, ⟨_, rfl, by decide, by decide⟩, ⟨_, rfl, by decide, by decide⟩⟩

/-- Witness of `adjustMonitor_within_real`: the command with the argument
`"-5"` on the 1000x900 monitor with three managed clients. -/
theorem adjustMonitor_within_real_witness :
    (∃ s', fn_adjustMonitorWidth 5 0 0 (some "-5".toList)
        (demoThree 20 fun _ => plainClient 1) = some s' ∧
      ∀ m ∈ s'.monitors, m.m_width ≤ m.m_realWidth ∧ m.m_height ≤ m.m_realHeight) ∧
    (∃ s', fn_adjustMonitorHeight 5 0 0 (some "-5".toList)
        (demoThree 20 fun _ => plainClient 1) = some s' ∧
      ∀ m ∈ s'.monitors, m.m_width ≤ m.m_realWidth ∧ m.m_height ≤ m.m_realHeight) :=
  adjustMonitor_within_real 5 0 0 (some "-5".toList) (demoThree 20 fun _ => plainClient 1)
    (demoThree_managed 20 _ (fun _ _ => ⟨rfl, rfl⟩) (fun _ => rfl) (fun _ => by decide))
    (demoThree_fueled 20 _ 5 (by decide)) (by decide) (by decide)

theorem SameReg.reg_refl (s : State) : SameReg s s :=
  ⟨fun _ => ⟨rfl, rfl, rfl, rfl, fun h => h⟩, rfl, rfl⟩

theorem SameReg.reg_trans {a b c : State} (h1 : SameReg a b) (h2 : SameReg b c) :
    SameReg a c := by
  refine ⟨fun x => ?_, h2.2.1.trans h1.2.1, h2.2.2.trans h1.2.2⟩
  obtain ⟨a1, a2, a3, a4, a5⟩ := h1.1 x
  obtain ⟨b1, b2, b3, b4, b5⟩ := h2.1 x
  exact ⟨b1.trans a1, b2.trans a2, b3.trans a3, b4.trans a4, fun h => b5 (a5 h)⟩

theorem Frame.sameReg {s s' : State} (h : Frame s s') : SameReg s s' :=
  ⟨fun a => ⟨h.next a, h.prev a, h.c_monitor a, h.snext a,
    fun hi => by rw [h.incw, h.inch]; exact hi⟩, h.w_numClients, h.stack⟩

theorem FrameSel.sel_sameReg {s s' : State} (h : FrameSel s s') : SameReg s s' := by
  have e := Frame.sameReg (show Frame { s with sel := s'.sel, selmonitor := s'.selmonitor } s'
    from h)
  exact e

theorem KeysFrame.keys_sameReg {s s' : State} (h : KeysFrame s s') : SameReg s s' := by
  unfold KeysFrame at h
  rw [h]
  exact SameReg.reg_refl s

theorem SameReg.reg_setClient (s : State) (a : Nat) (cl : Client)
    (h1 : cl.c_next = (s.mem a).c_next) (h2 : cl.c_prev = (s.mem a).c_prev)
    (h3 : cl.c_monitor = (s.mem a).c_monitor) (h4 : cl.snext = (s.mem a).snext)
    (h5 : ((s.mem a).c_incw ≠ 0 ∧ (s.mem a).c_inch ≠ 0) → (cl.c_incw ≠ 0 ∧ cl.c_inch ≠ 0)) :
    SameReg s (s.setClient a cl) := by
  refine ⟨fun b => ?_, rfl, rfl⟩
  by_cases hb : b = a
  · subst hb
    rw [setClient_mem_same]
    exact ⟨h1, h2, h3, h4, h5⟩
  · rw [setClient_mem_other _ _ _ _ hb]
    exact ⟨rfl, rfl, rfl, rfl, fun h => h⟩

theorem SameReg.reg_isMember {s s' : State} (h : SameReg s s') (a v : Nat) :
    isMember s' a v = isMember s a v := by
  unfold isMember
  rw [(h.1 a).1]

theorem SameReg.reg_isRing {s s' : State} (h : SameReg s s') {w : Nat} {l : List Nat}
    (hr : IsRing s w l) : IsRing s' w l :=
  hr.congr (fun x => by rw [(h.1 x).1]) (fun x => by rw [(h.1 x).2.1])

/-- A state with the registry of a consistent state, valid monitors and a valid
selected monitor is consistent. -/
theorem Inv0.keep0 {s s' : State} (hi : Inv0 s) (hr : SameReg s s')
    (hlen : s'.monitors.length = s.monitors.length)
    (hmon : ∀ m ∈ s'.monitors, m.m_workspace < 10 ∧ m.m_layout < 2)
    (hsm : s'.selmonitor < s'.monitors.length) : Inv0 s' := by
  obtain ⟨⟨g1, g2, g3, g4, g5, g6⟩, hsub⟩ := hi
  refine ⟨⟨?_, hsm, hmon, ?_, ?_, ?_⟩, ?_⟩
  · intro w hw
    obtain ⟨l, hl, hc⟩ := g1 w hw
    exact ⟨l, hr.reg_isRing hl, by rw [hr.2.1]; exact hc⟩
  · rw [hr.2.2]; exact g4
  · intro a
    rw [(hr.1 a).2.2.1, hlen]; exact g5 a
  · intro a w hw ha hmem
    rw [hr.reg_isMember] at hmem
    exact (hr.1 a).2.2.2.2 (g6 a w hw ha hmem)
  · intro a v hv ha hmem
    rw [hr.reg_isMember] at hmem ⊢
    exact hsub a v hv ha hmem

theorem Inv0.keep0_mon {s s' : State} (hi : Inv0 s) (hr : SameReg s s')
    (hmon : s'.monitors = s.monitors) (hsm : s'.selmonitor = s.selmonitor) : Inv0 s' :=
  hi.keep0 hr (by rw [hmon]) (by rw [hmon]; exact hi.1.2.2.1) (by rw [hsm, hmon]; exact hi.1.2.1)

theorem Inv.inv_keep {s s' : State} (hi : Inv s) (hr : SameReg s s')
    (hlen : s'.monitors.length = s.monitors.length)
    (hmon : ∀ m ∈ s'.monitors, m.m_workspace < 10 ∧ m.m_layout < 2)
    (hsm : s'.selmonitor < s'.monitors.length)
    (hsel : ∀ a, s'.sel = some a → s.sel = some a ∨ (a ≠ rootClient ∧ isMember s a 0 = true)) :
    Inv s' := by
  refine ⟨hi.1.keep0 hr hlen hmon hsm, fun a ha => ?_⟩
  rw [hr.reg_isMember]
  rcases hsel a ha with h | h
  · exact hi.2 a h
  · exact h

theorem Inv.inv_keep_mon {s s' : State} (hi : Inv s) (hr : SameReg s s')
    (hmon : s'.monitors = s.monitors) (hsm : s'.selmonitor = s.selmonitor)
    (hsel : s'.sel = s.sel) : Inv s' :=
  hi.inv_keep hr (by rw [hmon]) (by rw [hmon]; exact hi.1.1.2.2.1)
    (by rw [hsm, hmon]; exact hi.1.1.2.1) (fun a ha => Or.inl (by rw [← hsel]; exact ha))

theorem Inv.inv_frame {s s' : State} (hi : Inv s) (h : Frame s s') : Inv s' :=
  hi.inv_keep_mon h.sameReg h.monitors h.selmonitor h.sel

theorem Inv0.inv0_frame {s s' : State} (hi : Inv0 s) (h : Frame s s') : Inv0 s' :=
  hi.keep0_mon h.sameReg h.monitors h.selmonitor

theorem Inv.inv_keys {s s' : State} (hi : Inv s) (h : KeysFrame s s') : Inv s' := by
  have e := h
  unfold KeysFrame at e
  exact hi.inv_keep_mon h.keys_sameReg (by rw [e]) (by rw [e]) (by rw [e])

theorem Inv.inv_stack {s : State} (hi : Inv s) : s.stack = none := hi.1.1.2.2.2.1

theorem Inv.inv_managed {s : State} (hi : Inv s) : Managed s := hi.1.1

/-- Dropping the selection keeps the invariant. -/
theorem Inv0.toInv {s : State} (hi : Inv0 s) (h : s.sel = none) : Inv s :=
  ⟨hi, fun a ha => by rw [h] at ha; exact Option.noConfusion ha⟩

/-! ## Focus with an empty focus stack -/

theorem stackScan_none (s : State) (fuel : Nat) {r : Option Nat}
    (h : stackScan s fuel none = some r) : r = none := by
  cases fuel with
  | zero => unfold stackScan at h; exact Option.noConfusion h
  | succ k => unfold stackScan at h; exact (Option.some.inj h).symm

/-- With an empty focus stack, whatever `focus(NULL)` returns has no client
selected and the same selected monitor. -/
theorem focus_none_empty {fuel : Nat} {s s' : State} (hst : s.stack = none)
    (h : focus fuel none s = some s') : s'.sel = none ∧ s'.selmonitor = s.selmonitor := by
  unfold focus at h
  dsimp only at h
  split at h
  · exact Option.noConfusion h
  · rename_i m hm
    simp only [Option.bind_eq_some, Option.map_eq_some'] at h
    obtain ⟨c1, hc1, s1, h1, rfl⟩ := h
    have hc : c1 = none := by
      unfold focusPick focusMonitor at hc1
      dsimp only at hc1
      rw [hst] at hc1
      exact stackScan_none _ _ hc1
    subst hc
    have hf := focusUnselect_frame h1
    refine ⟨rfl, ?_⟩
    show s1.selmonitor = s.selmonitor
    rw [hf.selmonitor]
    rfl

/-- With an empty focus stack, whatever `focus(c)` returns has `c` or no client
selected, and the monitor of `c` selected. -/
theorem focus_some_empty {fuel : Nat} {c : Nat} {s s' : State} (hst : s.stack = none)
    (h : focus fuel (some c) s = some s') :
    (s'.sel = none ∨ s'.sel = some c) ∧ s'.selmonitor = (s.mem c).c_monitor := by
  unfold focus at h
  dsimp only at h
  split at h
  · exact Option.noConfusion h
  · rename_i m hm
    simp only [Option.bind_eq_some, Option.map_eq_some'] at h
    obtain ⟨c1, hc1, s1, h1, rfl⟩ := h
    have hf := focusUnselect_frame h1
    have hc : c1 = none ∨ c1 = some c := by
      unfold focusPick at hc1
      dsimp only at hc1
      simp only [Option.bind_eq_some] at hc1
      obtain ⟨v, _, hv⟩ := hc1
      split_ifs at hv
      · exact Or.inr (Option.some.inj hv).symm
      · have e : (focusMonitor (some c) s).stack = none := hst
        rw [e] at hv
        exact Or.inl (stackScan_none _ _ hv)
    rcases hc with hc | hc
    · subst hc
      refine ⟨Or.inl rfl, ?_⟩
      show s1.selmonitor = _
      rw [hf.selmonitor]
      rfl
    · subst hc
      refine ⟨Or.inr rfl, ?_⟩
      rw [focusSelect_selmonitor, hf.c_monitor]
      rfl

theorem focus_none_inv {fuel : Nat} {s s' : State} (hi : Inv0 s)
    (h : focus fuel none s = some s') : Inv s' ∧ s'.sel = none := by
  obtain ⟨h1, h2⟩ := focus_none_empty hi.1.2.2.2.1 h
  have hf := focus_frame h
  exact ⟨(hi.keep0_mon hf.sel_sameReg hf.sel_monitors h2).toInv h1, h1⟩

theorem focus_some_inv {fuel : Nat} {c : Nat} {s s' : State} (hi : Inv0 s)
    (hc : c ≠ rootClient) (hmem : isMember s c 0 = true)
    (h : focus fuel (some c) s = some s') : Inv s' := by
  obtain ⟨h1, h2⟩ := focus_some_empty hi.1.2.2.2.1 h
  have hf := focus_frame h
  have hi0 : Inv0 s' := hi.keep0 hf.sel_sameReg (by rw [hf.sel_monitors])
    (by rw [hf.sel_monitors]; exact hi.1.2.2.1)
    (by rw [h2, hf.sel_monitors]; exact hi.1.2.2.2.2.1 c)
  refine ⟨hi0, fun a ha => ?_⟩
  rcases h1 with h1 | h1
  · rw [h1] at ha; exact Option.noConfusion ha
  · rw [h1] at ha
    have e : c = a := Option.some.inj ha
    subst e
    exact ⟨hc, by rw [hf.sel_isMember]; exact hmem⟩

/-- Whatever `arrange` returns in a consistent state is consistent, has no
client selected, and the same monitors. -/
theorem arrange_inv {fuel : Nat} {s s' : State} (hi : Inv0 s)
    (h : arrange fuel s = some s') : Inv s' ∧ s'.sel = none ∧ s'.monitors = s.monitors := by
  have hfr := arrange_frame h
  unfold arrange at h
  simp only [Option.bind_eq_some] at h
  obtain ⟨r, h1, h2⟩ := h
  have hf1 := ringFor_frame _ _ (fun a acc s1 r hb => arrangeBody_frame hb) _ _ _ _ _ h1
  split at h2
  · exact Option.noConfusion h2
  · rename_i m hm
    simp only [Option.bind_eq_some] at h2
    obtain ⟨s2, hl, s3, hfo, hre⟩ := h2
    have hf2 : Frame r.2 s2 := by
      split at hl
      · exact layoutTile_frame hl
      · exact layoutFullscreen_frame hl
      · exact Option.noConfusion hl
    have hi2 : Inv0 s2 := hi.inv0_frame (hf1.trans hf2)
    obtain ⟨hi3, hs3⟩ := focus_none_inv hi2 hfo
    have hf3 := restack_frame hre
    exact ⟨hi3.inv_frame hf3, by rw [hf3.sel]; exact hs3, hfr.sel_monitors⟩

/-! ## The registry operations and the invariant -/

/-- Membership after `ws_attach(c, w)`: `c` is added to ring `w`. -/
theorem ws_attach_members {s s' : State} {c w : Nat} (hw : w < 10) (hc : c ≠ rootClient)
    (hi : RegInv s) (h : ws_attach c w s = some s') :
    RegInv s' ∧ ∀ a v, (isMember s' a v = true ↔ isMember s a v = true ∨ (v = w ∧ a = c)) := by
  obtain ⟨s2, h2, hi2⟩ := ws_attach_inv hw hc hi
  rw [h] at h2
  have e : s' = s2 := Option.some.inj h2
  refine ⟨by rw [e]; exact hi2, fun a v => ?_⟩
  by_cases hv : v = w
  · subst hv
    cases hm : isMember s c v with
    | true =>
      have e1 := ws_attach_member hw hm
      rw [h] at e1
      have e2 : s' = s := Option.some.inj e1
      rw [e2]
      constructor
      · exact fun h1 => Or.inl h1
      · rintro (h1 | ⟨_, rfl⟩)
        · exact h1
        · exact hm
    | false =>
      obtain ⟨l, hr, _⟩ := hi v hw
      obtain ⟨p, _, hp2, e1, _⟩ := ws_attach_ring hw hc hr hm
      rw [h] at e1
      have e2 : s' = s.attached c v p := Option.some.inj e1
      rw [e2, attached_isMember]
      simp only [if_true]
      have hpm : isMember s p v = true := by
        unfold isMember; rw [hp2]; rfl
      by_cases h1 : a = p
      · subst h1; simp [hpm]
      · by_cases h2 : a = c
        · subst h2; simp
        · simp [h1, h2]
  · have hs := (ws_attach_sameRing h hv).1
    have e1 : isMember s' a v = isMember s a v := by
      unfold isMember; rw [(hs a).1]
    rw [e1]
    constructor
    · exact fun h1 => Or.inl h1
    · rintro (h1 | ⟨h1, _⟩)
      · exact h1
      · exact absurd h1 hv

/-- Membership after `ws_detach(c, w)`: `c` is removed from ring `w`. -/
theorem ws_detach_members {s s' : State} {c w : Nat} (hw : w < 10) (hc : c ≠ rootClient)
    (hi : RegInv s) (h : ws_detach c w s = some s') :
    RegInv s' ∧ ∀ a v, (isMember s' a v = true ↔ isMember s a v = true ∧ ¬ (v = w ∧ a = c)) := by
  obtain ⟨s2, h2, hi2⟩ := ws_detach_inv hw hc hi
  rw [h] at h2
  have e : s' = s2 := Option.some.inj h2
  refine ⟨by rw [e]; exact hi2, fun a v => ?_⟩
  by_cases hv : v = w
  · subst hv
    cases hm : isMember s c v with
    | false =>
      have e1 := ws_detach_nonmember hw hm
      rw [h] at e1
      have e2 : s' = s := Option.some.inj e1
      rw [e2]
      constructor
      · intro h1
        refine ⟨h1, fun hx => ?_⟩
        rw [hx.2, hm] at h1
        exact Bool.noConfusion h1
      · exact fun h1 => h1.1
    | true =>
      obtain ⟨l, hr, _⟩ := hi v hw
      have hcl := (hr.mem_iff hc).mp hm
      obtain ⟨n, p, hn, hp, e1, _⟩ := ws_detach_ring hw hr hcl
      obtain ⟨_, _, p', _, _, _, _, _, _, hpc, _, _, _⟩ := hr.split hcl
      have hpp : p' = p := by
        have := hpc.2
        rw [hp] at this
        exact (Option.some.inj this).symm
      subst hpp
      have hpm : isMember s p' v = true := by
        unfold isMember; rw [hpc.1]; rfl
      rw [h] at e1
      have e2 : s' = s.detached c v n p' := Option.some.inj e1
      rw [e2]
      have e3 : isMember (s.detached c v n p') a v
          = if a = c then false else if a = p' then true else isMember s a v := by
        unfold isMember
        rw [State.detached, relink_next]
        simp only [if_true]
        split_ifs <;> rfl
      rw [e3]
      by_cases h1 : a = c
      · subst h1; simp
      · by_cases h2 : a = p'
        · subst h2; simp [h1, hpm]
        · simp [h1, h2]
  · have hs := (ws_detach_sameRing h hv).1
    have e1 : isMember s' a v = isMember s a v := by
      unfold isMember; rw [(hs a).1]
    rw [e1]
    constructor
    · exact fun h1 => ⟨h1, fun hx => hv hx.1⟩
    · exact fun h1 => h1.1

/-- A state that differs from a consistent state in the links only, with well
formed rings whose members were members before or have non-zero increments, is
consistent. -/
theorem Managed.of_relinked {s s' : State} (hm : Managed s) (hr : Relinked s s')
    (hreg : RegInv s')
    (hsub : ∀ a v, v < 10 → a ≠ rootClient → isMember s' a v = true →
      (∃ u, u < 10 ∧ isMember s a u = true) ∨
        ((s.mem a).c_incw ≠ 0 ∧ (s.mem a).c_inch ≠ 0)) : Managed s' := by
  obtain ⟨g1, g2, g3, g4, g5, g6⟩ := hm
  refine ⟨hreg, ?_, ?_, ?_, ?_, ?_⟩
  · rw [hr.relinked_selmonitor, hr.relinked_monitors]; exact g2
  · rw [hr.relinked_monitors]; exact g3
  · rw [hr.relinked_stack]; exact g4
  · intro a; rw [hr.relinked_c_monitor, hr.relinked_monitors]; exact g5 a
  · intro a v hv ha hmem
    rw [hr.relinked_incw, hr.relinked_inch]
    rcases hsub a v hv ha hmem with ⟨u, hu, h⟩ | h
    · exact g6 a u hu ha h
    · exact h

/-- Attaching a managed client to a workspace, or a client with non-zero
increments to ring 0, keeps the invariant. -/
theorem ws_attach_inv0 {s s' : State} {c w : Nat} (hw : w < 10) (hc : c ≠ rootClient)
    (hi : Inv0 s) (hcm : isMember s c 0 = true ∨
      (w = 0 ∧ (s.mem c).c_incw ≠ 0 ∧ (s.mem c).c_inch ≠ 0))
    (h : ws_attach c w s = some s') :
    Inv0 s' ∧ s'.sel = s.sel ∧ isMember s' c w = true ∧
      (∀ a v, isMember s a v = true → isMember s' a v = true) ∧
      (∀ a, a ≠ c → ∀ v, isMember s' a v = isMember s a v) ∧
      ∀ a, (s'.mem a).c_incw = (s.mem a).c_incw ∧ (s'.mem a).c_inch = (s.mem a).c_inch := by
  obtain ⟨hreg, hmem⟩ := ws_attach_members hw hc hi.1.1 h
  have hr := ws_attach_relinked h
  have hinc : (s.mem c).c_incw ≠ 0 ∧ (s.mem c).c_inch ≠ 0 := by
    rcases hcm with h1 | ⟨_, h1⟩
    · exact hi.1.2.2.2.2.2 c 0 (by decide) hc h1
    · exact h1
  refine ⟨⟨Managed.of_relinked hi.1 hr hreg (fun a v hv ha hm => ?_), fun a v hv ha hm => ?_⟩,
    hr.relinked_sel, (hmem c w).mpr (Or.inr ⟨rfl, rfl⟩), fun a v hm => (hmem a v).mpr (Or.inl hm),
    fun a ha v => ?_, fun a => ⟨hr.relinked_incw a, hr.relinked_inch a⟩⟩
  · rcases (hmem a v).mp hm with h1 | ⟨_, h1⟩
    · exact Or.inl ⟨v, hv, h1⟩
    · rw [h1]; exact Or.inr hinc
  · rcases (hmem a v).mp hm with h1 | ⟨h1, h2⟩
    · exact (hmem a 0).mpr (Or.inl (hi.2 a v hv ha h1))
    · subst h2
      rcases hcm with h3 | ⟨h3, _⟩
      · exact (hmem a 0).mpr (Or.inl h3)
      · rw [h1, h3] at hm; exact hm
  · cases hx : isMember s a v with
    | true => exact (hmem a v).mpr (Or.inl hx)
    | false =>
      cases hy : isMember s' a v with
      | false => rfl
      | true =>
        rcases (hmem a v).mp hy with h1 | ⟨_, h1⟩
        · rw [hx] at h1; exact Bool.noConfusion h1
        · exact absurd h1 ha

/-- Detaching a client from a workspace other than ring 0 keeps the
invariant. -/
theorem ws_detach_inv0 {s s' : State} {c w : Nat} (hw : w < 10) (hw0 : w ≠ 0)
    (hc : c ≠ rootClient) (hi : Inv0 s) (h : ws_detach c w s = some s') :
    Inv0 s' ∧ s'.sel = s.sel ∧ ∀ a, isMember s' a 0 = isMember s a 0 := by
  obtain ⟨hreg, hmem⟩ := ws_detach_members hw hc hi.1.1 h
  have hr := ws_detach_relinked h
  have h0 : ∀ a, isMember s' a 0 = isMember s a 0 := by
    intro a
    have := hmem a 0
    cases hx : isMember s a 0 with
    | true => exact this.mpr ⟨hx, fun hc' => hw0 hc'.1.symm⟩
    | false =>
      cases hy : isMember s' a 0 with
      | false => rfl
      | true => rw [hx] at this; exact Bool.noConfusion (this.mp hy).1
  refine ⟨⟨Managed.of_relinked hi.1 hr hreg (fun a v hv ha hm => ?_), fun a v hv ha hm => ?_⟩,
    hr.relinked_sel, h0⟩
  · exact Or.inl ⟨v, hv, ((hmem a v).mp hm).1⟩
  · rw [h0]
    exact hi.2 a v hv ha ((hmem a v).mp hm).1

theorem attachFrom_inv0 {c : Nat} (hc : c ≠ rootClient) :
    ∀ (k : Nat) {s s' : State}, k ≤ 10 → Inv0 s → isMember s c 0 = true →
      attachFrom c k s = some s' →
      Inv0 s' ∧ s'.sel = s.sel ∧ ∀ a, isMember s a 0 = true → isMember s' a 0 = true
  | 0, s, s', _, hi, _, h => by
    unfold attachFrom at h
    rw [← Option.some.inj h]
    exact ⟨hi, rfl, fun _ h => h⟩
  | k + 1, s, s', hk, hi, hm, h => by
    unfold attachFrom at h
    simp only [Option.bind_eq_some] at h
    obtain ⟨s1, h1, h2⟩ := h
    obtain ⟨hi1, hs1, _, hk1, _⟩ := ws_attach_inv0 (w := 10 - (k + 1)) (by omega) hc hi
      (Or.inl hm) h1
    obtain ⟨hi2, hs2, hk2⟩ := attachFrom_inv0 hc k (by omega) hi1 (hk1 c 0 hm) h2
    exact ⟨hi2, hs2.trans hs1, fun a ha => hk2 a (hk1 a 0 ha)⟩

theorem detachFrom_inv0 {c : Nat} (hc : c ≠ rootClient) :
    ∀ (k : Nat) {s s' : State}, k < 10 → Inv0 s → detachFrom c k s = some s' →
      Inv0 s' ∧ s'.sel = s.sel ∧ ∀ a, isMember s' a 0 = isMember s a 0
  | 0, s, s', _, hi, h => by
    unfold detachFrom at h
    rw [← Option.some.inj h]
    exact ⟨hi, rfl, fun _ => rfl⟩
  | k + 1, s, s', hk, hi, h => by
    unfold detachFrom at h
    simp only [Option.bind_eq_some] at h
    obtain ⟨s1, h1, h2⟩ := h
    obtain ⟨hi1, hs1, hk1⟩ := ws_detach_inv0 (w := 10 - (k + 1)) (by omega) (by omega) hc hi h1
    obtain ⟨hi2, hs2, hk2⟩ := detachFrom_inv0 hc k (by omega) hi1 h2
    exact ⟨hi2, hs2.trans hs1, fun a => (hk2 a).trans (hk1 a)⟩

theorem Inv.of_sel {s s' : State} (hi : Inv s) (hi0 : Inv0 s') (hsel : s'.sel = s.sel)
    (hmem : ∀ a, isMember s a 0 = true → isMember s' a 0 = true) : Inv s' :=
  ⟨hi0, fun a ha => ⟨(hi.2 a (by rw [← hsel]; exact ha)).1,
    hmem a (hi.2 a (by rw [← hsel]; exact ha)).2⟩⟩

/-- The four workspace commands keep the invariant. -/
theorem fn_workspace_inv {s s' : State} (arg : Int) (hi : Inv s) :
    (fn_addToWorkspace arg s = some s' → Inv s') ∧
    (fn_removeFromWorkspace arg s = some s' → Inv s') ∧
    (fn_addToAllWorkspaces arg s = some s' → Inv s') ∧
    (fn_removeFromAllWorkspaces arg s = some s' → Inv s') := by
  refine ⟨fun h => ?_, fun h => ?_, fun h => ?_, fun h => ?_⟩
  · unfold fn_addToWorkspace at h
    split_ifs at h with h1
    · rw [← Option.some.inj h]; exact hi
    · cases hs : s.sel with
      | none => rw [hs] at h; rw [← Option.some.inj h]; exact hi
      | some c =>
        rw [hs] at h
        obtain ⟨hc, hm⟩ := hi.2 c hs
        obtain ⟨hi1, hs1, _, hk1, _⟩ := ws_attach_inv0 (w := arg.toNat) (by omega) hc hi.1
          (Or.inl hm) h
        exact hi.of_sel hi1 hs1 (fun a ha => hk1 a 0 ha)
  · unfold fn_removeFromWorkspace at h
    split_ifs at h with h1
    · rw [← Option.some.inj h]; exact hi
    · cases hs : s.sel with
      | none => rw [hs] at h; rw [← Option.some.inj h]; exact hi
      | some c =>
        rw [hs] at h
        obtain ⟨hc, hm⟩ := hi.2 c hs
        obtain ⟨hi1, hs1, hk1⟩ := ws_detach_inv0 (w := arg.toNat) (by omega) (by omega) hc
          hi.1 h
        exact hi.of_sel hi1 hs1 (fun a ha => by rw [hk1]; exact ha)
  · unfold fn_addToAllWorkspaces at h
    cases hs : s.sel with
    | none => rw [hs] at h; rw [← Option.some.inj h]; exact hi
    | some c =>
      rw [hs] at h
      obtain ⟨hc, hm⟩ := hi.2 c hs
      obtain ⟨hi1, hs1, hk1⟩ := attachFrom_inv0 hc 9 (by decide) hi.1 hm h
      exact hi.of_sel hi1 hs1 hk1
  · unfold fn_removeFromAllWorkspaces at h
    cases hs : s.sel with
    | none => rw [hs] at h; rw [← Option.some.inj h]; exact hi
    | some c =>
      rw [hs] at h
      obtain ⟨hc, hm⟩ := hi.2 c hs
      obtain ⟨hi1, hs1, hk1⟩ := detachFrom_inv0 hc 9 (by decide) hi.1 h
      exact hi.of_sel hi1 hs1 (fun a ha => by rw [hk1]; exact ha)

/-! ## Managing and releasing windows -/

theorem getclientFrom_mem (s : State) (w : Nat) {c : Nat} :
    ∀ (l : List Nat) (a fuel : Nat),
      List.Chain' (linked s 0) (a :: l ++ [rootClient]) → rootClient ∉ l →
      getclientFrom s w fuel ((s.mem a).c_next 0) = some (some c) → c ∈ l
  | [], a, fuel, h, _, hg => by
    have h1 : (s.mem a).c_next 0 = some rootClient := by
      simpa [linked] using (List.chain'_cons.mp h).1.1
    rw [h1] at hg
    cases fuel with
    | zero => unfold getclientFrom at hg; exact Option.noConfusion hg
    | succ k =>
      unfold getclientFrom at hg
      simp at hg
  | b :: l, a, fuel, h, hr, hg => by
    have h0 := List.chain'_cons.mp h
    have h1 : (s.mem a).c_next 0 = some b := h0.1.1
    have hb : b ≠ rootClient := fun e => hr (by simp [e])
    rw [h1] at hg
    cases fuel with
    | zero => unfold getclientFrom at hg; exact Option.noConfusion hg
    | succ k =>
      unfold getclientFrom at hg
      simp only [hb, if_false] at hg
      split_ifs at hg
      · have e : b = c := Option.some.inj (Option.some.inj hg)
        rw [← e]; exact List.mem_cons_self _ _
      · exact List.mem_cons_of_mem _
          (getclientFrom_mem s w l b k h0.2 (fun e => hr (List.mem_cons_of_mem _ e)) hg)

/-- The client `getclient` finds is a member of ring 0. -/
theorem getclient_mem {fuel w : Nat} {s : State} {c : Nat} (hi : RegInv s)
    (h : getclient fuel w s = some (some c)) : c ≠ rootClient ∧ isMember s c 0 = true := by
  obtain ⟨l, hr, _⟩ := hi 0 (by decide)
  have hcl := getclientFrom_mem s w l rootClient fuel hr.2.2.1 hr.2.1 h
  have hc : c ≠ rootClient := fun e => hr.2.1 (e ▸ hcl)
  exact ⟨hc, (hr.mem_iff hc).mpr hcl⟩

/-- Whatever `manage` returns for a record that is not in use keeps the
invariant, with no client selected. -/
theorem manage_inv {fuel c w : Nat} {wa : XWindowAttributes} {hints : Option XSizeHints}
    {tr : Int} {s s' : State} (hi : Inv s) (hc : c ≠ rootClient)
    (hfree : isMember s c 0 = false) (h : manage fuel c w wa hints tr s = some s') :
    Inv s' ∧ s'.sel = none := by
  have hfresh : ∀ v, v < 10 → isMember s c v = false := by
    intro v hv
    cases hx : isMember s c v with
    | false => rfl
    | true =>
      have := hi.1.2 c v hv hc hx
      rw [hfree] at this
      exact Bool.noConfusion this
  have hlen : 0 < s.monitors.length := by have := hi.1.1.2.1; omega
  obtain ⟨s1, e1, h1, h2, h3, h4, _, h6, h7⟩ := manageInit_spec c w wa hints tr s hlen
  obtain ⟨hm1, hnm1, _⟩ := managed_of_init hi.1.1 hc hfresh h1 h2 h3 h4
  have hmem1 : ∀ a v, isMember s1 a v = true → isMember s a v = true ∧ a ≠ c := by
    intro a v hx
    by_cases hac : a = c
    · subst hac
      unfold isMember at hx
      rw [(h3 v).1] at hx
      exact Bool.noConfusion hx
    · unfold isMember at hx ⊢
      rw [h2 a hac] at hx
      exact ⟨hx, hac⟩
  have hmem1' : ∀ a v, a ≠ c → isMember s a v = true → isMember s1 a v = true := by
    intro a v hac hx
    unfold isMember at hx ⊢
    rw [h2 a hac]
    exact hx
  have hi1 : Inv0 s1 := ⟨hm1, fun a v hv ha hx => by
    obtain ⟨hx1, hac⟩ := hmem1 a v hx
    exact hmem1' a 0 hac (hi.1.2 a v hv ha hx1)⟩
  unfold manage at h
  rw [e1] at h
  simp only [Option.some_bind, Option.bind_eq_some] at h
  obtain ⟨s2, e2, h⟩ := h
  obtain ⟨hi2, _, hmem2, hk2, _, hinc2⟩ := ws_attach_inv0 (w := 0) (by decide) hc hi1
    (Or.inr ⟨rfl, by omega, by omega⟩) e2
  split at h
  · exact Option.noConfusion h
  · rename_i ms hms
    simp only [Option.bind_eq_some] at h
    obtain ⟨s3, e3, s4, e4, e5⟩ := h
    have hws : ms.m_workspace < 10 := (hi2.1.2.2.1 ms (mem_of_getElem? hms)).1
    obtain ⟨hi3, _, _, _, _, _⟩ := ws_attach_inv0 hws hc hi2 (Or.inl hmem2) e3
    have hi4 : Inv0 s4 := (hi3.inv0_frame (Frame.log s3 _)).inv0_frame (ban_frame e4)
    obtain ⟨hi5, hs5, _⟩ := arrange_inv (hi4.inv0_frame (Frame.log s4 _)) e5
    exact ⟨hi5, hs5⟩

/-- Membership after the loop of `ws_detachAll(c)` started at ring `10 - k`. -/
theorem detachFrom_members {c : Nat} (hc : c ≠ rootClient) :
    ∀ (k : Nat) {s s' : State}, k ≤ 10 → RegInv s → detachFrom c k s = some s' →
      RegInv s' ∧ Relinked s s' ∧
      ∀ a v, (isMember s' a v = true ↔
        isMember s a v = true ∧ ¬ (10 - k ≤ v ∧ v < 10 ∧ a = c))
  | 0, s, s', _, hi, h => by
    unfold detachFrom at h
    rw [← Option.some.inj h]
    refine ⟨hi, Relinked.relinked_refl s, fun a v => ⟨fun hx => ⟨hx, fun hy => ?_⟩, fun hx => hx.1⟩⟩
    omega
  | k + 1, s, s', hk, hi, h => by
    unfold detachFrom at h
    simp only [Option.bind_eq_some] at h
    obtain ⟨s1, h1, h2⟩ := h
    obtain ⟨hi1, hm1⟩ := ws_detach_members (w := 10 - (k + 1)) (by omega) hc hi h1
    obtain ⟨hi2, hr2, hm2⟩ := detachFrom_members hc k (by omega) hi1 h2
    refine ⟨hi2, (ws_detach_relinked h1).relinked_trans hr2, fun a v => ?_⟩
    rw [hm2, hm1]
    constructor
    · rintro ⟨⟨hx, hy⟩, hz⟩
      refine ⟨hx, fun hn => ?_⟩
      by_cases hv : v = 10 - (k + 1)
      · exact hy ⟨hv, hn.2.2⟩
      · exact hz ⟨by omega, hn.2.1, hn.2.2⟩
    · rintro ⟨hx, hy⟩
      refine ⟨⟨hx, fun hn => hy ⟨by omega, by omega, hn.2⟩⟩, fun hn => hy ⟨by omega, hn.2.1, hn.2.2⟩⟩

/-- Whatever `ws_detachAll(c)` returns keeps the invariant, apart from the
selection: `c` is a member of no ring and the other clients are members as
before. -/
theorem ws_detachAll_inv0 {c : Nat} {s s' : State} (hc : c ≠ rootClient) (hi : Inv0 s)
    (h : ws_detachAll c s = some s') :
    Inv0 s' ∧ s'.sel = s.sel ∧
      ∀ a, a ≠ c → isMember s a 0 = true → isMember s' a 0 = true := by
  unfold ws_detachAll at h
  obtain ⟨hreg, hr, hm⟩ := detachFrom_members hc 10 (le_refl _) hi.1.1 h
  refine ⟨⟨Managed.of_relinked hi.1 hr hreg (fun a v hv ha hx => ?_), fun a v hv ha hx => ?_⟩,
    hr.relinked_sel, fun a ha hx => ?_⟩
  · exact Or.inl ⟨v, hv, ((hm a v).mp hx).1⟩
  · obtain ⟨hx1, hx2⟩ := (hm a v).mp hx
    have hac : a ≠ c := fun e => hx2 ⟨by omega, hv, e⟩
    exact (hm a 0).mpr ⟨hi.2 a v hv ha hx1, fun hn => hac hn.2.2⟩
  · exact (hm a 0).mpr ⟨hx, fun hn => ha hn.2.2⟩

/-- Whatever `unmanage(c)` returns keeps the invariant, with no client
selected. -/
theorem unmanage_inv {fuel c : Nat} {s s' : State} (hi : Inv s) (hc : c ≠ rootClient)
    (h : unmanage fuel c s = some s') : Inv s' ∧ s'.sel = none := by
  unfold unmanage at h
  simp only [Option.bind_eq_some] at h
  obtain ⟨s1, h1, s2, h2, h3⟩ := h
  have hi0 : Inv (s.log [XReq.grabServer, XReq.setErrorHandler true,
      XReq.configureRaw (s.mem c).c_win]) := hi.inv_frame (Frame.log s _)
  obtain ⟨hi1, hs1, hk1⟩ := ws_detachAll_inv0 hc hi0.1 h1
  have hi2 : Inv s2 := by
    split_ifs at h2 with hsel
    · exact (focus_none_inv hi1 h2).1
    · rw [← Option.some.inj h2]
      refine ⟨hi1, fun a ha => ?_⟩
      rw [hs1] at ha
      obtain ⟨g1, g2⟩ := hi0.2 a ha
      have hac : a ≠ c := by
        intro e
        apply hsel
        rw [hs1, ha, e]
      exact ⟨g1, hk1 a hac g2⟩
  obtain ⟨hi3, hs3, _⟩ := arrange_inv (hi2.inv_frame (Frame.log s2 _)).1 h3
  exact ⟨hi3, hs3⟩

/-! ## The commands and the invariant -/

theorem sameReg_of_mem {s s' : State} (h1 : s'.mem = s.mem)
    (h2 : s'.w_numClients = s.w_numClients) (h3 : s'.stack = s.stack) : SameReg s s' :=
  ⟨fun a => by rw [h1]; exact ⟨rfl, rfl, rfl, rfl, fun h => h⟩, h2, h3⟩

theorem Inv.inv_setMonitor {s : State} (hi : Inv s) (i : Nat) (m : Monitor)
    (hw : m.m_workspace < 10) (hl : m.m_layout < 2) : Inv (s.setMonitor i m) := by
  refine hi.inv_keep (sameReg_of_mem rfl rfl rfl) ?_ ?_ ?_ (fun _ ha => Or.inl ha)
  · show (s.monitors.set i m).length = _
    rw [List.length_set]
  · intro m' hm'
    have hm2 : m' ∈ s.monitors.set i m := hm'
    rcases List.mem_or_eq_of_mem_set hm2 with h | h
    · exact hi.1.1.2.2.1 m' h
    · rw [h]; exact ⟨hw, hl⟩
  · show s.selmonitor < (s.monitors.set i m).length
    rw [List.length_set]; exact hi.1.1.2.1

theorem Inv.inv_fields {s : State} (hi : Inv s) (bh : Int) (bpos : Nat) (running : Bool) :
    Inv { s with bh := bh, bpos := bpos, running := running } :=
  hi.inv_keep_mon (sameReg_of_mem rfl rfl rfl) rfl rfl rfl

theorem Inv.inv_selmonitor {s : State} (hi : Inv s) {i : Nat} (h : i < s.monitors.length) :
    Inv { s with selmonitor := i } :=
  hi.inv_keep (sameReg_of_mem rfl rfl rfl) rfl hi.1.1.2.2.1 h (fun _ ha => Or.inl ha)

/-- Whatever `updatebarpos` returns keeps the invariant and the selection. -/
theorem updatebarpos_inv {i : Nat} {s s' : State} (hi : Inv s)
    (h : updatebarpos i s = some s') : Inv s' := by
  unfold updatebarpos at h
  split at h
  · exact Option.noConfusion h
  · rename_i m hm
    obtain ⟨hw, hl⟩ := hi.1.1.2.2.1 m (mem_of_getElem? hm)
    dsimp only at h
    rw [← Option.some.inj h]
    refine (hi.inv_setMonitor i _ ?_ ?_).inv_frame (Frame.log _ _)
    · split_ifs <;> exact hw
    · split_ifs <;> exact hl

/-- Changing the geometry, the workspace or the layout of a monitor, then
`arrange`, keeps the invariant. -/
theorem setMonitor_arrange_inv {fuel i : Nat} {s s' : State} {m : Monitor} (hi : Inv s)
    (h : arrange fuel (s.setMonitor i m) = some s')
    (hw : m.m_workspace < 10) (hl : m.m_layout < 2) : Inv s' :=
  (arrange_inv (hi.inv_setMonitor i m hw hl).1 h).1

/-- Changing the geometry of a monitor, then `updatebarpos` and `arrange`,
keeps the invariant. -/
theorem setMonitor_bar_inv {fuel i j : Nat} {s s1 s' : State} {m : Monitor} (hi : Inv s)
    (h1 : updatebarpos j (s.setMonitor i m) = some s1) (h2 : arrange fuel s1 = some s')
    (hw : m.m_workspace < 10) (hl : m.m_layout < 2) : Inv s' :=
  (arrange_inv (updatebarpos_inv (hi.inv_setMonitor i m hw hl) h1).1 h2).1

theorem fn_view_inv {fuel : Nat} {px py : Int} {s s' : State} (hi : Inv s) :
    (fn_viewNextWorkspace fuel px py s = some s' → Inv s') ∧
    (fn_viewPrevWorkspace fuel px py s = some s' → Inv s') ∧
    (∀ arg : Int, arg < 10 → fn_viewWorkspace fuel px py arg s = some s' → Inv s') := by
  refine ⟨fun h => ?_, fun h => ?_, fun arg harg h => ?_⟩
  · unfold fn_viewNextWorkspace at h
    simp only [Option.bind_eq_some] at h
    obtain ⟨i, _, h⟩ := h
    split at h
    · exact Option.noConfusion h
    · rename_i m hm
      exact setMonitor_arrange_inv hi h (Nat.mod_lt _ (by decide))
        (hi.1.1.2.2.1 m (mem_of_getElem? hm)).2
  · unfold fn_viewPrevWorkspace at h
    simp only [Option.bind_eq_some] at h
    obtain ⟨i, _, h⟩ := h
    split at h
    · exact Option.noConfusion h
    · rename_i m hm
      exact setMonitor_arrange_inv hi h (Nat.mod_lt _ (by decide))
        (hi.1.1.2.2.1 m (mem_of_getElem? hm)).2
  · unfold fn_viewWorkspace at h
    simp only [Option.bind_eq_some] at h
    obtain ⟨i, _, h⟩ := h
    split at h
    · exact Option.noConfusion h
    · rename_i m hm
      split_ifs at h
      exact setMonitor_arrange_inv hi h (by show arg.toNat < 10; omega)
        (hi.1.1.2.2.1 m (mem_of_getElem? hm)).2

theorem indexOf?_lt {α : Type} [BEq α] (l : List α) (a : α) {i : Nat}
    (h : l.indexOf? a = some i) : i < l.length := by
  unfold List.indexOf? at h
  exact (List.findIdx?_eq_some_iff_findIdx_eq.mp h).1

theorem fn_nextLayout_inv {fuel : Nat} {px py : Int} {arg : Option (List Char)} {s s' : State}
    (hi : Inv s) (h : fn_nextLayout fuel px py arg s = some s') : Inv s' := by
  unfold fn_nextLayout at h
  simp only [Option.bind_eq_some] at h
  obtain ⟨i, _, h⟩ := h
  split at h
  · exact Option.noConfusion h
  · rename_i m hm
    obtain ⟨hw, hl⟩ := hi.1.1.2.2.1 m (mem_of_getElem? hm)
    split at h
    · rw [← Option.some.inj h]; exact hi
    · rename_i l hl'
      simp only [Option.map_eq_some'] at h
      obtain ⟨s1, h1, rfl⟩ := h
      have hl2 : l < 2 := by
        cases arg with
        | none =>
          dsimp only at hl'
          have e := Option.some.inj hl'
          rw [← e]
          split_ifs
          · decide
          · have : layoutSymbols.length = 2 := rfl
            omega
        | some str =>
          dsimp only at hl'
          exact indexOf?_lt _ _ hl'
      exact (setMonitor_arrange_inv hi h1 hw hl2).inv_frame (drawbar_frame _)

theorem fn_toggleBar_inv {fuel : Nat} {px py : Int} {s s' : State} (hi : Inv s)
    (h : fn_toggleBar fuel px py s = some s') : Inv s' := by
  unfold fn_toggleBar at h
  simp only [Option.bind_eq_some] at h
  obtain ⟨i, _, s1, h1, h2⟩ := h
  have hi0 : Inv { s with bpos := if s.bpos = BarOff then
      (if BARPOS = BarOff then BarTop else BARPOS) else BarOff } :=
    hi.inv_keep_mon (sameReg_of_mem rfl rfl rfl) rfl rfl rfl
  exact (arrange_inv (updatebarpos_inv hi0 h1).1 h2).1

theorem fn_adjustMonitor_inv {fuel : Nat} {px py : Int} {arg : Option (List Char)}
    {s s' : State} (hi : Inv s) :
    (fn_adjustMonitorWidth fuel px py arg s = some s' → Inv s') ∧
    (fn_adjustMonitorHeight fuel px py arg s = some s' → Inv s') := by
  refine ⟨fun h => ?_, fun h => ?_⟩
  · unfold fn_adjustMonitorWidth at h
    simp only [Option.bind_eq_some] at h
    obtain ⟨i, _, h⟩ := h
    split at h
    · exact Option.noConfusion h
    · rename_i m hm
      obtain ⟨hw, hl⟩ := hi.1.1.2.2.1 m (mem_of_getElem? hm)
      simp only [Option.bind_eq_some] at h
      obtain ⟨s1, h1, h2⟩ := h
      exact setMonitor_bar_inv hi h1 h2 hw hl
  · unfold fn_adjustMonitorHeight at h
    simp only [Option.bind_eq_some] at h
    obtain ⟨i, _, h⟩ := h
    split at h
    · exact Option.noConfusion h
    · rename_i m hm
      obtain ⟨hw, hl⟩ := hi.1.1.2.2.1 m (mem_of_getElem? hm)
      simp only [Option.bind_eq_some] at h
      obtain ⟨s1, h1, h2⟩ := h
      exact setMonitor_bar_inv hi h1 h2 hw hl

/-- In a well-formed ring the client a `c_next` link points to, unless it is
the sentinel, is a member. -/
theorem IsRing.next_mem {s : State} {w : Nat} {l : List Nat} (h : IsRing s w l) {y x : Nat}
    (hn : (s.mem y).c_next w = some x) (hx : x ≠ rootClient) : x ∈ l := by
  by_cases hy : y = rootClient
  · subst hy
    have hc := h.2.2.1
    cases l with
    | nil =>
      have := (List.chain'_cons.mp hc).1.1
      rw [hn] at this
      exact absurd (Option.some.inj this) hx
    | cons b l =>
      have := (List.chain'_cons.mp hc).1.1
      rw [hn] at this
      rw [Option.some.inj this]
      exact List.mem_cons_self _ _
  · by_cases hyl : y ∈ l
    · obtain ⟨l1, l2, _, n, hl, _, _, _, hhead, _, hcn, _, _⟩ := h.split hyl
      have e : x = n := by
        have := hcn.1
        rw [hn] at this
        exact Option.some.inj this
      subst e
      cases l2 with
      | nil =>
        simp at hhead
        exact absurd hhead.symm hx
      | cons b l2 =>
        simp at hhead
        rw [hl, ← hhead]
        simp
    · rw [(h.2.2.2 y hy hyl).1] at hn
      exact Option.noConfusion hn

theorem focusNextSkip_cases (s : State) (w : Nat) :
    ∀ (fuel : Nat) (c0 c : Option Nat), focusNextSkip s w fuel c0 = some c →
      c ≠ some rootClient ∧ (c = c0 ∨ c = (s.mem rootClient).c_next w)
  | 0, _, _, h => by unfold focusNextSkip at h; exact Option.noConfusion h
  | fuel + 1, c0, c, h => by
    unfold focusNextSkip at h
    split_ifs at h with h1
    · obtain ⟨g1, g2⟩ := focusNextSkip_cases s w fuel _ c h
      refine ⟨g1, Or.inr ?_⟩
      rcases g2 with g2 | g2
      · exact g2
      · exact g2
    · have e : c0 = c := Option.some.inj h
      rw [← e]
      exact ⟨h1, Or.inl rfl⟩

theorem fn_focusNext_inv {fuel : Nat} {s s' : State} (hi : Inv s)
    (h : fn_focusNext fuel s = some s') : Inv s' := by
  unfold fn_focusNext at h
  split at h
  · exact Option.noConfusion h
  · rename_i m hm
    dsimp only at h
    split_ifs at h with hws hcnt
    · simp only [Option.bind_eq_some] at h
      obtain ⟨c, hc, s1, h1, h2⟩ := h
      obtain ⟨g1, g2⟩ := focusNextSkip_cases s _ fuel _ c hc
      have hw : m.m_workspace < 10 := by omega
      obtain ⟨l, hr, _⟩ := hi.1.1.1 m.m_workspace hw
      cases c with
      | none => exact (focus_none_inv hi.1 h1).1.inv_frame (restack_frame h2)
      | some x =>
        have hx : x ≠ rootClient := fun e => g1 (by rw [e])
        have hxl : x ∈ l := by
          rcases g2 with g2 | g2
          · cases hs : s.sel with
            | none =>
              rw [hs] at g2
              exact absurd (Option.some.inj g2) hx
            | some a =>
              rw [hs] at g2
              exact hr.next_mem g2.symm hx
          · exact hr.next_mem g2.symm hx
        have hm0 := hi.1.2 x _ hw hx ((hr.mem_iff hx).mpr hxl)
        exact (focus_some_inv hi.1 hx hm0 h1).inv_frame (restack_frame h2)
    · simp only [Option.some_bind, Option.bind_eq_some] at h
      obtain ⟨s1, h1, h2⟩ := h
      exact (focus_none_inv hi.1 h1).1.inv_frame (restack_frame h2)

theorem keys_grab_frame (d : Display) (s : State) : KeysFrame s (keys_grab d s) := by
  unfold keys_grab
  split_ifs
  · rw [keys_grabPrimary_spec]
    rfl
  · exact keys_grabSecondary_frame d s

theorem fn_keys_inv (d : Display) {s : State} (hi : Inv s) :
    Inv (fn_primaryKeys d s) ∧ Inv (fn_secondaryKeys d s) := by
  constructor
  · unfold fn_primaryKeys
    exact (hi.inv_keys (show KeysFrame s { s with KeysMode := KEYS_MODE_PRIMARY } from rfl)).inv_keys
      (keys_grab_frame d _)
  · unfold fn_secondaryKeys
    exact (hi.inv_keys (show KeysFrame s { s with KeysMode := KEYS_MODE_SECONDARY }
      from rfl)).inv_keys (keys_grab_frame d _)

/-- Every function bound to a key keeps the invariant, provided the missing
`fn_setmwfact` does and the argument of `fn_viewWorkspace` is a workspace
index. -/
theorem callFn_inv {fuel : Nat} {cfg : Config} {d : Display} {px py : Int} {k : Key}
    {s s' : State}
    (hcfg : ∀ arg t t', Inv t → cfg.fn_setmwfact arg t = some t' → Inv t')
    (hk : goodKey k = true) (hi : Inv s)
    (h : callFn fuel cfg d px py k.func k.arg s = some s') : Inv s' := by
  unfold callFn at h
  split at h
  · rw [← Option.some.inj h]; exact hi
  · rw [← Option.some.inj h]; exact (fn_keys_inv d hi).2
  · rw [← Option.some.inj h]; exact (fn_keys_inv d hi).1
  · exact (fn_view_inv hi).2.1 h
  · exact (fn_view_inv hi).1 h
  · rename_i hf
    simp only [Option.bind_eq_some] at h
    obtain ⟨v, hv, h⟩ := h
    unfold goodKey at hk
    rw [if_pos hf] at hk
    cases ha : k.arg with
    | ptr u =>
      rw [ha] at hk hv
      simp only [decide_eq_true_eq] at hk
      have e : u = v := Option.some.inj hv
      exact (fn_view_inv hi).2.2 v (by omega) h
    | str t =>
      rw [ha] at hk
      exact Bool.noConfusion hk
  · exact fn_focusNext_inv hi h
  · simp only [Option.bind_eq_some] at h
    obtain ⟨a, _, h⟩ := h
    exact fn_nextLayout_inv hi h
  · simp only [Option.bind_eq_some] at h
    obtain ⟨v, _, h⟩ := h
    exact (fn_workspace_inv v hi).2.2.1 h
  · simp only [Option.bind_eq_some] at h
    obtain ⟨v, _, h⟩ := h
    exact (fn_workspace_inv v hi).1 h
  · simp only [Option.bind_eq_some] at h
    obtain ⟨v, _, h⟩ := h
    exact (fn_workspace_inv v hi).2.2.2 h
  · simp only [Option.bind_eq_some] at h
    obtain ⟨v, _, h⟩ := h
    exact (fn_workspace_inv v hi).2.1 h
  · exact fn_toggleBar_inv hi h
  · exact hcfg _ _ _ hi h
  · rw [← Option.some.inj h]
    unfold fn_killWindow
    split
    · exact hi
    · exact hi.inv_frame (Frame.log _ _)
  · rw [← Option.some.inj h]
    exact hi.inv_keep_mon (sameReg_of_mem rfl rfl rfl) rfl rfl rfl
  · simp only [Option.bind_eq_some] at h
    obtain ⟨a, _, h⟩ := h
    exact fn_adjustMonitor_inv hi |>.1 h
  · simp only [Option.bind_eq_some] at h
    obtain ⟨a, _, h⟩ := h
    exact fn_adjustMonitor_inv hi |>.2 h

theorem keysPressLoop_inv {fuel : Nat} {cfg : Config} {d : Display} {px py : Int}
    {keysym state : Nat}
    (hcfg : ∀ arg t t', Inv t → cfg.fn_setmwfact arg t = some t' → Inv t') :
    ∀ (ks : List Key) {s s' : State}, (∀ k ∈ ks, goodKey k = true) → Inv s →
      keysPressLoop fuel cfg d px py keysym state ks s = some s' → Inv s'
  | [], s, s', _, hi, h => by
    simp only [keysPressLoop] at h
    rw [← Option.some.inj h]; exact hi
  | k :: ks, s, s', hk, hi, h => by
    simp only [keysPressLoop] at h
    split_ifs at h
    · simp only [Option.bind_eq_some] at h
      obtain ⟨s1, h1, h2⟩ := h
      exact keysPressLoop_inv hcfg ks (fun k' hk' => hk k' (List.mem_cons_of_mem _ hk'))
        (callFn_inv hcfg (hk k (List.mem_cons_self _ _)) hi h1) h2
    · exact keysPressLoop_inv hcfg ks (fun k' hk' => hk k' (List.mem_cons_of_mem _ hk')) hi h

theorem keys_press_inv {fuel : Nat} {cfg : Config} {d : Display} {px py : Int}
    {keycode state : Nat} {s s' : State}
    (hcfg : ∀ arg t t', Inv t → cfg.fn_setmwfact arg t = some t' → Inv t') (hi : Inv s)
    (h : keys_press fuel cfg d px py keycode state s = some s') : Inv s' := by
  unfold keys_press at h
  split_ifs at h
  · exact keysPressLoop_inv hcfg KeysPrimary (by decide) hi h
  · exact keysPressLoop_inv hcfg KeysSecondary (by decide) hi h

/-! ## The event handlers and the invariant -/

theorem Inv.inv_setClient {s : State} (hi : Inv s) (a : Nat) (cl : Client)
    (h1 : cl.c_next = (s.mem a).c_next) (h2 : cl.c_prev = (s.mem a).c_prev)
    (h3 : cl.c_monitor = (s.mem a).c_monitor) (h4 : cl.snext = (s.mem a).snext)
    (h5 : ((s.mem a).c_incw ≠ 0 ∧ (s.mem a).c_inch ≠ 0) → (cl.c_incw ≠ 0 ∧ cl.c_inch ≠ 0)) :
    Inv (s.setClient a cl) :=
  hi.inv_keep_mon (SameReg.reg_setClient s a cl h1 h2 h3 h4 h5) rfl rfl rfl

theorem inv_of_ite {b : Prop} [Decidable b] {x y : Option State} {s' : State}
    (h : (if b then x else y) = some s') (hx : x = some s' → Inv s')
    (hy : y = some s' → Inv s') : Inv s' := by
  split_ifs at h
  · exact hx h
  · exact hy h

theorem inv_ite (b : Prop) [Decidable b] {x y : State} (hx : Inv x) (hy : Inv y) :
    Inv (if b then x else y) := by
  split_ifs
  · exact hx
  · exact hy

theorem configureClient_inv {c : Nat} {ev : ConfigureRequestEvent} {s s' : State} (hi : Inv s)
    (h : configureClient c ev s = some s') : Inv s' := by
  have key : ∀ border x y w h : Int,
      Inv (s.setClient c { s.mem c with c_border := border, x := x, y := y, w := w, h := h }) :=
    fun _ _ _ _ _ => hi.inv_setClient c _ rfl rfl rfl rfl (fun h => h)
  have key2 : ∀ border : Int, Inv (s.setClient c { s.mem c with c_border := border }) :=
    fun _ => hi.inv_setClient c _ rfl rfl rfl rfl (fun h => h)
  unfold configureClient at h
  dsimp only at h
  split at h
  · exact Option.noConfusion h
  · by_cases hfix : ((s.mem c).c_isfixed || (s.mem c).c_isfloating) = true
    · rw [if_pos hfix] at h
      simp only [Option.bind_eq_some, Option.map_eq_some'] at h
      obtain ⟨i, _, v, _, rfl⟩ := h
      refine inv_ite _ (Inv.inv_frame ?_ (Frame.log _ _)) ?_
      · refine inv_ite _ ?_ (key _ _ _ _ _)
        exact (key _ _ _ _ _).inv_frame (Frame.log _ _)
      · refine inv_ite _ ?_ (key _ _ _ _ _)
        exact (key _ _ _ _ _).inv_frame (Frame.log _ _)
    · rw [if_neg hfix] at h
      rw [← Option.some.inj h]
      exact (key2 _).inv_frame (Frame.log _ _)

theorem configurerequest_inv {fuel : Nat} {ev : ConfigureRequestEvent} {s s' : State}
    (hi : Inv s) (h : configurerequest fuel ev s = some s') : Inv s' := by
  unfold configurerequest at h
  simp only [Option.bind_eq_some, Option.map_eq_some'] at h
  obtain ⟨r, _, s1, h1, rfl⟩ := h
  refine Inv.inv_frame ?_ (Frame.log _ _)
  cases r with
  | none =>
    dsimp only at h1
    rw [← Option.some.inj h1]
    exact hi.inv_frame (Frame.log _ _)
  | some c => exact configureClient_inv hi h1

theorem configurenotify_inv {fuel window : Nat} {width height : Int} {s s' : State}
    (hi : Inv s) (h : configurenotify fuel window width height s = some s') : Inv s' := by
  unfold configurenotify at h
  split at h
  · exact Option.noConfusion h
  · rename_i m hm
    obtain ⟨hw, hl⟩ := hi.1.1.2.2.1 m (mem_of_getElem? hm)
    split_ifs at h
    · simp only [Option.bind_eq_some] at h
      obtain ⟨s1, h1, h2⟩ := h
      have hi1 : Inv ((s.setMonitor s.selmonitor
          { m with m_width := width, m_height := height }).log
            [XReq.resizeBar m.m_barwin width (i32 s.bh)]) :=
        (hi.inv_setMonitor s.selmonitor { m with m_width := width, m_height := height }
          hw hl).inv_frame (Frame.log _ _)
      exact (arrange_inv (updatebarpos_inv hi1 h1).1 h2).1
    · rw [← Option.some.inj h]; exact hi

theorem enternotify_inv {fuel : Nat} {d : Display} {mode detail window : Nat} {px py : Int}
    {s s' : State} (hi : Inv s)
    (h : enternotify fuel d mode detail window px py s = some s') : Inv s' := by
  unfold enternotify at h
  simp only [Option.bind_eq_some] at h
  obtain ⟨b, _, h⟩ := h
  split_ifs at h
  · rw [← Option.some.inj h]; exact hi
  · simp only [Option.bind_eq_some] at h
    obtain ⟨r, hr, h⟩ := h
    cases r with
    | some c =>
      obtain ⟨hc, hm⟩ := getclient_mem hi.1.1.1 hr
      exact focus_some_inv hi.1 hc hm h
    | none =>
      simp only [Option.bind_eq_some] at h
      obtain ⟨i, hi', h⟩ := h
      exact (focus_none_inv (hi.inv_selmonitor (monitorat_bound hi')).1 h).1

theorem expose_inv {count : Int} {window : Nat} {s s' : State} (hi : Inv s)
    (h : expose count window s = some s') : Inv s' := by
  unfold expose at h
  split_ifs at h
  · split at h
    · exact Option.noConfusion h
    · split_ifs at h
      · rw [← Option.some.inj h]; exact hi.inv_frame (drawbar_frame s)
      · rw [← Option.some.inj h]; exact hi
  · rw [← Option.some.inj h]; exact hi

theorem focusin_inv (window : Nat) {s : State} (hi : Inv s) : Inv (focusin window s) := by
  unfold focusin
  split
  · exact hi
  · split_ifs
    · exact hi.inv_frame (Frame.log _ _)
    · exact hi

theorem mappingnotify_inv (d : Display) (request : Nat) {s : State} (hi : Inv s) :
    Inv (mappingnotify d request s) := by
  unfold mappingnotify
  split_ifs
  · exact hi.inv_keys (keys_grab_frame d s)
  · exact hi

theorem updatesizehints_inv (c : Nat) (r : Option XSizeHints) {s : State} (hi : Inv s) :
    Inv (updatesizehints c r s) := by
  obtain ⟨u1, u2, _⟩ := updatesizehints_same c r s
  have e : updatesizehints c r s = s.setClient c ((updatesizehints c r s).mem c) := by
    unfold updatesizehints
    rw [setClient_mem_same]
  have hl : ((updatesizehints c r s).mem c).c_next = (s.mem c).c_next ∧
      ((updatesizehints c r s).mem c).c_prev = (s.mem c).c_prev ∧
      ((updatesizehints c r s).mem c).c_monitor = (s.mem c).c_monitor ∧
      ((updatesizehints c r s).mem c).snext = (s.mem c).snext := by
    unfold updatesizehints
    rw [setClient_mem_same]
    exact ⟨rfl, rfl, rfl, rfl⟩
  rw [e]
  exact hi.inv_setClient c _ hl.1 hl.2.1 hl.2.2.1 hl.2.2.2 (fun _ => ⟨by omega, by omega⟩)

theorem propertynotify_inv {fuel : Nat} {d : Display} {ev : PropertyEvent} {s s' : State}
    (hi : Inv s) (h : propertynotify fuel d ev s = some s') : Inv s' := by
  unfold propertynotify at h
  by_cases hd : ev.state = PropertyDelete
  · rw [if_pos hd] at h
    rw [← Option.some.inj h]; exact hi
  · rw [if_neg hd] at h
    simp only [Option.bind_eq_some] at h
    obtain ⟨r, _, h⟩ := h
    cases r with
    | none => rw [← Option.some.inj h]; exact hi
    | some c =>
      dsimp only at h
      simp only [Option.map_eq_some'] at h
      obtain ⟨s1, h1, rfl⟩ := h
      have hi1 : Inv s1 := by
        split_ifs at h1
        · simp only [Option.bind_eq_some] at h1
          obtain ⟨t, _, h1⟩ := h1
          have hi0 : Inv (s.setClient c { s.mem c with c_isfloating := t.isSome }) :=
            hi.inv_setClient c _ rfl rfl rfl rfl (fun h => h)
          split_ifs at h1
          · exact (arrange_inv hi0.1 h1).1
          · rw [← Option.some.inj h1]; exact hi0
        · rw [← Option.some.inj h1]; exact hi
        · rw [← Option.some.inj h1]; exact updatesizehints_inv c _ hi
        · rw [← Option.some.inj h1]
          refine Inv.inv_frame ?_ (drawbar_frame _)
          unfold updatewmhints
          split
          · exact hi
          · exact hi.inv_setClient c _ rfl rfl rfl rfl (fun h => h)
        · rw [← Option.some.inj h1]; exact hi
      exact inv_ite _ (inv_ite _ (hi1.inv_frame (drawbar_frame _)) hi1) hi1

theorem maprequest_inv {fuel : Nat} {ev : MapRequestEvent} {s s' : State} (hi : Inv s)
    (h : maprequest fuel ev s = some s') : Inv s' := by
  unfold maprequest at h
  split at h
  · rw [← Option.some.inj h]; exact hi
  · by_cases ho : ev.override_redirect = true
    · rw [if_pos ho] at h
      rw [← Option.some.inj h]; exact hi
    · rw [if_neg ho] at h
      simp only [Option.bind_eq_some] at h
      obtain ⟨r, _, h⟩ := h
      cases r with
      | some _ => rw [← Option.some.inj h]; exact hi
      | none =>
        dsimp only at h
        by_cases hc : ev.c = rootClient ∨ isMember s ev.c 0 = true
        · rw [if_pos hc] at h
          exact Option.noConfusion h
        · rw [if_neg hc] at h
          rw [not_or] at hc
          exact (manage_inv hi hc.1 (by
            cases hx : isMember s ev.c 0 with
            | false => rfl
            | true => exact absurd hx hc.2) h).1

theorem unmapnotify_inv {fuel window : Nat} {s s' : State} (hi : Inv s)
    (h : unmapnotify fuel window s = some s') : Inv s' := by
  unfold unmapnotify at h
  simp only [Option.bind_eq_some] at h
  obtain ⟨r, hr, h⟩ := h
  cases r with
  | none => rw [← Option.some.inj h]; exact hi
  | some c => exact (unmanage_inv hi (getclient_mem hi.1.1.1 hr).1 h).1

theorem togglefloating_inv {fuel : Nat} {s s' : State} (hi : Inv s)
    (h : togglefloating fuel s = some s') : Inv s' := by
  unfold togglefloating at h
  split at h
  · rw [← Option.some.inj h]; exact hi
  · rename_i a ha
    simp only [Option.bind_eq_some] at h
    obtain ⟨s1, h1, h2⟩ := h
    have hi0 : Inv (s.setClient a { s.mem a with c_isfloating := !(s.mem a).c_isfloating }) :=
      hi.inv_setClient a _ rfl rfl rfl rfl (fun h => h)
    have hi1 : Inv s1 := by
      split_ifs at h1
      · exact hi0.inv_frame (resize_frame h1)
      · rw [← Option.some.inj h1]; exact hi0
    exact (arrange_inv hi1.1 h2).1

theorem movemouseMotion_inv {fuel c : Nat} {ocx ocy x1 y1 ex ey px py : Int} {s s' : State}
    (hi : Inv s) (h : movemouseMotion fuel c ocx ocy x1 y1 ex ey px py s = some s') :
    Inv s' := by
  unfold movemouseMotion at h
  simp only [Option.bind_eq_some] at h
  obtain ⟨i, _, h⟩ := h
  split at h
  · exact Option.noConfusion h
  · simp only [Option.bind_eq_some] at h
    obtain ⟨s1, h1, h2⟩ := h
    have hi1 : Inv s1 := inv_of_ite h1 (fun e => togglefloating_inv hi e)
      (fun e => by rw [← Option.some.inj e]; exact hi)
    exact inv_of_ite h2 (fun e => hi1.inv_frame (resize_frame e))
      (fun e => by rw [← Option.some.inj e]; exact hi1)

theorem resizemouseMotion_inv {fuel c : Nat} {ocx ocy ex ey : Int} {s s' : State}
    (hi : Inv s) (h : resizemouseMotion fuel c ocx ocy ex ey s = some s') : Inv s' := by
  unfold resizemouseMotion at h
  simp only [Option.bind_eq_some] at h
  obtain ⟨s1, h1, h2⟩ := h
  have hi1 : Inv s1 := inv_of_ite h1 (fun e => togglefloating_inv hi e)
    (fun e => by rw [← Option.some.inj e]; exact hi)
  exact inv_of_ite h2 (fun e => hi1.inv_frame (resize_frame e))
    (fun e => by rw [← Option.some.inj e]; exact hi1)

theorem movemouseLoop_inv {fuel c : Nat} {ocx ocy x1 y1 : Int} :
    ∀ (evs : List DragEvent) {s s' : State}, Inv s →
      movemouseLoop fuel c ocx ocy x1 y1 evs s = some s' → Inv s'
  | [], _, _, _, h => by
    simp only [movemouseLoop] at h
    exact Option.noConfusion h
  | DragEvent.buttonRelease :: _, s, s', hi, h => by
    simp only [movemouseLoop] at h
    rw [← Option.some.inj h]; exact hi.inv_frame (Frame.log _ _)
  | DragEvent.configureRequest e :: evs, s, s', hi, h => by
    simp only [movemouseLoop, Option.bind_eq_some] at h
    obtain ⟨s1, h1, h2⟩ := h
    exact movemouseLoop_inv evs (configurerequest_inv hi h1) h2
  | DragEvent.expose count window :: evs, s, s', hi, h => by
    simp only [movemouseLoop, Option.bind_eq_some] at h
    obtain ⟨s1, h1, h2⟩ := h
    exact movemouseLoop_inv evs (expose_inv hi h1) h2
  | DragEvent.mapRequest e :: evs, s, s', hi, h => by
    simp only [movemouseLoop, Option.bind_eq_some] at h
    obtain ⟨s1, h1, h2⟩ := h
    exact movemouseLoop_inv evs (maprequest_inv hi h1) h2
  | DragEvent.motion x y px py :: evs, s, s', hi, h => by
    simp only [movemouseLoop, Option.bind_eq_some] at h
    obtain ⟨s1, h1, h2⟩ := h
    exact movemouseLoop_inv evs (movemouseMotion_inv (hi.inv_frame (Frame.log _ _)) h1) h2

theorem resizemouseLoop_inv {fuel c : Nat} {ocx ocy : Int} :
    ∀ (evs : List DragEvent) {s s' : State}, Inv s →
      resizemouseLoop fuel c ocx ocy evs s = some s' → Inv s'
  | [], _, _, _, h => by
    simp only [resizemouseLoop] at h
    exact Option.noConfusion h
  | DragEvent.buttonRelease :: _, s, s', hi, h => by
    simp only [resizemouseLoop] at h
    rw [← Option.some.inj h]; exact hi.inv_frame (Frame.log _ _)
  | DragEvent.configureRequest e :: evs, s, s', hi, h => by
    simp only [resizemouseLoop, Option.bind_eq_some] at h
    obtain ⟨s1, h1, h2⟩ := h
    exact resizemouseLoop_inv evs (configurerequest_inv hi h1) h2
  | DragEvent.expose count window :: evs, s, s', hi, h => by
    simp only [resizemouseLoop, Option.bind_eq_some] at h
    obtain ⟨s1, h1, h2⟩ := h
    exact resizemouseLoop_inv evs (expose_inv hi h1) h2
  | DragEvent.mapRequest e :: evs, s, s', hi, h => by
    simp only [resizemouseLoop, Option.bind_eq_some] at h
    obtain ⟨s1, h1, h2⟩ := h
    exact resizemouseLoop_inv evs (maprequest_inv hi h1) h2
  | DragEvent.motion x y px py :: evs, s, s', hi, h => by
    simp only [resizemouseLoop, Option.bind_eq_some] at h
    obtain ⟨s1, h1, h2⟩ := h
    exact resizemouseLoop_inv evs (resizemouseMotion_inv (hi.inv_frame (Frame.log _ _)) h1) h2

theorem movemouse_inv {fuel c : Nat} {grab : Bool} {x1 y1 : Int} {evs : List DragEvent}
    {s s' : State} (hi : Inv s) (h : movemouse fuel c grab x1 y1 evs s = some s') : Inv s' := by
  unfold movemouse at h
  split at h
  · exact Option.noConfusion h
  · split_ifs at h
    · rw [← Option.some.inj h]; exact hi
    · exact movemouseLoop_inv evs (hi.inv_frame (Frame.log _ _)) h

theorem resizemouse_inv {fuel c : Nat} {grab : Bool} {evs : List DragEvent}
    {s s' : State} (hi : Inv s) (h : resizemouse fuel c grab evs s = some s') : Inv s' := by
  unfold resizemouse at h
  split at h
  · exact Option.noConfusion h
  · split_ifs at h
    · rw [← Option.some.inj h]; exact hi
    · exact resizemouseLoop_inv evs (hi.inv_frame (Frame.log _ _)) h

theorem buttonpress_inv {fuel : Nat} {d : Display} {ev : ButtonEvent} {s s' : State}
    (hi : Inv s) (h : buttonpress fuel d ev s = some s') : Inv s' := by
  unfold buttonpress at h
  simp only [Option.bind_eq_some] at h
  obtain ⟨i, _, h⟩ := h
  split at h
  · exact Option.noConfusion h
  · refine inv_of_ite h (fun e => ?_) (fun e => ?_)
    · split at e
      · rename_i t _
        refine (fn_view_inv hi).2.2 _ ?_ e
        have : (t + 1) % 10 < 10 := Nat.mod_lt _ (by decide)
        exact_mod_cast this
      · exact inv_of_ite e (fun e1 => fn_nextLayout_inv hi e1)
          (fun e1 => by rw [← Option.some.inj e1]; exact hi)
    · simp only [Option.bind_eq_some] at e
      obtain ⟨r, hr, e⟩ := e
      cases r with
      | none => rw [← Option.some.inj e]; exact hi
      | some c =>
        simp only [Option.bind_eq_some] at e
        obtain ⟨s1, h1, h2⟩ := e
        obtain ⟨hc, hm⟩ := getclient_mem hi.1.1.1 hr
        have hi1 := focus_some_inv hi.1 hc hm h1
        refine inv_of_ite h2 (fun e1 => by rw [← Option.some.inj e1]; exact hi1) (fun e1 => ?_)
        refine inv_of_ite e1 (fun e2 => ?_) (fun e2 => ?_)
        · simp only [Option.bind_eq_some] at e2
          obtain ⟨s2, h3, h4⟩ := e2
          exact movemouse_inv (hi1.inv_frame (restack_frame h3)) h4
        · refine inv_of_ite e2 (fun e3 => ?_) (fun e3 => by rw [← Option.some.inj e3]; exact hi1)
          simp only [Option.bind_eq_some] at e3
          obtain ⟨s2, h3, h4⟩ := e3
          exact resizemouse_inv (hi1.inv_frame (restack_frame h3)) h4

/-- Every event handler keeps the invariant, provided the missing
`fn_setmwfact` does. -/
theorem handle_inv {fuel : Nat} {cfg : Config} {d : Display} {ev : XEvent} {s s' : State}
    (hcfg : ∀ arg t t', Inv t → cfg.fn_setmwfact arg t = some t' → Inv t') (hi : Inv s)
    (h : handle fuel cfg d ev s = some s') : Inv s' := by
  unfold handle at h
  split at h
  · exact buttonpress_inv hi h
  · exact configurerequest_inv hi h
  · exact configurenotify_inv hi h
  · exact enternotify_inv hi h
  · exact expose_inv hi h
  · rw [← Option.some.inj h]; exact focusin_inv _ hi
  · exact keys_press_inv hcfg hi h
  · rw [← Option.some.inj h]; exact mappingnotify_inv d _ hi
  · exact propertynotify_inv hi h
  · exact maprequest_inv hi h
  · exact unmapnotify_inv hi h
  · exact unmapnotify_inv hi h

/-! ## The reachable states -/

theorem foldlM_preserves {α : Type} (P : State → Prop) (f : State → α → Option State)
    (hf : ∀ s a s', P s → f s a = some s' → P s') :
    ∀ (l : List α) (s s' : State), P s → l.foldlM f s = some s' → P s'
  | [], s, s', hp, h => by
    rw [List.foldlM_nil] at h
    rw [← Option.some.inj h]; exact hp
  | a :: l, s, s', hp, h => by
    rw [List.foldlM_cons] at h
    simp only [Option.bind_eq_bind, Option.bind_eq_some] at h
    obtain ⟨s1, h1, h2⟩ := h
    exact foldlM_preserves P f hf l s1 s' (hf s a s1 hp h1) h2

theorem foldl_frame {α : Type} (f : State → α → State) (hf : ∀ s a, Frame s (f s a)) :
    ∀ (l : List α) (s : State), Frame s (l.foldl f s)
  | [], s => Frame.refl s
  | a :: l, s => (hf s a).trans (foldl_frame f hf l (f s a))

theorem Started.started_setMonitor {V : Int} {s : State} (h : Started V s) (i : Nat) (m : Monitor)
    (hw : m.m_workspace < 10) (hl : m.m_layout < 2) : Started V (s.setMonitor i m) := by
  obtain ⟨h1, h2, h3, h4, h5⟩ := h
  refine ⟨h1, h2, h3, h4, fun m' hm' => ?_⟩
  have hm2 : m' ∈ s.monitors.set i m := hm'
  rcases List.mem_or_eq_of_mem_set hm2 with h | h
  · exact h5 m' h
  · rw [h]; exact ⟨hw, hl⟩

theorem Started.started_log {V : Int} {s : State} (h : Started V s) (r : List XReq) :
    Started V (s.log r) := h

theorem updatebarpos_started {V : Int} {i : Nat} {s s' : State} (hs : Started V s)
    (h : updatebarpos i s = some s') : Started V s' := by
  unfold updatebarpos at h
  split at h
  · exact Option.noConfusion h
  · rename_i m hm
    obtain ⟨hw, hl⟩ := hs.2.2.2.2 m (mem_of_getElem? hm)
    dsimp only at h
    rw [← Option.some.inj h]
    refine (hs.started_setMonitor i _ ?_ ?_).started_log _
    · split_ifs <;> exact hw
    · split_ifs <;> exact hl

theorem setupMonitor_started {V : Int} {d : Display} {mcount i : Nat} {s s' : State}
    (hs : Started V s) (h : setupMonitor d mcount i s = some s') : Started V s' := by
  unfold setupMonitor at h
  split at h
  · exact Option.noConfusion h
  · rename_i m hm
    dsimp only at h
    simp only [Option.bind_eq_some, Option.map_eq_some'] at h
    obtain ⟨m2, hm2, s2, h2, rfl⟩ := h
    refine Started.started_log ?_ _
    refine updatebarpos_started ?_ h2
    refine Started.started_log ?_ _
    have hw2 : m2.m_workspace = 1 := by
      by_cases hx : mcount ≠ 1 ∧ d.isxinerama = true
      · rw [if_pos hx] at hm2
        simp only [Option.map_eq_some'] at hm2
        obtain ⟨inf, _, rfl⟩ := hm2
        rfl
      · rw [if_neg hx] at hm2
        rw [← Option.some.inj hm2]
    exact hs.started_setMonitor i _ (show m2.m_workspace < 10 by rw [hw2]; decide)
      (show (0 : Nat) < 2 by decide)

theorem Started.started_inv {V : Int} {s : State} (hs : Started V s)
    (hsm : s.selmonitor < s.monitors.length) :
    Inv s ∧ (∀ w, s.w_numClients w = 0) ∧ ∀ a w, a ≠ rootClient → isMember s a w = false := by
  obtain ⟨h1, h2, h3, h4, h5⟩ := hs
  have hnm : ∀ a w, a ≠ rootClient → isMember s a w = false := by
    intro a w ha
    unfold isMember
    rw [h1]
    simp [setupWorkspaces, ha]
  have hcnt : ∀ w, s.w_numClients w = 0 := by
    intro w; rw [h2]; rfl
  refine ⟨⟨⟨⟨?_, hsm, h5, h3, ?_, ?_⟩, ?_⟩, ?_⟩, hcnt, hnm⟩
  · intro w hw
    refine ⟨[], (setupWorkspaces_isRing V w hw).congr (fun x => by rw [h1])
      (fun x => by rw [h1]), ?_⟩
    rw [hcnt]; rfl
  · intro a
    have e : (s.mem a).c_monitor = 0 := by
      rw [h1]
      unfold setupWorkspaces
      dsimp only
      split_ifs <;> rfl
    rw [e]; omega
  · intro a w _ ha hm
    rw [hnm a w ha] at hm
    exact Bool.noConfusion hm
  · intro a v _ ha hm
    rw [hnm a v ha] at hm
    exact Bool.noConfusion hm
  · intro a ha
    rw [h4] at ha
    exact Option.noConfusion ha

/-- The state `setup` leaves satisfies the invariant; no window is managed
yet. -/
theorem setup_inv {cfg : Config} {d : Display} {px py : Int} {s : State}
    (h : setup cfg d px py = some s) :
    Inv s ∧ (∀ w, s.w_numClients w = 0) ∧ ∀ a w, a ≠ rootClient → isMember s a w = false := by
  unfold setup at h
  dsimp only at h
  simp only [Option.bind_eq_some, Option.map_eq_some'] at h
  obtain ⟨s1, h1, i, hi, rfl⟩ := h
  have hs0 : Started cfg.VSPLIT { setupWorkspaces cfg.VSPLIT with
      monitors := List.replicate (if d.isxinerama = true then d.info.length else 1) {} } := by
    refine ⟨rfl, rfl, rfl, rfl, fun m hm => ?_⟩
    have hm2 : m ∈ List.replicate (if d.isxinerama = true then d.info.length else 1)
      ({} : Monitor) := hm
    rw [List.eq_of_mem_replicate hm2]
    decide
  have hs1 : Started cfg.VSPLIT s1 :=
    foldlM_preserves (Started cfg.VSPLIT) _ (fun _ _ _ hp hq => setupMonitor_started hp hq)
      _ _ _ hs0 h1
  have hk := keys_grab_frame d s1
  have hs2 : Started cfg.VSPLIT (keys_grab d s1) := by
    unfold KeysFrame at hk
    rw [hk]
    exact hs1
  have hb := monitorat_bound hi
  exact Started.started_inv (s := { keys_grab d s1 with selmonitor := i }) hs2 hb

theorem cleanupLoop_empty {fuel : Nat} {n : Nat} {s s' : State} (hst : s.stack = none)
    (h : cleanupLoop fuel n s = some s') : s' = s := by
  cases n with
  | zero => unfold cleanupLoop at h; exact Option.noConfusion h
  | succ k =>
    unfold cleanupLoop at h
    rw [hst] at h
    exact (Option.some.inj h).symm

theorem cleanup_inv {fuel : Nat} {s s' : State} (hi : Inv s) (h : cleanup fuel s = some s') :
    Inv s' := by
  unfold cleanup at h
  simp only [Option.map_eq_some'] at h
  obtain ⟨s1, h1, rfl⟩ := h
  have e := cleanupLoop_empty hi.inv_stack h1
  subst e
  exact hi.inv_frame (foldl_frame _ (fun s m => Frame.log s _) _ _)

/-- Every reachable state satisfies the invariant, provided the missing
`fn_setmwfact` keeps it. -/
theorem reachable_inv {cfg : Config} {d : Display}
    (hcfg : ∀ arg t t', Inv t → cfg.fn_setmwfact arg t = some t' → Inv t') {s : State}
    (hr : Reachable cfg d s) : Inv s := by
  induction hr with
  | setup px py s h => exact (setup_inv h).1
  | drawbar s _ ih => exact ih.inv_frame (drawbar_frame s)
  | scan fuel c w wa hints tr s s' _ hc hfree hs ih => exact (manage_inv ih hc hfree hs).1
  | event fuel ev s s' _ hs ih => exact handle_inv hcfg ih hs
  | cleanup fuel s s' _ hs ih => exact cleanup_inv ih hs

/-- Every reachable state meets the conditions under which `focus(NULL)` is
described for a finite focus stack, with the empty list as the stack. -/
theorem reachable_focus_conditions {cfg : Config} {d : Display}
    (hcfg : ∀ arg t t', Inv t → cfg.fn_setmwfact arg t = some t' → Inv t') {s : State}
    (hr : Reachable cfg d s) :
    (∃ m, s.monitors[s.selmonitor]? = some m) ∧
    (∀ m' ∈ s.monitors, m'.m_workspace < 10) ∧
    StackChain s s.stack [] ∧
    (∀ a ∈ ([] : List Nat), (s.mem a).c_monitor = s.selmonitor) ∧
    (∀ o, s.sel = some o → (s.mem o).c_monitor < s.monitors.length) := by
  have hm := (reachable_inv hcfg hr).inv_managed
  obtain ⟨m, hmon, _⟩ := getElem?_of_lt s.monitors s.selmonitor hm.2.1
  exact ⟨⟨m, hmon⟩, fun m' h => (hm.2.2.1 m' h).1, hm.2.2.2.1,
    fun a ha => absurd ha (List.not_mem_nil a), fun o _ => hm.2.2.2.2.1 o⟩

theorem fueled_exists (s : State) : ∃ fuel0 : Nat, ∀ fuel, fuel0 ≤ fuel → Fueled fuel s := by
  refine ⟨((List.range 10).map fun w => (s.w_numClients w).toNat).sum + 1,
    fun fuel hf w hw => ?_⟩
  have h1 : (s.w_numClients w).toNat ≤
      ((List.range 10).map fun w => (s.w_numClients w).toNat).sum :=
    List.single_le_sum (fun _ _ => Nat.zero_le _) _
      (List.mem_map.mpr ⟨w, List.mem_range.mpr hw, rfl⟩)
  have h2 := Int.self_le_toNat (s.w_numClients w)
  omega

/-- C30: in every state reachable from `setup` through the calls `main`,
`scan` and `run` make (the event handlers, with the commands bound to keys, the
calls of `manage` by `scan`, `drawbar` and `cleanup`), the focus stack is empty;
so whatever `focus(NULL)` and `arrange()` return has no client selected, and
with enough fuel both do return, also when clients are visible on the active
workspace.  The function `fn_setmwfact`, which `config.h` binds and `src/` does
not define, is assumed to keep the invariant `Inv` of the reachable states. -/
theorem stack_always_empty (cfg : Config) (d : Display)
    (hcfg : ∀ arg t t', Inv t → cfg.fn_setmwfact arg t = some t' → Inv t')
    (s : State) (hr : Reachable cfg d s) :
    s.stack = none ∧
    (∀ fuel s', focus fuel none s = some s' → s'.sel = none) ∧
    (∀ fuel s', arrange fuel s = some s' → s'.sel = none) ∧
    ∃ fuel0 : Nat, ∀ fuel, fuel0 ≤ fuel →
      (∃ s', focus fuel none s = some s' ∧ s'.sel = none) ∧
      (∃ s', arrange fuel s = some s' ∧ s'.sel = none) := by
  have hi := reachable_inv hcfg hr
  refine ⟨hi.inv_stack, fun fuel s' h => (focus_none_inv hi.1 h).2,
    fun fuel s' h => (arrange_inv hi.1 h).2.1, ?_⟩
  obtain ⟨fuel0, hf0⟩ := fueled_exists s
  refine ⟨fuel0, fun fuel hf => ?_⟩
  have hfu := hf0 fuel hf
  obtain ⟨s1, h1, _, hs1⟩ := focus_none_total hi.inv_managed (hi.inv_managed.fuel_pos hfu)
  obtain ⟨s2, h2, _, hs2⟩ := arrange_total hi.inv_managed hfu
  exact ⟨⟨s1, h1, hs1⟩, ⟨s2, h2, hs2⟩⟩

/-- Witness of `stack_always_empty`: the state after `setup` on the 240x320
display and one call of `manage` by `scan`, for the window 7 with the record
address 1; client 1 is then a member of ring 0. -/
theorem stack_always_empty_witness :
    ∃ s, Reachable demoConfig smallDisplay s ∧ isMember s 1 0 = true ∧
      s.stack = none ∧
      (∀ fuel s', focus fuel none s = some s' → s'.sel = none) ∧
      (∀ fuel s', arrange fuel s = some s' → s'.sel = none) ∧
      ∃ fuel0 : Nat, ∀ fuel, fuel0 ≤ fuel →
        (∃ s', focus fuel none s = some s' ∧ s'.sel = none) ∧
        (∃ s', arrange fuel s = some s' ∧ s'.sel = none) := by
  obtain ⟨s0, h0⟩ : ∃ s0, setup demoConfig smallDisplay 10 10 = some s0 := ⟨_, rfl⟩
  obtain ⟨hi, hcnt, hfree⟩ := setup_inv h0
  obtain ⟨s1, h1, hmem, _⟩ := manage_attaches 5 1 7 {} none 0 s0 hi.inv_managed
    (fun v _ => by rw [hcnt v]; decide) (by decide) (fun v _ => hfree 1 v (by decide))
  have hr : Reachable demoConfig smallDisplay s1 :=
    Reachable.scan 5 1 7 {} none 0 s0 s1 (Reachable.setup 10 10 s0 h0) (by decide)
      (hfree 1 0 (by decide)) h1
  exact ⟨s1, hr, hmem, stack_always_empty demoConfig smallDisplay
    (fun _ t t' ht h => by
      have e : t = t' := Option.some.inj h
      rw [← e]; exact ht) s1 hr⟩

end Dwm
